import Mathlib

/-!
# GenericIO (lanl/VitAly): a shallow embedding of `src/genericio/GenericIO.cxx`

The definitions below follow the C++ source function by function.  Bytes are
natural numbers, `uint64_t` values are natural numbers reduced modulo `2^64`
where the source computes with them, and `int` values are integers.
-/

namespace gio

/-! ## Read-side redistribution planner (`readHeaderLeader`, `MismatchRedistribute`) -/

/-- State `(FirstFileRank, LastFileRank)` of the planner after the iterations
`i = 1, ..., n` of `for (int i = 1; i <= Rank; ++i)`; before the loop the state is
`(0, NFileRanksPerRank - 1)`. -/
def planLoop (NRanks NFileRanksPerRank NRemFileRank : Int) : Nat → Int × Int
  | 0 => (0, NFileRanksPerRank - 1)
  | i + 1 =>
    let prev := planLoop NRanks NFileRanksPerRank NRemFileRank i
    let FirstFileRank := prev.2 + 1
    let LastFileRank := FirstFileRank + NFileRanksPerRank - 1
    if NRemFileRank ≠ 0 ∧ NRanks - ((i : Int) + 1) ≤ NRemFileRank then
      (FirstFileRank, LastFileRank + 1)
    else
      (FirstFileRank, LastFileRank)

/-- The loop `for (int i = FirstFileRank; i <= LastFileRank; ++i) SourceRanks.push_back(i)`. -/
def pushRange (FirstFileRank LastFileRank : Int) : List Int :=
  (List.range (LastFileRank - FirstFileRank + 1).toNat).map (fun (k : Nat) => FirstFileRank + (k : Int))

/-- The `SourceRanks` vector that `readHeaderLeader` fills for the reader `Rank` of a
communicator of `NRanks` readers when the file was written by `NFileRanks` ranks
(branch `MB == MismatchRedistribute && !Redistributing`).  `/` and `%` on `int`
truncate toward zero. -/
def sourceRanks (NFileRanks NRanks Rank : Int) : List Int :=
  let NFileRanksPerRank := Int.tdiv NFileRanks NRanks
  let NRemFileRank := Int.tmod NFileRanks NRanks
  if NFileRanksPerRank = 0 then
    if NRemFileRank ≠ 0 ∧ NRanks - Rank ≤ NRemFileRank then [NRanks - (Rank + 1)] else []
  else
    let st := planLoop NRanks NFileRanksPerRank NRemFileRank Rank.toNat
    pushRange st.1 st.2

/-- The source-rank lists of the readers `0, 1, ..., NRanks - 1`, in reader order. -/
def allSourceRanks (NFileRanks NRanks : Int) : List (List Int) :=
  (List.range NRanks.toNat).map (fun (r : Nat) => sourceRanks NFileRanks NRanks (r : Int))

/-- First file rank of reader `r` in closed form. -/
def planFirst (N q m : Int) (r : Nat) : Int := (r : Int) * q + max 0 ((r : Int) + m - N)

/-- First file rank of reader `r`, as a natural number. -/
def planFirstN (N q m r : Nat) : Nat := r * q + (r + m - N)

/-! ## Bytes, integers and the endian-tagged record layer -/

/-- A byte (`char`) is a natural number; well-formed bytes are below 256. -/
abbrev Byte := Nat

/-- Reduction of a `uint64_t` expression. -/
def u64 (x : Nat) : Nat := x % 2 ^ 64

def CRCSize : Nat := 8

def MagicSize : Nat := 8

/-- The bytes of `"HACC01B"` (without the terminating NUL). -/
def MagicBE : List Byte := [72, 65, 67, 67, 48, 49, 66]

/-- The bytes of `"HACC01L"` (without the terminating NUL). -/
def MagicLE : List Byte := [72, 65, 67, 67, 48, 49, 76]

def NameSize : Nat := 256

def FilterNameSize : Nat := 8

def MaxFilters : Nat := 4

/-- The bytes of `"BLOSC"` (without the terminating NUL). -/
def CompressName : List Byte := [66, 76, 79, 83, 67]

def FloatValue : Nat := 1 <<< 0

def SignedValue : Nat := 1 <<< 1

def ValueIsPhysCoordX : Nat := 1 <<< 2

def ValueIsPhysCoordY : Nat := 1 <<< 3

def ValueIsPhysCoordZ : Nat := 1 <<< 4

def ValueMaybePhysGhost : Nat := 1 <<< 5

/-- `std::swap(p[i], p[j])` on a byte array. -/
def swapBytes (p : List Byte) (i j : Nat) : List Byte :=
  (p.set i (p.getD j 0)).set j (p.getD i 0)

/-- The iterations `i = 0, ..., n - 1` of the loop of `bswap`. -/
def bswapLoop (s : Nat) : Nat → List Byte → List Byte
  | 0, p => p
  | n + 1, p => swapBytes (bswapLoop s n p) n (s - (n + 1))

/-- `bswap(v, s)`: `for (i = 0; i < s / 2; ++i) std::swap(p[i], p[s - (i + 1)])`. -/
def bswap (v : List Byte) (s : Nat) : List Byte := bswapLoop s (s / 2) v

/-- The `n` low-order bytes of `v`, least significant first. -/
def leBytes : Nat → Nat → List Byte
  | 0, _ => []
  | n + 1, v => v % 256 :: leBytes n (v / 256)

/-- The number whose little-endian digits are the given bytes. -/
def ofLeBytes : List Byte → Nat
  | [] => 0
  | b :: bs => b + 256 * ofLeBytes bs

/-- Object representation of a `uint64_t` in the memory of a host
(`hostBE` is the value of `isBigEndian()` on that host). -/
def toMem (hostBE : Bool) (v : Nat) : List Byte :=
  if hostBE then (leBytes 8 (u64 v)).reverse else leBytes 8 (u64 v)

/-- The `uint64_t` whose object representation on the host is `bs`. -/
def ofMem (hostBE : Bool) (bs : List Byte) : Nat :=
  if hostBE then ofLeBytes bs.reverse else ofLeBytes bs

/-- `endian_specific_value<uint64_t, IsBigEndian>::operator=(nvalue)`: the bytes stored in
`value`. -/
def esvAssign (IsBigEndian hostBE : Bool) (nvalue : Nat) : List Byte :=
  if IsBigEndian != hostBE then bswap (toMem hostBE nvalue) 8 else toMem hostBE nvalue

/-- `endian_specific_value<uint64_t, IsBigEndian>::operator T()`: the value read from the
stored bytes. -/
def esvRead (IsBigEndian hostBE : Bool) (value : List Byte) : Nat :=
  if IsBigEndian != hostBE then ofMem hostBE (bswap value 8) else ofMem hostBE value

/-- `x += nvalue` on an endian-tagged field: `*this = *this + nvalue`. -/
def esvAddAssign (IsBigEndian hostBE : Bool) (value : List Byte) (nvalue : Nat) : List Byte :=
  esvAssign IsBigEndian hostBE (u64 (esvRead IsBigEndian hostBE value + nvalue))

/-- The bytes `[off, off + n)` of a byte array. -/
def slice (v : List Byte) (off n : Nat) : List Byte := (v.drop off).take n

/-- Copy `bs` into the byte array `v` at offset `off` (`std::copy` into `&v[off]`); the
range `[off, off + bs.length)` lies inside `v`. -/
def overwrite (v : List Byte) (off : Nat) (bs : List Byte) : List Byte :=
  v.take off ++ bs ++ v.drop (off + bs.length)

/-- The external CRC64 primitive of `CRC64.h`: `crc64_omp(data, len)` and the 8 bytes
that `crc64_invert(crc, dst)` stores at `dst`. -/
structure CRC64 where
  crc64_omp : List Byte → Nat
  crc64_invert : Nat → List Byte

/-- The contract of `crc64_invert`: it stores 8 bytes, and a range followed by the
inverted CRC of the range has CRC64 `0xFFFFFFFFFFFFFFFF`. -/
def CRC64.Contract (P : CRC64) : Prop :=
  (∀ c, (P.crc64_invert c).length = CRCSize) ∧
  ∀ xs, P.crc64_omp (xs ++ P.crc64_invert (P.crc64_omp xs)) = 2 ^ 64 - 1

/-- A primitive that satisfies the contract, used to instantiate the theorems: the
checksum of a range is the number formed by its last 8 bytes. -/
def lastBytesCRC : CRC64 where
  crc64_omp := fun xs => ofLeBytes (xs.reverse.take 8)
  crc64_invert := fun _ => List.replicate 8 255

/-! ## Packed header records -/

/-- `sizeof(GlobalHeader<IsBigEndian>)`: the magic and 22 eight-byte fields, packed. -/
def sizeofGlobalHeader : Nat := MagicSize + 22 * 8

/-- `sizeof(VariableHeader<IsBigEndian>)`. -/
def sizeofVariableHeader : Nat := NameSize + 3 * 8

/-- `sizeof(RankHeader<IsBigEndian>)`. -/
def sizeofRankHeader : Nat := 6 * 8

/-- `sizeof(BlockHeader<IsBigEndian>)`. -/
def sizeofBlockHeader : Nat := MaxFilters * FilterNameSize + 2 * 8

/-- `sizeof(CompressHeader<IsBigEndian>)`. -/
def sizeofCompressHeader : Nat := 8

structure GlobalHeader where
  Magic : List Byte
  HeaderSize : Nat
  NElems : Nat
  Dims : List Nat
  NVars : Nat
  VarsSize : Nat
  VarsStart : Nat
  NRanks : Nat
  RanksSize : Nat
  RanksStart : Nat
  GlobalHeaderSize : Nat
  PhysOrigin : List Nat
  PhysScale : List Nat
  BlocksSize : Nat
  BlocksStart : Nat
  OctreeSize : Nat
  OctreeStart : Nat
  deriving DecidableEq

structure VariableHeader where
  Name : List Byte
  Flags : Nat
  Size : Nat
  ElementSize : Nat
  deriving DecidableEq

structure RankHeader where
  Coords : List Nat
  NElems : Nat
  Start : Nat
  GlobalRank : Nat
  deriving DecidableEq

structure BlockHeader where
  Filters : List Byte
  Start : Nat
  Size : Nat
  deriving DecidableEq

/-- A registered variable (`GenericIO::Variable`).  `Data` is the memory the `Data`
pointer refers to: the payload rows followed by the extra space, if any. -/
structure Variable where
  Name : List Byte
  Size : Nat
  ElementSize : Nat
  IsFloat : Bool
  IsSigned : Bool
  IsPhysCoordX : Bool
  IsPhysCoordY : Bool
  IsPhysCoordZ : Bool
  MaybePhysGhost : Bool
  HasExtraSpace : Bool
  Data : List Byte
  deriving DecidableEq

/-! ## `GenericIO::write<IsBigEndian>()`: local preparation -/

/-- The session state of one writer when it enters `write()`: its Cartesian coordinates,
its rank in `Comm`, its element count and its variable list.  `Variable.Data` stands for
`_Vars[i].data`, the buffer the bulk phase writes from (it is `Vars[i].Data` itself
unless the octree pass put a reordered copy in its place). -/
structure Writer where
  Coords : List Nat
  Rank : Nat
  NElems : Nat
  Vars : List Variable
  deriving DecidableEq

/-- `RHLocal` as a writer fills it before the gather (lines 488-491). -/
def RHLocal (w : Writer) : RankHeader :=
  { Coords := w.Coords, NElems := u64 w.NElems, Start := 0, GlobalRank := u64 w.Rank }

/-- The external block compressor of `blosc.h`: `blosc_compress` returns the compressed
bytes, or nothing when it reports failure (a result `<= 0`); `blosc_decompress` fills the
destination of the given size. -/
structure Blosc where
  blosc_compress : Nat → List Byte → Option (List Byte)
  blosc_decompress : List Byte → Nat → List Byte

/-- What a writer prepares for one variable when block headers are in use:
`LocalBlockHeaders[i]`, the memory `LocalData[i]` points to and `LocalHasExtraSpace[i]`. -/
structure LocalBlock where
  BH : BlockHeader
  Data : List Byte
  HasExtraSpace : Bool
  deriving DecidableEq

/-- A filter name stored by `strncpy(dst, name, FilterNameSize)`. -/
def filterName (name : List Byte) : List Byte :=
  (name ++ List.replicate FilterNameSize 0).take FilterNameSize

/-- The `nocomp:` branch (lines 931-935). -/
def localBlockPlain (NElems : Nat) (V : Variable) : LocalBlock :=
  { BH := { Filters := List.replicate (MaxFilters * FilterNameSize) 0, Start := 0,
            Size := u64 (NElems * V.Size) },
    Data := V.Data,
    HasExtraSpace := V.HasExtraSpace }

/-- The body of the loop of lines 885-937 for one variable. -/
def localBlock (P : CRC64) (Z : Blosc) (IsBigEndian ShouldCompress : Bool) (NElems : Nat)
    (V : Variable) : LocalBlock :=
  if ShouldCompress then
    match Z.blosc_compress V.Size (V.Data.take (u64 (NElems * V.Size))) with
    | none => localBlockPlain NElems V
    | some cbytes =>
      let CH := esvAssign IsBigEndian IsBigEndian
        (P.crc64_omp (V.Data.take (u64 (V.Size * NElems))))
      let LocalCData := CH ++ cbytes
      { BH := { Filters := filterName CompressName ++
                  List.replicate ((MaxFilters - 1) * FilterNameSize) 0,
                Start := 0, Size := u64 LocalCData.length },
        Data := LocalCData ++ List.replicate CRCSize 0,
        HasExtraSpace := true }
  else localBlockPlain NElems V

/-- `LocalBlockHeaders`, `LocalData` and `LocalHasExtraSpace` of one writer (lines 874-938);
they stay empty when `NeedsBlockHeaders` is false. -/
def localBlocks (P : CRC64) (Z : Blosc) (IsBigEndian NeedsBlockHeaders ShouldCompress : Bool)
    (w : Writer) : List LocalBlock :=
  if NeedsBlockHeaders then
    w.Vars.map (localBlock P Z IsBigEndian ShouldCompress w.NElems)
  else []

/-! ## `GenericIO::write<IsBigEndian>()`: header assembly by the sub-group leader -/

/-- `HeaderSize` as computed in lines 954-958. -/
def computeHeaderSize (NVars SplitNRanks octreeSize : Nat) (NeedsBlockHeaders : Bool) : Nat :=
  let HeaderSize := u64 (sizeofGlobalHeader + NVars * sizeofVariableHeader +
    SplitNRanks * sizeofRankHeader + CRCSize + octreeSize)
  if NeedsBlockHeaders then
    u64 (HeaderSize + (SplitNRanks * NVars * sizeofBlockHeader + octreeSize))
  else HeaderSize

/-- `VName`: the name resized to `NameSize` bytes (`VName.resize(NameSize)`). -/
def VName (Name : List Byte) : List Byte :=
  (Name ++ List.replicate NameSize 0).take NameSize

/-- `VFlags` as assembled in lines 1003-1009. -/
def VFlags (V : Variable) : Nat :=
  let f0 := 0
  let f1 := if V.IsFloat then f0 ||| FloatValue else f0
  let f2 := if V.IsSigned then f1 ||| SignedValue else f1
  let f3 := if V.IsPhysCoordX then f2 ||| ValueIsPhysCoordX else f2
  let f4 := if V.IsPhysCoordY then f3 ||| ValueIsPhysCoordY else f3
  let f5 := if V.IsPhysCoordZ then f4 ||| ValueIsPhysCoordZ else f4
  if V.MaybePhysGhost then f5 ||| ValueMaybePhysGhost else f5

/-- The variable header written for `Vars[i]` (lines 998-1012). -/
def variableHeader (V : Variable) : VariableHeader :=
  { Name := VName V.Name, Flags := VFlags V, Size := u64 V.Size,
    ElementSize := u64 V.ElementSize }

/-- `RecordSize` after the loop of lines 996-1013. -/
def computeRecordSize (Vars : List Variable) : Nat :=
  Vars.foldl (fun RecordSize V => u64 (RecordSize + u64 V.Size)) 0

/-- The `Start` fields of the block headers that follow a block header with the given
`Start` and `Size`: `BH->Start = BH[-1].Start + BH[-1].Size + CRCSize`.  The second
component is `(BH[-1].Start, BH[-1].Size)` when the loop ends. -/
def blockStartsAfter (prevStart prevSize : Nat) :
    List BlockHeader → List BlockHeader × Nat × Nat
  | [] => ([], prevStart, prevSize)
  | bh :: rest =>
    let Start := u64 (prevStart + prevSize + CRCSize)
    let r := blockStartsAfter Start bh.Size rest
    ({ bh with Start := Start } :: r.1, r.2)

/-- The double loop of lines 1027-1033 over the gathered block headers, in (rank,
variable) order: the first block starts at `HeaderSize`.  The second component is
`(BH[-1].Start, BH[-1].Size)` after the loop, if a block header was visited. -/
def assignBlockStarts (HeaderSize : Nat) :
    List BlockHeader → List BlockHeader × Option (Nat × Nat)
  | [] => ([], none)
  | bh :: rest =>
    let r := blockStartsAfter HeaderSize bh.Size rest
    ({ bh with Start := HeaderSize } :: r.1, some r.2)

/-- Lines 1035-1041: the rank headers `i = 1, 2, ...` take the `Start` of their first block
header, `BH[i * Vars.size()].Start`, and `GH->NElems += RH->NElems` accumulates. -/
def rankStartsBlocks (BHs : List BlockHeader) (NVars : Nat) :
    Nat → List RankHeader → Nat → List RankHeader × Nat
  | _, [], GHNElems => ([], GHNElems)
  | i, rh :: rest, GHNElems =>
    let r := rankStartsBlocks BHs NVars (i + 1) rest (u64 (GHNElems + rh.NElems))
    ({ rh with Start := (BHs[i * NVars]?.map (fun b => b.Start)).getD 0 } :: r.1, r.2)

/-- Lines 1049-1054: the rank headers `i = 1, 2, ...` start after the data of the
previous rank, `RH[-1].Start + (RH[-1].NElems * RecordSize + CRCSize * Vars.size())`, and
`GH->NElems += RH->NElems` accumulates.  The result holds the rank headers, `GH->NElems`
and `(RH[-1].Start, RH[-1].NElems)` when the loop ends. -/
def rankStartsPlain (RecordSize NVars : Nat) :
    Nat → Nat → List RankHeader → Nat → List RankHeader × Nat × Nat × Nat
  | prevStart, PrevNElems, [], GHNElems => ([], GHNElems, prevStart, PrevNElems)
  | prevStart, PrevNElems, rh :: rest, GHNElems =>
    let PrevData := u64 (u64 (PrevNElems * RecordSize) + u64 (CRCSize * NVars))
    let Start := u64 (prevStart + PrevData)
    let r := rankStartsPlain RecordSize NVars Start rh.NElems rest (u64 (GHNElems + rh.NElems))
    ({ rh with Start := Start } :: r.1, r.2)

/-- What the leader has computed when it reaches line 1062. -/
structure LeaderState where
  HeaderSize : Nat
  GH : GlobalHeader
  serializedOctree : List Byte
  VHs : List VariableHeader
  RHs : List RankHeader
  BHs : List BlockHeader
  FileSize : Nat
  deriving DecidableEq

/-- Lines 942-1060 of `write<IsBigEndian>()` on the sub-group leader.  `Vars` and `NElems`
are the leader's own, `gatheredRH` and `gatheredBH` are what the two `MPI_Gather` calls
deliver (the rank headers of all `SplitNRanks` members in rank order, leader first, and
their block headers in (rank, variable) order), and `octree` is the serialized octree
when `hasOctree` holds. -/
def leaderAssemble (IsBigEndian NeedsBlockHeaders : Bool) (Vars : List Variable)
    (NElems : Nat) (Dims PhysOrigin PhysScale : List Nat) (octree : Option (List Byte))
    (gatheredRH : List RankHeader) (gatheredBH : List BlockHeader) : LeaderState :=
  let SplitNRanks := gatheredRH.length
  let serializedOctree := octree.getD []
  let octreeSize := serializedOctree.length
  let HeaderSize := computeHeaderSize Vars.length SplitNRanks octreeSize NeedsBlockHeaders
  let VarsStart := u64 (sizeofGlobalHeader + octreeSize)
  let RanksStart := u64 (VarsStart + Vars.length * sizeofVariableHeader)
  let octreeStart := if octree.isSome then sizeofGlobalHeader else 0
  let GH0 : GlobalHeader :=
    { Magic := ((if IsBigEndian then MagicBE else MagicLE) ++ [0]).take MagicSize,
      HeaderSize := u64 (HeaderSize + 2 ^ 64 - CRCSize),
      NElems := u64 NElems,
      Dims := Dims,
      NVars := u64 Vars.length,
      VarsSize := sizeofVariableHeader,
      VarsStart := VarsStart,
      NRanks := u64 SplitNRanks,
      RanksSize := sizeofRankHeader,
      RanksStart := RanksStart,
      GlobalHeaderSize := sizeofGlobalHeader,
      PhysOrigin := PhysOrigin,
      PhysScale := PhysScale,
      BlocksSize := if NeedsBlockHeaders then sizeofBlockHeader else 0,
      BlocksStart :=
        if NeedsBlockHeaders then u64 (RanksStart + SplitNRanks * sizeofRankHeader) else 0,
      OctreeSize := octreeSize,
      OctreeStart := octreeStart }
  let RecordSize := computeRecordSize Vars
  let VHs := Vars.map variableHeader
  match gatheredRH with
  | [] =>
    { HeaderSize := HeaderSize, GH := GH0, serializedOctree := serializedOctree, VHs := VHs,
      RHs := [], BHs := gatheredBH, FileSize := 0 }
  | rh0 :: rest =>
    if NeedsBlockHeaders then
      let b := assignBlockStarts HeaderSize gatheredBH
      let BHs := b.1
      let r := rankStartsBlocks BHs Vars.length 1 rest GH0.NElems
      let FileSize := match b.2 with
        | some last =>
          let LastData := u64 (last.2 + CRCSize)
          u64 (last.1 + LastData)
        | none => 0
      { HeaderSize := HeaderSize, GH := { GH0 with NElems := r.2 },
        serializedOctree := serializedOctree, VHs := VHs,
        RHs := { rh0 with Start := HeaderSize } :: r.1, BHs := BHs, FileSize := FileSize }
    else
      let r := rankStartsPlain RecordSize Vars.length HeaderSize rh0.NElems rest GH0.NElems
      let RHs := { rh0 with Start := HeaderSize } :: r.1
      let LastNElems := r.2.2.2
      let LastData := u64 (u64 (LastNElems * RecordSize) + u64 (CRCSize * Vars.length))
      let FileSize := u64 (r.2.2.1 + LastData)
      { HeaderSize := HeaderSize, GH := { GH0 with NElems := r.2.1 },
        serializedOctree := serializedOctree, VHs := VHs, RHs := RHs, BHs := [],
        FileSize := FileSize }

/-! ## Header bytes -/

/-- The fields of a packed `GlobalHeader<IsBigEndian>` in address order (lines 296-314):
the magic and 22 endian-tagged 64-bit values. -/
def ghFields (IsBigEndian hostBE : Bool) (GH : GlobalHeader) : List (List Byte) :=
  [(GH.Magic ++ List.replicate MagicSize 0).take MagicSize,
   esvAssign IsBigEndian hostBE GH.HeaderSize,
   esvAssign IsBigEndian hostBE GH.NElems,
   esvAssign IsBigEndian hostBE (GH.Dims.getD 0 0),
   esvAssign IsBigEndian hostBE (GH.Dims.getD 1 0),
   esvAssign IsBigEndian hostBE (GH.Dims.getD 2 0),
   esvAssign IsBigEndian hostBE GH.NVars,
   esvAssign IsBigEndian hostBE GH.VarsSize,
   esvAssign IsBigEndian hostBE GH.VarsStart,
   esvAssign IsBigEndian hostBE GH.NRanks,
   esvAssign IsBigEndian hostBE GH.RanksSize,
   esvAssign IsBigEndian hostBE GH.RanksStart,
   esvAssign IsBigEndian hostBE GH.GlobalHeaderSize,
   esvAssign IsBigEndian hostBE (GH.PhysOrigin.getD 0 0),
   esvAssign IsBigEndian hostBE (GH.PhysOrigin.getD 1 0),
   esvAssign IsBigEndian hostBE (GH.PhysOrigin.getD 2 0),
   esvAssign IsBigEndian hostBE (GH.PhysScale.getD 0 0),
   esvAssign IsBigEndian hostBE (GH.PhysScale.getD 1 0),
   esvAssign IsBigEndian hostBE (GH.PhysScale.getD 2 0),
   esvAssign IsBigEndian hostBE GH.BlocksSize,
   esvAssign IsBigEndian hostBE GH.BlocksStart,
   esvAssign IsBigEndian hostBE GH.OctreeSize,
   esvAssign IsBigEndian hostBE GH.OctreeStart]

/-- The bytes of a packed `GlobalHeader<IsBigEndian>`. -/
def ghBytes (IsBigEndian hostBE : Bool) (GH : GlobalHeader) : List Byte :=
  (ghFields IsBigEndian hostBE GH).flatten

/-- The bytes of a packed `VariableHeader<IsBigEndian>`: the name, then `Flags`, `Size`
and `ElementSize`. -/
def vhBytes (IsBigEndian hostBE : Bool) (VH : VariableHeader) : List Byte :=
  (VH.Name ++ List.replicate NameSize 0).take NameSize ++
  [esvAssign IsBigEndian hostBE VH.Flags,
   esvAssign IsBigEndian hostBE VH.Size,
   esvAssign IsBigEndian hostBE VH.ElementSize].flatten

/-- The bytes of a packed `RankHeader<IsBigEndian>`: `Coords[3]`, `NElems`, `Start` and
`GlobalRank`. -/
def rhBytes (IsBigEndian hostBE : Bool) (RH : RankHeader) : List Byte :=
  [esvAssign IsBigEndian hostBE (RH.Coords.getD 0 0),
   esvAssign IsBigEndian hostBE (RH.Coords.getD 1 0),
   esvAssign IsBigEndian hostBE (RH.Coords.getD 2 0),
   esvAssign IsBigEndian hostBE RH.NElems,
   esvAssign IsBigEndian hostBE RH.Start,
   esvAssign IsBigEndian hostBE RH.GlobalRank].flatten

/-- The bytes of a packed `BlockHeader<IsBigEndian>`: the four filter names, then `Start`
and `Size`. -/
def bhBytes (IsBigEndian hostBE : Bool) (BH : BlockHeader) : List Byte :=
  (BH.Filters ++ List.replicate (MaxFilters * FilterNameSize) 0).take
    (MaxFilters * FilterNameSize) ++
  [esvAssign IsBigEndian hostBE BH.Start,
   esvAssign IsBigEndian hostBE BH.Size].flatten

/-- The records the leader stores in `Header`, in address order: the global header at 0,
the serialized octree at `GlobalHeaderSize`, the variable headers at `VarsStart`, the
rank headers at `RanksStart` and the block headers at `BlocksStart`; each of these
offsets is the end of the record before it. -/
def headerRecords (IsBigEndian : Bool) (L : LeaderState) : List Byte :=
  ghBytes IsBigEndian IsBigEndian L.GH ++ L.serializedOctree ++
  (L.VHs.map (vhBytes IsBigEndian IsBigEndian)).flatten ++
  (L.RHs.map (rhBytes IsBigEndian IsBigEndian)).flatten ++
  (L.BHs.map (bhBytes IsBigEndian IsBigEndian)).flatten

/-- The first `HeaderSize - CRCSize` bytes of `Header` (a vector of `HeaderSize` zero
bytes into which the records are stored) when the leader reaches line 1074. -/
def headerBody (IsBigEndian : Bool) (L : LeaderState) : List Byte :=
  let recs := headerRecords IsBigEndian L
  (recs ++ List.replicate (L.HeaderSize - CRCSize - recs.length) 0).take (L.HeaderSize - CRCSize)

/-- `Header` after lines 1074-1075: `crc64_invert(HeaderCRC, &Header[HeaderSize - CRCSize])`
with `HeaderCRC = crc64_omp(&Header[0], HeaderSize - CRCSize)`. -/
def headerBytes (P : CRC64) (IsBigEndian : Bool) (L : LeaderState) : List Byte :=
  let body := headerBody IsBigEndian L
  let HeaderCRC := P.crc64_omp body
  body ++ (P.crc64_invert HeaderCRC).take CRCSize

/-! ## File I/O capability -/

/-- The bytes of a file, by offset. -/
abbrev FileData := Nat → Byte

/-- `FH.get()->write(buf, count, offset, D)` without I/O failure: the first `count` bytes
of `buf` are stored at `offset`. -/
def fileWrite (file : FileData) (buf : List Byte) (count offset : Nat) : FileData :=
  fun p => if offset ≤ p ∧ p < offset + count then buf.getD (p - offset) 0 else file p

/-- `FH.get()->read(buf, count, offset, D)` without I/O failure: the `count` bytes found
at `offset`. -/
def fileRead (file : FileData) (count offset : Nat) : List Byte :=
  (List.range count).map (fun k => file (offset + k))

/-! ## `GenericIO::write<IsBigEndian>()`: bulk phase -/

/-- Lines 1117-1140 for one variable: the file and the buffer `Data` after the block of
`WriteSize` payload bytes and its CRC footer were written at `Offset`. -/
def writeBlock (P : CRC64) (file : FileData) (Data : List Byte) (WriteSize : Nat)
    (HasExtraSpace : Bool) (Offset : Nat) : FileData × List Byte :=
  let CRC := P.crc64_omp (Data.take WriteSize)
  if HasExtraSpace then
    let CRCSave := slice Data WriteSize CRCSize
    let Data1 := overwrite Data WriteSize ((P.crc64_invert CRC).take CRCSize)
    let file1 := fileWrite file Data1 (WriteSize + CRCSize) Offset
    let Data2 := overwrite Data1 WriteSize CRCSave
    (file1, Data2)
  else
    let CRCLoc := (P.crc64_invert CRC).take CRCSize
    let file1 := fileWrite file Data WriteSize Offset
    let file2 := fileWrite file1 CRCLoc CRCSize (u64 (Offset + WriteSize))
    (file2, Data)

/-- One block of the file: where it starts and how many payload bytes it holds. -/
structure Block where
  Offset : Nat
  WriteSize : Nat
  deriving DecidableEq

/-- The state of one writer's bulk loop: the file, the running `Offset`, the buffers of
the variables written so far and the blocks written so far. -/
structure BulkState where
  file : FileData
  Offset : Nat
  Data : List (List Byte)
  blocks : List Block

/-- The loop of lines 1112-1143 over the writer's variables; `LBs` holds
`LocalBlockHeaders` (after the scatter), `LocalData` and `LocalHasExtraSpace`, and is
consulted only when `NeedsBlockHeaders` holds. -/
def bulkLoop (P : CRC64) (NeedsBlockHeaders : Bool) (NElems : Nat) :
    List Variable → List LocalBlock → BulkState → BulkState
  | [], _, st => st
  | V :: Vars, LBs, st =>
    let LB := LBs.head?
    let WriteSize :=
      if NeedsBlockHeaders then (LB.map (fun b => b.BH.Size)).getD 0 else u64 (NElems * V.Size)
    let Data := if NeedsBlockHeaders then (LB.map (fun b => b.Data)).getD [] else V.Data
    let HasExtraSpace :=
      if NeedsBlockHeaders then (LB.map (fun b => b.HasExtraSpace)).getD false
      else V.HasExtraSpace
    let Offset :=
      if NeedsBlockHeaders then (LB.map (fun b => b.BH.Start)).getD 0 else st.Offset
    let r := writeBlock P st.file Data WriteSize HasExtraSpace Offset
    bulkLoop P NeedsBlockHeaders NElems Vars LBs.tail
      { file := r.1,
        Offset := u64 (Offset + u64 (WriteSize + CRCSize)),
        Data := st.Data ++ [r.2],
        blocks := st.blocks ++ [{ Offset := Offset, WriteSize := WriteSize }] }

/-- The local blocks of a writer after the scatter of line 1068: the `Start` fields are
the ones the leader computed. -/
def scatterBlocks (scattered : List BlockHeader) : List LocalBlock → List LocalBlock
  | [] => []
  | lb :: rest =>
    { lb with BH := (scattered.head?).getD lb.BH } :: scatterBlocks scattered.tail rest

/-- The bulk phase of the writer with sub-group rank `i` (lines 1111-1143), starting from
the `Start` the leader scattered back to it. -/
def bulkPhase (P : CRC64) (Z : Blosc) (IsBigEndian NeedsBlockHeaders ShouldCompress : Bool)
    (L : LeaderState) (NVars : Nat) (file : FileData) (i : Nat) (w : Writer) : BulkState :=
  let RHStart := (L.RHs[i]?.map (fun rh => rh.Start)).getD 0
  let LBs := scatterBlocks ((L.BHs.drop (i * NVars)).take NVars)
    (localBlocks P Z IsBigEndian NeedsBlockHeaders ShouldCompress w)
  bulkLoop P NeedsBlockHeaders w.NElems w.Vars LBs
    { file := file, Offset := RHStart, Data := [], blocks := [] }

/-- The bulk phases of the writers `i, i + 1, ...` of the sub-group, one after the other;
the result carries the file and, per writer, its buffers and blocks. -/
def bulkAll (P : CRC64) (Z : Blosc) (IsBigEndian NeedsBlockHeaders ShouldCompress : Bool)
    (L : LeaderState) (NVars : Nat) :
    Nat → List Writer → FileData → FileData × List (List (List Byte)) × List (List Block)
  | _, [], file => (file, [], [])
  | i, w :: ws, file =>
    let st := bulkPhase P Z IsBigEndian NeedsBlockHeaders ShouldCompress L NVars file i w
    let r := bulkAll P Z IsBigEndian NeedsBlockHeaders ShouldCompress L NVars (i + 1) ws st.file
    (r.1, st.Data :: r.2.1, st.blocks :: r.2.2)

/-- The leader state of a sub-group `ws` (leader first): `leaderAssemble` applied to what
the gathers deliver. -/
def leaderOf (P : CRC64) (Z : Blosc) (IsBigEndian NeedsBlockHeaders ShouldCompress : Bool)
    (Dims PhysOrigin PhysScale : List Nat) (octree : Option (List Byte))
    (ws : List Writer) : LeaderState :=
  let w0Vars := (ws.head?.map (fun w => w.Vars)).getD []
  let w0NElems := (ws.head?.map (fun w => w.NElems)).getD 0
  leaderAssemble IsBigEndian NeedsBlockHeaders w0Vars w0NElems Dims PhysOrigin PhysScale octree
    (ws.map RHLocal)
    ((ws.map (fun w => (localBlocks P Z IsBigEndian NeedsBlockHeaders ShouldCompress w).map
      (fun b => b.BH))).flatten)

/-- The outcome of `write()` for one sub-group. -/
structure WriteResult where
  leader : LeaderState
  file : FileData
  Data : List (List (List Byte))
  blocks : List (List Block)

/-- `write<IsBigEndian>()` executed by the members `ws` of one sub-group (leader first) on
hosts of endianness `IsBigEndian`: the leader assembles the header and writes it at
offset 0 of the file, then every member runs its bulk phase.  With an octree the code
writes rearranged copies of the columns (lines 552-870); for that case only the header of
this result follows the code, the bulk phase is that of the caller's columns. -/
def write (P : CRC64) (Z : Blosc) (IsBigEndian NeedsBlockHeaders ShouldCompress : Bool)
    (Dims PhysOrigin PhysScale : List Nat) (octree : Option (List Byte))
    (ws : List Writer) (file : FileData) : WriteResult :=
  let L := leaderOf P Z IsBigEndian NeedsBlockHeaders ShouldCompress Dims PhysOrigin PhysScale
    octree ws
  let Header := headerBytes P IsBigEndian L
  let file1 := fileWrite file Header L.HeaderSize 0
  let NVars := (ws.head?.map (fun w => w.Vars.length)).getD 0
  let r := bulkAll P Z IsBigEndian NeedsBlockHeaders ShouldCompress L NVars 0 ws file1
  { leader := L, file := r.1, Data := r.2.1, blocks := r.2.2 }

/-! ## Definitions used to state the layout theorems -/

/-- The blocks tile the byte range `[start, stop)`: the first block begins at `start`,
every block of `WriteSize` payload bytes and `CRCSize` footer bytes is followed
immediately by the next one, and the last one ends at `stop`. -/
def Tiles : Nat → List Block → Nat → Prop
  | start, [], stop => start = stop
  | start, b :: rest, stop =>
    b.Offset = start ∧ Tiles (b.Offset + b.WriteSize + CRCSize) rest stop

/-- The header length of lines 954-958 as a natural number, without reduction. -/
def exactHeaderSize (NVars NRanks octreeSize : Nat) (NeedsBlockHeaders : Bool) : Nat :=
  sizeofGlobalHeader + NVars * sizeofVariableHeader + NRanks * sizeofRankHeader + CRCSize +
    octreeSize +
    (if NeedsBlockHeaders then NRanks * NVars * sizeofBlockHeader + octreeSize else 0)

/-- The number of bytes one writer contributes without block headers: for each variable
`NElems * Size` payload bytes and `CRCSize` footer bytes, without reduction. -/
def writerDataSize (w : Writer) : Nat :=
  (w.Vars.map (fun V => w.NElems * V.Size + CRCSize)).sum

/-- The number of bytes the block headers of one writer announce: for each block `Size`
payload bytes and `CRCSize` footer bytes. -/
def writerBlockSize (P : CRC64) (Z : Blosc) (IsBigEndian ShouldCompress : Bool)
    (w : Writer) : Nat :=
  ((localBlocks P Z IsBigEndian true ShouldCompress w).map
    (fun b => b.BH.Size + CRCSize)).sum

/-- The size of the file as a natural number, without reduction: the header followed by
the data of all writers. -/
def exactFileSize (P : CRC64) (Z : Blosc) (IsBigEndian NeedsBlockHeaders ShouldCompress : Bool)
    (octree : Option (List Byte)) (ws : List Writer) : Nat :=
  exactHeaderSize ((ws.head?.map (fun w => w.Vars.length)).getD 0) ws.length
      (octree.getD []).length NeedsBlockHeaders +
    (if NeedsBlockHeaders then
      (ws.map (writerBlockSize P Z IsBigEndian ShouldCompress)).sum
    else (ws.map writerDataSize).sum)

/-- The rank headers `rhs` belong to the writers `ws`, and each starts where the data of
the writer before it ends, the first one at `s`. -/
def StartsFrom : Nat → List RankHeader → List Writer → Prop
  | _, [], [] => True
  | s, rh :: rhs, w :: ws => rh.Start = s ∧ StartsFrom (s + writerDataSize w) rhs ws
  | _, _, _ => False

/-- The block a block header describes. -/
def blockOf (bh : BlockHeader) : Block := { Offset := bh.Start, WriteSize := bh.Size }

/-! ## Reading: header fields in the header cache -/

/-- Byte offsets of the fields of the packed `GlobalHeader` (`offsetof_safe`). -/
def offHeaderSize : Nat := 8

def offNElems : Nat := 16

def offDims : Nat := 24

def offNVars : Nat := 48

def offVarsSize : Nat := 56

def offVarsStart : Nat := 64

def offNRanks : Nat := 72

def offRanksSize : Nat := 80

def offRanksStart : Nat := 88

def offGlobalHeaderSize : Nat := 96

def offPhysOrigin : Nat := 104

def offPhysScale : Nat := 128

def offBlocksSize : Nat := 152

def offBlocksStart : Nat := 160

def offOctreeSize : Nat := 168

def offOctreeStart : Nat := 176

/-- Byte offsets of the fields of the packed `VariableHeader`. -/
def offVHFlags : Nat := 256

def offVHSize : Nat := 264

def offVHElementSize : Nat := 272

/-- Byte offsets of the fields of the packed `RankHeader`. -/
def offRHNElems : Nat := 24

def offRHStart : Nat := 32

def offRHGlobalRank : Nat := 40

/-- Byte offsets of the fields of the packed `BlockHeader`. -/
def offBHStart : Nat := 32

def offBHSize : Nat := 40

/-- An endian-tagged 64-bit field read at byte offset `off` of a header. -/
def field (IsBigEndian hostBE : Bool) (hdr : List Byte) (off : Nat) : Nat :=
  esvRead IsBigEndian hostBE (slice hdr off 8)

/-- `(int) x` for a `uint64_t` (a 32-bit two's-complement `int`). -/
def toInt (x : Nat) : Int :=
  if x % 2 ^ 32 < 2 ^ 31 then ((x % 2 ^ 32 : Nat) : Int) else ((x % 2 ^ 32 : Nat) : Int) - 2 ^ 32

/-- `(size_t) x` for an `int`. -/
def ofInt (x : Int) : Nat := (x % 2 ^ 64).toNat

/-- A `char` array read as a C string: the bytes before the first NUL
(`VName.find('\0')` and `VName.resize(VNameNull)`). -/
def cstr : List Byte → List Byte
  | [] => []
  | b :: bs => if b = 0 then [] else b :: cstr bs

inductive MismatchBehavior where
  | MismatchAllowed
  | MismatchDisallowed
  | MismatchRedistribute
  deriving DecidableEq

/-- The exceptions (and failed assertions) of the read path. -/
inductive ReadError where
  | communicatorSizeMismatch
  | communicatorDecompositionMismatch
  | headerCRCCheckFailed
  | invalidFileTypeIdentifier
  | assertInvalidRank
  | sizeMismatch
  | elementSizeMismatch
  | typeMismatchFloat
  | typeMismatchSigned
  | unknownFilter
  | assertExtraSpace
  | variableNotFound
  | experiencedErrors (io crc decompress : Nat)
  | octreeHeaderResize
  | unableToReadOctreeHeader
  | octreeDeserialize
  deriving DecidableEq

/-- What `readHeaderLeader` hands back: `HeaderSize`, the `Header` vector and the
`SourceRanks` it planned (empty unless it entered redistribution). -/
structure HeaderRead where
  HeaderSize : Nat
  Header : List Byte
  SourceRanks : List Int
  deriving DecidableEq

/-- `readHeaderLeader<IsBigEndian>` (lines 1177-1258) without I/O failure.  `GH` holds the
`sizeof(GlobalHeader)` bytes read at offset 0, `topoDims` the dimensions of the Cartesian
communicator when `Comm` has one. -/
def readHeaderLeader (P : CRC64) (hostBE IsBigEndian : Bool) (GH : List Byte)
    (MB : MismatchBehavior) (NRanks Rank SplitNRanks : Int) (topoDims : Option (List Int))
    (Redistributing : Bool) (RankMap : List Int) (file : FileData) :
    Except ReadError HeaderRead :=
  let GHNRanks := field IsBigEndian hostBE GH offNRanks
  let check : Except ReadError (List Int) :=
    if MB = MismatchBehavior.MismatchDisallowed then
      if SplitNRanks ≠ toInt GHNRanks then Except.error ReadError.communicatorSizeMismatch
      else
        match topoDims with
        | some Dims =>
          if (List.range 3).all (fun i =>
              ofInt (Dims.getD i 0) = field IsBigEndian hostBE GH (offDims + 8 * i)) then
            Except.ok []
          else Except.error ReadError.communicatorDecompositionMismatch
        | none => Except.ok []
    else if MB = MismatchBehavior.MismatchRedistribute ∧ Redistributing = false then
      let NFileRanks : Int :=
        if RankMap.isEmpty then toInt GHNRanks else toInt (u64 RankMap.length)
      Except.ok (sourceRanks NFileRanks NRanks Rank)
    else Except.ok []
  match check with
  | Except.error e => Except.error e
  | Except.ok SourceRanks =>
    let HeaderSize := field IsBigEndian hostBE GH offHeaderSize
    let Header := fileRead file (u64 (HeaderSize + CRCSize)) 0
    let CRC := P.crc64_omp Header
    if CRC ≠ 2 ^ 64 - 1 then Except.error ReadError.headerCRCCheckFailed
    else Except.ok { HeaderSize := HeaderSize, Header := Header, SourceRanks := SourceRanks }

/-- The leader's part of `openAndReadHeader` (lines 1374-1401) without I/O failure: read
the global header, recognise the magic, and read and check the whole header in the
endianness the magic announces. -/
def openAndReadHeaderLeader (P : CRC64) (hostBE : Bool) (MB : MismatchBehavior)
    (NRanks Rank SplitNRanks : Int) (topoDims : Option (List Int)) (Redistributing : Bool)
    (RankMap : List Int) (file : FileData) : Except ReadError (Bool × HeaderRead) :=
  let GH := fileRead file sizeofGlobalHeader 0
  if GH.take (MagicSize - 1) = MagicLE then
    (readHeaderLeader P hostBE false GH MB NRanks Rank SplitNRanks topoDims Redistributing
      RankMap file).map (fun r => (false, r))
  else if GH.take (MagicSize - 1) = MagicBE then
    (readHeaderLeader P hostBE true GH MB NRanks Rank SplitNRanks topoDims Redistributing
      RankMap file).map (fun r => (true, r))
  else Except.error ReadError.invalidFileTypeIdentifier

/-- The class `Octree` is not part of these sources.  `deserialize buf bigEndian` tells
whether the call `octreeData.deserialize(buf, bigEndian)` returns; when it does not, it
raises. -/
structure Octree where
  deserialize : List Byte → Bool → Bool

/-- `readOctreeHeader(octreeOffset, octreeStringSize, bigEndian)` (lines 1260-1267) without
I/O failure.  Both sizes are `int`: `octreeHeader.resize` raises for a negative size (it
is converted to a `size_t` beyond `max_size()`), and a read of at least one byte at a
negative offset fails.  Otherwise the `octreeStringSize` bytes at `octreeOffset` are read
and handed to `octreeData.deserialize`. -/
def readOctreeHeader (O : Octree) (file : FileData) (octreeOffset octreeStringSize : Int)
    (bigEndian : Bool) : Except ReadError Unit :=
  if octreeStringSize < 0 then Except.error ReadError.octreeHeaderResize
  else if 0 < octreeStringSize ∧ octreeOffset < 0 then
    Except.error ReadError.unableToReadOctreeHeader
  else if O.deserialize (fileRead file octreeStringSize.toNat octreeOffset.toNat) bigEndian then
    Except.ok ()
  else Except.error ReadError.octreeDeserialize

/-- What `openAndReadHeader` leaves in the session: the endianness of the file
(`FH.isBigEndian()`), the header cache, the planned source ranks and, when the octree
detection of lines 1430-1441 fired and `readOctreeHeader` returned, the arguments of that
call. -/
structure OpenState where
  IsBigEndian : Bool
  HeaderCache : List Byte
  SourceRanks : List Int
  octreeHeader : Option (Int × Int × Bool)
  deriving DecidableEq

/-- `openAndReadHeader` from line 1374 on, on the leader of a sub-group, without I/O
failure.  The header cache is `Header` resized to `HeaderSize` bytes; the octree
detection reads its fields through a `GlobalHeader<false>` and, when it fires, calls
`readOctreeHeader(octreeStart, octreeSize, isBigEndian)` with the two fields converted to
`int`; what that call raises leaves `openAndReadHeader`. -/
def openAndReadHeader (P : CRC64) (O : Octree) (hostBE : Bool) (MB : MismatchBehavior)
    (NRanks Rank SplitNRanks : Int) (topoDims : Option (List Int)) (Redistributing : Bool)
    (RankMap : List Int) (file : FileData) : Except ReadError OpenState :=
  match openAndReadHeaderLeader P hostBE MB NRanks Rank SplitNRanks topoDims Redistributing
      RankMap file with
  | Except.error e => Except.error e
  | Except.ok (_, r) =>
    let Header := (r.Header ++ List.replicate (r.HeaderSize - r.Header.length) 253).take
      r.HeaderSize
    let isBE := decide (Header.take (MagicSize - 1) = MagicBE)
    if field false hostBE Header offVarsStart ≠ 168 then
      if field false hostBE Header offOctreeSize ≠ 0 then
        let octreeSize := toInt (field false hostBE Header offOctreeSize)
        let octreeStart := toInt (field false hostBE Header offOctreeStart)
        (readOctreeHeader O file octreeStart octreeSize isBE).map (fun _ =>
          { IsBigEndian := isBE, HeaderCache := Header, SourceRanks := r.SourceRanks,
            octreeHeader := some (octreeStart, octreeSize, isBE) })
      else
        Except.ok { IsBigEndian := isBE, HeaderCache := Header, SourceRanks := r.SourceRanks,
                    octreeHeader := none }
    else
      Except.ok { IsBigEndian := isBE, HeaderCache := Header, SourceRanks := r.SourceRanks,
                  octreeHeader := none }

/-! ## Example inputs used to instantiate the theorems -/

/-- A compressor that always reports failure. -/
def noBlosc : Blosc := { blosc_compress := fun _ _ => none, blosc_decompress := fun _ _ => [] }

/-- A variable `x` of two-byte elements with two rows and 8 bytes of extra space. -/
def exampleVar (Data : List Byte) : Variable :=
  { Name := [120], Size := 2, ElementSize := 2, IsFloat := false, IsSigned := true,
    IsPhysCoordX := true, IsPhysCoordY := false, IsPhysCoordZ := false,
    MaybePhysGhost := false, HasExtraSpace := true, Data := Data }

/-- The leader of the example sub-group. -/
def exampleWriter0 : Writer :=
  { Coords := [0, 0, 0], Rank := 0, NElems := 2,
    Vars := [exampleVar [1, 2, 3, 4, 0, 0, 0, 0, 0, 0, 0, 0]] }

/-- The second member of the example sub-group. -/
def exampleWriter1 : Writer :=
  { Coords := [1, 0, 0], Rank := 1, NElems := 1,
    Vars := [exampleVar [5, 6, 0, 0, 0, 0, 0, 0, 0, 0]] }

/-! ## `GenericIO::readData` -/

/-- The loop of `getRankIndex` (lines 1575-1586) from index `i` on, with `n` iterations
left; when no rank header matches, the function returns `(size_t) -1`. -/
def getRankIndexLoop (IsBigEndian hostBE : Bool) (EffRank : Int) (hdr : List Byte)
    (RanksStart RanksSize : Nat) : Nat → Nat → Nat
  | 0, _ => 2 ^ 64 - 1
  | n + 1, i =>
    let RH := u64 (RanksStart + i * RanksSize)
    if offRHGlobalRank ≥ RanksSize then ofInt EffRank
    else if toInt (field IsBigEndian hostBE hdr (RH + offRHGlobalRank)) = EffRank then i
    else getRankIndexLoop IsBigEndian hostBE EffRank hdr RanksStart RanksSize n (i + 1)

/-- `getRankIndex<IsBigEndian>(EffRank, GH, RankMap, HeaderCache)`. -/
def getRankIndex (IsBigEndian hostBE : Bool) (EffRank : Int) (hdr : List Byte)
    (RankMap : List Int) : Nat :=
  if RankMap.isEmpty then ofInt EffRank
  else
    getRankIndexLoop IsBigEndian hostBE EffRank hdr (field IsBigEndian hostBE hdr offRanksStart)
      (field IsBigEndian hostBE hdr offRanksSize) (field IsBigEndian hostBE hdr offNRanks) 0

/-- The retry loop of lines 2019-2026, with `n` iterations left before `Retry` reaches
`RetryCount`: `fails k` tells whether read attempt number `k` raises.  The result is the
final value of `Retry` and whether an attempt succeeded. -/
def retryLoop (fails : Nat → Bool) : Nat → Nat → Nat × Bool
  | 0, Retry => (Retry, false)
  | n + 1, Retry => if fails Retry then retryLoop fails n (Retry + 1) else (Retry, true)

/-- The byte-swap loop of lines 2134-2138: the iterations `j = 0, ..., n - 1` reverse the
`es` bytes at `base + j * es` of the buffer. -/
def swapElements (buf : List Byte) (base es : Nat) : Nat → List Byte
  | 0 => buf
  | n + 1 =>
    let b := swapElements buf base es n
    overwrite b (base + n * es) (bswap (slice b (base + n * es) es) es)

/-- The effect of the iteration of the outer loop for one requested variable: the
variable's buffer afterwards, what was added to `TotalReadSize` and to the three error
counters. -/
structure VarRead where
  Data : List Byte
  ReadSize : Nat
  NErrs : Nat × Nat × Nat
  deriving DecidableEq

/-- The external parameters of a read: the primitives, the byte order of the host, the
file, the retry count (`GENERICIO_RETRY_COUNT`, default 300) and, for each requested
variable and attempt number, whether that read attempt raises. -/
structure ReadEnv where
  P : CRC64
  Z : Blosc
  hostBE : Bool
  file : FileData
  RetryCount : Int
  fails : Nat → Nat → Bool

/-- Lines 1938-2140 of `readData<IsBigEndian>`: the requested variable `Vars[i]` was found
as variable `j` of the file, with the scan at `Offset`.  A failing read attempt is taken
to leave the buffer as it was. -/
def readFound (env : ReadEnv) (IsBigEndian : Bool) (hdr : List Byte) (RowOffset RankIndex : Nat)
    (RHNElems : Nat) (i : Nat) (V : Variable) (j Offset ReadSize0 : Nat) :
    Except ReadError VarRead :=
  let fld := field IsBigEndian env.hostBE hdr
  let VH := u64 (fld offVarsStart + j * fld offVarsSize)
  let VHSize := fld (VH + offVHSize)
  let ElementSize :=
    if offVHElementSize < fld offVarsSize then fld (VH + offVHElementSize) else VHSize
  let IsFloat := (fld (VH + offVHFlags) &&& FloatValue) != 0
  let IsSigned := (fld (VH + offVHFlags) &&& SignedValue) != 0
  if VHSize ≠ V.Size then Except.error ReadError.sizeMismatch
  else if ElementSize ≠ V.ElementSize then Except.error ReadError.elementSizeMismatch
  else if IsFloat ≠ V.IsFloat then Except.error ReadError.typeMismatchFloat
  else if IsSigned ≠ V.IsSigned then Except.error ReadError.typeMismatchSigned
  else
    let VarOffset := u64 (RowOffset * V.Size)
    let useBlocks := offBlocksStart < fld offGlobalHeaderSize ∧ fld offBlocksSize > 0
    let BH := u64 (fld offBlocksStart +
      u64 (u64 (u64 (RankIndex * fld offNVars) + j) * fld offBlocksSize))
    let ReadSize := if useBlocks then u64 (fld (BH + offBHSize) + CRCSize) else ReadSize0
    let Offset := if useBlocks then fld (BH + offBHStart) else Offset
    let Filter0 := slice hdr BH FilterNameSize
    let compressed := decide (useBlocks ∧ cstr Filter0 = CompressName)
    if useBlocks ∧ cstr Filter0 ≠ CompressName ∧ Filter0.getD 0 0 ≠ 0 then
      Except.error ReadError.unknownFilter
    else
      let HasExtraSpace := if compressed then true else V.HasExtraSpace
      if HasExtraSpace = false then Except.error ReadError.assertExtraSpace
      else
        let Data0 := if compressed then List.replicate ReadSize 0 else V.Data
        let base := if compressed then 0 else VarOffset
        let CRCSave := slice Data0 (base + ReadSize - CRCSize) CRCSize
        let r := retryLoop (env.fails i) env.RetryCount.toNat 0
        if (r.1 : Int) = env.RetryCount then
          Except.ok { Data := V.Data, ReadSize := 0, NErrs := (1, 0, 0) }
        else
          let Data1 :=
            if r.2 then overwrite Data0 base (fileRead env.file ReadSize Offset) else Data0
          let CRC := env.P.crc64_omp (slice Data1 base ReadSize)
          if CRC ≠ 2 ^ 64 - 1 then
            let RawCRC := env.P.crc64_omp (slice Data1 base (ReadSize - CRCSize))
            let Data2 := overwrite Data1 (base + ReadSize - CRCSize)
              ((env.P.crc64_invert RawCRC).take CRCSize)
            Except.ok { Data := if compressed then V.Data else Data2, ReadSize := ReadSize,
                        NErrs := (0, 1, 0) }
          else
            let Data2 := overwrite Data1 (base + ReadSize - CRCSize) CRCSave
            let decomp : List Byte × Bool :=
              if compressed then
                let n := u64 (V.Size * RHNElems)
                let out := overwrite V.Data VarOffset
                  ((env.Z.blosc_decompress (Data2.drop sizeofCompressHeader) n).take n)
                let OrigCRC := esvRead IsBigEndian env.hostBE (slice Data2 0 8)
                (out, decide (OrigCRC ≠ env.P.crc64_omp (slice out VarOffset n)))
              else (Data2, false)
            if decomp.2 then
              Except.ok { Data := decomp.1, ReadSize := ReadSize, NErrs := (0, 0, 1) }
            else
              let Data3 :=
                if IsBigEndian != env.hostBE then
                  swapElements decomp.1 VarOffset V.ElementSize
                    (u64 (RHNElems * (V.Size / V.ElementSize)))
                else decomp.1
              Except.ok { Data := Data3, ReadSize := ReadSize, NErrs := (0, 0, 0) }

/-- The scan of lines 1923-2141 over the variable headers `j, j + 1, ...` of the file, with
`n` of them left: headers with another name advance `Offset` by the size of their block;
the first header with the requested name is handled by `readFound`.  The result is
`none` when no header has the name (`VarFound` stays false). -/
def scanVars (env : ReadEnv) (IsBigEndian : Bool) (hdr : List Byte) (RowOffset RankIndex : Nat)
    (RHNElems : Nat) (i : Nat) (V : Variable) : Nat → Nat → Nat → Except ReadError (Option VarRead)
  | 0, _, _ => Except.ok none
  | n + 1, j, Offset =>
    let fld := field IsBigEndian env.hostBE hdr
    let VH := u64 (fld offVarsStart + j * fld offVarsSize)
    let VName := cstr (slice hdr VH NameSize)
    let ReadSize := u64 (u64 (RHNElems * fld (VH + offVHSize)) + CRCSize)
    if VName ≠ V.Name then
      scanVars env IsBigEndian hdr RowOffset RankIndex RHNElems i V n (j + 1)
        (u64 (Offset + ReadSize))
    else
      (readFound env IsBigEndian hdr RowOffset RankIndex RHNElems i V j Offset ReadSize).map
        some

/-- The state of the outer loop of `readData<IsBigEndian>`: the buffers of the variables
handled so far, `TotalReadSize` and `NErrs`. -/
structure ReadState where
  Data : List (List Byte)
  TotalReadSize : Nat
  NErrs : Nat × Nat × Nat
  deriving DecidableEq

/-- The outer loop of lines 1920-2172 over the requested variables `Vars[i], ...`; it is
left as soon as an error counter is non-zero, and the buffers of the variables not
reached stay as they are. -/
def readVars (env : ReadEnv) (IsBigEndian : Bool) (hdr : List Byte) (RowOffset RankIndex : Nat)
    (RHNElems RHStart : Nat) : Nat → List Variable → ReadState → Except ReadError ReadState
  | _, [], st => Except.ok st
  | i, V :: Vars, st =>
    match scanVars env IsBigEndian hdr RowOffset RankIndex RHNElems i V
        (field IsBigEndian env.hostBE hdr offNVars) 0 RHStart with
    | Except.error e => Except.error e
    | Except.ok none => Except.error ReadError.variableNotFound
    | Except.ok (some r) =>
      let st1 : ReadState :=
        { Data := st.Data ++ [r.Data],
          TotalReadSize := u64 (st.TotalReadSize + r.ReadSize),
          NErrs := (st.NErrs.1 + r.NErrs.1, st.NErrs.2.1 + r.NErrs.2.1,
            st.NErrs.2.2 + r.NErrs.2.2) }
      if st1.NErrs.1 ≠ 0 ∨ st1.NErrs.2.1 ≠ 0 ∨ st1.NErrs.2.2 ≠ 0 then
        Except.ok { st1 with Data := st1.Data ++ Vars.map (fun V => V.Data) }
      else readVars env IsBigEndian hdr RowOffset RankIndex RHNElems RHStart (i + 1) Vars st1

/-- `readData<IsBigEndian>(EffRank, RowOffset, Rank, TotalReadSize, NErrs)` (lines
1901-2173) on a session whose header cache `hdr` is in place (so that the call of
`openAndReadHeader` returns at once), without a rank map unless `RankMap` is given. -/
def readDataT (env : ReadEnv) (IsBigEndian : Bool) (hdr : List Byte) (RankMap : List Int)
    (Vars : List Variable) (EffRank : Int) (RowOffset : Nat) (Rank : Int)
    (TotalReadSize : Nat) (NErrs : Nat × Nat × Nat) : Except ReadError ReadState :=
  let EffRank := if EffRank = -1 then Rank else EffRank
  let RankIndex := getRankIndex IsBigEndian env.hostBE EffRank hdr RankMap
  if ¬ RankIndex < field IsBigEndian env.hostBE hdr offNRanks then
    Except.error ReadError.assertInvalidRank
  else
    let RH := u64 (field IsBigEndian env.hostBE hdr offRanksStart +
      u64 (RankIndex * field IsBigEndian env.hostBE hdr offRanksSize))
    readVars env IsBigEndian hdr RowOffset RankIndex
      (field IsBigEndian env.hostBE hdr (RH + offRHNElems))
      (field IsBigEndian env.hostBE hdr (RH + offRHStart)) 0 Vars
      { Data := [], TotalReadSize := TotalReadSize, NErrs := NErrs }

/-! ## Definitions used to state the round-trip theorem -/

/-- The part of a variable's registration that the header records and the readers
check: name, record size, element size, float flag and signed flag. -/
def descr (V : Variable) : List Byte × Nat × Nat × Bool × Bool :=
  (V.Name, V.Size, V.ElementSize, V.IsFloat, V.IsSigned)

/-- What a reader of writer `r` finds in the header cache `hdr` and in the file after a
write without block headers: the global fields, the variable headers of `vars`, and,
from `S` on, the blocks of the `N` rows of the variables `wvars` of that writer. -/
structure ReadCtx (env : ReadEnv) (E : Bool) (hdr : List Byte) (vars wvars : List Variable)
    (N S : Nat) : Prop where
  nvars : field E env.hostBE hdr offNVars = vars.length
  varsSize : field E env.hostBE hdr offVarsSize = sizeofVariableHeader
  varsStart : field E env.hostBE hdr offVarsStart = sizeofGlobalHeader
  globalHeaderSize : field E env.hostBE hdr offGlobalHeaderSize = sizeofGlobalHeader
  blocksSize : field E env.hostBE hdr offBlocksSize = 0
  headerFits : sizeofGlobalHeader + vars.length * sizeofVariableHeader < 2 ^ 64
  name : ∀ j V, vars[j]? = some V →
    slice hdr (sizeofGlobalHeader + j * sizeofVariableHeader) NameSize = VName V.Name
  size : ∀ j V, vars[j]? = some V →
    field E env.hostBE hdr (sizeofGlobalHeader + j * sizeofVariableHeader + offVHSize) = V.Size
  elementSize : ∀ j V, vars[j]? = some V →
    field E env.hostBE hdr (sizeofGlobalHeader + j * sizeofVariableHeader + offVHElementSize) =
      V.ElementSize
  flags : ∀ j V, vars[j]? = some V →
    field E env.hostBE hdr (sizeofGlobalHeader + j * sizeofVariableHeader + offVHFlags) =
      VFlags V
  dataFits : S + (vars.map (fun V => N * V.Size + CRCSize)).sum < 2 ^ 64
  sameSizes : wvars.map (fun V => V.Size) = vars.map (fun V => V.Size)
  content : ∀ pre V post, wvars = pre ++ V :: post →
    fileRead env.file (N * V.Size + CRCSize)
        (S + (pre.map (fun V => N * V.Size + CRCSize)).sum) =
      V.Data.take (N * V.Size) ++ env.P.crc64_invert (env.P.crc64_omp (V.Data.take (N * V.Size)))

/-- The buffer a reader is left with: the payload of the writer's variable followed by
what the reader's buffer held behind it. -/
def expectedBuffer (N : Nat) (wv rv : Variable) : List Byte :=
  wv.Data.take (N * wv.Size) ++ rv.Data.drop (N * wv.Size)

/-- A variable whose name `"x\0y"` holds a NUL byte: two-byte signed elements, extra
space present. -/
def nulVar (Data : List Byte) : Variable :=
  { Name := [120, 0, 121], Size := 2, ElementSize := 2, IsFloat := false, IsSigned := true,
    IsPhysCoordX := false, IsPhysCoordY := false, IsPhysCoordZ := false,
    MaybePhysGhost := false, HasExtraSpace := true, Data := Data }

/-- A single writer with one row of the variable `"x\0y"`. -/
def nulWriter : Writer :=
  { Coords := [0, 0, 0], Rank := 0, NElems := 1,
    Vars := [nulVar [7, 8, 0, 0, 0, 0, 0, 0, 0, 0]] }

/-! ## `GenericIO::readDataSection` -/

/-- Equality of two results of a fallible function is decidable. -/
instance decEqExcept {ε α : Type} [DecidableEq ε] [DecidableEq α] : DecidableEq (Except ε α)
  | Except.ok a, Except.ok b =>
    if h : a = b then isTrue (by rw [h]) else isFalse (fun h2 => h (Except.ok.inj h2))
  | Except.error a, Except.error b =>
    if h : a = b then isTrue (by rw [h]) else isFalse (fun h2 => h (Except.error.inj h2))
  | Except.ok _, Except.error _ => isFalse (fun h => by cases h)
  | Except.error _, Except.ok _ => isFalse (fun h => by cases h)

/-- The retry loop of lines 2386-2401 of `readDataSection<IsBigEndian>`, with `n`
iterations left before `Retry` reaches `RetryCount`.  Every attempt executes
`Offset = Offset + readOffset * VH->Size` (`step` is `readOffset * VH->Size`) and then
reads; `fails k` tells whether read attempt number `k` raises.  The result is the final
`Retry`, the final `Offset` and whether an attempt succeeded. -/
def sectionRetryLoop (fails : Nat → Bool) (step : Nat) : Nat → Nat → Nat → Nat × Nat × Bool
  | 0, Retry, Offset => (Retry, Offset, false)
  | n + 1, Retry, Offset =>
    let Offset1 := u64 (Offset + step)
    if fails Retry then sectionRetryLoop fails step n (Retry + 1) Offset1
    else (Retry, Offset1, true)

/-- Lines 2312-2443 of `readDataSection<IsBigEndian>`: the requested variable `Vars[i]`
was found as variable `j` of the file, with the scan at `Offset`.  A failing read attempt
is taken to leave the buffer as it was; a read into the scratch vector `LData` of a
compressed block leaves the variable's buffer as it was. -/
def readSectionFound (env : ReadEnv) (IsBigEndian : Bool) (hdr : List Byte)
    (readOffset readNumRows RowOffset RankIndex RHNElems : Nat) (i : Nat) (V : Variable)
    (j Offset ReadSize0 : Nat) : Except ReadError VarRead :=
  let fld := field IsBigEndian env.hostBE hdr
  let VH := u64 (fld offVarsStart + j * fld offVarsSize)
  let VHSize := fld (VH + offVHSize)
  let IsFloat := (fld (VH + offVHFlags) &&& FloatValue) != 0
  let IsSigned := (fld (VH + offVHFlags) &&& SignedValue) != 0
  if VHSize ≠ V.Size then Except.error ReadError.sizeMismatch
  else if IsFloat ≠ V.IsFloat then Except.error ReadError.typeMismatchFloat
  else if IsSigned ≠ V.IsSigned then Except.error ReadError.typeMismatchSigned
  else
    let VarOffset := u64 (RowOffset * V.Size)
    let useBlocks := offBlocksStart < fld offGlobalHeaderSize ∧ fld offBlocksSize > 0
    let BH := u64 (fld offBlocksStart +
      u64 (u64 (u64 (RankIndex * fld offNVars) + j) * fld offBlocksSize))
    let ReadSize1 := if useBlocks then u64 (fld (BH + offBHSize) + CRCSize) else ReadSize0
    let Offset1 := if useBlocks then fld (BH + offBHStart) else Offset
    let Filter0 := slice hdr BH FilterNameSize
    let compressed := decide (useBlocks ∧ cstr Filter0 = CompressName)
    if useBlocks ∧ cstr Filter0 ≠ CompressName ∧ Filter0.getD 0 0 ≠ 0 then
      Except.error ReadError.unknownFilter
    else
      let HasExtraSpace := if compressed then true else V.HasExtraSpace
      if HasExtraSpace = false then Except.error ReadError.assertExtraSpace
      else
        let r := sectionRetryLoop (env.fails i) (u64 (readOffset * VHSize))
          env.RetryCount.toNat 0 Offset1
        let ReadSize := if 0 < env.RetryCount then u64 (readNumRows * VHSize) else ReadSize1
        if (r.1 : Int) = env.RetryCount then
          Except.ok { Data := V.Data, ReadSize := 0, NErrs := (1, 0, 0) }
        else
          let Data1 :=
            if r.2.2 = true ∧ compressed = false then
              overwrite V.Data VarOffset (fileRead env.file ReadSize r.2.1)
            else V.Data
          let Data2 :=
            if IsBigEndian != env.hostBE then swapElements Data1 VarOffset V.Size RHNElems
            else Data1
          Except.ok { Data := Data2, ReadSize := ReadSize, NErrs := (0, 0, 0) }

/-- The scan of lines 2296-2444 over the variable headers `j, j + 1, ...` of the file,
with `n` of them left. -/
def scanSectionVars (env : ReadEnv) (IsBigEndian : Bool) (hdr : List Byte)
    (readOffset readNumRows RowOffset RankIndex RHNElems : Nat) (i : Nat) (V : Variable) :
    Nat → Nat → Nat → Except ReadError (Option VarRead)
  | 0, _, _ => Except.ok none
  | n + 1, j, Offset =>
    let fld := field IsBigEndian env.hostBE hdr
    let VH := u64 (fld offVarsStart + j * fld offVarsSize)
    let VName := cstr (slice hdr VH NameSize)
    let ReadSize := u64 (u64 (RHNElems * fld (VH + offVHSize)) + CRCSize)
    if VName ≠ V.Name then
      scanSectionVars env IsBigEndian hdr readOffset readNumRows RowOffset RankIndex RHNElems i V
        n (j + 1) (u64 (Offset + ReadSize))
    else
      (readSectionFound env IsBigEndian hdr readOffset readNumRows RowOffset RankIndex RHNElems
        i V j Offset ReadSize).map some

/-- The outer loop of lines 2292-2448 over the requested variables; unlike the loop of
`readData<IsBigEndian>` it is not left when an error counter is non-zero. -/
def readSectionVars (env : ReadEnv) (IsBigEndian : Bool) (hdr : List Byte)
    (readOffset readNumRows RowOffset RankIndex RHNElems RHStart : Nat) :
    Nat → List Variable → ReadState → Except ReadError ReadState
  | _, [], st => Except.ok st
  | i, V :: Vars, st =>
    match scanSectionVars env IsBigEndian hdr readOffset readNumRows RowOffset RankIndex
        RHNElems i V (field IsBigEndian env.hostBE hdr offNVars) 0 RHStart with
    | Except.error e => Except.error e
    | Except.ok none => Except.error ReadError.variableNotFound
    | Except.ok (some r) =>
      readSectionVars env IsBigEndian hdr readOffset readNumRows RowOffset RankIndex RHNElems
        RHStart (i + 1) Vars
        { Data := st.Data ++ [r.Data],
          TotalReadSize := u64 (st.TotalReadSize + r.ReadSize),
          NErrs := (st.NErrs.1 + r.NErrs.1, st.NErrs.2.1 + r.NErrs.2.1,
            st.NErrs.2.2 + r.NErrs.2.2) }

/-- `readDataSection<IsBigEndian>(readOffset, readNumRows, EffRank, RowOffset, Rank,
TotalReadSize, NErrs)` (lines 2274-2449) on a session whose header cache `hdr` is in
place. -/
def readDataSectionT (env : ReadEnv) (IsBigEndian : Bool) (hdr : List Byte)
    (RankMap : List Int) (Vars : List Variable) (readOffset readNumRows : Nat) (EffRank : Int)
    (RowOffset : Nat) (Rank : Int) (TotalReadSize : Nat) (NErrs : Nat × Nat × Nat) :
    Except ReadError ReadState :=
  let EffRank := if EffRank = -1 then Rank else EffRank
  let RankIndex := getRankIndex IsBigEndian env.hostBE EffRank hdr RankMap
  if ¬ RankIndex < field IsBigEndian env.hostBE hdr offNRanks then
    Except.error ReadError.assertInvalidRank
  else
    let RH := u64 (field IsBigEndian env.hostBE hdr offRanksStart +
      u64 (RankIndex * field IsBigEndian env.hostBE hdr offRanksSize))
    readSectionVars env IsBigEndian hdr readOffset readNumRows RowOffset RankIndex
      (field IsBigEndian env.hostBE hdr (RH + offRHNElems))
      (field IsBigEndian env.hostBE hdr (RH + offRHStart)) 0 Vars
      { Data := [], TotalReadSize := TotalReadSize, NErrs := NErrs }

/-! ## Example session used to instantiate the read-side theorems -/

/-- The example sub-group writes its file on a little-endian host, without block headers,
compression or octree, with the checksum `lastBytesCRC`. -/
def exampleWrite : WriteResult :=
  write lastBytesCRC noBlosc false false false [2, 1, 1] [0, 0, 0] [1, 1, 1] none
    [exampleWriter0, exampleWriter1] (fun _ => 0)

/-- The header cache a reader holds after opening the example file. -/
def exampleHeader : List Byte := headerBody false exampleWrite.leader

/-- A reader of the example file on a host of the given byte order; `fails` tells which
read attempts raise. -/
def exampleEnv (hostBE : Bool) (fails : Nat → Nat → Bool) : ReadEnv :=
  { P := lastBytesCRC, Z := noBlosc, hostBE := hostBE, file := exampleWrite.file,
    RetryCount := 300, fails := fails }

/-- The column `x` registered as rows of two one-byte elements (`ElementSize = 1`), where
the example file holds rows of one two-byte element. -/
def bytePairVar (Data : List Byte) : Variable :=
  { exampleVar Data with ElementSize := 1 }

/-! ## What the header cache records for variable `j` of the file -/

/-- Offset of the variable header `j` in the header cache
(`GH->VarsStart + j * GH->VarsSize`). -/
def fileVH (IsBigEndian hostBE : Bool) (hdr : List Byte) (j : Nat) : Nat :=
  u64 (field IsBigEndian hostBE hdr offVarsStart + j * field IsBigEndian hostBE hdr offVarsSize)

/-- The name in variable header `j`, cut at its first NUL. -/
def fileVarName (IsBigEndian hostBE : Bool) (hdr : List Byte) (j : Nat) : List Byte :=
  cstr (slice hdr (fileVH IsBigEndian hostBE hdr j) NameSize)

/-- The record size `VH->Size` in variable header `j`. -/
def fileVarSize (IsBigEndian hostBE : Bool) (hdr : List Byte) (j : Nat) : Nat :=
  field IsBigEndian hostBE hdr (fileVH IsBigEndian hostBE hdr j + offVHSize)

/-- The element size of variable `j` of the file: `VH->ElementSize` when the variable
headers are long enough to hold it, `VH->Size` otherwise (lines 1938-1940). -/
def fileVarElementSize (IsBigEndian hostBE : Bool) (hdr : List Byte) (j : Nat) : Nat :=
  if offVHElementSize < field IsBigEndian hostBE hdr offVarsSize then
    field IsBigEndian hostBE hdr (fileVH IsBigEndian hostBE hdr j + offVHElementSize)
  else fileVarSize IsBigEndian hostBE hdr j

/-- The float flag `(bool) (VH->Flags & FloatValue)` of variable `j` of the file. -/
def fileVarIsFloat (IsBigEndian hostBE : Bool) (hdr : List Byte) (j : Nat) : Bool :=
  (field IsBigEndian hostBE hdr (fileVH IsBigEndian hostBE hdr j + offVHFlags) &&&
    FloatValue) != 0

/-- The signed flag `(bool) (VH->Flags & SignedValue)` of variable `j` of the file. -/
def fileVarIsSigned (IsBigEndian hostBE : Bool) (hdr : List Byte) (j : Nat) : Bool :=
  (field IsBigEndian hostBE hdr (fileVH IsBigEndian hostBE hdr j + offVHFlags) &&&
    SignedValue) != 0

/-! ## What the header cache records for the block of (rank index, variable `j`) -/

/-- The file has block headers (`offsetof_safe(GH, BlocksStart) < GH->GlobalHeaderSize &&
GH->BlocksSize > 0`). -/
def fileUsesBlocks (IsBigEndian hostBE : Bool) (hdr : List Byte) : Prop :=
  offBlocksStart < field IsBigEndian hostBE hdr offGlobalHeaderSize ∧
    field IsBigEndian hostBE hdr offBlocksSize > 0

/-- Offset of the block header of variable `j` of rank index `RankIndex` in the header
cache (`GH->BlocksStart + (RankIndex * GH->NVars + j) * GH->BlocksSize`). -/
def fileBH (IsBigEndian hostBE : Bool) (hdr : List Byte) (RankIndex j : Nat) : Nat :=
  u64 (field IsBigEndian hostBE hdr offBlocksStart +
    u64 (u64 (u64 (RankIndex * field IsBigEndian hostBE hdr offNVars) + j) *
      field IsBigEndian hostBE hdr offBlocksSize))

/-- The bytes of filter slot `k` (`BH->Filters[k]`) of that block header. -/
def fileFilter (IsBigEndian hostBE : Bool) (hdr : List Byte) (RankIndex j k : Nat) : List Byte :=
  slice hdr (fileBH IsBigEndian hostBE hdr RankIndex j + k * FilterNameSize) FilterNameSize

/-- The example sub-group writes its file with block headers (`GENERICIO_FORCE_BLOCKS`)
and without compression. -/
def exampleBlocksWrite : WriteResult :=
  write lastBytesCRC noBlosc false true false [2, 1, 1] [0, 0, 0] [1, 1, 1] none
    [exampleWriter0, exampleWriter1] (fun _ => 0)

/-- The example file with block headers after the name `"XYZ"` has been stored in filter
slot `k` of every block header and the header checksum recomputed. -/
def filterSlotFile (k : Nat) : FileData :=
  let L : LeaderState :=
    { exampleBlocksWrite.leader with
      BHs := exampleBlocksWrite.leader.BHs.map
        (fun bh => { bh with Filters := overwrite bh.Filters (k * FilterNameSize) [88, 89, 90] }) }
  fileWrite exampleBlocksWrite.file (headerBytes lastBytesCRC false L) L.HeaderSize 0

/-- The header cache of a reader of `filterSlotFile k`. -/
def filterSlotHeader (k : Nat) : List Byte :=
  headerBody false
    { exampleBlocksWrite.leader with
      BHs := exampleBlocksWrite.leader.BHs.map
        (fun bh => { bh with Filters := overwrite bh.Filters (k * FilterNameSize) [88, 89, 90] }) }

/-- A reader of `filterSlotFile k` on a little-endian host, without failing reads. -/
def filterSlotEnv (k : Nat) : ReadEnv :=
  { P := lastBytesCRC, Z := noBlosc, hostBE := false, file := filterSlotFile k,
    RetryCount := 300, fails := fun _ _ => false }

/-- A column `y` of two-byte elements with extra space. -/
def yVar (Data : List Byte) : Variable :=
  { exampleVar Data with Name := [121], IsPhysCoordX := false, IsPhysCoordY := true }

/-- A single writer with one row of each of the columns `x` and `y`. -/
def twoVarWriter : Writer :=
  { Coords := [0, 0, 0], Rank := 0, NElems := 1,
    Vars := [exampleVar [1, 2, 0, 0, 0, 0, 0, 0, 0, 0], yVar [3, 4, 0, 0, 0, 0, 0, 0, 0, 0]] }

/-- The file written by `twoVarWriter`, without block headers. -/
def twoVarWrite : WriteResult :=
  write lastBytesCRC noBlosc false false false [1, 1, 1] [0, 0, 0] [1, 1, 1] none
    [twoVarWriter] (fun _ => 0)

/-- The file of `twoVarWriter` after the last footer byte of each of its two blocks (file
offsets 809 and 819) has been lost. -/
def damagedFile : FileData :=
  fun p => if p = 809 ∨ p = 819 then 0 else twoVarWrite.file p

/-- A reader of `damagedFile` on a little-endian host, without failing reads. -/
def damagedEnv : ReadEnv :=
  { P := lastBytesCRC, Z := noBlosc, hostBE := false, file := damagedFile,
    RetryCount := 300, fails := fun _ _ => false }

/-! ## The public `GenericIO::readData` -/

/-- The caller's variables with their buffers in the state `Data`. -/
def setData (Vars : List Variable) (Data : List (List Byte)) : List Variable :=
  List.zipWith (fun V d => { V with Data := d }) Vars Data

/-- `readNumElems<IsBigEndian>(EffRank)` (lines 1658-1677) on a session whose header cache
`hdr` is in place. -/
def readNumElemsT (IsBigEndian hostBE : Bool) (hdr : List Byte) (RankMap : List Int)
    (EffRank Rank : Int) : Except ReadError Nat :=
  let EffRank := if EffRank = -1 then Rank else EffRank
  let RankIndex := getRankIndex IsBigEndian hostBE EffRank hdr RankMap
  if ¬ RankIndex < field IsBigEndian hostBE hdr offNRanks then
    Except.error ReadError.assertInvalidRank
  else
    let RH := u64 (field IsBigEndian hostBE hdr offRanksStart +
      u64 (RankIndex * field IsBigEndian hostBE hdr offRanksSize))
    Except.ok (field IsBigEndian hostBE hdr (RH + offRHNElems))

/-- The loop of lines 1831-1834 over the source ranks still to be read, on a session whose
open file holds all of them: each is read at the running `RowOffset`, which then
advances by the number of its rows. -/
def readDataSources (env : ReadEnv) (IsBigEndian : Bool) (hdr : List Byte) (RankMap : List Int)
    (Rank : Int) : List Int → Nat → List Variable → Nat → Nat × Nat × Nat →
    Except ReadError ReadState
  | [], _, Vars, TotalReadSize, NErrs =>
    Except.ok { Data := Vars.map (fun V => V.Data), TotalReadSize := TotalReadSize,
                NErrs := NErrs }
  | s :: rest, RowOffset, Vars, TotalReadSize, NErrs =>
    match readDataT env IsBigEndian hdr RankMap Vars s RowOffset Rank TotalReadSize NErrs with
    | Except.error e => Except.error e
    | Except.ok st =>
      match readNumElemsT IsBigEndian env.hostBE hdr RankMap s Rank with
      | Except.error e => Except.error e
      | Except.ok n =>
        readDataSources env IsBigEndian hdr RankMap Rank rest (u64 (RowOffset + n))
          (setData Vars st.Data) st.TotalReadSize st.NErrs

/-- Lines 1825-1839 of the public `readData`: the counters start at zero and the rows of
the source ranks (when redistributing) or of `EffRank` are read. -/
def readDataInner (env : ReadEnv) (IsBigEndian : Bool) (hdr : List Byte) (RankMap : List Int)
    (Vars : List Variable) (EffRank Rank : Int) (Redistributing : Bool)
    (SourceRanks : List Int) : Except ReadError ReadState :=
  if EffRank = -1 ∧ Redistributing = true then
    readDataSources env IsBigEndian hdr RankMap Rank SourceRanks 0 Vars 0 (0, 0, 0)
  else readDataT env IsBigEndian hdr RankMap Vars EffRank 0 Rank 0 (0, 0, 0)

/-- What the public `readData` throws: an exception of `readData<IsBigEndian>` passing
through, or the `runtime_error` of line 1853 with its text. -/
inductive ReadDataError where
  | raised (e : ReadError)
  | aggregate (what : String)
  deriving DecidableEq

/-- `MPI_Allreduce(NErrs, AllNErrs, 3, MPI_INT, MPI_SUM, Comm)`: the sums, as `int`, of the
counters of this member and of the other members of the group (none without MPI). -/
def allreduceSum (own : Nat × Nat × Nat) (others : List (Nat × Nat × Nat)) : Int × Int × Int :=
  (toInt (own.1 + (others.map (fun c => c.1)).sum),
   toInt (own.2.1 + (others.map (fun c => c.2.1)).sum),
   toInt (own.2.2 + (others.map (fun c => c.2.2)).sum))

/-- The text assembled in lines 1849-1852. -/
def aggregateMessage (AllNErrs : Int × Int × Int) (OpenFileName : String) : String :=
  "Experienced " ++ toString AllNErrs.1 ++ " I/O error(s), " ++
    toString AllNErrs.2.1 ++ " CRC error(s) and " ++ toString AllNErrs.2.2 ++
    " decompression CRC error(s) reading: " ++ OpenFileName

/-- The public `readData(EffRank, PrintStats, CollStats)` up to line 1854 (the rest only
reports timings), for one member of the group: `others` holds the counters the other
members contribute to the reduction. -/
def readData (env : ReadEnv) (IsBigEndian : Bool) (hdr : List Byte) (RankMap : List Int)
    (Vars : List Variable) (EffRank Rank : Int) (Redistributing : Bool)
    (SourceRanks : List Int) (others : List (Nat × Nat × Nat)) (OpenFileName : String) :
    Except ReadDataError ReadState :=
  match readDataInner env IsBigEndian hdr RankMap Vars EffRank Rank Redistributing
      SourceRanks with
  | Except.error e => Except.error (ReadDataError.raised e)
  | Except.ok st =>
    let AllNErrs := allreduceSum st.NErrs others
    if AllNErrs.1 > 0 ∨ AllNErrs.2.1 > 0 ∨ AllNErrs.2.2 > 0 then
      Except.error (ReadDataError.aggregate (aggregateMessage AllNErrs OpenFileName))
    else Except.ok st

/-- A block compressor used to instantiate the theorems: the compressed form of a buffer
is the buffer itself, and decompression copies it back. -/
def storeBlosc : Blosc :=
  { blosc_compress := fun _ d => some d, blosc_decompress := fun c n => c.take n }

/-- The example sub-group writes its file with compression (`GENERICIO_COMPRESS`), hence
with block headers. -/
def compressedWrite : WriteResult :=
  write lastBytesCRC storeBlosc false true true [2, 1, 1] [0, 0, 0] [1, 1, 1] none
    [exampleWriter0, exampleWriter1] (fun _ => 0)

/-- The header cache of a reader of the compressed example file. -/
def compressedHeader : List Byte := headerBody false compressedWrite.leader

/-- A reader of the compressed example file on a little-endian host, without failing
reads. -/
def compressedEnv : ReadEnv :=
  { P := lastBytesCRC, Z := storeBlosc, hostBE := false, file := compressedWrite.file,
    RetryCount := 300, fails := fun _ _ => false }

/-! ## Definitions used to state the byte-swap theorems -/

/-- The byte array `bs` with the bytes of each of its first `n` elements of `es` bytes
reversed, and the bytes behind them unchanged. -/
def elementsReversed (es n : Nat) (bs : List Byte) : List Byte :=
  ((List.range n).map (fun k => (slice bs (k * es) es).reverse)).flatten ++ bs.drop (n * es)

/-- The memory image of a column of `es`-byte unsigned integers on a host: each value in
the byte order of the host. -/
def columnMem (hostBE : Bool) (es : Nat) (values : List Nat) : List Byte :=
  (values.map (fun v => if hostBE then (leBytes es v).reverse else leBytes es v)).flatten

/-- The buffer a reader on a host of byte order `hostBE` is left with after reading a
column from a file of endianness `IsBigEndian`: `expectedBuffer`, with the loop of lines
2134-2138 applied when the two byte orders differ. -/
def crossBuffer (IsBigEndian hostBE : Bool) (N : Nat) (wv rv : Variable) : List Byte :=
  if IsBigEndian != hostBE then
    swapElements (expectedBuffer N wv rv) 0 rv.ElementSize (u64 (N * (rv.Size / rv.ElementSize)))
  else expectedBuffer N wv rv

/-! ## Partitions: split mode and sub-file names -/

/-- `SplitNRanks` of a rank with partition id `p`: the size of the communicator that
`MPI_Comm_split(Comm, Partition, Rank, &SplitComm)` (line 392) gives it, which is the
number of ranks of `Comm` that passed the same colour.  `Partitions` lists the partition
ids of the ranks of `Comm` in rank order. -/
def splitNRanks (Partitions : List Int) (p : Int) : Nat :=
  (Partitions.filter (fun q => decide (q = p))).length

/-- The test `SplitNRanks != NRanks` of line 407 on a rank with partition id `p`. -/
def inSplitMode (Partitions : List Int) (p : Int) : Bool :=
  splitNRanks Partitions p != Partitions.length

/-- `LocalFileName` of `write()` (lines 406-459) on a rank with partition id `p`:
`FileName << "#" << Partition` in split mode, `FileName` otherwise. -/
def writeLocalFileName (FileName : String) (Partitions : List Int) (p : Int) : String :=
  if inSplitMode Partitions p then FileName ++ "#" ++ toString p else FileName

/-- Whether the rank `Rank` with partition id `p` writes the rank map to `FileName`
(lines 407-450): in split mode, rank 0 does. -/
def writesRankMap (Partitions : List Int) (Rank : Nat) (p : Int) : Bool :=
  inSplitMode Partitions p && decide (Rank = 0)

/-- The column `$partition` of the rank map that rank 0 writes (lines 415-422):
`MapPartition` as `MPI_Gather` delivers it, the partition ids in rank order. -/
def MapPartition (Partitions : List Int) : List Int := Partitions

/-- `LocalFileName` of `openAndReadHeader` (lines 1321-1329): `FileName` when the rank map
is empty, `FileName << "#" << RankMap[EffRank]` otherwise. -/
def readLocalFileName (FileName : String) (RankMap : List Int) (EffRank : Nat) : String :=
  if RankMap.isEmpty then FileName else FileName ++ "#" ++ toString (RankMap.getD EffRank 0)

/-! ## The scenario of the data generator (`dataGen.cpp`) -/

/-- The eight columns the data generator registers (lines 52-133): `x`, `y`, `z`, `vx`,
`vy`, `vz`, `phi` of type `float` and `mask` of type `uint16_t`, each with extra space;
the buffers hold `n` rows and the 8 bytes of extra space. -/
def genVars (n : Nat) : List Variable :=
  let flt (Name : List Byte) (X Y Z : Bool) : Variable :=
    { Name := Name, Size := 4, ElementSize := 4, IsFloat := true, IsSigned := true,
      IsPhysCoordX := X, IsPhysCoordY := Y, IsPhysCoordZ := Z, MaybePhysGhost := false,
      HasExtraSpace := true, Data := List.replicate (n * 4 + CRCSize) 0 }
  [flt [120] true false false, flt [121] false true false, flt [122] false false true,
   flt [118, 120] false false false, flt [118, 121] false false false,
   flt [118, 122] false false false, flt [112, 104, 105] false false false,
   { Name := [109, 97, 115, 107], Size := 2, ElementSize := 2, IsFloat := false,
     IsSigned := false, IsPhysCoordX := false, IsPhysCoordY := false, IsPhysCoordZ := false,
     MaybePhysGhost := false, HasExtraSpace := true,
     Data := List.replicate (n * 2 + CRCSize) 0 }]

/-- Rank `r` of the generator's 2 x 2 x 2 Cartesian communicator, with 1000 rows. -/
def genWriter (r : Nat) : Writer :=
  { Coords := [r / 4, r / 2 % 2, r % 2], Rank := r, NElems := 1000, Vars := genVars 1000 }

/-- The eight writers of the scenario, in rank order. -/
def genWriters : List Writer := (List.range 8).map genWriter

/-! ## `readNRanks` and `readTotalNumElems` -/

/-- `readNRanks<IsBigEndian>()` (lines 1487-1495): `RankMap.size()` when the rank map is
not empty, `(int) GH->NRanks` otherwise. -/
def readNRanksT (IsBigEndian hostBE : Bool) (hdr : List Byte) (RankMap : List Int) : Int :=
  if RankMap.length ≠ 0 then toInt RankMap.length
  else toInt (field IsBigEndian hostBE hdr offNRanks)

/-- `readTotalNumElems<IsBigEndian>()` (lines 1517-1525): `(uint64_t) -1` when the rank map
is not empty, `GH->NElems` otherwise. -/
def readTotalNumElemsT (IsBigEndian hostBE : Bool) (hdr : List Byte) (RankMap : List Int) :
    Nat :=
  if RankMap.length ≠ 0 then 2 ^ 64 - 1
  else field IsBigEndian hostBE hdr offNElems

/-! ## `getVariableInfo` -/

/-- The fields of `VariableInfo` as `getVariableInfo` fills them (lines 1754-1756). -/
structure VariableInfo where
  Name : List Byte
  Size : Nat
  IsFloat : Bool
  IsSigned : Bool
  IsPhysCoordX : Bool
  IsPhysCoordY : Bool
  IsPhysCoordZ : Bool
  MaybePhysGhost : Bool
  ElementSize : Nat
  deriving DecidableEq

/-- `getVariableInfo<IsBigEndian>` (lines 1731-1758) on a session whose header cache is
`hdr`: one descriptor per variable header of the file, in header order. -/
def getVariableInfoT (IsBigEndian hostBE : Bool) (hdr : List Byte) : List VariableInfo :=
  let fld := field IsBigEndian hostBE hdr
  (List.range (fld offNVars)).map (fun j =>
    let VH := u64 (fld offVarsStart + j * fld offVarsSize)
    let VName := cstr (slice hdr VH NameSize)
    let ElementSize :=
      if offVHElementSize < fld offVarsSize then fld (VH + offVHElementSize)
      else fld (VH + offVHSize)
    let Flags := fld (VH + offVHFlags)
    { Name := VName, Size := fld (VH + offVHSize),
      IsFloat := (Flags &&& FloatValue) != 0,
      IsSigned := (Flags &&& SignedValue) != 0,
      IsPhysCoordX := (Flags &&& ValueIsPhysCoordX) != 0,
      IsPhysCoordY := (Flags &&& ValueIsPhysCoordY) != 0,
      IsPhysCoordZ := (Flags &&& ValueIsPhysCoordZ) != 0,
      MaybePhysGhost := (Flags &&& ValueMaybePhysGhost) != 0,
      ElementSize := ElementSize })

/-- The descriptor of a registered variable: what the caller passed to `addVariable`. -/
def registeredInfo (V : Variable) : VariableInfo :=
  { Name := V.Name, Size := V.Size, IsFloat := V.IsFloat, IsSigned := V.IsSigned,
    IsPhysCoordX := V.IsPhysCoordX, IsPhysCoordY := V.IsPhysCoordY,
    IsPhysCoordZ := V.IsPhysCoordZ, MaybePhysGhost := V.MaybePhysGhost,
    ElementSize := V.ElementSize }

/-! ## The octree decision of `write()` -/

/-- Lines 509-548 of `write<IsBigEndian>()`: the value of `hasOctree` after the check
whether an octree can be built.  `hasOctree` and `numOctreeLevels` are the members as
the caller configured them. -/
def octreeCheck (hasOctree : Bool) (Vars : List Variable) (numOctreeLevels : Int) : Bool :=
  if hasOctree then
    let foundx := Vars.any (fun V => V.IsPhysCoordX)
    let foundy := Vars.any (fun V => V.IsPhysCoordY)
    let foundz := Vars.any (fun V => V.IsPhysCoordZ)
    let h := ((hasOctree && foundx) && foundy) && foundz
    if numOctreeLevels < 2 then false else h
  else hasOctree

/-- The octree handed to the header assembly (lines 944-951): `octreeData.serialize`
when `hasOctree` holds after the check, nothing otherwise. -/
def octreeOf (hasOctree : Bool) (Vars : List Variable) (numOctreeLevels : Int)
    (serialized : List Byte) : Option (List Byte) :=
  if octreeCheck hasOctree Vars numOctreeLevels then some serialized else none

/-! ## The extents of a writer (lines 477-486 and 573-589), in exact arithmetic -/

/-- The length per rank along one axis: `physicalDims[i] = (PhysScale[i] - PhysOrigin[i]) / Dims[i]`. -/
def physicalDims (PhysOrigin PhysScale : ℚ) (Dims : Int) : ℚ :=
  (PhysScale - PhysOrigin) / Dims

/-- The lower bound `myExtents[i*2] = Coords[i] * physicalDims[i]`. -/
def extentLo (PhysOrigin PhysScale : ℚ) (Dims Coord : Int) : ℚ :=
  Coord * physicalDims PhysOrigin PhysScale Dims

/-- The upper bound `myExtents[i*2 + 1] = myExtents[i*2] + physicalDims[i]`. -/
def extentHi (PhysOrigin PhysScale : ℚ) (Dims Coord : Int) : ℚ :=
  extentLo PhysOrigin PhysScale Dims Coord + physicalDims PhysOrigin PhysScale Dims

/-- The simulation extent along one axis handed to the octree (lines 575-577):
`simExtents[2*i] = PhysOrigin[i]`, `simExtents[2*i + 1] = PhysScale[i]`. -/
def simExtent (PhysOrigin PhysScale : ℚ) : ℚ × ℚ := (PhysOrigin, PhysScale)

/-! ## `GenericFileIO_POSIX::read` -/

/-- The outcome of one `pread` call: it fails with `EINTR`, it fails with another error,
or it transfers bytes.  On a regular file it transfers at least one byte when the offset
lies before the end of the file and `count > 0`, and at most what is left of the file;
`want` bounds a short read (`want + 1` bytes at most). -/
inductive PreadOutcome where
  | eintr
  | failure
  | transfer (want : Nat)
  deriving DecidableEq

/-- The number of bytes `pread(FH, buf, count, offset)` returns when it transfers. -/
def preadCount (fileSize want count offset : Nat) : Nat :=
  min (min (want + 1) count) (fileSize - offset)

/-- The state of the loop of `GenericFileIO_POSIX::read`: the bytes stored so far
through `buf`, `count`, `offset`, and the number of `pread` calls made. -/
structure PosixRead where
  buf : List Byte
  count : Nat
  offset : Nat
  calls : Nat
  deriving DecidableEq

/-- `GenericFileIO_POSIX::read` (lines 203-220) run for at most `fuel` iterations on the
file `file`, where call number `k` of `pread` has the outcome `outcome k`.  The result is
`none` when the loop is still running after `fuel` iterations, the bytes stored when it
has returned, and an error when it has raised. -/
def posixRead (file : List Byte) (outcome : Nat → PreadOutcome) :
    Nat → PosixRead → Option (Except Unit (List Byte))
  | 0, _ => none
  | fuel + 1, s =>
    if s.count = 0 then some (Except.ok s.buf)
    else
      match outcome s.calls with
      | PreadOutcome.eintr => posixRead file outcome fuel { s with calls := s.calls + 1 }
      | PreadOutcome.failure => some (Except.error ())
      | PreadOutcome.transfer want =>
        let scount := preadCount file.length want s.count s.offset
        posixRead file outcome fuel
          { buf := s.buf ++ slice file s.offset scount, count := s.count - scount,
            offset := s.offset + scount, calls := s.calls + 1 }

/-! ## Example inputs for the later theorems -/

/-- A writer whose column `x` holds rows of two one-byte elements (`Size = 2`,
`ElementSize = 1`). -/
def pairWriter : Writer :=
  { Coords := [0, 0, 0], Rank := 0, NElems := 2,
    Vars := [{ exampleVar [1, 2, 3, 4, 0, 0, 0, 0, 0, 0, 0, 0] with ElementSize := 1 }] }

/-- The file written by `pairWriter` on a little-endian host, without block headers. -/
def pairWrite : WriteResult :=
  write lastBytesCRC noBlosc false false false [1, 1, 1] [0, 0, 0] [1, 1, 1] none
    [pairWriter] (fun _ => 0)

/-- A reader of the file of `pairWriter` on a big-endian host, without failing reads. -/
def pairEnv : ReadEnv :=
  { P := lastBytesCRC, Z := noBlosc, hostBE := true, file := pairWrite.file,
    RetryCount := 300, fails := fun _ _ => false }

/-- A reader of the example file on a little-endian host with
`GENERICIO_RETRY_COUNT=-1`. -/
def negativeRetryEnv : ReadEnv :=
  { P := lastBytesCRC, Z := noBlosc, hostBE := false, file := exampleWrite.file,
    RetryCount := -1, fails := fun _ _ => false }

/-- The global header record of an older writer: it ends behind `PhysScale`, so the
record has 152 bytes and `GlobalHeaderSize = 152`; one variable, one rank. -/
def oldGH : GlobalHeader :=
  { Magic := MagicLE ++ [0], HeaderSize := 480, NElems := 0, Dims := [1, 1, 1], NVars := 1,
    VarsSize := 280, VarsStart := 152, NRanks := 1, RanksSize := 48, RanksStart := 432,
    GlobalHeaderSize := 152, PhysOrigin := [0, 0, 0], PhysScale := [0, 0, 0],
    BlocksSize := 0, BlocksStart := 0, OctreeSize := 0, OctreeStart := 0 }

/-- The header of a file of that older format: the 152-byte global header, the header of
a variable whose name has 24 letters `a`, and a rank header. -/
def oldHeaderBody : List Byte :=
  (ghBytes false false oldGH).take 152 ++
  vhBytes false false { Name := List.replicate 24 97, Flags := 1, Size := 4, ElementSize := 4 } ++
  rhBytes false false { Coords := [0, 0, 0], NElems := 0, Start := 488, GlobalRank := 0 }

/-- A file of the older format: the header and its CRC footer. -/
def oldFile : FileData :=
  fun p => (oldHeaderBody ++
    lastBytesCRC.crc64_invert (lastBytesCRC.crc64_omp oldHeaderBody)).getD p 0

/-- A writer that registers one variable whose name has 256 letters `a`. -/
def longNameWriter : Writer :=
  { Coords := [0, 0, 0], Rank := 0, NElems := 0,
    Vars := [{ exampleVar [0, 0, 0, 0, 0, 0, 0, 0] with Name := List.replicate 256 97 }] }

/-! ## Where `readData` finds the block of a variable -/

/-- `Offset` when the scan of `readData` over the variable headers of the file reaches
header `j` (lines 1923-1936): `RH->Start`, advanced by `RH->NElems * VH->Size + CRCSize`
for every header before `j`. -/
def scanOffset (IsBigEndian hostBE : Bool) (hdr : List Byte) (RHNElems RHStart : Nat) :
    Nat → Nat
  | 0 => RHStart
  | j + 1 =>
    u64 (scanOffset IsBigEndian hostBE hdr RHNElems RHStart j +
      u64 (u64 (RHNElems * fileVarSize IsBigEndian hostBE hdr j) + CRCSize))

/-- `ReadSize` of the read for variable `j` of the file (lines 1935 and 1960-1963):
`BH->Size + CRCSize` when the file has block headers, `RH->NElems * VH->Size + CRCSize`
otherwise. -/
def blockReadSize (IsBigEndian hostBE : Bool) (hdr : List Byte) (RankIndex RHNElems j : Nat) :
    Nat :=
  if offBlocksStart < field IsBigEndian hostBE hdr offGlobalHeaderSize ∧
      field IsBigEndian hostBE hdr offBlocksSize > 0 then
    u64 (field IsBigEndian hostBE hdr (fileBH IsBigEndian hostBE hdr RankIndex j + offBHSize) +
      CRCSize)
  else u64 (u64 (RHNElems * fileVarSize IsBigEndian hostBE hdr j) + CRCSize)

/-- `Offset` of the read for variable `j` of the file: `BH->Start` when the file has block
headers, the offset of the scan otherwise. -/
def blockOffset (IsBigEndian hostBE : Bool) (hdr : List Byte)
    (RankIndex RHNElems RHStart j : Nat) : Nat :=
  if offBlocksStart < field IsBigEndian hostBE hdr offGlobalHeaderSize ∧
      field IsBigEndian hostBE hdr offBlocksSize > 0 then
    field IsBigEndian hostBE hdr (fileBH IsBigEndian hostBE hdr RankIndex j + offBHStart)
  else scanOffset IsBigEndian hostBE hdr RHNElems RHStart j

/-- Whether the block of variable `j` is read as a compressed block: the file has block
headers and the first filter of the block header is `"BLOSC"`. -/
def blockCompressed (IsBigEndian hostBE : Bool) (hdr : List Byte) (RankIndex j : Nat) : Bool :=
  decide ((offBlocksStart < field IsBigEndian hostBE hdr offGlobalHeaderSize ∧
      field IsBigEndian hostBE hdr offBlocksSize > 0) ∧
    cstr (fileFilter IsBigEndian hostBE hdr RankIndex j 0) = CompressName)

/-! # Theorems -/

/-! ## Redistribution planner: lemmas -/

theorem planLoop_closed (N q m : Int) (_hm0 : 0 ≤ m) (hmN : m < N) (n : Nat) (hn : (n : Int) < N) :
    planLoop N q m n = (planFirst N q m n, planFirst N q m (n + 1) - 1) := by
  induction n with
  | zero =>
    simp only [planLoop, planFirst]
    have e1 : ((0 : Nat) : Int) * q = 0 := by simp
    have e2 : (((0 + 1 : Nat)) : Int) * q = q := by simp
    rw [e1, e2]
    refine Prod.ext ?_ ?_ <;> simp only [] <;> push_cast <;> omega
  | succ i ih =>
    have hi : (i : Int) < N := by push_cast at hn; omega
    have ih2 := ih hi
    simp only [planLoop, ih2, planFirst]
    have e1 : (((i + 1 : Nat)) : Int) * q = (i : Int) * q + q := by push_cast; ring
    have e2 : (((i + 1 + 1 : Nat)) : Int) * q = (i : Int) * q + q + q := by push_cast; ring
    rw [e1, e2]
    push_cast at hn ⊢
    split_ifs with h
    · refine Prod.ext ?_ ?_ <;> simp only [] <;> omega
    · refine Prod.ext ?_ ?_ <;> simp only [] <;> omega

theorem planFirst_cast (N q m r : Nat) :
    planFirst (N : Int) (q : Int) (m : Int) r = ((planFirstN N q m r : Nat) : Int) := by
  simp only [planFirst, planFirstN]
  push_cast
  omega

theorem planFirstN_step (N q m r : Nat) : planFirstN N q m r + q ≤ planFirstN N q m (r + 1) := by
  simp only [planFirstN]
  have e : (r + 1) * q = r * q + q := by ring
  rw [e]; omega

theorem planFirstN_mono (N q m r : Nat) : planFirstN N q m r ≤ planFirstN N q m (r + 1) :=
  Nat.le_trans (Nat.le_add_right _ _) (planFirstN_step N q m r)

theorem pushRange_cast (a b : Nat) (hab : a ≤ b) :
    pushRange (a : Int) ((b : Int) - 1) = (List.range' a (b - a)).map (fun k : Nat => (k : Int)) := by
  simp only [pushRange]
  have e : ((b : Int) - 1 - (a : Int) + 1).toNat = b - a := by omega
  rw [e, List.range'_eq_map_range, List.map_map]
  apply List.map_congr_left
  intro k _
  simp

theorem tdiv_tmod_cast (NF N : Nat) :
    Int.tdiv (NF : Int) (N : Int) = ((NF / N : Nat) : Int) ∧
    Int.tmod (NF : Int) (N : Int) = ((NF % N : Nat) : Int) :=
  ⟨(Int.ofNat_tdiv NF N).symm, (Int.ofNat_tmod NF N).symm⟩

/-- With at least as many file ranks as readers, reader `r` takes a contiguous range. -/
theorem sourceRanks_range (NF N r : Nat) (hN : 1 ≤ N) (hNF : N ≤ NF) (hr : r < N) :
    sourceRanks (NF : Int) (N : Int) (r : Int) =
      (List.range' (planFirstN N (NF / N) (NF % N) r)
        (planFirstN N (NF / N) (NF % N) (r + 1) - planFirstN N (NF / N) (NF % N) r)).map
        (fun k : Nat => (k : Int)) := by
  have hq : 1 ≤ NF / N := (Nat.one_le_div_iff (by omega)).2 hNF
  have hm : NF % N < N := Nat.mod_lt _ (by omega)
  obtain ⟨e1, e2⟩ := tdiv_tmod_cast NF N
  simp only [sourceRanks, e1, e2]
  have hq0 : ¬ (((NF / N : Nat) : Int) = 0) := by omega
  rw [if_neg hq0, Int.toNat_natCast,
    planLoop_closed (N : Int) _ _ (by omega) (by omega) r (by omega)]
  simp only [planFirst_cast]
  exact pushRange_cast _ _ (planFirstN_mono N (NF / N) (NF % N) r)

/-- With fewer file ranks than readers, the last `NF` readers take one file rank each. -/
theorem sourceRanks_few (NF N r : Nat) (hNF : NF < N) (hr : r < N) :
    sourceRanks (NF : Int) (N : Int) (r : Int) =
      if N - r ≤ NF then [((N - (r + 1) : Nat) : Int)] else [] := by
  obtain ⟨e1, e2⟩ := tdiv_tmod_cast NF N
  simp only [sourceRanks, e1, e2, Nat.div_eq_of_lt hNF, Nat.mod_eq_of_lt hNF]
  simp only [Nat.cast_zero, if_true]
  by_cases h : N - r ≤ NF
  · rw [if_pos h, if_pos (by omega)]
    congr 1; omega
  · rw [if_neg h, if_neg (by omega)]

theorem flatten_sourceRanks_range (NF N : Nat) (hN : 1 ≤ N) (hNF : N ≤ NF) (k : Nat) (hk : k ≤ N) :
    ((List.range k).map (fun r : Nat => sourceRanks (NF : Int) (N : Int) (r : Int))).flatten =
      (List.range (planFirstN N (NF / N) (NF % N) k)).map (fun k : Nat => (k : Int)) := by
  induction k with
  | zero =>
    have hm : NF % N < N := Nat.mod_lt _ (by omega)
    have : planFirstN N (NF / N) (NF % N) 0 = 0 := by simp only [planFirstN]; omega
    simp [this]
  | succ k ih =>
    rw [List.range_succ, List.map_append, List.flatten_append, ih (by omega)]
    simp only [List.map_cons, List.map_nil, List.flatten_cons, List.flatten_nil, List.append_nil]
    rw [sourceRanks_range NF N k hN hNF (by omega), ← List.map_append]
    congr 1
    have hs := planFirstN_mono N (NF / N) (NF % N) k
    rw [List.range_eq_range', List.range_eq_range']
    have := List.range'_append 0 (planFirstN N (NF / N) (NF % N) k)
      (planFirstN N (NF / N) (NF % N) (k + 1) - planFirstN N (NF / N) (NF % N) k) 1
    simp only [Nat.zero_add, Nat.one_mul] at this
    rw [this]
    congr 1; omega

theorem planFirstN_total (NF N : Nat) (_hN : 1 ≤ N) :
    planFirstN N (NF / N) (NF % N) N = NF := by
  simp only [planFirstN]
  have := Nat.div_add_mod NF N
  have : N + NF % N - N = NF % N := by omega
  rw [this]
  have := Nat.div_add_mod NF N
  linarith

theorem flatten_allSourceRanks_range (NF N : Nat) (hN : 1 ≤ N) (hNF : N ≤ NF) :
    (allSourceRanks (NF : Int) (N : Int)).flatten = (List.range NF).map (fun k : Nat => (k : Int)) := by
  simp only [allSourceRanks, Int.toNat_natCast]
  rw [flatten_sourceRanks_range NF N hN hNF N (le_refl _), planFirstN_total NF N hN]

theorem flatten_sourceRanks_few (NF N : Nat) (hNF : NF < N) (k : Nat) (hk : k ≤ N) :
    ((List.range k).map (fun r : Nat => sourceRanks (NF : Int) (N : Int) (r : Int))).flatten =
      ((List.range' (N - k) (k + NF - N)).map (fun k : Nat => (k : Int))).reverse := by
  induction k with
  | zero =>
    have : NF - N = 0 := by omega
    simp [this]
  | succ k ih =>
    rw [List.range_succ, List.map_append, List.flatten_append, ih (by omega)]
    simp only [List.map_cons, List.map_nil, List.flatten_cons, List.flatten_nil, List.append_nil]
    rw [sourceRanks_few NF N k hNF (by omega)]
    by_cases h : N - k ≤ NF
    · rw [if_pos h]
      have e1 : k + 1 + NF - N = (k + NF - N) + 1 := by omega
      have e2 : N - k = (N - (k + 1)) + 1 := by omega
      rw [e1, List.range'_succ, List.map_cons, List.reverse_cons, ← e2]
    · rw [if_neg h]
      have e1 : k + 1 + NF - N = 0 := by omega
      have e2 : k + NF - N = 0 := by omega
      simp [e1, e2]

theorem flatten_allSourceRanks_few (NF N : Nat) (hNF : NF < N) :
    (allSourceRanks (NF : Int) (N : Int)).flatten =
      ((List.range NF).map (fun k : Nat => (k : Int))).reverse := by
  simp only [allSourceRanks, Int.toNat_natCast]
  rw [flatten_sourceRanks_few NF N hNF N (le_refl _)]
  have e1 : N - N = 0 := by omega
  have e2 : N + NF - N = NF := by omega
  rw [e1, e2, List.range_eq_range']

theorem mem_allSourceRanks (NF N : Nat) (l : List Int) :
    l ∈ allSourceRanks (NF : Int) (N : Int) ↔
      ∃ r : Nat, r < N ∧ l = sourceRanks (NF : Int) (N : Int) (r : Int) := by
  simp only [allSourceRanks, Int.toNat_natCast, List.mem_map, List.mem_range]
  constructor
  · rintro ⟨r, hr, rfl⟩; exact ⟨r, hr, rfl⟩
  · rintro ⟨r, hr, rfl⟩; exact ⟨r, hr, rfl⟩

theorem nodup_flatten_allSourceRanks (NF N : Nat) (hN : 1 ≤ N) :
    (allSourceRanks (NF : Int) (N : Int)).flatten.Nodup := by
  have hinj : Function.Injective (fun k : Nat => (k : Int)) := fun a b h => by
    simpa using h
  by_cases h : N ≤ NF
  · rw [flatten_allSourceRanks_range NF N hN h]
    exact (List.nodup_range NF).map hinj
  · rw [flatten_allSourceRanks_few NF N (by omega), List.nodup_reverse]
    exact (List.nodup_range NF).map hinj

theorem mem_flatten_allSourceRanks (NF N : Nat) (hN : 1 ≤ N) (f : Int) :
    f ∈ (allSourceRanks (NF : Int) (N : Int)).flatten ↔ 0 ≤ f ∧ f < (NF : Int) := by
  have key : f ∈ (List.range NF).map (fun k : Nat => (k : Int)) ↔ 0 ≤ f ∧ f < (NF : Int) := by
    simp only [List.mem_map, List.mem_range]
    constructor
    · rintro ⟨k, hk, rfl⟩; omega
    · rintro ⟨h0, h1⟩; exact ⟨f.toNat, by omega, by omega⟩
  by_cases h : N ≤ NF
  · rw [flatten_allSourceRanks_range NF N hN h]; exact key
  · rw [flatten_allSourceRanks_few NF N (by omega), List.mem_reverse]; exact key

/-- C7 (redistribute conservation): for `NFileRanks` file ranks and `NReaders >= 1`
readers, every reader's source-rank list is free of duplicates, the lists of two
different readers are disjoint, the file ranks that occur are exactly
`0, ..., NFileRanks - 1`, and every file rank is assigned to exactly one reader. -/
theorem C7_redistribute_conservation (NFileRanks NReaders : Nat) (hN : 1 ≤ NReaders) :
    (∀ l ∈ allSourceRanks (NFileRanks : Int) (NReaders : Int), l.Nodup) ∧
    List.Pairwise List.Disjoint (allSourceRanks (NFileRanks : Int) (NReaders : Int)) ∧
    (∀ f : Int, f ∈ (allSourceRanks (NFileRanks : Int) (NReaders : Int)).flatten ↔
      0 ≤ f ∧ f < (NFileRanks : Int)) ∧
    (∀ f : Nat, f < NFileRanks → ∃! r : Nat, r < NReaders ∧
      (f : Int) ∈ sourceRanks (NFileRanks : Int) (NReaders : Int) (r : Int)) := by
  have hnd := nodup_flatten_allSourceRanks NFileRanks NReaders hN
  obtain ⟨h1, h2⟩ := List.nodup_flatten.1 hnd
  refine ⟨h1, h2, mem_flatten_allSourceRanks NFileRanks NReaders hN, ?_⟩
  intro f hf
  have hmem := (mem_flatten_allSourceRanks NFileRanks NReaders hN (f : Int)).2 ⟨by omega, by omega⟩
  obtain ⟨l, hl, hfl⟩ := List.mem_flatten.1 hmem
  obtain ⟨r, hr, rfl⟩ := (mem_allSourceRanks NFileRanks NReaders l).1 hl
  refine ⟨r, ⟨hr, hfl⟩, ?_⟩
  rintro r2 ⟨hr2, hf2⟩
  by_contra hne
  have hp : List.Pairwise (fun a b : Nat => List.Disjoint
      (sourceRanks (NFileRanks : Int) (NReaders : Int) (a : Int))
      (sourceRanks (NFileRanks : Int) (NReaders : Int) (b : Int))) (List.range NReaders) := by
    have := h2
    simp only [allSourceRanks, Int.toNat_natCast] at this
    exact List.pairwise_map.1 this
  have hsymm : Symmetric (fun a b : Nat => List.Disjoint
      (sourceRanks (NFileRanks : Int) (NReaders : Int) (a : Int))
      (sourceRanks (NFileRanks : Int) (NReaders : Int) (b : Int))) := fun a b h => h.symm
  have hd := hp.forall hsymm (List.mem_range.2 hr2) (List.mem_range.2 hr) hne
  exact hd hf2 hfl

/-- C8 (near-even redistribution): with `q = NFileRanks / NReaders` and
`m = NFileRanks % NReaders`, reader `Rank` is assigned `q + 1` file ranks when it is one
of the last `m` readers (`NReaders - m <= Rank`) and `q` file ranks otherwise; reader 0
is never assigned more than `q`. -/
theorem C8_near_even (NFileRanks NReaders Rank : Nat) (hN : 1 ≤ NReaders) (hr : Rank < NReaders) :
    (sourceRanks (NFileRanks : Int) (NReaders : Int) (Rank : Int)).length =
      (if NReaders - NFileRanks % NReaders ≤ Rank then NFileRanks / NReaders + 1
        else NFileRanks / NReaders) ∧
    (sourceRanks (NFileRanks : Int) (NReaders : Int) ((0 : Nat) : Int)).length ≤
      NFileRanks / NReaders := by
  have hm : NFileRanks % NReaders < NReaders := Nat.mod_lt _ (by omega)
  have len : ∀ r : Nat, r < NReaders →
      (sourceRanks (NFileRanks : Int) (NReaders : Int) (r : Int)).length =
      (if NReaders - NFileRanks % NReaders ≤ r then NFileRanks / NReaders + 1
        else NFileRanks / NReaders) := by
    intro r hr
    by_cases h : NReaders ≤ NFileRanks
    · rw [sourceRanks_range NFileRanks NReaders r hN h hr, List.length_map, List.length_range']
      simp only [planFirstN]
      generalize NFileRanks / NReaders = q at *
      generalize NFileRanks % NReaders = m at *
      have e : (r + 1) * q = r * q + q := by ring
      rw [e]
      split_ifs <;> omega
    · have hlt : NFileRanks < NReaders := by omega
      rw [sourceRanks_few NFileRanks NReaders r hlt hr, Nat.div_eq_of_lt hlt, Nat.mod_eq_of_lt hlt]
      by_cases h1 : NReaders - r ≤ NFileRanks
      · rw [if_pos h1, if_pos (by omega)]; rfl
      · rw [if_neg h1, if_neg (by omega)]; rfl
  refine ⟨len Rank hr, ?_⟩
  rw [len 0 (by omega), if_neg (by omega)]

theorem C8_near_even_witness :
    (sourceRanks ((8 : Nat) : Int) ((3 : Nat) : Int) ((1 : Nat) : Int)).length =
      (if 3 - 8 % 3 ≤ 1 then 8 / 3 + 1 else 8 / 3) ∧
    (sourceRanks ((8 : Nat) : Int) ((3 : Nat) : Int) ((0 : Nat) : Int)).length ≤ 8 / 3 :=
  C8_near_even 8 3 1 (by decide) (by decide)

theorem C7_redistribute_conservation_witness :
    (∀ l ∈ allSourceRanks ((8 : Nat) : Int) ((3 : Nat) : Int), l.Nodup) ∧
    List.Pairwise List.Disjoint (allSourceRanks ((8 : Nat) : Int) ((3 : Nat) : Int)) ∧
    (∀ f : Int, f ∈ (allSourceRanks ((8 : Nat) : Int) ((3 : Nat) : Int)).flatten ↔
      0 ≤ f ∧ f < ((8 : Nat) : Int)) ∧
    (∀ f : Nat, f < 8 → ∃! r : Nat, r < 3 ∧
      (f : Int) ∈ sourceRanks ((8 : Nat) : Int) ((3 : Nat) : Int) (r : Int)) :=
  C7_redistribute_conservation 8 3 (by decide)

/-- C9, as stated, fails: with 2 file ranks and 3 readers the readers' lists are
`[]`, `[1]`, `[0]`, so their concatenation in reader order is `1, 0`, which is not the
increasing sequence `0, 1`. -/
theorem C9_counterexample :
    allSourceRanks 2 3 = [[], [1], [0]] ∧
    (allSourceRanks 2 3).flatten ≠ [0, 1] := by
  decide

/-- C9 (amended): when there are at least as many file ranks as readers, concatenating
the readers' source-rank lists in reader order gives `0, 1, ..., NFileRanks - 1` in
increasing order; with fewer file ranks than readers the concatenation is that
sequence in decreasing order; for 8 file ranks and 3 readers the lists are
`{0,1}`, `{2,3,4}`, `{5,6,7}`. -/
theorem C9_file_order (NFileRanks NReaders : Nat) (hN : 1 ≤ NReaders) :
    (NReaders ≤ NFileRanks →
      (allSourceRanks (NFileRanks : Int) (NReaders : Int)).flatten =
        (List.range NFileRanks).map (fun k : Nat => (k : Int))) ∧
    (NFileRanks < NReaders →
      (allSourceRanks (NFileRanks : Int) (NReaders : Int)).flatten =
        ((List.range NFileRanks).map (fun k : Nat => (k : Int))).reverse) ∧
    allSourceRanks 8 3 = [[0, 1], [2, 3, 4], [5, 6, 7]] :=
  ⟨fun h => flatten_allSourceRanks_range NFileRanks NReaders hN h,
   fun h => flatten_allSourceRanks_few NFileRanks NReaders h,
   by decide⟩

theorem C9_file_order_witness :
    (3 ≤ 8 →
      (allSourceRanks ((8 : Nat) : Int) ((3 : Nat) : Int)).flatten =
        (List.range 8).map (fun k : Nat => (k : Int))) ∧
    (8 < 3 →
      (allSourceRanks ((8 : Nat) : Int) ((3 : Nat) : Int)).flatten =
        ((List.range 8).map (fun k : Nat => (k : Int))).reverse) ∧
    allSourceRanks 8 3 = [[0, 1], [2, 3, 4], [5, 6, 7]] :=
  C9_file_order 8 3 (by decide)

/-! ## Write side: header size and global element count -/

theorem u64_lt (x : Nat) : u64 x < 2 ^ 64 := Nat.mod_lt _ (by norm_num)

theorem u64_of_lt {x : Nat} (h : x < 2 ^ 64) : u64 x = x := Nat.mod_eq_of_lt h

theorem rankStartsBlocks_spec (BHs : List BlockHeader) (NVars : Nat) (rest : List RankHeader) :
    ∀ (i acc : Nat), acc < 2 ^ 64 →
      (rankStartsBlocks BHs NVars i rest acc).2 = u64 (acc + (rest.map (fun rh => rh.NElems)).sum) ∧
      (rankStartsBlocks BHs NVars i rest acc).1.map (fun rh => rh.NElems) =
        rest.map (fun rh => rh.NElems) := by
  induction rest with
  | nil => intro i acc h; simp [rankStartsBlocks, u64_of_lt h]
  | cons rh rest ih =>
    intro i acc h
    obtain ⟨h1, h2⟩ := ih (i + 1) (u64 (acc + rh.NElems)) (u64_lt _)
    simp only [rankStartsBlocks, h1, h2, List.map_cons, List.sum_cons]
    refine ⟨?_, trivial⟩
    simp only [u64]
    omega

theorem rankStartsPlain_spec (R NVars : Nat) (rest : List RankHeader) :
    ∀ (s n acc : Nat), acc < 2 ^ 64 →
      (rankStartsPlain R NVars s n rest acc).2.1 = u64 (acc + (rest.map (fun rh => rh.NElems)).sum) ∧
      (rankStartsPlain R NVars s n rest acc).1.map (fun rh => rh.NElems) =
        rest.map (fun rh => rh.NElems) := by
  induction rest with
  | nil => intro s n acc h; simp [rankStartsPlain, u64_of_lt h]
  | cons rh rest ih =>
    intro s n acc h
    obtain ⟨h1, h2⟩ := ih (u64 (s + u64 (u64 (n * R) + u64 (CRCSize * NVars)))) rh.NElems
      (u64 (acc + rh.NElems)) (u64_lt _)
    simp only [rankStartsPlain, h1, h2, List.map_cons, List.sum_cons]
    refine ⟨?_, trivial⟩
    simp only [u64]
    omega

/-- C6 (global element count): for a sub-group of at least one writer, with and without
block headers, the `NElems` field of the global header the leader assembles is the sum
modulo `2^64` of the `NElems` fields of the rank headers in the header, and there is one
rank header per writer, holding that writer's element count. -/
theorem C6_global_nelems (P : CRC64) (Z : Blosc)
    (IsBigEndian NeedsBlockHeaders ShouldCompress : Bool)
    (Dims PhysOrigin PhysScale : List Nat) (octree : Option (List Byte))
    (ws : List Writer) (hws : ws ≠ []) :
    (leaderOf P Z IsBigEndian NeedsBlockHeaders ShouldCompress Dims PhysOrigin PhysScale
        octree ws).GH.NElems =
      u64 (((leaderOf P Z IsBigEndian NeedsBlockHeaders ShouldCompress Dims PhysOrigin PhysScale
        octree ws).RHs.map (fun rh => rh.NElems)).sum) ∧
    (leaderOf P Z IsBigEndian NeedsBlockHeaders ShouldCompress Dims PhysOrigin PhysScale
        octree ws).RHs.map (fun rh => rh.NElems) = ws.map (fun w => u64 w.NElems) := by
  cases ws with
  | nil => exact absurd rfl hws
  | cons w0 rest =>
    cases NeedsBlockHeaders with
    | true =>
      simp only [leaderOf, leaderAssemble, List.map_cons, List.head?_cons, Option.map_some',
        Option.getD_some, if_true]
      obtain ⟨h1, h2⟩ := rankStartsBlocks_spec
        (assignBlockStarts (computeHeaderSize w0.Vars.length (RHLocal w0 :: rest.map RHLocal).length
          (octree.getD []).length true)
          ((localBlocks P Z IsBigEndian true ShouldCompress w0).map (fun b => b.BH) ++
            (rest.map (fun w => (localBlocks P Z IsBigEndian true ShouldCompress w).map
              (fun b => b.BH))).flatten)).1
        w0.Vars.length (rest.map RHLocal) 1 (u64 w0.NElems) (u64_lt _)
      simp only [List.flatten_cons, List.length_cons, List.length_map] at h1 h2 ⊢
      rw [h1, h2]
      refine ⟨?_, ?_⟩
      · simp only [List.sum_cons, RHLocal]
      · simp only [List.map_map, RHLocal, Function.comp_def]
    | false =>
      simp only [leaderOf, leaderAssemble, List.map_cons, List.head?_cons, Option.map_some',
        Option.getD_some]
      obtain ⟨h1, h2⟩ := rankStartsPlain_spec (computeRecordSize w0.Vars) w0.Vars.length
        (rest.map RHLocal)
        (computeHeaderSize w0.Vars.length (RHLocal w0 :: rest.map RHLocal).length
          (octree.getD []).length false)
        (RHLocal w0).NElems (u64 w0.NElems) (u64_lt _)
      simp only [List.length_cons, List.length_map] at h1 h2 ⊢
      simp only [Bool.false_eq_true, if_false, List.map_cons]
      rw [h1, h2]
      refine ⟨?_, ?_⟩
      · simp only [List.sum_cons, RHLocal]
      · simp only [List.map_map, RHLocal, Function.comp_def]

theorem C6_global_nelems_witness :
    (leaderOf lastBytesCRC ⟨fun _ _ => none, fun _ _ => []⟩ false false false [2, 1, 1] [] []
        none [⟨[0, 0, 0], 0, 5, []⟩, ⟨[1, 0, 0], 1, 7, []⟩]).GH.NElems =
      u64 (((leaderOf lastBytesCRC ⟨fun _ _ => none, fun _ _ => []⟩ false false false [2, 1, 1]
        [] [] none [⟨[0, 0, 0], 0, 5, []⟩, ⟨[1, 0, 0], 1, 7, []⟩]).RHs.map
          (fun rh => rh.NElems)).sum) ∧
    (leaderOf lastBytesCRC ⟨fun _ _ => none, fun _ _ => []⟩ false false false [2, 1, 1] [] []
        none [⟨[0, 0, 0], 0, 5, []⟩, ⟨[1, 0, 0], 1, 7, []⟩]).RHs.map (fun rh => rh.NElems) =
      [⟨[0, 0, 0], 0, 5, []⟩, ⟨[1, 0, 0], 1, 7, []⟩].map (fun w : Writer => u64 w.NElems) :=
  C6_global_nelems lastBytesCRC ⟨fun _ _ => none, fun _ _ => []⟩ false false false [2, 1, 1] [] []
    none [⟨[0, 0, 0], 0, 5, []⟩, ⟨[1, 0, 0], 1, 7, []⟩] (by simp)

/-- C5 (header size), evaluated at a failing input: with block headers enabled and a
serialized octree of 100 bytes (8 variables, 8 ranks) the leader computes a `HeaderSize`
that counts the octree length twice, 100 bytes more than
`sizeof(GlobalHeader) + NVars*sizeof(VariableHeader) + NRanks*sizeof(RankHeader) +
NRanks*NVars*sizeof(BlockHeader) + OctreeSize + 8`; without block headers, or without an
octree, the same computation gives exactly that sum. -/
theorem C5_header_size_counts_octree_twice :
    computeHeaderSize 8 8 100 true =
      sizeofGlobalHeader + 8 * sizeofVariableHeader + 8 * sizeofRankHeader +
        8 * 8 * sizeofBlockHeader + 100 + 8 + 100 ∧
    computeHeaderSize 8 8 100 true ≠
      sizeofGlobalHeader + 8 * sizeofVariableHeader + 8 * sizeofRankHeader +
        8 * 8 * sizeofBlockHeader + 100 + 8 ∧
    computeHeaderSize 8 8 100 false =
      sizeofGlobalHeader + 8 * sizeofVariableHeader + 8 * sizeofRankHeader + 100 + 8 ∧
    computeHeaderSize 8 8 0 true =
      sizeofGlobalHeader + 8 * sizeofVariableHeader + 8 * sizeofRankHeader +
        8 * 8 * sizeofBlockHeader + 0 + 8 := by
  decide

/-! ## Write side: offsets tile the file -/

theorem Tiles_append : ∀ (l1 l2 : List Block) (a b c : Nat),
    Tiles a l1 b → Tiles b l2 c → Tiles a (l1 ++ l2) c := by
  intro l1
  induction l1 with
  | nil => intro l2 a b c h1 h2; simp only [Tiles] at h1; subst h1; simpa using h2
  | cons x l1 ih =>
    intro l2 a b c h1 h2
    simp only [Tiles, List.cons_append] at h1 ⊢
    exact ⟨h1.1, ih l2 _ b c h1.2 h2⟩

theorem foldl_recordSize (Vars : List Variable) : ∀ acc : Nat,
    Vars.foldl (fun RecordSize V => u64 (RecordSize + u64 V.Size)) acc % 2 ^ 64 =
      (acc + (Vars.map (fun V => V.Size)).sum) % 2 ^ 64 := by
  induction Vars with
  | nil => intro acc; simp
  | cons V Vars ih =>
    intro acc
    simp only [List.foldl_cons, List.map_cons, List.sum_cons]
    rw [ih]
    simp only [u64]
    omega

theorem computeRecordSize_eq (Vars : List Variable) :
    computeRecordSize Vars = (Vars.map (fun V => V.Size)).sum % 2 ^ 64 := by
  have h := foldl_recordSize Vars 0
  simp only [Nat.zero_add] at h
  rw [← h, computeRecordSize]
  cases Vars with
  | nil => simp
  | cons V Vars =>
    symm
    apply Nat.mod_eq_of_lt
    have : ∀ (l : List Variable) (a : Nat), a < 2 ^ 64 →
        l.foldl (fun RecordSize V => u64 (RecordSize + u64 V.Size)) a < 2 ^ 64 := by
      intro l
      induction l with
      | nil => intro a ha; simpa using ha
      | cons x l ihl => intro a _; simp only [List.foldl_cons]; exact ihl _ (u64_lt _)
    simp only [List.foldl_cons]
    exact this _ _ (u64_lt _)

theorem sum_payload (n : Nat) (sizes : List Nat) :
    (sizes.map (fun s => n * s + CRCSize)).sum = n * sizes.sum + CRCSize * sizes.length := by
  induction sizes with
  | nil => simp
  | cons s sizes ih =>
    simp only [List.map_cons, List.sum_cons, List.length_cons, ih]
    ring

theorem writerDataSize_eq (w : Writer) :
    writerDataSize w =
      w.NElems * (w.Vars.map (fun V => V.Size)).sum + CRCSize * w.Vars.length := by
  have h := sum_payload w.NElems (w.Vars.map (fun V => V.Size))
  simp only [List.map_map, List.length_map] at h
  rw [← h, writerDataSize]
  rfl

/-- The leader's `PrevData` is the exact data size of the previous writer when that size
fits in 64 bits. -/
theorem prevData_eq (n R NV : Nat) (hn : n < 2 ^ 64) (h : n * R + CRCSize * NV < 2 ^ 64) :
    u64 (u64 (u64 n * (R % 2 ^ 64)) + u64 (CRCSize * NV)) = n * R + CRCSize * NV := by
  have h1 : n * R < 2 ^ 64 := by omega
  have h2 : CRCSize * NV < 2 ^ 64 := by omega
  have hnR : u64 n * (R % 2 ^ 64) = n * R := by
    rw [u64_of_lt hn]
    rcases Nat.eq_zero_or_pos n with h0 | hpos
    · subst h0; simp
    · have hR : R < 2 ^ 64 := lt_of_le_of_lt (Nat.le_mul_of_pos_left R hpos) h1
      rw [Nat.mod_eq_of_lt hR]
  rw [hnR, u64_of_lt h1, u64_of_lt h2, u64_of_lt h]

theorem bulkLoop_plain_blocks (P : CRC64) (N : Nat) : ∀ (Vars : List Variable)
    (LBs : List LocalBlock) (st : BulkState),
    st.Offset + (Vars.map (fun V => N * V.Size + CRCSize)).sum < 2 ^ 64 →
    ∃ bl, (bulkLoop P false N Vars LBs st).blocks = st.blocks ++ bl ∧
      Tiles st.Offset bl (st.Offset + (Vars.map (fun V => N * V.Size + CRCSize)).sum) := by
  intro Vars
  induction Vars with
  | nil => intro LBs st _; exact ⟨[], by simp [bulkLoop], by simp [Tiles]⟩
  | cons V Vars ih =>
    intro LBs st h
    simp only [List.map_cons, List.sum_cons] at h
    have hW : u64 (N * V.Size) = N * V.Size := u64_of_lt (by omega)
    have hW8 : u64 (N * V.Size + CRCSize) = N * V.Size + CRCSize := u64_of_lt (by omega)
    have hO : u64 (st.Offset + (N * V.Size + CRCSize)) = st.Offset + (N * V.Size + CRCSize) :=
      u64_of_lt (by omega)
    simp only [bulkLoop, Bool.false_eq_true, if_false, hW, hW8, hO]
    obtain ⟨bl, hb, ht⟩ := ih LBs.tail
      { file := (writeBlock P st.file V.Data (N * V.Size) V.HasExtraSpace st.Offset).1,
        Offset := st.Offset + (N * V.Size + CRCSize),
        Data := st.Data ++ [(writeBlock P st.file V.Data (N * V.Size) V.HasExtraSpace
          st.Offset).2],
        blocks := st.blocks ++ [{ Offset := st.Offset, WriteSize := N * V.Size }] }
      (by simp only []; omega)
    refine ⟨{ Offset := st.Offset, WriteSize := N * V.Size } :: bl, ?_, ?_⟩
    · rw [hb]; simp
    · simp only [Tiles, List.map_cons, List.sum_cons, true_and]
      simp only [] at ht
      have e1 : st.Offset + N * V.Size + CRCSize = st.Offset + (N * V.Size + CRCSize) := by omega
      have e2 : st.Offset + (N * V.Size + CRCSize +
          (Vars.map (fun V => N * V.Size + CRCSize)).sum) =
          st.Offset + (N * V.Size + CRCSize) +
            (Vars.map (fun V => N * V.Size + CRCSize)).sum := by omega
      rw [e1, e2]; exact ht

theorem drop_eq_cons {α : Type} (l : List α) (i : Nat) (a : α) (t : List α)
    (h : l.drop i = a :: t) : l[i]? = some a ∧ l.drop (i + 1) = t := by
  constructor
  · have := List.head?_drop l i
    rw [h] at this
    simpa using this.symm
  · have h2 : l.drop (i + 1) = (l.drop i).drop 1 := by
      rw [List.drop_drop]
    rw [h2, h, List.drop_one, List.tail_cons]

theorem rankStartsPlain_chain (sizes : List Nat) : ∀ (ws : List Writer) (s acc : Nat)
    (wprev : Writer),
    wprev.Vars.map (fun V => V.Size) = sizes → wprev.NElems < 2 ^ 64 →
    (∀ w ∈ ws, w.Vars.map (fun V => V.Size) = sizes ∧ w.NElems < 2 ^ 64) →
    s + writerDataSize wprev + (ws.map writerDataSize).sum < 2 ^ 64 →
    StartsFrom (s + writerDataSize wprev)
      (rankStartsPlain (sizes.sum % 2 ^ 64) sizes.length s (u64 wprev.NElems)
        (ws.map RHLocal) acc).1 ws ∧
    u64 ((rankStartsPlain (sizes.sum % 2 ^ 64) sizes.length s (u64 wprev.NElems)
        (ws.map RHLocal) acc).2.2.1 +
      u64 (u64 ((rankStartsPlain (sizes.sum % 2 ^ 64) sizes.length s (u64 wprev.NElems)
        (ws.map RHLocal) acc).2.2.2 * (sizes.sum % 2 ^ 64)) + u64 (CRCSize * sizes.length))) =
      s + writerDataSize wprev + (ws.map writerDataSize).sum := by
  intro ws
  induction ws with
  | nil =>
    intro s acc wprev hs hn _ hfit
    simp only [List.map_nil, List.sum_nil, Nat.add_zero] at hfit
    have hd := writerDataSize_eq wprev
    have hlen : wprev.Vars.length = sizes.length := by rw [← hs, List.length_map]
    rw [hs, hlen] at hd
    have hp := prevData_eq wprev.NElems sizes.sum sizes.length hn (by omega)
    simp only [rankStartsPlain, StartsFrom, List.map_nil, List.sum_nil, Nat.add_zero, true_and]
    rw [hp, hd]
    exact u64_of_lt (by omega)
  | cons w ws ih =>
    intro s acc wprev hs hn hall hfit
    simp only [List.map_cons, List.sum_cons] at hfit
    have hd := writerDataSize_eq wprev
    have hlen : wprev.Vars.length = sizes.length := by rw [← hs, List.length_map]
    rw [hs, hlen] at hd
    have hp := prevData_eq wprev.NElems sizes.sum sizes.length hn (by omega)
    have hw := hall w (List.mem_cons_self _ _)
    have hS : u64 (s + (wprev.NElems * sizes.sum + CRCSize * sizes.length)) =
        s + writerDataSize wprev := by rw [hd]; exact u64_of_lt (by omega)
    obtain ⟨i1, i2⟩ := ih (s + writerDataSize wprev) (u64 (acc + (RHLocal w).NElems)) w hw.1 hw.2
      (fun x hx => hall x (List.mem_cons_of_mem _ hx)) (by omega)
    simp only [rankStartsPlain, List.map_cons, hp, hS, StartsFrom, List.sum_cons, true_and]
    refine ⟨i1, i2.trans ?_⟩
    omega

theorem localBlocks_false (P : CRC64) (Z : Blosc) (E SC : Bool) (w : Writer) :
    localBlocks P Z E false SC w = [] := by
  simp [localBlocks]

theorem localBlocks_true_length (P : CRC64) (Z : Blosc) (E SC : Bool) (w : Writer) :
    (localBlocks P Z E true SC w).length = w.Vars.length := by
  simp [localBlocks]

theorem bulkPhase_plain_blocks (P : CRC64) (Z : Blosc) (E SC : Bool) (L : LeaderState)
    (NV : Nat) (file : FileData) (i : Nat) (w : Writer) (rh : RankHeader)
    (hrh : L.RHs[i]? = some rh) (hfit : rh.Start + writerDataSize w < 2 ^ 64) :
    Tiles rh.Start (bulkPhase P Z E false SC L NV file i w).blocks
      (rh.Start + writerDataSize w) := by
  simp only [bulkPhase, hrh, Option.map_some', Option.getD_some]
  obtain ⟨bl, hb, ht⟩ := bulkLoop_plain_blocks P w.NElems w.Vars
    (scatterBlocks ((L.BHs.drop (i * NV)).take NV) (localBlocks P Z E false SC w))
    { file := file, Offset := rh.Start, Data := [], blocks := [] } hfit
  rw [hb]
  simp only [List.nil_append]
  exact ht

theorem bulkLoop_length (P : CRC64) (NB : Bool) (N : Nat) : ∀ (Vars : List Variable)
    (LBs : List LocalBlock) (st : BulkState),
    (bulkLoop P NB N Vars LBs st).blocks.length = st.blocks.length + Vars.length ∧
    (bulkLoop P NB N Vars LBs st).Data.length = st.Data.length + Vars.length := by
  intro Vars
  induction Vars with
  | nil => intro LBs st; simp [bulkLoop]
  | cons V Vars ih =>
    intro LBs st
    simp only [bulkLoop]
    constructor
    · rw [(ih _ _).1]
      simp only [List.length_append, List.length_cons, List.length_nil]
      omega
    · rw [(ih _ _).2]
      simp only [List.length_append, List.length_cons, List.length_nil]
      omega

theorem bulkAll_lengths (P : CRC64) (Z : Blosc) (E NB SC : Bool) (L : LeaderState) (NV : Nat) :
    ∀ (ws : List Writer) (i : Nat) (file : FileData),
    (bulkAll P Z E NB SC L NV i ws file).2.2.map List.length =
      ws.map (fun w => w.Vars.length) ∧
    (bulkAll P Z E NB SC L NV i ws file).2.1.map List.length =
      ws.map (fun w => w.Vars.length) := by
  intro ws
  induction ws with
  | nil => intro i file; simp [bulkAll]
  | cons w ws ih =>
    intro i file
    obtain ⟨h1, h2⟩ := ih (i + 1) (bulkPhase P Z E NB SC L NV file i w).file
    simp only [bulkAll, List.map_cons, h1, h2]
    have hl := bulkLoop_length P NB w.NElems w.Vars
      (scatterBlocks ((L.BHs.drop (i * NV)).take NV) (localBlocks P Z E NB SC w))
      { file := file, Offset := (L.RHs[i]?.map (fun rh => rh.Start)).getD 0, Data := [],
        blocks := [] }
    simp only [List.length_nil, Nat.zero_add] at hl
    simp only [bulkPhase, hl.1, hl.2, and_self]

theorem bulkAll_plain_tiles (P : CRC64) (Z : Blosc) (E SC : Bool) (L : LeaderState) (NV : Nat) :
    ∀ (ws : List Writer) (i s : Nat) (file : FileData),
    StartsFrom s (L.RHs.drop i) ws →
    s + (ws.map writerDataSize).sum < 2 ^ 64 →
    Tiles s (bulkAll P Z E false SC L NV i ws file).2.2.flatten
      (s + (ws.map writerDataSize).sum) := by
  intro ws
  induction ws with
  | nil =>
    intro i s file _ _
    simp [bulkAll, Tiles]
  | cons w ws ih =>
    intro i s file hst hfit
    simp only [List.map_cons, List.sum_cons] at hfit ⊢
    cases hd : L.RHs.drop i with
    | nil => rw [hd] at hst; simp [StartsFrom] at hst
    | cons rh rhs =>
      rw [hd] at hst
      simp only [StartsFrom] at hst
      obtain ⟨hget, hdrop⟩ := drop_eq_cons _ _ _ _ hd
      have h1 := bulkPhase_plain_blocks P Z E SC L NV file i w rh hget (by rw [hst.1]; omega)
      have h2 := ih (i + 1) (s + writerDataSize w)
        (bulkPhase P Z E false SC L NV file i w).file (by rw [hdrop]; exact hst.2) (by omega)
      simp only [bulkAll, List.flatten_cons]
      rw [hst.1] at h1
      have e : s + (writerDataSize w + (ws.map writerDataSize).sum) =
          s + writerDataSize w + (ws.map writerDataSize).sum := by omega
      rw [e]
      exact Tiles_append _ _ _ _ _ h1 h2

/-! ### With block headers -/

theorem blockStartsAfter_tiles : ∀ (bhs : List BlockHeader) (ps pz : Nat),
    ps + pz + CRCSize + (bhs.map (fun bh => bh.Size + CRCSize)).sum < 2 ^ 64 →
    Tiles (ps + pz + CRCSize) ((blockStartsAfter ps pz bhs).1.map blockOf)
      (ps + pz + CRCSize + (bhs.map (fun bh => bh.Size + CRCSize)).sum) ∧
    (blockStartsAfter ps pz bhs).2.1 + (blockStartsAfter ps pz bhs).2.2 + CRCSize =
      ps + pz + CRCSize + (bhs.map (fun bh => bh.Size + CRCSize)).sum ∧
    (blockStartsAfter ps pz bhs).1.length = bhs.length := by
  intro bhs
  induction bhs with
  | nil => intro ps pz _; simp [blockStartsAfter, Tiles]
  | cons bh bhs ih =>
    intro ps pz h
    simp only [List.map_cons, List.sum_cons] at h
    have hS : u64 (ps + pz + CRCSize) = ps + pz + CRCSize := u64_of_lt (by omega)
    obtain ⟨i1, i2, i3⟩ := ih (ps + pz + CRCSize) bh.Size (by omega)
    simp only [blockStartsAfter, hS, List.map_cons, Tiles, blockOf, List.sum_cons,
      List.length_cons, true_and]
    have e : ps + pz + CRCSize + (bh.Size + CRCSize + (bhs.map (fun bh => bh.Size + CRCSize)).sum) =
        ps + pz + CRCSize + bh.Size + CRCSize + (bhs.map (fun bh => bh.Size + CRCSize)).sum := by
      omega
    rw [e]
    exact ⟨i1, i2, by rw [i3]⟩

theorem scatterBlocks_BH : ∀ (lbs : List LocalBlock) (sc : List BlockHeader),
    sc.length = lbs.length → (scatterBlocks sc lbs).map (fun lb => lb.BH) = sc := by
  intro lbs
  induction lbs with
  | nil => intro sc h; cases sc with
    | nil => rfl
    | cons a t => simp at h
  | cons lb lbs ih =>
    intro sc h
    cases sc with
    | nil => simp at h
    | cons a t =>
      simp only [List.length_cons, Nat.add_right_cancel_iff] at h
      simp only [scatterBlocks, List.head?_cons, Option.getD_some, List.tail_cons, List.map_cons,
        ih t h]

theorem bulkLoop_blocks_blocks (P : CRC64) (N : Nat) : ∀ (Vars : List Variable)
    (LBs : List LocalBlock) (st : BulkState), LBs.length = Vars.length →
    (bulkLoop P true N Vars LBs st).blocks = st.blocks ++ LBs.map (fun lb => blockOf lb.BH) := by
  intro Vars
  induction Vars with
  | nil =>
    intro LBs st h
    cases LBs with
    | nil => simp [bulkLoop]
    | cons a t => simp at h
  | cons V Vars ih =>
    intro LBs st h
    cases LBs with
    | nil => simp at h
    | cons lb LBs =>
      simp only [List.length_cons, Nat.add_right_cancel_iff] at h
      simp only [bulkLoop, if_true, List.head?_cons, Option.map_some', Option.getD_some,
        List.tail_cons]
      rw [ih LBs _ h]
      simp [blockOf]

theorem bulkAll_blocks_flatten (P : CRC64) (Z : Blosc) (E SC : Bool) (L : LeaderState)
    (NV : Nat) : ∀ (ws : List Writer) (i : Nat) (file : FileData),
    (∀ w ∈ ws, w.Vars.length = NV) → (i + ws.length) * NV ≤ L.BHs.length →
    (bulkAll P Z E true SC L NV i ws file).2.2.flatten =
      ((L.BHs.drop (i * NV)).take (ws.length * NV)).map blockOf := by
  intro ws
  induction ws with
  | nil => intro i file _ _; simp [bulkAll]
  | cons w ws ih =>
    intro i file hall hlen
    simp only [List.length_cons] at hlen
    have hw : w.Vars.length = NV := hall w (List.mem_cons_self _ _)
    have e1 : (i + (ws.length + 1)) * NV = i * NV + NV + ws.length * NV := by ring
    have e2 : (i + 1 + ws.length) * NV = i * NV + NV + ws.length * NV := by ring
    have hsc : ((L.BHs.drop (i * NV)).take NV).length =
        (localBlocks P Z E true SC w).length := by
      rw [localBlocks_true_length, hw, List.length_take, List.length_drop]
      omega
    have hl : (scatterBlocks ((L.BHs.drop (i * NV)).take NV)
        (localBlocks P Z E true SC w)).length = w.Vars.length := by
      have := congrArg List.length (scatterBlocks_BH _ _ hsc)
      rw [List.length_map] at this
      rw [this, hsc, localBlocks_true_length]
    have h1 : (bulkPhase P Z E true SC L NV file i w).blocks =
        ((L.BHs.drop (i * NV)).take NV).map blockOf := by
      simp only [bulkPhase]
      rw [bulkLoop_blocks_blocks P w.NElems w.Vars _ _ hl]
      simp only [List.nil_append]
      rw [← scatterBlocks_BH _ _ hsc, List.map_map]
      simp only [scatterBlocks_BH _ _ hsc]
      rfl
    have h2 := ih (i + 1) (bulkPhase P Z E true SC L NV file i w).file
      (fun x hx => hall x (List.mem_cons_of_mem _ hx)) (by omega)
    simp only [bulkAll, List.flatten_cons, h1, h2, List.length_cons]
    rw [← List.map_append]
    congr 1
    have e3 : (ws.length + 1) * NV = NV + ws.length * NV := by ring
    have e4 : (i + 1) * NV = NV + i * NV := by ring
    rw [e3, List.take_add, e4, List.drop_drop, Nat.add_comm NV (i * NV)]

theorem computeHeaderSize_eq (NVars NRanks octreeSize : Nat) (NB : Bool)
    (h : exactHeaderSize NVars NRanks octreeSize NB < 2 ^ 64) :
    computeHeaderSize NVars NRanks octreeSize NB = exactHeaderSize NVars NRanks octreeSize NB := by
  simp only [exactHeaderSize] at h
  simp only [computeHeaderSize, exactHeaderSize]
  cases NB with
  | true =>
    simp only [if_true] at h ⊢
    have h1 : u64 (sizeofGlobalHeader + NVars * sizeofVariableHeader +
        NRanks * sizeofRankHeader + CRCSize + octreeSize) =
        sizeofGlobalHeader + NVars * sizeofVariableHeader +
        NRanks * sizeofRankHeader + CRCSize + octreeSize := u64_of_lt (by omega)
    rw [h1, u64_of_lt (by omega)]
  | false =>
    simp only [Bool.false_eq_true, if_false] at h ⊢
    rw [u64_of_lt (by omega)]
    omega

theorem write_plain_tiles (P : CRC64) (Z : Blosc) (E SC : Bool)
    (Dims PhysOrigin PhysScale : List Nat) (octree : Option (List Byte))
    (w0 : Writer) (rest : List Writer) (file : FileData)
    (hsame : ∀ w ∈ rest, w.Vars.map (fun V => V.Size) = w0.Vars.map (fun V => V.Size))
    (hN : ∀ w ∈ w0 :: rest, w.NElems < 2 ^ 64)
    (hfit : exactFileSize P Z E false SC octree (w0 :: rest) < 2 ^ 64) :
    Tiles (write P Z E false SC Dims PhysOrigin PhysScale octree (w0 :: rest) file).leader.HeaderSize
      (write P Z E false SC Dims PhysOrigin PhysScale octree (w0 :: rest) file).blocks.flatten
      (write P Z E false SC Dims PhysOrigin PhysScale octree (w0 :: rest) file).leader.FileSize ∧
    (write P Z E false SC Dims PhysOrigin PhysScale octree (w0 :: rest) file).leader.HeaderSize =
      exactHeaderSize w0.Vars.length (rest.length + 1) (octree.getD []).length false ∧
    (write P Z E false SC Dims PhysOrigin PhysScale octree (w0 :: rest) file).leader.FileSize =
      exactFileSize P Z E false SC octree (w0 :: rest) ∧
    StartsFrom
      (write P Z E false SC Dims PhysOrigin PhysScale octree (w0 :: rest) file).leader.HeaderSize
      (write P Z E false SC Dims PhysOrigin PhysScale octree (w0 :: rest) file).leader.RHs
      (w0 :: rest) := by
  simp only [exactFileSize, List.head?_cons, Option.map_some', Option.getD_some, List.length_cons,
    Bool.false_eq_true, if_false, List.map_cons, List.sum_cons] at hfit
  have hH := computeHeaderSize_eq w0.Vars.length (rest.length + 1) (octree.getD []).length false
    (by omega)
  have hlen : w0.Vars.length = (w0.Vars.map (fun V => V.Size)).length := by
    rw [List.length_map]
  have hchain := rankStartsPlain_chain (w0.Vars.map (fun V => V.Size)) rest
    (exactHeaderSize w0.Vars.length (rest.length + 1) (octree.getD []).length false)
    (u64 w0.NElems) w0 rfl (hN w0 (List.mem_cons_self _ _))
    (fun w hw => ⟨hsame w hw, hN w (List.mem_cons_of_mem _ hw)⟩) (by omega)
  rw [← computeRecordSize_eq, ← hlen] at hchain
  obtain ⟨c1, c2⟩ := hchain
  have hL : (write P Z E false SC Dims PhysOrigin PhysScale octree (w0 :: rest) file).leader =
      leaderOf P Z E false SC Dims PhysOrigin PhysScale octree (w0 :: rest) := rfl
  have hB : (write P Z E false SC Dims PhysOrigin PhysScale octree (w0 :: rest) file).blocks =
      (bulkAll P Z E false SC
        (leaderOf P Z E false SC Dims PhysOrigin PhysScale octree (w0 :: rest)) w0.Vars.length 0
        (w0 :: rest) (fileWrite file
          (headerBytes P E (leaderOf P Z E false SC Dims PhysOrigin PhysScale octree (w0 :: rest)))
          (leaderOf P Z E false SC Dims PhysOrigin PhysScale octree (w0 :: rest)).HeaderSize
          0)).2.2 := rfl
  have hHS : (leaderOf P Z E false SC Dims PhysOrigin PhysScale octree (w0 :: rest)).HeaderSize =
      exactHeaderSize w0.Vars.length (rest.length + 1) (octree.getD []).length false := by
    simp only [leaderOf, leaderAssemble, List.map_cons, List.head?_cons, Option.map_some',
      Option.getD_some, Bool.false_eq_true, if_false, List.length_cons, List.length_map]
    exact hH
  have hRH : StartsFrom
      (exactHeaderSize w0.Vars.length (rest.length + 1) (octree.getD []).length false)
      (leaderOf P Z E false SC Dims PhysOrigin PhysScale octree (w0 :: rest)).RHs
      (w0 :: rest) := by
    simp only [leaderOf, leaderAssemble, List.map_cons, List.head?_cons, Option.map_some',
      Option.getD_some, Bool.false_eq_true, if_false, List.length_cons, List.length_map,
      StartsFrom, hH, true_and]
    exact c1
  have hFS : (leaderOf P Z E false SC Dims PhysOrigin PhysScale octree (w0 :: rest)).FileSize =
      exactHeaderSize w0.Vars.length (rest.length + 1) (octree.getD []).length false +
        (writerDataSize w0 + (rest.map writerDataSize).sum) := by
    simp only [leaderOf, leaderAssemble, List.map_cons, List.head?_cons, Option.map_some',
      Option.getD_some, Bool.false_eq_true, if_false, List.length_cons, List.length_map, hH]
    rw [← Nat.add_assoc]
    exact c2
  rw [hL, hB, hHS, hFS]
  refine ⟨?_, rfl, ?_, hRH⟩
  · have key := fun f => bulkAll_plain_tiles P Z E SC
      (leaderOf P Z E false SC Dims PhysOrigin PhysScale octree (w0 :: rest)) w0.Vars.length
      (w0 :: rest) 0
      (exactHeaderSize w0.Vars.length (rest.length + 1) (octree.getD []).length false) f
      (by rw [List.drop_zero]; exact hRH)
      (by simp only [List.map_cons, List.sum_cons]; omega)
    simp only [List.map_cons, List.sum_cons] at key
    exact key _
  · simp only [exactFileSize, List.head?_cons, Option.map_some', Option.getD_some,
      List.length_cons, Bool.false_eq_true, if_false, List.map_cons, List.sum_cons]

theorem assignBlockStarts_tiles (bhs : List BlockHeader) (H : Nat) (hne : bhs ≠ [])
    (hfit : H + (bhs.map (fun bh => bh.Size + CRCSize)).sum < 2 ^ 64) :
    Tiles H ((assignBlockStarts H bhs).1.map blockOf)
      (H + (bhs.map (fun bh => bh.Size + CRCSize)).sum) ∧
    (assignBlockStarts H bhs).1.length = bhs.length ∧
    (match (assignBlockStarts H bhs).2 with
      | some last => u64 (last.1 + u64 (last.2 + CRCSize))
      | none => 0) = H + (bhs.map (fun bh => bh.Size + CRCSize)).sum := by
  cases bhs with
  | nil => exact absurd rfl hne
  | cons bh tl =>
    simp only [List.map_cons, List.sum_cons] at hfit ⊢
    obtain ⟨i1, i2, i3⟩ := blockStartsAfter_tiles tl H bh.Size (by omega)
    simp only [assignBlockStarts, List.map_cons, Tiles, blockOf, List.length_cons, true_and]
    have e : H + (bh.Size + CRCSize + (tl.map (fun bh => bh.Size + CRCSize)).sum) =
        H + bh.Size + CRCSize + (tl.map (fun bh => bh.Size + CRCSize)).sum := by omega
    rw [e]
    refine ⟨i1, by rw [i3], ?_⟩
    have hx : u64 ((blockStartsAfter H bh.Size tl).2.2 + CRCSize) =
        (blockStartsAfter H bh.Size tl).2.2 + CRCSize := u64_of_lt (by omega)
    rw [hx, u64_of_lt (by omega)]
    omega

theorem sum_const_length {α : Type} (l : List α) (f : α → Nat) (n : Nat)
    (h : ∀ a ∈ l, f a = n) : (l.map f).sum = l.length * n := by
  induction l with
  | nil => simp
  | cons a l ih =>
    simp only [List.map_cons, List.sum_cons, List.length_cons]
    rw [ih (fun x hx => h x (List.mem_cons_of_mem _ hx)), h a (List.mem_cons_self _ _)]
    ring

theorem gathered_length (P : CRC64) (Z : Blosc) (E SC : Bool) (ws : List Writer) (NV : Nat)
    (h : ∀ w ∈ ws, w.Vars.length = NV) :
    ((ws.map (fun w => (localBlocks P Z E true SC w).map (fun b => b.BH))).flatten).length =
      ws.length * NV := by
  rw [List.length_flatten, List.map_map]
  apply sum_const_length
  intro w hw
  simp only [Function.comp_apply, List.length_map, localBlocks_true_length]
  exact h w hw

theorem gathered_sum (P : CRC64) (Z : Blosc) (E SC : Bool) (ws : List Writer) :
    (((ws.map (fun w => (localBlocks P Z E true SC w).map (fun b => b.BH))).flatten).map
      (fun bh => bh.Size + CRCSize)).sum = (ws.map (writerBlockSize P Z E SC)).sum := by
  rw [List.map_flatten, List.sum_flatten, List.map_map, List.map_map]
  congr 1
  apply List.map_congr_left
  intro w _
  simp only [Function.comp_apply, List.map_map, writerBlockSize]
  rfl

theorem write_blocks_tiles (P : CRC64) (Z : Blosc) (E SC : Bool)
    (Dims PhysOrigin PhysScale : List Nat) (octree : Option (List Byte))
    (w0 : Writer) (rest : List Writer) (file : FileData)
    (hNV : w0.Vars ≠ [])
    (hsame : ∀ w ∈ rest, w.Vars.length = w0.Vars.length)
    (hfit : exactFileSize P Z E true SC octree (w0 :: rest) < 2 ^ 64) :
    Tiles (write P Z E true SC Dims PhysOrigin PhysScale octree (w0 :: rest) file).leader.HeaderSize
      (write P Z E true SC Dims PhysOrigin PhysScale octree (w0 :: rest) file).blocks.flatten
      (write P Z E true SC Dims PhysOrigin PhysScale octree (w0 :: rest) file).leader.FileSize ∧
    (write P Z E true SC Dims PhysOrigin PhysScale octree (w0 :: rest) file).leader.HeaderSize =
      exactHeaderSize w0.Vars.length (rest.length + 1) (octree.getD []).length true ∧
    (write P Z E true SC Dims PhysOrigin PhysScale octree (w0 :: rest) file).leader.FileSize =
      exactFileSize P Z E true SC octree (w0 :: rest) ∧
    (write P Z E true SC Dims PhysOrigin PhysScale octree (w0 :: rest) file).blocks.flatten =
      (write P Z E true SC Dims PhysOrigin PhysScale octree (w0 :: rest) file).leader.BHs.map
        blockOf := by
  have hall : ∀ w ∈ w0 :: rest, w.Vars.length = w0.Vars.length := by
    intro w hw
    rcases List.mem_cons.1 hw with h | h
    · rw [h]
    · exact hsame w h
  have hfit2 := hfit
  simp only [exactFileSize, List.head?_cons, Option.map_some', Option.getD_some, List.length_cons,
    if_true] at hfit2
  have hH := computeHeaderSize_eq w0.Vars.length (rest.length + 1) (octree.getD []).length true
    (by omega)
  have hglen := gathered_length P Z E SC (w0 :: rest) w0.Vars.length hall
  have hgsum := gathered_sum P Z E SC (w0 :: rest)
  have hpos : 0 < w0.Vars.length := List.length_pos.2 hNV
  have hgne : ((w0 :: rest).map (fun w => (localBlocks P Z E true SC w).map
      (fun b => b.BH))).flatten ≠ [] := by
    intro h0
    rw [h0] at hglen
    simp only [List.length_nil, List.length_cons] at hglen
    have : 0 < (rest.length + 1) * w0.Vars.length := Nat.mul_pos (by omega) hpos
    omega
  obtain ⟨a1, a2, a3⟩ := assignBlockStarts_tiles _
    (exactHeaderSize w0.Vars.length (rest.length + 1) (octree.getD []).length true) hgne
    (by rw [hgsum]; exact hfit2)
  have hL : (write P Z E true SC Dims PhysOrigin PhysScale octree (w0 :: rest) file).leader =
      leaderOf P Z E true SC Dims PhysOrigin PhysScale octree (w0 :: rest) := rfl
  have hLdef : leaderOf P Z E true SC Dims PhysOrigin PhysScale octree (w0 :: rest) =
      leaderAssemble E true w0.Vars w0.NElems Dims PhysOrigin PhysScale octree
        (RHLocal w0 :: rest.map RHLocal)
        (((w0 :: rest).map (fun w => (localBlocks P Z E true SC w).map
          (fun b => b.BH))).flatten) := rfl
  have hHS : (leaderOf P Z E true SC Dims PhysOrigin PhysScale octree (w0 :: rest)).HeaderSize =
      exactHeaderSize w0.Vars.length (rest.length + 1) (octree.getD []).length true := by
    rw [hLdef]
    simp only [leaderAssemble, if_true, List.length_cons, List.length_map]
    exact hH
  have hBH : (leaderOf P Z E true SC Dims PhysOrigin PhysScale octree (w0 :: rest)).BHs =
      (assignBlockStarts
        (exactHeaderSize w0.Vars.length (rest.length + 1) (octree.getD []).length true)
        (((w0 :: rest).map (fun w => (localBlocks P Z E true SC w).map
          (fun b => b.BH))).flatten)).1 := by
    rw [hLdef]
    simp only [leaderAssemble, if_true, List.length_cons, List.length_map, hH]
  have hFS : (leaderOf P Z E true SC Dims PhysOrigin PhysScale octree (w0 :: rest)).FileSize =
      exactFileSize P Z E true SC octree (w0 :: rest) := by
    rw [hLdef]
    simp only [leaderAssemble, if_true, List.length_cons, List.length_map, hH]
    rw [a3, hgsum]
    simp only [exactFileSize, List.head?_cons, Option.map_some', Option.getD_some,
      List.length_cons, if_true]
  have hflat : (write P Z E true SC Dims PhysOrigin PhysScale octree (w0 :: rest) file).blocks.flatten =
      (leaderOf P Z E true SC Dims PhysOrigin PhysScale octree (w0 :: rest)).BHs.map blockOf := by
    have hlen : (leaderOf P Z E true SC Dims PhysOrigin PhysScale octree (w0 :: rest)).BHs.length =
        (rest.length + 1) * w0.Vars.length := by
      rw [hBH, a2, hglen, List.length_cons]
    have key := fun f => bulkAll_blocks_flatten P Z E SC
      (leaderOf P Z E true SC Dims PhysOrigin PhysScale octree (w0 :: rest)) w0.Vars.length
      (w0 :: rest) 0 f hall (by rw [hlen, List.length_cons, Nat.zero_add])
    simp only [Nat.zero_mul, List.drop_zero, List.length_cons] at key
    rw [← hlen, List.take_length] at key
    exact key _
  rw [hflat, hL, hHS, hFS]
  refine ⟨?_, rfl, rfl, rfl⟩
  rw [hBH]
  have e : exactFileSize P Z E true SC octree (w0 :: rest) =
      exactHeaderSize w0.Vars.length (rest.length + 1) (octree.getD []).length true +
        ((((w0 :: rest).map (fun w => (localBlocks P Z E true SC w).map
          (fun b => b.BH))).flatten).map (fun bh => bh.Size + CRCSize)).sum := by
    rw [hgsum]
    simp only [exactFileSize, List.head?_cons, Option.map_some', Option.getD_some,
      List.length_cons, if_true]
  rw [e]
  exact a1

/-- C4 (offset monotonicity, tiling): for a sub-group of at least one writer with at least
one variable, whose writers register the same variable sizes, and a file that fits in 64
bits, the blocks written by the bulk phases, taken in (writer, variable) order, are
contiguous: the first starts at `HeaderSize`, each next one starts at the previous start
plus the previous size plus 8, and the last one ends at `FileSize`.  With block headers
the blocks are those of the block headers in the header; without, the rank headers'
`Start` fields are the starts of the writers' first blocks. -/
theorem C4_offsets_tile (P : CRC64) (Z : Blosc) (IsBigEndian NeedsBlockHeaders ShouldCompress : Bool)
    (Dims PhysOrigin PhysScale : List Nat) (octree : Option (List Byte))
    (w0 : Writer) (rest : List Writer) (file : FileData)
    (hNV : w0.Vars ≠ [])
    (hsame : ∀ w ∈ rest, w.Vars.map (fun V => V.Size) = w0.Vars.map (fun V => V.Size))
    (hN : ∀ w ∈ w0 :: rest, w.NElems < 2 ^ 64)
    (hfit : exactFileSize P Z IsBigEndian NeedsBlockHeaders ShouldCompress octree (w0 :: rest) <
      2 ^ 64) :
    (write P Z IsBigEndian NeedsBlockHeaders ShouldCompress Dims PhysOrigin PhysScale octree
        (w0 :: rest) file).blocks.map List.length = (w0 :: rest).map (fun w => w.Vars.length) ∧
    (write P Z IsBigEndian NeedsBlockHeaders ShouldCompress Dims PhysOrigin PhysScale octree
        (w0 :: rest) file).blocks.flatten ≠ [] ∧
    Tiles
      (write P Z IsBigEndian NeedsBlockHeaders ShouldCompress Dims PhysOrigin PhysScale octree
        (w0 :: rest) file).leader.HeaderSize
      (write P Z IsBigEndian NeedsBlockHeaders ShouldCompress Dims PhysOrigin PhysScale octree
        (w0 :: rest) file).blocks.flatten
      (write P Z IsBigEndian NeedsBlockHeaders ShouldCompress Dims PhysOrigin PhysScale octree
        (w0 :: rest) file).leader.FileSize ∧
    (NeedsBlockHeaders = true →
      (write P Z IsBigEndian NeedsBlockHeaders ShouldCompress Dims PhysOrigin PhysScale octree
        (w0 :: rest) file).blocks.flatten =
      (write P Z IsBigEndian NeedsBlockHeaders ShouldCompress Dims PhysOrigin PhysScale octree
        (w0 :: rest) file).leader.BHs.map blockOf) ∧
    (NeedsBlockHeaders = false →
      StartsFrom
        (write P Z IsBigEndian NeedsBlockHeaders ShouldCompress Dims PhysOrigin PhysScale octree
          (w0 :: rest) file).leader.HeaderSize
        (write P Z IsBigEndian NeedsBlockHeaders ShouldCompress Dims PhysOrigin PhysScale octree
          (w0 :: rest) file).leader.RHs (w0 :: rest)) := by
  have hlens : (write P Z IsBigEndian NeedsBlockHeaders ShouldCompress Dims PhysOrigin PhysScale
      octree (w0 :: rest) file).blocks.map List.length =
      (w0 :: rest).map (fun w => w.Vars.length) :=
    (bulkAll_lengths P Z IsBigEndian NeedsBlockHeaders ShouldCompress _ _ (w0 :: rest) 0 _).1
  have hne : (write P Z IsBigEndian NeedsBlockHeaders ShouldCompress Dims PhysOrigin PhysScale
      octree (w0 :: rest) file).blocks.flatten ≠ [] := by
    intro h0
    have h1 := congrArg List.length h0
    rw [List.length_flatten, hlens] at h1
    simp only [List.map_cons, List.sum_cons, List.length_nil] at h1
    have hpos : 0 < w0.Vars.length := List.length_pos.2 hNV
    omega
  refine ⟨hlens, hne, ?_⟩
  cases NeedsBlockHeaders with
  | true =>
    have hlen : ∀ w ∈ rest, w.Vars.length = w0.Vars.length := by
      intro w hw
      have := congrArg List.length (hsame w hw)
      simpa using this
    obtain ⟨t1, _, _, t4⟩ := write_blocks_tiles P Z IsBigEndian ShouldCompress Dims PhysOrigin
      PhysScale octree w0 rest file hNV hlen hfit
    exact ⟨t1, fun _ => t4, fun h => absurd h (by simp)⟩
  | false =>
    obtain ⟨t1, _, _, t4⟩ := write_plain_tiles P Z IsBigEndian ShouldCompress Dims PhysOrigin
      PhysScale octree w0 rest file hsame hN hfit
    exact ⟨t1, fun h => absurd h (by simp), fun _ => t4⟩

theorem C4_offsets_tile_witness :
    (write lastBytesCRC ⟨fun _ _ => none, fun _ _ => []⟩ false false false [2, 1, 1] [0, 0, 0]
        [0, 0, 0] none
        [⟨[0, 0, 0], 0, 1, [⟨[120], 2, 2, false, false, false, false, false, false, false,
          [7, 9]⟩]⟩,
         ⟨[1, 0, 0], 1, 2, [⟨[120], 2, 2, false, false, false, false, false, false, false,
          [1, 2, 3, 4]⟩]⟩]
        (fun _ => 0)).blocks.map List.length =
      [⟨[0, 0, 0], 0, 1, [⟨[120], 2, 2, false, false, false, false, false, false, false,
          [7, 9]⟩]⟩,
       ⟨[1, 0, 0], 1, 2, [⟨[120], 2, 2, false, false, false, false, false, false, false,
          [1, 2, 3, 4]⟩]⟩].map (fun w : Writer => w.Vars.length) ∧
    (write lastBytesCRC ⟨fun _ _ => none, fun _ _ => []⟩ false false false [2, 1, 1] [0, 0, 0]
        [0, 0, 0] none
        [⟨[0, 0, 0], 0, 1, [⟨[120], 2, 2, false, false, false, false, false, false, false,
          [7, 9]⟩]⟩,
         ⟨[1, 0, 0], 1, 2, [⟨[120], 2, 2, false, false, false, false, false, false, false,
          [1, 2, 3, 4]⟩]⟩]
        (fun _ => 0)).blocks.flatten ≠ [] ∧
    Tiles
      (write lastBytesCRC ⟨fun _ _ => none, fun _ _ => []⟩ false false false [2, 1, 1] [0, 0, 0]
        [0, 0, 0] none
        [⟨[0, 0, 0], 0, 1, [⟨[120], 2, 2, false, false, false, false, false, false, false,
          [7, 9]⟩]⟩,
         ⟨[1, 0, 0], 1, 2, [⟨[120], 2, 2, false, false, false, false, false, false, false,
          [1, 2, 3, 4]⟩]⟩]
        (fun _ => 0)).leader.HeaderSize
      (write lastBytesCRC ⟨fun _ _ => none, fun _ _ => []⟩ false false false [2, 1, 1] [0, 0, 0]
        [0, 0, 0] none
        [⟨[0, 0, 0], 0, 1, [⟨[120], 2, 2, false, false, false, false, false, false, false,
          [7, 9]⟩]⟩,
         ⟨[1, 0, 0], 1, 2, [⟨[120], 2, 2, false, false, false, false, false, false, false,
          [1, 2, 3, 4]⟩]⟩]
        (fun _ => 0)).blocks.flatten
      (write lastBytesCRC ⟨fun _ _ => none, fun _ _ => []⟩ false false false [2, 1, 1] [0, 0, 0]
        [0, 0, 0] none
        [⟨[0, 0, 0], 0, 1, [⟨[120], 2, 2, false, false, false, false, false, false, false,
          [7, 9]⟩]⟩,
         ⟨[1, 0, 0], 1, 2, [⟨[120], 2, 2, false, false, false, false, false, false, false,
          [1, 2, 3, 4]⟩]⟩]
        (fun _ => 0)).leader.FileSize :=
  let h := C4_offsets_tile lastBytesCRC ⟨fun _ _ => none, fun _ _ => []⟩ false false false
    [2, 1, 1] [0, 0, 0] [0, 0, 0] none
    ⟨[0, 0, 0], 0, 1, [⟨[120], 2, 2, false, false, false, false, false, false, false, [7, 9]⟩]⟩
    [⟨[1, 0, 0], 1, 2, [⟨[120], 2, 2, false, false, false, false, false, false, false,
      [1, 2, 3, 4]⟩]⟩]
    (fun _ => 0) (by simp) (by decide) (by decide) (by decide)
  ⟨h.1, h.2.1, h.2.2.1⟩

/-! ## File reads and writes -/

theorem fileRead_length (f : FileData) (n off : Nat) : (fileRead f n off).length = n := by
  simp [fileRead]

theorem fileRead_eq (f : FileData) (n off : Nat) (l : List Byte) (hl : l.length = n)
    (h : ∀ k < n, f (off + k) = l.getD k 0) : fileRead f n off = l := by
  apply List.ext_getElem
  · rw [fileRead_length, hl]
  · intro k h1 h2
    rw [fileRead_length] at h1
    simp only [fileRead, List.getElem_map, List.getElem_range]
    rw [h k h1, List.getD_eq_getElem _ _ h2]

theorem fileRead_congr (f g : FileData) (n off : Nat)
    (h : ∀ k < n, f (off + k) = g (off + k)) : fileRead f n off = fileRead g n off := by
  simp only [fileRead]
  apply List.map_congr_left
  intro k hk
  exact h k (List.mem_range.1 hk)

theorem getD_take_of_lt (l : List Byte) (n k : Nat) (h : k < n) :
    (l.take n).getD k 0 = l.getD k 0 := by
  simp only [List.getD_eq_getElem?_getD, List.getElem?_take, if_pos h]

theorem writeBlock_apply (P : CRC64) (hinv : ∀ c, (P.crc64_invert c).length = CRCSize)
    (file : FileData) (Data : List Byte) (W : Nat) (X : Bool) (Offset : Nat)
    (hlen : W + (if X then CRCSize else 0) ≤ Data.length) (hoff : Offset + W < 2 ^ 64)
    (p : Nat) :
    (writeBlock P file Data W X Offset).1 p =
      if Offset ≤ p ∧ p < Offset + (W + CRCSize) then
        (Data.take W ++ P.crc64_invert (P.crc64_omp (Data.take W))).getD (p - Offset) 0
      else file p := by
  have hinv8 : (P.crc64_invert (P.crc64_omp (Data.take W))).take CRCSize =
      P.crc64_invert (P.crc64_omp (Data.take W)) :=
    List.take_of_length_le (by rw [hinv])
  cases X with
  | true =>
    simp only [if_true] at hlen
    have hA : (Data.take W).length = W := List.length_take_of_le (by omega)
    simp only [writeBlock, if_true, hinv8, fileWrite, overwrite]
    by_cases hp : Offset ≤ p ∧ p < Offset + (W + CRCSize)
    · rw [if_pos hp, if_pos hp]
      rw [List.getD_append _ _ _ _ (by rw [List.length_append, hA, hinv]; omega)]
    · rw [if_neg hp, if_neg hp]
  | false =>
    simp only [Bool.false_eq_true, if_false, Nat.add_zero] at hlen
    have hA : (Data.take W).length = W := List.length_take_of_le hlen
    simp only [writeBlock, Bool.false_eq_true, if_false, hinv8, fileWrite, u64_of_lt hoff]
    by_cases h2 : Offset + W ≤ p ∧ p < Offset + W + CRCSize
    · rw [if_pos h2, if_pos (by omega)]
      rw [List.getD_append_right _ _ _ _ (by rw [hA]; omega), hA]
      congr 1; omega
    · rw [if_neg h2]
      by_cases h1 : Offset ≤ p ∧ p < Offset + W
      · rw [if_pos h1, if_pos (by omega)]
        rw [List.getD_append _ _ _ _ (by rw [hA]; omega), getD_take_of_lt _ _ _ (by omega)]
      · rw [if_neg h1, if_neg (by omega)]

/-- C3 (block CRC, equivalence of the two write paths): for a buffer that holds the
`WriteSize` payload bytes (and 8 more when it has extra space), the bytes `write()`
places in the file at `[Offset, Offset + WriteSize + 8)` are the payload followed by
`crc64_invert(crc64_omp(payload))`; the file is the same whether the block is written in
one piece (extra space) or in two (payload, then footer); and under the `crc64_invert`
contract the CRC64 of the block in the file is `0xFFFFFFFFFFFFFFFF`. -/
theorem C3_block_crc (P : CRC64) (hP : P.Contract) (file : FileData) (Data : List Byte)
    (WriteSize Offset : Nat) (HasExtraSpace : Bool)
    (hlen : WriteSize + (if HasExtraSpace then CRCSize else 0) ≤ Data.length)
    (hoff : Offset + WriteSize < 2 ^ 64) :
    fileRead (writeBlock P file Data WriteSize HasExtraSpace Offset).1 (WriteSize + CRCSize)
        Offset =
      Data.take WriteSize ++ P.crc64_invert (P.crc64_omp (Data.take WriteSize)) ∧
    (WriteSize + CRCSize ≤ Data.length →
      (writeBlock P file Data WriteSize true Offset).1 =
        (writeBlock P file Data WriteSize false Offset).1) ∧
    P.crc64_omp (fileRead (writeBlock P file Data WriteSize HasExtraSpace Offset).1
      (WriteSize + CRCSize) Offset) = 2 ^ 64 - 1 := by
  have hW : WriteSize ≤ Data.length := by omega
  have hA : (Data.take WriteSize).length = WriteSize := List.length_take_of_le hW
  have hread : fileRead (writeBlock P file Data WriteSize HasExtraSpace Offset).1
      (WriteSize + CRCSize) Offset =
      Data.take WriteSize ++ P.crc64_invert (P.crc64_omp (Data.take WriteSize)) := by
    apply fileRead_eq
    · rw [List.length_append, hA, hP.1]
    · intro k hk
      rw [writeBlock_apply P hP.1 file Data WriteSize HasExtraSpace Offset hlen hoff,
        if_pos (by omega)]
      congr 1; omega
  refine ⟨hread, ?_, ?_⟩
  · intro hx
    funext p
    rw [writeBlock_apply P hP.1 file Data WriteSize true Offset (by simpa using hx) hoff,
      writeBlock_apply P hP.1 file Data WriteSize false Offset (by simpa using hW) hoff]
  · rw [hread]
    exact hP.2 _

theorem lastBytesCRC_contract : lastBytesCRC.Contract := by
  refine ⟨fun _ => rfl, fun xs => ?_⟩
  simp only [lastBytesCRC, List.reverse_append, List.reverse_replicate]
  rw [List.take_append_of_le_length (by simp)]
  rfl

theorem C3_block_crc_witness :
    fileRead (writeBlock lastBytesCRC (fun _ => 0) [1, 2, 3, 4, 9, 9, 9, 9, 9, 9, 9, 9] 4 true
        100).1 (4 + CRCSize) 100 =
      [1, 2, 3, 4, 9, 9, 9, 9, 9, 9, 9, 9].take 4 ++
        lastBytesCRC.crc64_invert
          (lastBytesCRC.crc64_omp ([1, 2, 3, 4, 9, 9, 9, 9, 9, 9, 9, 9].take 4)) ∧
    (4 + CRCSize ≤ [1, 2, 3, 4, 9, 9, 9, 9, 9, 9, 9, 9].length →
      (writeBlock lastBytesCRC (fun _ => 0) [1, 2, 3, 4, 9, 9, 9, 9, 9, 9, 9, 9] 4 true 100).1 =
        (writeBlock lastBytesCRC (fun _ => 0) [1, 2, 3, 4, 9, 9, 9, 9, 9, 9, 9, 9] 4 false
          100).1) ∧
    lastBytesCRC.crc64_omp (fileRead (writeBlock lastBytesCRC (fun _ => 0)
      [1, 2, 3, 4, 9, 9, 9, 9, 9, 9, 9, 9] 4 true 100).1 (4 + CRCSize) 100) = 2 ^ 64 - 1 :=
  C3_block_crc lastBytesCRC lastBytesCRC_contract (fun _ => 0)
    [1, 2, 3, 4, 9, 9, 9, 9, 9, 9, 9, 9] 4 100 true (by decide) (by decide)

/-! ## Endian-tagged values -/

theorem leBytes_length (n v : Nat) : (leBytes n v).length = n := by
  induction n generalizing v with
  | zero => rfl
  | succ n ih => simp [leBytes, ih]

theorem ofLeBytes_leBytes (n v : Nat) : ofLeBytes (leBytes n v) = v % 256 ^ n := by
  induction n generalizing v with
  | zero => simp [leBytes, ofLeBytes, Nat.mod_one]
  | succ n ih =>
    simp only [leBytes, ofLeBytes, ih]
    rw [pow_succ, Nat.mul_comm (256 ^ n) 256, Nat.mod_mul]

theorem bswap_eight (a b c d e f g h : Byte) :
    bswap [a, b, c, d, e, f, g, h] 8 = [h, g, f, e, d, c, b, a] := rfl

theorem list_of_length_eight (l : List Byte) (hl : l.length = 8) :
    ∃ a b c d e f g h, l = [a, b, c, d, e, f, g, h] := by
  match l, hl with
  | [a, b, c, d, e, f, g, h], _ => exact ⟨a, b, c, d, e, f, g, h, rfl⟩

theorem bswap_eq_reverse (l : List Byte) (hl : l.length = 8) : bswap l 8 = l.reverse := by
  obtain ⟨a, b, c, d, e, f, g, h, rfl⟩ := list_of_length_eight l hl
  rfl

theorem toMem_length (hostBE : Bool) (v : Nat) : (toMem hostBE v).length = 8 := by
  cases hostBE <;> simp [toMem, leBytes_length]

theorem esvAssign_length (E hostBE : Bool) (v : Nat) : (esvAssign E hostBE v).length = 8 := by
  simp only [esvAssign]
  split
  · rw [bswap_eq_reverse _ (toMem_length _ _), List.length_reverse, toMem_length]
  · exact toMem_length _ _

theorem ofMem_toMem (hostBE : Bool) (v : Nat) : ofMem hostBE (toMem hostBE v) = u64 v := by
  have h : (256 : Nat) ^ 8 = 2 ^ 64 := by norm_num
  cases hostBE
  · simp only [ofMem, toMem, Bool.false_eq_true, if_false, ofLeBytes_leBytes, h, u64]
    exact Nat.mod_mod _ _
  · simp only [ofMem, toMem, if_true, List.reverse_reverse, ofLeBytes_leBytes, h, u64]
    exact Nat.mod_mod _ _

/-- A field stored by a writer on a host of the tagged endianness is read back on any
host. -/
theorem esvRead_esvAssign (E hostR : Bool) (v : Nat) :
    esvRead E hostR (esvAssign E E v) = u64 v := by
  have h : (256 : Nat) ^ 8 = 2 ^ 64 := by norm_num
  have hA : esvAssign E E v = toMem E v := by simp [esvAssign]
  rw [hA]
  cases E <;> cases hostR
  · simpa [esvRead] using ofMem_toMem false v
  · simp only [esvRead, bne_iff_ne, ne_eq, Bool.false_eq_true, not_false_eq_true, if_true]
    rw [bswap_eq_reverse _ (toMem_length _ _)]
    simp only [ofMem, toMem, if_true, Bool.false_eq_true, if_false, List.reverse_reverse,
      ofLeBytes_leBytes, h, u64]
    exact Nat.mod_mod _ _
  · simp only [esvRead, bne_iff_ne, ne_eq, Bool.true_eq_false, not_false_eq_true, if_true]
    rw [bswap_eq_reverse _ (toMem_length _ _)]
    simp only [ofMem, toMem, if_true, Bool.false_eq_true, if_false, List.reverse_reverse,
      ofLeBytes_leBytes, h, u64]
    exact Nat.mod_mod _ _
  · simpa [esvRead] using ofMem_toMem true v

/-! ## Slices of concatenations -/

theorem slice_append_left (A B : List Byte) (off n : Nat) (h : off + n ≤ A.length) :
    slice (A ++ B) off n = slice A off n := by
  simp only [slice]
  rw [List.drop_append_of_le_length (by omega), List.take_append_of_le_length]
  rw [List.length_drop]; omega

theorem slice_append_right (A B : List Byte) (off n : Nat) :
    slice (A ++ B) (A.length + off) n = slice B off n := by
  simp only [slice, List.drop_append]

theorem slice_append_right' (A B : List Byte) (a off n : Nat) (h : A.length = a) :
    slice (A ++ B) (a + off) n = slice B off n := by
  subst h; exact slice_append_right A B off n

theorem slice_zero_length (A : List Byte) : slice A 0 A.length = A := by
  simp [slice]

theorem slice_flatten_chunk (s : Nat) : ∀ (chunks : List (List Byte)) (k : Nat) (c : List Byte),
    (∀ x ∈ chunks, x.length = s) → chunks[k]? = some c →
    slice chunks.flatten (k * s) s = c := by
  intro chunks
  induction chunks with
  | nil => intro k c _ h; simp at h
  | cons x chunks ih =>
    intro k c hall h
    have hx : x.length = s := hall x (List.mem_cons_self _ _)
    cases k with
    | zero =>
      simp only [List.getElem?_cons_zero, Option.some.injEq] at h
      subst h
      simp only [List.flatten_cons, Nat.zero_mul]
      rw [slice_append_left _ _ _ _ (by omega), ← hx, slice_zero_length]
    | succ k =>
      simp only [List.getElem?_cons_succ] at h
      simp only [List.flatten_cons]
      have e : (k + 1) * s = x.length + k * s := by rw [hx]; ring
      rw [e, slice_append_right]
      exact ih k c (fun y hy => hall y (List.mem_cons_of_mem _ hy)) h

theorem flatten_length_chunks (s : Nat) (chunks : List (List Byte))
    (h : ∀ x ∈ chunks, x.length = s) : chunks.flatten.length = chunks.length * s := by
  rw [List.length_flatten]
  exact sum_const_length chunks List.length s h

/-! ## The header bytes -/

theorem fileRead_getD (f : FileData) (n off k : Nat) (hk : k < n) :
    (fileRead f n off).getD k 0 = f (off + k) := by
  rw [List.getD_eq_getElem _ _ (by rw [fileRead_length]; exact hk)]
  simp [fileRead]

theorem fileRead_take (f : FileData) (n m off : Nat) (h : m ≤ n) :
    fileRead f m off = (fileRead f n off).take m := by
  apply fileRead_eq
  · rw [List.length_take, fileRead_length]; omega
  · intro k hk
    rw [getD_take_of_lt _ _ _ hk, fileRead_getD _ _ _ _ (by omega)]

theorem fileRead_slice (f : FileData) (n off a m : Nat) (h : a + m ≤ n) :
    fileRead f m (off + a) = slice (fileRead f n off) a m := by
  apply fileRead_eq
  · simp only [slice, List.length_take, List.length_drop, fileRead_length]; omega
  · intro k hk
    simp only [slice]
    rw [getD_take_of_lt _ _ _ hk]
    simp only [List.getD_eq_getElem?_getD, List.getElem?_drop]
    rw [← List.getD_eq_getElem?_getD, fileRead_getD _ _ _ _ (by omega)]
    congr 1; omega

theorem fileRead_fileWrite (f : FileData) (buf : List Byte) (n : Nat) (off : Nat)
    (h : n ≤ buf.length) : fileRead (fileWrite f buf n off) n off = buf.take n := by
  apply fileRead_eq
  · exact List.length_take_of_le h
  · intro k hk
    simp only [fileWrite]
    rw [if_pos (by omega), getD_take_of_lt _ _ _ hk]
    congr 1; omega

theorem ghFields_length (E hostBE : Bool) (GH : GlobalHeader) :
    ∀ x ∈ ghFields E hostBE GH, x.length = 8 := by
  intro x hx
  simp only [ghFields, List.mem_cons, List.mem_singleton, List.not_mem_nil, or_false] at hx
  rcases hx with h | h | h | h | h | h | h | h | h | h | h | h | h | h | h | h | h | h | h | h |
    h | h | h
  all_goals first
    | (rw [h]; exact esvAssign_length _ _ _)
    | (rw [h]; simp [MagicSize])

theorem ghBytes_length (E hostBE : Bool) (GH : GlobalHeader) :
    (ghBytes E hostBE GH).length = sizeofGlobalHeader := by
  rw [ghBytes, flatten_length_chunks 8 _ (ghFields_length E hostBE GH)]
  simp only [ghFields, List.length_cons, List.length_nil, sizeofGlobalHeader, MagicSize]

/-- Reading the `k`-th 8-byte field of a global header. -/
theorem ghBytes_slice (E hostBE : Bool) (GH : GlobalHeader) (k : Nat) (c : List Byte)
    (h : (ghFields E hostBE GH)[k]? = some c) : slice (ghBytes E hostBE GH) (k * 8) 8 = c :=
  slice_flatten_chunk 8 _ k c (ghFields_length E hostBE GH) h

theorem headerRecords_eq (E : Bool) (L : LeaderState) :
    headerRecords E L = ghBytes E E L.GH ++ (L.serializedOctree ++
      ((L.VHs.map (vhBytes E E)).flatten ++
      ((L.RHs.map (rhBytes E E)).flatten ++
      (L.BHs.map (bhBytes E E)).flatten))) := by
  simp [headerRecords, List.append_assoc]

theorem headerBody_length (E : Bool) (L : LeaderState) :
    (headerBody E L).length = L.HeaderSize - CRCSize := by
  simp only [headerBody, List.length_take, List.length_append, List.length_replicate]
  omega

theorem headerBytes_eq (P : CRC64) (hP : P.Contract) (E : Bool) (L : LeaderState) :
    headerBytes P E L =
      headerBody E L ++ P.crc64_invert (P.crc64_omp (headerBody E L)) := by
  simp only [headerBytes]
  rw [List.take_of_length_le (by rw [hP.1])]

theorem headerBytes_length (P : CRC64) (hP : P.Contract) (E : Bool) (L : LeaderState)
    (h : CRCSize ≤ L.HeaderSize) : (headerBytes P E L).length = L.HeaderSize := by
  rw [headerBytes_eq P hP, List.length_append, headerBody_length, hP.1]
  omega

theorem slice_take (l : List Byte) (n off k : Nat) (h : off + k ≤ n) :
    slice (l.take n) off k = slice l off k := by
  simp only [slice]
  rw [List.drop_take, List.take_take]
  congr 1; omega

/-- A slice of the header that lies inside the records reads the records. -/
theorem headerBytes_slice (P : CRC64) (E : Bool) (L : LeaderState) (off k : Nat)
    (h1 : off + k ≤ (headerRecords E L).length) (h2 : off + k ≤ L.HeaderSize - CRCSize) :
    slice (headerBytes P E L) off k = slice (headerRecords E L) off k := by
  simp only [headerBytes]
  rw [slice_append_left _ _ _ _ (by rw [headerBody_length]; exact h2)]
  simp only [headerBody]
  rw [slice_take _ _ _ _ h2, slice_append_left _ _ _ _ h1]

theorem headerRecords_length_ge (E : Bool) (L : LeaderState) :
    sizeofGlobalHeader ≤ (headerRecords E L).length := by
  rw [headerRecords_eq, List.length_append, ghBytes_length]
  omega

theorem headerBytes_slice_gh (P : CRC64) (E : Bool) (L : LeaderState) (off k : Nat)
    (h1 : off + k ≤ sizeofGlobalHeader) (h2 : sizeofGlobalHeader ≤ L.HeaderSize - CRCSize) :
    slice (headerBytes P E L) off k = slice (ghBytes E E L.GH) off k := by
  rw [headerBytes_slice P E L off k (le_trans h1 (headerRecords_length_ge E L)) (by omega),
    headerRecords_eq, slice_append_left _ _ _ _ (by rw [ghBytes_length]; exact h1)]

theorem leaderOf_HeaderSize (P : CRC64) (Z : Blosc) (E NB SC : Bool)
    (Dims PhysOrigin PhysScale : List Nat) (octree : Option (List Byte))
    (w0 : Writer) (rest : List Writer) :
    (leaderOf P Z E NB SC Dims PhysOrigin PhysScale octree (w0 :: rest)).HeaderSize =
      computeHeaderSize w0.Vars.length (rest.length + 1) (octree.getD []).length NB ∧
    (leaderOf P Z E NB SC Dims PhysOrigin PhysScale octree (w0 :: rest)).GH.HeaderSize =
      u64 (computeHeaderSize w0.Vars.length (rest.length + 1) (octree.getD []).length NB +
        2 ^ 64 - CRCSize) ∧
    (leaderOf P Z E NB SC Dims PhysOrigin PhysScale octree (w0 :: rest)).GH.Magic =
      (if E then MagicBE else MagicLE) ++ [0] := by
  cases NB <;> cases E <;>
    simp [leaderOf, leaderAssemble, MagicBE, MagicLE, MagicSize]

theorem exactHeaderSize_ge (NVars NRanks octreeSize : Nat) (NB : Bool) :
    sizeofGlobalHeader + CRCSize ≤ exactHeaderSize NVars NRanks octreeSize NB := by
  simp only [exactHeaderSize]; omega

theorem readHeaderLeader_written (P : CRC64) (hP : P.Contract) (Z : Blosc) (E NB SC : Bool)
    (Dims PhysOrigin PhysScale : List Nat) (octree : Option (List Byte))
    (w0 : Writer) (rest : List Writer) (hostR : Bool)
    (NRanks Rank SplitNRanks : Int) (topoDims : Option (List Int)) (Redistributing : Bool)
    (RankMap : List Int)
    (hfit : exactHeaderSize w0.Vars.length (rest.length + 1) (octree.getD []).length NB < 2 ^ 64)
    (f : FileData)
    (hf : fileRead f (leaderOf P Z E NB SC Dims PhysOrigin PhysScale octree
        (w0 :: rest)).HeaderSize 0 =
      headerBytes P E (leaderOf P Z E NB SC Dims PhysOrigin PhysScale octree (w0 :: rest))) :
    (fileRead f sizeofGlobalHeader 0).take (MagicSize - 1) = (if E then MagicBE else MagicLE) ∧
    readHeaderLeader P hostR E (fileRead f sizeofGlobalHeader 0)
        MismatchBehavior.MismatchAllowed NRanks Rank SplitNRanks topoDims Redistributing
        RankMap f =
      Except.ok
        { HeaderSize := (leaderOf P Z E NB SC Dims PhysOrigin PhysScale octree
            (w0 :: rest)).HeaderSize - CRCSize,
          Header := headerBytes P E
            (leaderOf P Z E NB SC Dims PhysOrigin PhysScale octree (w0 :: rest)),
          SourceRanks := [] } := by
  obtain ⟨hHS, hGHS, hMagic⟩ := leaderOf_HeaderSize P Z E NB SC Dims PhysOrigin PhysScale octree
    w0 rest
  have hH := computeHeaderSize_eq _ _ _ _ hfit
  have hge := exactHeaderSize_ge w0.Vars.length (rest.length + 1) (octree.getD []).length NB
  rw [hH] at hHS hGHS
  generalize hL : leaderOf P Z E NB SC Dims PhysOrigin PhysScale octree (w0 :: rest) = L at *
  generalize hX : exactHeaderSize w0.Vars.length (rest.length + 1) (octree.getD []).length NB =
    X at *
  have h184 : sizeofGlobalHeader = 184 := rfl
  have h8 : CRCSize = 8 := rfl
  have hGH : fileRead f sizeofGlobalHeader 0 = (headerBytes P E L).take sizeofGlobalHeader := by
    rw [fileRead_take f L.HeaderSize sizeofGlobalHeader 0 (by omega), hf]
  have hsl : ∀ off k, off + k ≤ sizeofGlobalHeader →
      slice (fileRead f sizeofGlobalHeader 0) off k = slice (ghBytes E E L.GH) off k := by
    intro off k hk
    rw [hGH, slice_take _ _ _ _ hk, headerBytes_slice_gh P E L off k hk (by omega)]
  have hfield : field E hostR (fileRead f sizeofGlobalHeader 0) offHeaderSize = X - CRCSize := by
    simp only [field]
    rw [hsl offHeaderSize 8 (by simp [offHeaderSize, sizeofGlobalHeader, MagicSize])]
    have := ghBytes_slice E E L.GH 1 (esvAssign E E L.GH.HeaderSize) rfl
    simp only [Nat.one_mul] at this
    rw [show offHeaderSize = 8 from rfl, this, esvRead_esvAssign, hGHS]
    simp only [u64]
    omega
  constructor
  · have h0 := hsl 0 (MagicSize - 1) (by simp [sizeofGlobalHeader, MagicSize])
    simp only [slice, List.drop_zero] at h0
    rw [h0]
    have := ghBytes_slice E E L.GH 0 ((L.GH.Magic ++ List.replicate MagicSize 0).take MagicSize)
      (by simp [ghFields])
    simp only [Nat.zero_mul, slice, List.drop_zero] at this
    have h2 : (ghBytes E E L.GH).take (MagicSize - 1) =
        ((ghBytes E E L.GH).take 8).take (MagicSize - 1) := by
      rw [List.take_take]; rfl
    rw [h2, this, hMagic]
    cases E <;> rfl
  · simp only [readHeaderLeader, hfield]
    have e1 : u64 (X - CRCSize + CRCSize) = L.HeaderSize := by
      rw [hHS, Nat.sub_add_cancel (by omega), u64_of_lt hfit]
    rw [e1, hf]
    have hcrc : P.crc64_omp (headerBytes P E L) = 2 ^ 64 - 1 := by
      rw [headerBytes_eq P hP]; exact hP.2 _
    simp [hcrc, hHS]

/-- C2 (header CRC): for the header the leader of a sub-group assembles (whose size fits
in 64 bits), the header is the `HeaderSize - 8` body bytes, which hold the final field
values, followed by `crc64_invert` of their CRC64; the stored `GlobalHeader.HeaderSize`
plus 8 is the number of header bytes written; under the `crc64_invert` contract the CRC64
of the whole header is `0xFFFFFFFFFFFFFFFF`; and `readHeaderLeader` accepts any file
that holds these bytes at offset 0, such as the file the leader has just written. -/
theorem C2_header_crc (P : CRC64) (hP : P.Contract) (Z : Blosc)
    (IsBigEndian NeedsBlockHeaders ShouldCompress : Bool)
    (Dims PhysOrigin PhysScale : List Nat) (octree : Option (List Byte))
    (w0 : Writer) (rest : List Writer) (hostR : Bool) (file : FileData)
    (hfit : exactHeaderSize w0.Vars.length (rest.length + 1) (octree.getD []).length
      NeedsBlockHeaders < 2 ^ 64) :
    headerBytes P IsBigEndian (leaderOf P Z IsBigEndian NeedsBlockHeaders ShouldCompress Dims
        PhysOrigin PhysScale octree (w0 :: rest)) =
      headerBody IsBigEndian (leaderOf P Z IsBigEndian NeedsBlockHeaders ShouldCompress Dims
        PhysOrigin PhysScale octree (w0 :: rest)) ++
      P.crc64_invert (P.crc64_omp (headerBody IsBigEndian (leaderOf P Z IsBigEndian
        NeedsBlockHeaders ShouldCompress Dims PhysOrigin PhysScale octree (w0 :: rest)))) ∧
    (headerBody IsBigEndian (leaderOf P Z IsBigEndian NeedsBlockHeaders ShouldCompress Dims
        PhysOrigin PhysScale octree (w0 :: rest))).length + CRCSize =
      (leaderOf P Z IsBigEndian NeedsBlockHeaders ShouldCompress Dims PhysOrigin PhysScale
        octree (w0 :: rest)).HeaderSize ∧
    (leaderOf P Z IsBigEndian NeedsBlockHeaders ShouldCompress Dims PhysOrigin PhysScale
        octree (w0 :: rest)).GH.HeaderSize + CRCSize =
      (headerBytes P IsBigEndian (leaderOf P Z IsBigEndian NeedsBlockHeaders ShouldCompress Dims
        PhysOrigin PhysScale octree (w0 :: rest))).length ∧
    (headerBytes P IsBigEndian (leaderOf P Z IsBigEndian NeedsBlockHeaders ShouldCompress Dims
        PhysOrigin PhysScale octree (w0 :: rest))).length =
      (leaderOf P Z IsBigEndian NeedsBlockHeaders ShouldCompress Dims PhysOrigin PhysScale
        octree (w0 :: rest)).HeaderSize ∧
    P.crc64_omp (headerBytes P IsBigEndian (leaderOf P Z IsBigEndian NeedsBlockHeaders
        ShouldCompress Dims PhysOrigin PhysScale octree (w0 :: rest))) = 2 ^ 64 - 1 ∧
    (∀ (f : FileData) (NRanks Rank SplitNRanks : Int) (topoDims : Option (List Int))
        (Redistributing : Bool) (RankMap : List Int),
      (f = fileWrite file (headerBytes P IsBigEndian (leaderOf P Z IsBigEndian NeedsBlockHeaders
          ShouldCompress Dims PhysOrigin PhysScale octree (w0 :: rest)))
          (leaderOf P Z IsBigEndian NeedsBlockHeaders ShouldCompress Dims PhysOrigin PhysScale
            octree (w0 :: rest)).HeaderSize 0 ∨
        fileRead f (leaderOf P Z IsBigEndian NeedsBlockHeaders ShouldCompress Dims PhysOrigin
          PhysScale octree (w0 :: rest)).HeaderSize 0 =
        headerBytes P IsBigEndian (leaderOf P Z IsBigEndian NeedsBlockHeaders ShouldCompress Dims
          PhysOrigin PhysScale octree (w0 :: rest))) →
      readHeaderLeader P hostR IsBigEndian (fileRead f sizeofGlobalHeader 0)
        MismatchBehavior.MismatchAllowed NRanks Rank SplitNRanks topoDims Redistributing
        RankMap f =
      Except.ok
        { HeaderSize := (leaderOf P Z IsBigEndian NeedsBlockHeaders ShouldCompress Dims
            PhysOrigin PhysScale octree (w0 :: rest)).HeaderSize - CRCSize,
          Header := headerBytes P IsBigEndian (leaderOf P Z IsBigEndian NeedsBlockHeaders
            ShouldCompress Dims PhysOrigin PhysScale octree (w0 :: rest)),
          SourceRanks := [] }) := by
  obtain ⟨hHS, hGHS, _⟩ := leaderOf_HeaderSize P Z IsBigEndian NeedsBlockHeaders ShouldCompress
    Dims PhysOrigin PhysScale octree w0 rest
  have hH := computeHeaderSize_eq _ _ _ _ hfit
  have hge := exactHeaderSize_ge w0.Vars.length (rest.length + 1) (octree.getD []).length
    NeedsBlockHeaders
  rw [hH] at hHS hGHS
  have h8 : CRCSize = 8 := rfl
  have hlen := headerBytes_length P hP IsBigEndian (leaderOf P Z IsBigEndian NeedsBlockHeaders
    ShouldCompress Dims PhysOrigin PhysScale octree (w0 :: rest)) (by rw [hHS]; omega)
  refine ⟨headerBytes_eq P hP _ _, ?_, ?_, hlen, ?_, ?_⟩
  · rw [headerBody_length, hHS]; omega
  · rw [hlen, hGHS, hHS]
    simp only [u64]; omega
  · rw [headerBytes_eq P hP]; exact hP.2 _
  · intro f NRanks Rank SplitNRanks topoDims Redistributing RankMap hf
    have hf2 : fileRead f (leaderOf P Z IsBigEndian NeedsBlockHeaders ShouldCompress Dims PhysOrigin
        PhysScale octree (w0 :: rest)).HeaderSize 0 =
        headerBytes P IsBigEndian (leaderOf P Z IsBigEndian NeedsBlockHeaders ShouldCompress Dims
          PhysOrigin PhysScale octree (w0 :: rest)) := by
      rcases hf with h | h
      · rw [h, fileRead_fileWrite _ _ _ _ (by rw [hlen]), ← hlen, List.take_length]
      · exact h
    exact (readHeaderLeader_written P hP Z IsBigEndian NeedsBlockHeaders ShouldCompress Dims
      PhysOrigin PhysScale octree w0 rest hostR NRanks Rank SplitNRanks topoDims Redistributing
      RankMap hfit f hf2).2

theorem C2_header_crc_witness :
    headerBytes lastBytesCRC false (leaderOf lastBytesCRC noBlosc false false false [2, 1, 1]
        [0, 0, 0] [0, 0, 0] none (exampleWriter0 :: [exampleWriter1])) =
      headerBody false (leaderOf lastBytesCRC noBlosc false false false [2, 1, 1]
        [0, 0, 0] [0, 0, 0] none (exampleWriter0 :: [exampleWriter1])) ++
      lastBytesCRC.crc64_invert (lastBytesCRC.crc64_omp (headerBody false (leaderOf lastBytesCRC
        noBlosc false false false [2, 1, 1] [0, 0, 0] [0, 0, 0] none
        (exampleWriter0 :: [exampleWriter1])))) ∧
    lastBytesCRC.crc64_omp (headerBytes lastBytesCRC false (leaderOf lastBytesCRC noBlosc false
        false false [2, 1, 1] [0, 0, 0] [0, 0, 0] none (exampleWriter0 :: [exampleWriter1]))) =
      2 ^ 64 - 1 :=
  let h := C2_header_crc lastBytesCRC lastBytesCRC_contract noBlosc false false false [2, 1, 1]
    [0, 0, 0] [0, 0, 0] none exampleWriter0 [exampleWriter1] false (fun _ => 0) (by decide)
  ⟨h.1, h.2.2.2.2.1⟩

theorem MagicLE_ne_MagicBE : MagicLE ≠ MagicBE := by decide

theorem writeBlock_read (P : CRC64) (hP : P.Contract) (file : FileData) (Data : List Byte)
    (W : Nat) (X : Bool) (Offset : Nat)
    (hlen : W + (if X then CRCSize else 0) ≤ Data.length) (hoff : Offset + W < 2 ^ 64) :
    fileRead (writeBlock P file Data W X Offset).1 (W + CRCSize) Offset =
      Data.take W ++ P.crc64_invert (P.crc64_omp (Data.take W)) := by
  have hW : W ≤ Data.length := by omega
  apply fileRead_eq
  · rw [List.length_append, List.length_take_of_le hW, hP.1]
  · intro k hk
    rw [writeBlock_apply P hP.1 file Data W X Offset hlen hoff, if_pos (by omega)]
    congr 1; omega

theorem bulkLoop_plain_content (P : CRC64) (hP : P.Contract) (N : Nat) :
    ∀ (Vars : List Variable) (LBs : List LocalBlock) (st : BulkState),
    st.Offset + (Vars.map (fun V => N * V.Size + CRCSize)).sum < 2 ^ 64 →
    (∀ V ∈ Vars, N * V.Size + (if V.HasExtraSpace then CRCSize else 0) ≤ V.Data.length) →
    (∀ p, p < st.Offset ∨ st.Offset + (Vars.map (fun V => N * V.Size + CRCSize)).sum ≤ p →
      (bulkLoop P false N Vars LBs st).file p = st.file p) ∧
    (∀ pre V post, Vars = pre ++ V :: post →
      fileRead (bulkLoop P false N Vars LBs st).file (N * V.Size + CRCSize)
          (st.Offset + (pre.map (fun V => N * V.Size + CRCSize)).sum) =
        V.Data.take (N * V.Size) ++ P.crc64_invert (P.crc64_omp (V.Data.take (N * V.Size)))) := by
  intro Vars
  induction Vars with
  | nil =>
    intro LBs st _ _
    refine ⟨fun p _ => rfl, ?_⟩
    intro pre V post h
    simp at h
  | cons V0 Vars ih =>
    intro LBs st hfit hbuf
    simp only [List.map_cons, List.sum_cons] at hfit
    have hW : u64 (N * V0.Size) = N * V0.Size := u64_of_lt (by omega)
    have hW8 : u64 (N * V0.Size + CRCSize) = N * V0.Size + CRCSize := u64_of_lt (by omega)
    have hO : u64 (st.Offset + (N * V0.Size + CRCSize)) = st.Offset + (N * V0.Size + CRCSize) :=
      u64_of_lt (by omega)
    have hb0 := hbuf V0 (List.mem_cons_self _ _)
    have hoff : st.Offset + N * V0.Size < 2 ^ 64 := by omega
    obtain ⟨f1, c1⟩ := ih LBs.tail
      { file := (writeBlock P st.file V0.Data (N * V0.Size) V0.HasExtraSpace st.Offset).1,
        Offset := st.Offset + (N * V0.Size + CRCSize),
        Data := st.Data ++ [(writeBlock P st.file V0.Data (N * V0.Size) V0.HasExtraSpace
          st.Offset).2],
        blocks := st.blocks ++ [{ Offset := st.Offset, WriteSize := N * V0.Size }] }
      (by simp only []; omega) (fun V hV => hbuf V (List.mem_cons_of_mem _ hV))
    simp only [] at f1 c1
    simp only [bulkLoop, Bool.false_eq_true, if_false, hW, hW8, hO, List.map_cons, List.sum_cons]
    constructor
    · intro p hp
      rw [f1 p (by omega),
        writeBlock_apply P hP.1 st.file V0.Data (N * V0.Size) V0.HasExtraSpace st.Offset hb0 hoff,
        if_neg (by omega)]
    · intro pre V post hsplit
      cases pre with
      | nil =>
        simp only [List.nil_append, List.cons.injEq] at hsplit
        obtain ⟨rfl, _⟩ := hsplit
        simp only [List.map_nil, List.sum_nil, Nat.add_zero]
        rw [fileRead_congr _
          (writeBlock P st.file V0.Data (N * V0.Size) V0.HasExtraSpace st.Offset).1 _ _
          (fun k hk => f1 _ (by omega))]
        exact writeBlock_read P hP st.file V0.Data _ _ _ hb0 hoff
      | cons a pre =>
        simp only [List.cons_append, List.cons.injEq] at hsplit
        obtain ⟨rfl, hrest⟩ := hsplit
        have := c1 pre V post hrest
        simp only [List.map_cons, List.sum_cons]
        rw [← this]
        congr 1; omega

theorem bulkAll_plain_content (P : CRC64) (hP : P.Contract) (Z : Blosc) (E SC : Bool)
    (L : LeaderState) (NV : Nat) :
    ∀ (ws : List Writer) (i s : Nat) (file : FileData),
    StartsFrom s (L.RHs.drop i) ws →
    s + (ws.map writerDataSize).sum < 2 ^ 64 →
    (∀ w ∈ ws, ∀ V ∈ w.Vars,
      w.NElems * V.Size + (if V.HasExtraSpace then CRCSize else 0) ≤ V.Data.length) →
    (∀ p, p < s ∨ s + (ws.map writerDataSize).sum ≤ p →
      (bulkAll P Z E false SC L NV i ws file).1 p = file p) ∧
    (∀ preW w postW, ws = preW ++ w :: postW → ∀ pre V post, w.Vars = pre ++ V :: post →
      fileRead (bulkAll P Z E false SC L NV i ws file).1 (w.NElems * V.Size + CRCSize)
          (s + (preW.map writerDataSize).sum +
            (pre.map (fun V => w.NElems * V.Size + CRCSize)).sum) =
        V.Data.take (w.NElems * V.Size) ++
          P.crc64_invert (P.crc64_omp (V.Data.take (w.NElems * V.Size)))) := by
  intro ws
  induction ws with
  | nil =>
    intro i s file _ _ _
    refine ⟨fun p _ => rfl, ?_⟩
    intro preW w postW h
    simp at h
  | cons w0 ws ih =>
    intro i s file hst hfit hbuf
    simp only [List.map_cons, List.sum_cons] at hfit
    cases hd : L.RHs.drop i with
    | nil => rw [hd] at hst; simp [StartsFrom] at hst
    | cons rh rhs =>
      rw [hd] at hst
      simp only [StartsFrom] at hst
      obtain ⟨hget, hdrop⟩ := drop_eq_cons _ _ _ _ hd
      have hph : (bulkPhase P Z E false SC L NV file i w0) =
          bulkLoop P false w0.NElems w0.Vars
            (scatterBlocks ((L.BHs.drop (i * NV)).take NV) (localBlocks P Z E false SC w0))
            { file := file, Offset := s, Data := [], blocks := [] } := by
        simp only [bulkPhase, hget, Option.map_some', Option.getD_some, hst.1]
      obtain ⟨f0, c0⟩ := bulkLoop_plain_content P hP w0.NElems w0.Vars
        (scatterBlocks ((L.BHs.drop (i * NV)).take NV) (localBlocks P Z E false SC w0))
        { file := file, Offset := s, Data := [], blocks := [] }
        (by simp only []; unfold writerDataSize at hfit; omega)
        (hbuf w0 (List.mem_cons_self _ _))
      simp only [] at f0 c0
      rw [← hph] at f0 c0
      obtain ⟨f1, c1⟩ := ih (i + 1) (s + writerDataSize w0)
        (bulkPhase P Z E false SC L NV file i w0).file (by rw [hdrop]; exact hst.2) (by omega)
        (fun w hw => hbuf w (List.mem_cons_of_mem _ hw))
      simp only [bulkAll, List.map_cons, List.sum_cons]
      constructor
      · intro p hp
        rw [f1 p (by omega), f0 p (by unfold writerDataSize at hp; omega)]
      · intro preW w postW hsplit pre V post hv
        cases preW with
        | nil =>
          simp only [List.nil_append, List.cons.injEq] at hsplit
          obtain ⟨rfl, _⟩ := hsplit
          simp only [List.map_nil, List.sum_nil, Nat.add_zero]
          have hin : s + (pre.map (fun V => w0.NElems * V.Size + CRCSize)).sum +
              (w0.NElems * V.Size + CRCSize) ≤ s + writerDataSize w0 := by
            unfold writerDataSize
            rw [hv]
            simp only [List.map_append, List.map_cons, List.sum_append, List.sum_cons]
            omega
          rw [fileRead_congr _ (bulkPhase P Z E false SC L NV file i w0).file _ _
            (fun k hk => f1 _ (by omega))]
          exact c0 pre V post hv
        | cons a preW =>
          simp only [List.cons_append, List.cons.injEq] at hsplit
          obtain ⟨rfl, hrest⟩ := hsplit
          have := c1 preW w postW hrest pre V post hv
          simp only [List.map_cons, List.sum_cons]
          rw [← this]
          congr 1; omega

/-! ## Reading fields from the header cache -/

theorem slice_flatten_chunk_sub (s : Nat) : ∀ (chunks : List (List Byte)) (j : Nat)
    (c : List Byte) (o k : Nat),
    (∀ x ∈ chunks, x.length = s) → chunks[j]? = some c → o + k ≤ s →
    slice chunks.flatten (j * s + o) k = slice c o k := by
  intro chunks
  induction chunks with
  | nil => intro j c o k _ h; simp at h
  | cons x chunks ih =>
    intro j c o k hall h hok
    have hx : x.length = s := hall x (List.mem_cons_self _ _)
    cases j with
    | zero =>
      simp only [List.getElem?_cons_zero, Option.some.injEq] at h
      subst h
      simp only [List.flatten_cons, Nat.zero_mul, Nat.zero_add]
      rw [slice_append_left _ _ _ _ (by omega)]
    | succ j =>
      simp only [List.getElem?_cons_succ] at h
      simp only [List.flatten_cons]
      have e : (j + 1) * s + o = x.length + (j * s + o) := by rw [hx]; ring
      rw [e, slice_append_right]
      exact ih j c o k (fun y hy => hall y (List.mem_cons_of_mem _ hy)) h hok

theorem take_pad_length (l : List Byte) (s : Nat) :
    ((l ++ List.replicate s 0).take s).length = s := by
  simp only [List.length_take, List.length_append, List.length_replicate]
  omega

theorem vhBytes_length (E hostBE : Bool) (VH : VariableHeader) :
    (vhBytes E hostBE VH).length = sizeofVariableHeader := by
  simp only [vhBytes, List.length_append, take_pad_length, List.flatten_cons, List.flatten_nil,
    esvAssign_length, List.length_nil]
  rfl

theorem rhBytes_length (E hostBE : Bool) (RH : RankHeader) :
    (rhBytes E hostBE RH).length = sizeofRankHeader := by
  simp only [rhBytes, List.length_append, List.flatten_cons, List.flatten_nil,
    esvAssign_length, List.length_nil]
  rfl

theorem bhBytes_length (E hostBE : Bool) (BH : BlockHeader) :
    (bhBytes E hostBE BH).length = sizeofBlockHeader := by
  simp only [bhBytes, List.length_append, take_pad_length, List.flatten_cons, List.flatten_nil,
    esvAssign_length, List.length_nil]
  rfl

theorem map_flatten_length {α : Type} (f : α → List Byte) (s : Nat) (l : List α)
    (h : ∀ a, (f a).length = s) : ((l.map f).flatten).length = l.length * s := by
  rw [flatten_length_chunks s _ (by
    intro x hx
    obtain ⟨a, _, rfl⟩ := List.mem_map.1 hx
    exact h a), List.length_map]

theorem headerRecords_length (E : Bool) (L : LeaderState) :
    (headerRecords E L).length = sizeofGlobalHeader + L.serializedOctree.length +
      L.VHs.length * sizeofVariableHeader + L.RHs.length * sizeofRankHeader +
      L.BHs.length * sizeofBlockHeader := by
  rw [headerRecords_eq]
  simp only [List.length_append, ghBytes_length,
    map_flatten_length (vhBytes E E) _ L.VHs (vhBytes_length E E),
    map_flatten_length (rhBytes E E) _ L.RHs (rhBytes_length E E),
    map_flatten_length (bhBytes E E) _ L.BHs (bhBytes_length E E)]
  omega

theorem headerBody_slice (E : Bool) (L : LeaderState) (off k : Nat)
    (h1 : off + k ≤ (headerRecords E L).length)
    (h2 : (headerRecords E L).length ≤ L.HeaderSize - CRCSize) :
    slice (headerBody E L) off k = slice (headerRecords E L) off k := by
  simp only [headerBody]
  rw [slice_take _ _ _ _ (by omega), slice_append_left _ _ _ _ h1]

theorem headerRecords_slice_gh (E : Bool) (L : LeaderState) (off k : Nat)
    (h : off + k ≤ sizeofGlobalHeader) :
    slice (headerRecords E L) off k = slice (ghBytes E E L.GH) off k := by
  rw [headerRecords_eq, slice_append_left _ _ _ _ (by rw [ghBytes_length]; exact h)]

theorem headerRecords_slice_vh (E : Bool) (L : LeaderState) (j o k : Nat) (VH : VariableHeader)
    (hj : L.VHs[j]? = some VH) (hok : o + k ≤ sizeofVariableHeader) :
    slice (headerRecords E L)
        (sizeofGlobalHeader + L.serializedOctree.length + j * sizeofVariableHeader + o) k =
      slice (vhBytes E E VH) o k := by
  rw [headerRecords_eq]
  have e : sizeofGlobalHeader + L.serializedOctree.length + j * sizeofVariableHeader + o =
      sizeofGlobalHeader + (L.serializedOctree.length + (j * sizeofVariableHeader + o)) := by
    omega
  have hlen : (L.VHs.map (vhBytes E E)).flatten.length = L.VHs.length * sizeofVariableHeader :=
    map_flatten_length _ _ _ (vhBytes_length E E)
  have hjlt : j < L.VHs.length := by
    rcases Nat.lt_or_ge j L.VHs.length with h | h
    · exact h
    · rw [List.getElem?_eq_none h] at hj; cases hj
  have hmul : (j + 1) * sizeofVariableHeader ≤ L.VHs.length * sizeofVariableHeader :=
    Nat.mul_le_mul_right _ hjlt
  have e2 : (j + 1) * sizeofVariableHeader = j * sizeofVariableHeader + sizeofVariableHeader := by
    ring
  rw [e, slice_append_right' _ _ _ _ _ (ghBytes_length E E L.GH), slice_append_right,
    slice_append_left _ _ _ _ (by rw [hlen]; omega)]
  apply slice_flatten_chunk_sub sizeofVariableHeader _ j _ o k
  · intro x hx
    obtain ⟨a, _, rfl⟩ := List.mem_map.1 hx
    exact vhBytes_length E E a
  · rw [List.getElem?_map, hj]; rfl
  · exact hok

theorem headerRecords_slice_rh (E : Bool) (L : LeaderState) (r o k : Nat) (RH : RankHeader)
    (hr : L.RHs[r]? = some RH) (hok : o + k ≤ sizeofRankHeader) :
    slice (headerRecords E L)
        (sizeofGlobalHeader + L.serializedOctree.length + L.VHs.length * sizeofVariableHeader +
          r * sizeofRankHeader + o) k =
      slice (rhBytes E E RH) o k := by
  rw [headerRecords_eq]
  have e : sizeofGlobalHeader + L.serializedOctree.length +
      L.VHs.length * sizeofVariableHeader + r * sizeofRankHeader + o =
      sizeofGlobalHeader + (L.serializedOctree.length +
        (L.VHs.length * sizeofVariableHeader + (r * sizeofRankHeader + o))) := by
    omega
  have hlenV : (L.VHs.map (vhBytes E E)).flatten.length = L.VHs.length * sizeofVariableHeader :=
    map_flatten_length _ _ _ (vhBytes_length E E)
  have hlen : (L.RHs.map (rhBytes E E)).flatten.length = L.RHs.length * sizeofRankHeader :=
    map_flatten_length _ _ _ (rhBytes_length E E)
  have hrlt : r < L.RHs.length := by
    rcases Nat.lt_or_ge r L.RHs.length with h | h
    · exact h
    · rw [List.getElem?_eq_none h] at hr; cases hr
  have hmul : (r + 1) * sizeofRankHeader ≤ L.RHs.length * sizeofRankHeader :=
    Nat.mul_le_mul_right _ hrlt
  have e2 : (r + 1) * sizeofRankHeader = r * sizeofRankHeader + sizeofRankHeader := by ring
  rw [e, slice_append_right' _ _ _ _ _ (ghBytes_length E E L.GH), slice_append_right,
    slice_append_right' _ _ _ _ _ hlenV,
    slice_append_left _ _ _ _ (by rw [hlen]; omega)]
  apply slice_flatten_chunk_sub sizeofRankHeader _ r _ o k
  · intro x hx
    obtain ⟨a, _, rfl⟩ := List.mem_map.1 hx
    exact rhBytes_length E E a
  · rw [List.getElem?_map, hr]; rfl
  · exact hok

theorem vhBytes_slice_name (E hostBE : Bool) (VH : VariableHeader) :
    slice (vhBytes E hostBE VH) 0 NameSize =
      (VH.Name ++ List.replicate NameSize 0).take NameSize := by
  simp only [vhBytes]
  have hl : ((VH.Name ++ List.replicate NameSize 0).take NameSize).length = NameSize :=
    take_pad_length _ _
  rw [slice_append_left _ _ _ _ (by rw [hl]; omega)]
  have := slice_zero_length ((VH.Name ++ List.replicate NameSize 0).take NameSize)
  rw [hl] at this
  exact this

theorem vhBytes_slice_field (E hostBE : Bool) (VH : VariableHeader) (t : Nat) (c : List Byte)
    (h : [esvAssign E hostBE VH.Flags, esvAssign E hostBE VH.Size,
      esvAssign E hostBE VH.ElementSize][t]? = some c) :
    slice (vhBytes E hostBE VH) (NameSize + t * 8) 8 = c := by
  simp only [vhBytes]
  rw [slice_append_right' _ _ _ _ _ (take_pad_length _ _)]
  apply slice_flatten_chunk 8 _ t c _ h
  intro x hx
  simp only [List.mem_cons, List.mem_singleton, List.not_mem_nil, or_false] at hx
  rcases hx with h | h | h <;> rw [h] <;> exact esvAssign_length _ _ _

theorem rhBytes_slice_field (E hostBE : Bool) (RH : RankHeader) (t : Nat) (c : List Byte)
    (h : [esvAssign E hostBE (RH.Coords.getD 0 0), esvAssign E hostBE (RH.Coords.getD 1 0),
      esvAssign E hostBE (RH.Coords.getD 2 0), esvAssign E hostBE RH.NElems,
      esvAssign E hostBE RH.Start, esvAssign E hostBE RH.GlobalRank][t]? = some c) :
    slice (rhBytes E hostBE RH) (t * 8) 8 = c := by
  simp only [rhBytes]
  apply slice_flatten_chunk 8 _ t c _ h
  intro x hx
  simp only [List.mem_cons, List.mem_singleton, List.not_mem_nil, or_false] at hx
  rcases hx with h | h | h | h | h | h <;> rw [h] <;> exact esvAssign_length _ _ _

theorem cstr_append_zero (name : List Byte) (tail : List Byte) (h : ∀ b ∈ name, b ≠ 0) :
    cstr (name ++ 0 :: tail) = name := by
  induction name with
  | nil => simp [cstr]
  | cons b name ih =>
    have hb : b ≠ 0 := h b (List.mem_cons_self _ _)
    rw [List.cons_append, cstr, if_neg hb, ih (fun x hx => h x (List.mem_cons_of_mem _ hx))]

theorem cstr_VName (name : List Byte) (h : ∀ b ∈ name, b ≠ 0) (hlen : name.length < NameSize) :
    cstr (VName name) = name := by
  simp only [VName]
  rw [List.take_append_eq_append_take, List.take_of_length_le (by omega)]
  have : List.take (NameSize - name.length) (List.replicate NameSize (0 : Byte)) =
      0 :: List.replicate (NameSize - name.length - 1) 0 := by
    rw [List.take_replicate]
    have e : min (NameSize - name.length) NameSize = (NameSize - name.length - 1) + 1 := by
      omega
    rw [e, List.replicate_succ]
  rw [this]
  exact cstr_append_zero name _ h

theorem VName_length (name : List Byte) : (VName name).length = NameSize :=
  take_pad_length _ _

theorem field_gh (E hostR : Bool) (L : LeaderState) (t v : Nat)
    (hrec : (headerRecords E L).length ≤ L.HeaderSize - CRCSize)
    (ht : (ghFields E E L.GH)[t]? = some (esvAssign E E v)) :
    field E hostR (headerBody E L) (t * 8) = u64 v := by
  have hlt : t < (ghFields E E L.GH).length := by
    rcases Nat.lt_or_ge t (ghFields E E L.GH).length with h | h
    · exact h
    · rw [List.getElem?_eq_none h] at ht; cases ht
  have h23 : (ghFields E E L.GH).length = 23 := by
    simp only [ghFields, List.length_cons, List.length_nil]
  have hle : t * 8 + 8 ≤ sizeofGlobalHeader := by
    have : sizeofGlobalHeader = 184 := rfl
    omega
  simp only [field]
  rw [headerBody_slice E L _ _ (le_trans hle (headerRecords_length_ge E L)) hrec,
    headerRecords_slice_gh E L _ _ hle, ghBytes_slice E E L.GH t _ ht, esvRead_esvAssign]

theorem name_vh (E : Bool) (L : LeaderState) (j : Nat) (VH : VariableHeader)
    (hrec : (headerRecords E L).length ≤ L.HeaderSize - CRCSize)
    (hj : L.VHs[j]? = some VH) :
    slice (headerBody E L)
        (sizeofGlobalHeader + L.serializedOctree.length + j * sizeofVariableHeader) NameSize =
      (VH.Name ++ List.replicate NameSize 0).take NameSize := by
  have hjlt : j < L.VHs.length := by
    rcases Nat.lt_or_ge j L.VHs.length with h | h
    · exact h
    · rw [List.getElem?_eq_none h] at hj; cases hj
  have hmul : (j + 1) * sizeofVariableHeader ≤ L.VHs.length * sizeofVariableHeader :=
    Nat.mul_le_mul_right _ hjlt
  have e2 : (j + 1) * sizeofVariableHeader = j * sizeofVariableHeader + sizeofVariableHeader := by
    ring
  have hN : NameSize ≤ sizeofVariableHeader := by decide
  have hl := headerRecords_length E L
  rw [headerBody_slice E L _ _ (by omega) hrec]
  have := headerRecords_slice_vh E L j 0 NameSize VH hj (by omega)
  rw [Nat.add_zero] at this
  rw [this, vhBytes_slice_name]

theorem field_vh (E hostR : Bool) (L : LeaderState) (j : Nat) (VH : VariableHeader) (t v : Nat)
    (hrec : (headerRecords E L).length ≤ L.HeaderSize - CRCSize)
    (hj : L.VHs[j]? = some VH)
    (ht : [esvAssign E E VH.Flags, esvAssign E E VH.Size,
      esvAssign E E VH.ElementSize][t]? = some (esvAssign E E v)) :
    field E hostR (headerBody E L)
        (sizeofGlobalHeader + L.serializedOctree.length + j * sizeofVariableHeader +
          (NameSize + t * 8)) = u64 v := by
  have hjlt : j < L.VHs.length := by
    rcases Nat.lt_or_ge j L.VHs.length with h | h
    · exact h
    · rw [List.getElem?_eq_none h] at hj; cases hj
  have htlt : t < 3 := by
    rcases Nat.lt_or_ge t 3 with h | h
    · exact h
    · rw [List.getElem?_eq_none (by simpa using h)] at ht; cases ht
  have hmul : (j + 1) * sizeofVariableHeader ≤ L.VHs.length * sizeofVariableHeader :=
    Nat.mul_le_mul_right _ hjlt
  have e2 : (j + 1) * sizeofVariableHeader = j * sizeofVariableHeader + sizeofVariableHeader := by
    ring
  have hN : NameSize + 24 = sizeofVariableHeader := by decide
  have hl := headerRecords_length E L
  simp only [field]
  rw [headerBody_slice E L _ _ (by omega) hrec,
    headerRecords_slice_vh E L j (NameSize + t * 8) 8 VH hj (by omega),
    vhBytes_slice_field E E VH t _ ht, esvRead_esvAssign]

theorem field_rh (E hostR : Bool) (L : LeaderState) (r : Nat) (RH : RankHeader) (t v : Nat)
    (hrec : (headerRecords E L).length ≤ L.HeaderSize - CRCSize)
    (hr : L.RHs[r]? = some RH)
    (ht : [esvAssign E E (RH.Coords.getD 0 0), esvAssign E E (RH.Coords.getD 1 0),
      esvAssign E E (RH.Coords.getD 2 0), esvAssign E E RH.NElems,
      esvAssign E E RH.Start, esvAssign E E RH.GlobalRank][t]? = some (esvAssign E E v)) :
    field E hostR (headerBody E L)
        (sizeofGlobalHeader + L.serializedOctree.length + L.VHs.length * sizeofVariableHeader +
          r * sizeofRankHeader + t * 8) = u64 v := by
  have hrlt : r < L.RHs.length := by
    rcases Nat.lt_or_ge r L.RHs.length with h | h
    · exact h
    · rw [List.getElem?_eq_none h] at hr; cases hr
  have htlt : t < 6 := by
    rcases Nat.lt_or_ge t 6 with h | h
    · exact h
    · rw [List.getElem?_eq_none (by simpa using h)] at ht; cases ht
  have hmul : (r + 1) * sizeofRankHeader ≤ L.RHs.length * sizeofRankHeader :=
    Nat.mul_le_mul_right _ hrlt
  have e2 : (r + 1) * sizeofRankHeader = r * sizeofRankHeader + sizeofRankHeader := by ring
  have hN : sizeofRankHeader = 48 := by decide
  have hl := headerRecords_length E L
  simp only [field]
  rw [headerBody_slice E L _ _ (by omega) hrec,
    headerRecords_slice_rh E L r (t * 8) 8 RH hr (by omega),
    rhBytes_slice_field E E RH t _ ht, esvRead_esvAssign]

/-! ## Read side: one variable -/

theorem retryLoop_success (fails : Nat → Bool) : ∀ (n Retry : Nat),
    (∃ k, k < n ∧ fails (Retry + k) = false) →
    (retryLoop fails n Retry).2 = true ∧ (retryLoop fails n Retry).1 < Retry + n := by
  intro n
  induction n with
  | zero => intro Retry ⟨k, hk, _⟩; omega
  | succ n ih =>
    intro Retry ⟨k, hk, hf⟩
    simp only [retryLoop]
    by_cases h0 : fails Retry = true
    · rw [if_pos h0]
      have hk0 : k ≠ 0 := by
        intro h; subst h
        rw [Nat.add_zero, h0] at hf; cases hf
      obtain ⟨i1, i2⟩ := ih (Retry + 1) ⟨k - 1, by omega, by
        have : Retry + 1 + (k - 1) = Retry + k := by omega
        rw [this]; exact hf⟩
      exact ⟨i1, by omega⟩
    · rw [if_neg h0]
      exact ⟨rfl, by simp⟩

theorem VFlags_lt (V : Variable) : VFlags V < 64 := by
  obtain ⟨a, b, c, f, s, x, y, z, g, d, e⟩ := V
  have h : ∀ f s x y z g : Bool, VFlags ⟨[], 0, 0, f, s, x, y, z, g, false, []⟩ < 64 := by decide
  exact h f s x y z g

theorem VFlags_float (V : Variable) : ((VFlags V &&& FloatValue) != 0) = V.IsFloat := by
  obtain ⟨a, b, c, f, s, x, y, z, g, d, e⟩ := V
  have h : ∀ f s x y z g : Bool,
      ((VFlags ⟨[], 0, 0, f, s, x, y, z, g, false, []⟩ &&& FloatValue) != 0) = f := by decide
  exact h f s x y z g

theorem VFlags_signed (V : Variable) : ((VFlags V &&& SignedValue) != 0) = V.IsSigned := by
  obtain ⟨a, b, c, f, s, x, y, z, g, d, e⟩ := V
  have h : ∀ f s x y z g : Bool,
      ((VFlags ⟨[], 0, 0, f, s, x, y, z, g, false, []⟩ &&& SignedValue) != 0) = s := by decide
  exact h f s x y z g

theorem overwrite_zero (v bs : List Byte) : overwrite v 0 bs = bs ++ v.drop bs.length := by
  simp [overwrite]

theorem overwrite_restore (pay inv D : List Byte) (W c : Nat) (hp : pay.length = W)
    (hi : inv.length = c) (hD : W + c ≤ D.length) :
    overwrite ((pay ++ inv) ++ D.drop (W + c)) W (slice D W c) = pay ++ D.drop W := by
  subst hp hi
  have hs : (slice D pay.length inv.length).length = inv.length := by
    simp only [slice, List.length_take, List.length_drop]; omega
  have e1 : ((pay ++ inv) ++ D.drop (pay.length + inv.length)).take pay.length = pay := by
    rw [List.append_assoc, List.take_append_of_le_length (Nat.le_refl _), List.take_length]
  have e2 : ((pay ++ inv) ++ D.drop (pay.length + inv.length)).drop (pay.length + inv.length) =
      D.drop (pay.length + inv.length) := by
    have : (pay ++ inv).length = pay.length + inv.length := List.length_append _ _
    rw [← this, List.drop_left]
  rw [overwrite, hs, e1, e2, List.append_assoc]
  congr 1
  have e3 : D.drop (pay.length + inv.length) = (D.drop pay.length).drop inv.length := by
    rw [List.drop_drop]
  rw [e3, slice, List.take_append_drop]

theorem sum_take_sizes (N : Nat) (a b : List Variable)
    (h : a.map (fun V => V.Size) = b.map (fun V => V.Size)) (i : Nat) :
    ((a.take i).map (fun V => N * V.Size + CRCSize)).sum =
      ((b.take i).map (fun V => N * V.Size + CRCSize)).sum := by
  have e : ∀ l : List Variable, (l.take i).map (fun V => N * V.Size + CRCSize) =
      ((l.map (fun V => V.Size)).take i).map (fun s => N * s + CRCSize) := by
    intro l
    rw [← List.map_take, List.map_map]
    rfl
  rw [e a, e b, h]

theorem getElem?_map_eq {α β : Type} (f : α → β) (a b : List α) (h : a.map f = b.map f) (i : Nat)
    (x y : α) (hx : a[i]? = some x) (hy : b[i]? = some y) : f x = f y := by
  have h1 : (a.map f)[i]? = some (f x) := by rw [List.getElem?_map, hx]; rfl
  have h2 : (b.map f)[i]? = some (f y) := by rw [List.getElem?_map, hy]; rfl
  rw [h] at h1
  rw [h1] at h2
  exact Option.some.inj h2

theorem split_at {α : Type} (l : List α) (i : Nat) (x : α) (h : l[i]? = some x) :
    l = l.take i ++ x :: l.drop (i + 1) := by
  have hlt : i < l.length := by
    rcases Nat.lt_or_ge i l.length with h' | h'
    · exact h'
    · rw [List.getElem?_eq_none h'] at h; cases h
  have hx : l[i] = x := by
    rw [List.getElem?_eq_getElem hlt] at h
    exact Option.some.inj h
  rw [← hx]
  exact (List.take_append_drop i l).symm.trans (by rw [List.drop_eq_getElem_cons hlt])

theorem sum_take_le (N : Nat) (l : List Variable) (i : Nat) (x : Variable)
    (h : l[i]? = some x) :
    ((l.take i).map (fun V => N * V.Size + CRCSize)).sum + (N * x.Size + CRCSize) ≤
      (l.map (fun V => N * V.Size + CRCSize)).sum := by
  have hs := split_at l i x h
  conv_rhs => rw [hs]
  simp only [List.map_append, List.map_cons, List.sum_append, List.sum_cons]
  omega

theorem readFound_ok (env : ReadEnv) (hP : env.P.Contract) 
    (hdr : List Byte) (vars wvars : List Variable) (N S : Nat)
    (ctx : ReadCtx env env.hostBE hdr vars wvars N S) (RankIndex idx i : Nat)
    (RVv V0 Wv : Variable) (hV0 : vars[i]? = some V0) (hW : wvars[i]? = some Wv)
    (hd : descr RVv = descr V0) (hx : RVv.HasExtraSpace = true)
    (hbuf : N * RVv.Size + CRCSize ≤ RVv.Data.length)
    (hretry : ∃ k : Nat, (k : Int) < env.RetryCount ∧ env.fails idx k = false) :
    readFound env env.hostBE hdr 0 RankIndex N idx RVv i
        (S + ((vars.take i).map (fun V => N * V.Size + CRCSize)).sum)
        (N * V0.Size + CRCSize) =
      Except.ok { Data := expectedBuffer N Wv RVv, ReadSize := N * V0.Size + CRCSize,
                  NErrs := (0, 0, 0) } := by
  simp only [descr, Prod.mk.injEq] at hd
  obtain ⟨_, hSize, hES, hF, hSg⟩ := hd
  have hWsz : Wv.Size = V0.Size :=
    getElem?_map_eq (fun V => V.Size) wvars vars ctx.sameSizes i Wv V0 hW hV0
  have hilt : i < vars.length := by
    rcases Nat.lt_or_ge i vars.length with h' | h'
    · exact h'
    · rw [List.getElem?_eq_none h'] at hV0; cases hV0
  have hmul : (i + 1) * sizeofVariableHeader ≤ vars.length * sizeofVariableHeader :=
    Nat.mul_le_mul_right _ hilt
  have e2 : (i + 1) * sizeofVariableHeader = i * sizeofVariableHeader + sizeofVariableHeader := by
    ring
  have hfits := ctx.headerFits
  have hVH : u64 (field env.hostBE env.hostBE hdr offVarsStart + i * field env.hostBE env.hostBE hdr offVarsSize) =
      sizeofGlobalHeader + i * sizeofVariableHeader := by
    rw [ctx.varsStart, ctx.varsSize]
    exact u64_of_lt (by omega)
  have hlt272 : offVHElementSize < field env.hostBE env.hostBE hdr offVarsSize := by
    rw [ctx.varsSize]; decide
  have hnoblk : ¬ (offBlocksStart < field env.hostBE env.hostBE hdr offGlobalHeaderSize ∧
      field env.hostBE env.hostBE hdr offBlocksSize > 0) := by
    rw [ctx.blocksSize]; omega
  -- the retry loop
  obtain ⟨k, hk, hfk⟩ := hretry
  obtain ⟨r2, r1⟩ := retryLoop_success (env.fails idx) env.RetryCount.toNat 0
    ⟨k, by omega, by rw [Nat.zero_add]; exact hfk⟩
  have hr1 : ¬ (((retryLoop (env.fails idx) env.RetryCount.toNat 0).1 : Int) =
      env.RetryCount) := by omega
  -- what the read delivers
  have hcontent := ctx.content (wvars.take i) Wv (wvars.drop (i + 1)) (split_at wvars i Wv hW)
  rw [sum_take_sizes N wvars vars ctx.sameSizes i, hWsz] at hcontent
  have hpl : (fileRead env.file (N * V0.Size + CRCSize)
      (S + ((vars.take i).map (fun V => N * V.Size + CRCSize)).sum)).length =
      N * V0.Size + CRCSize := fileRead_length _ _ _
  have hpay : (Wv.Data.take (N * V0.Size)).length = N * V0.Size := by
    have := hpl
    rw [hcontent, List.length_append, hP.1] at this
    omega
  have hcrc : env.P.crc64_omp (fileRead env.file (N * V0.Size + CRCSize)
      (S + ((vars.take i).map (fun V => N * V.Size + CRCSize)).sum)) = 2 ^ 64 - 1 := by
    rw [hcontent]; exact hP.2 _
  have hsl : slice (fileRead env.file (N * V0.Size + CRCSize)
      (S + ((vars.take i).map (fun V => N * V.Size + CRCSize)).sum) ++
        RVv.Data.drop (N * V0.Size + CRCSize)) 0 (N * V0.Size + CRCSize) =
      fileRead env.file (N * V0.Size + CRCSize)
        (S + ((vars.take i).map (fun V => N * V.Size + CRCSize)).sum) := by
    rw [slice_append_left _ _ _ _ (by rw [hpl]; omega)]
    conv_lhs => rw [← hpl]
    rw [hpl]
    have := slice_zero_length (fileRead env.file (N * V0.Size + CRCSize)
      (S + ((vars.take i).map (fun V => N * V.Size + CRCSize)).sum))
    rw [hpl] at this
    exact this
  have hrestore : overwrite (fileRead env.file (N * V0.Size + CRCSize)
      (S + ((vars.take i).map (fun V => N * V.Size + CRCSize)).sum) ++
        RVv.Data.drop (N * V0.Size + CRCSize)) (N * V0.Size)
      (slice RVv.Data (N * V0.Size) CRCSize) = expectedBuffer N Wv RVv := by
    rw [hSize] at hbuf
    rw [hcontent, expectedBuffer, hWsz]
    exact overwrite_restore _ _ _ _ _ hpay (hP.1 _) hbuf
  have hzero : u64 (0 * V0.Size) = 0 := by simp [u64]
  simp only [readFound, hVH, ctx.size i V0 hV0, ctx.elementSize i V0 hV0, ctx.flags i V0 hV0,
    if_pos hlt272, VFlags_float, VFlags_signed, hSize, hES, hF, hSg, ne_eq, not_true_eq_false,
    if_false, hnoblk, false_and, decide_False, Bool.false_eq_true, hx, hzero, Nat.zero_add,
    hr1, r2, if_true, overwrite_zero, hpl, bne_self_eq_false]
  simp only [hzero, overwrite_zero, hpl, Nat.zero_add, Bool.true_eq_false, if_false]
  rw [hsl, hcrc]
  simp only [not_true_eq_false, if_false]
  have e8 : N * V0.Size + CRCSize - CRCSize = N * V0.Size := by omega
  rw [e8, hrestore]

/-! ## Read side: the scan over the variable headers and the loop over the variables -/

theorem sum_take_succ (N : Nat) (l : List Variable) (j : Nat) (x : Variable)
    (h : l[j]? = some x) :
    ((l.take (j + 1)).map (fun V => N * V.Size + CRCSize)).sum =
      ((l.take j).map (fun V => N * V.Size + CRCSize)).sum + (N * x.Size + CRCSize) := by
  rw [List.take_succ, h]
  simp only [Option.toList, List.map_append, List.map_cons, List.map_nil, List.sum_append,
    List.sum_cons, List.sum_nil, Nat.add_zero]

theorem lt_length_of_getElem? {α : Type} (l : List α) (i : Nat) (x : α) (h : l[i]? = some x) :
    i < l.length := by
  rcases Nat.lt_or_ge i l.length with h' | h'
  · exact h'
  · rw [List.getElem?_eq_none h'] at h; cases h

theorem mem_of_getElem?_some {α : Type} (l : List α) (i : Nat) (x : α) (h : l[i]? = some x) :
    x ∈ l := by
  obtain ⟨h1, h2⟩ := List.getElem?_eq_some_iff.1 h
  rw [← h2]
  exact List.getElem_mem h1

theorem names_ne (vars : List Variable) (hnd : (vars.map (fun V => V.Name)).Nodup)
    (i j : Nat) (Vi Vj : Variable) (hi : vars[i]? = some Vi) (hj : vars[j]? = some Vj)
    (hij : j ≠ i) : Vj.Name ≠ Vi.Name := by
  intro he
  have hil := lt_length_of_getElem? _ _ _ hi
  have hjl := lt_length_of_getElem? _ _ _ hj
  have hi2 : (vars.map (fun V => V.Name))[i]? = some Vi.Name := by
    rw [List.getElem?_map, hi]; rfl
  have hj2 : (vars.map (fun V => V.Name))[j]? = some Vj.Name := by
    rw [List.getElem?_map, hj]; rfl
  obtain ⟨hi3, hi4⟩ := List.getElem?_eq_some_iff.1 hi2
  obtain ⟨hj3, hj4⟩ := List.getElem?_eq_some_iff.1 hj2
  have := (@List.Nodup.getElem_inj_iff _ _ hnd j hj3 i hi3).1 (by rw [hi4, hj4, he])
  exact hij this

theorem scanVars_found (env : ReadEnv) (hdr : List Byte) (vars wvars : List Variable) (N S : Nat)
    (ctx : ReadCtx env env.hostBE hdr vars wvars N S)
    (hnul : ∀ V ∈ vars, ∀ b ∈ V.Name, b ≠ 0)
    (hlen : ∀ V ∈ vars, V.Name.length < NameSize)
    (hnd : (vars.map (fun V => V.Name)).Nodup)
    (RankIndex idx i : Nat) (RVv V0 : Variable) (hV0 : vars[i]? = some V0)
    (hname : RVv.Name = V0.Name) :
    ∀ k j, j + k = i →
      scanVars env env.hostBE hdr 0 RankIndex N idx RVv (vars.length - j) j
          (S + ((vars.take j).map (fun V => N * V.Size + CRCSize)).sum) =
        (readFound env env.hostBE hdr 0 RankIndex N idx RVv i
          (S + ((vars.take i).map (fun V => N * V.Size + CRCSize)).sum)
          (N * V0.Size + CRCSize)).map some := by
  have hil := lt_length_of_getElem? _ _ _ hV0
  have hfits := ctx.headerFits
  have hdf := ctx.dataFits
  intro k
  induction k with
  | zero =>
    intro j hj
    have hji : j = i := by omega
    subst hji
    obtain ⟨n, hn⟩ : ∃ n, vars.length - j = n + 1 := ⟨vars.length - j - 1, by omega⟩
    have hmul : (j + 1) * sizeofVariableHeader ≤ vars.length * sizeofVariableHeader :=
      Nat.mul_le_mul_right _ hil
    have e2 : (j + 1) * sizeofVariableHeader = j * sizeofVariableHeader + sizeofVariableHeader := by
      ring
    have hVH : u64 (field env.hostBE env.hostBE hdr offVarsStart +
        j * field env.hostBE env.hostBE hdr offVarsSize) =
        sizeofGlobalHeader + j * sizeofVariableHeader := by
      rw [ctx.varsStart, ctx.varsSize]
      exact u64_of_lt (by omega)
    have hle := sum_take_le N vars j V0 hV0
    have hRS : u64 (u64 (N * V0.Size) + CRCSize) = N * V0.Size + CRCSize := by
      have h1 : u64 (N * V0.Size) = N * V0.Size := u64_of_lt (by omega)
      rw [h1]
      exact u64_of_lt (by omega)
    have hnm : cstr (slice hdr (sizeofGlobalHeader + j * sizeofVariableHeader) NameSize) =
        RVv.Name := by
      rw [ctx.name j V0 hV0, hname]
      exact cstr_VName _ (hnul V0 (mem_of_getElem?_some _ _ _ hV0)) (hlen V0 (mem_of_getElem?_some _ _ _ hV0))
    rw [hn]
    simp only [scanVars, hVH, hnm, ne_eq, not_true_eq_false, if_false, ctx.size j V0 hV0, hRS]
  | succ k ih =>
    intro j hj
    have hjl : j < vars.length := by omega
    obtain ⟨Vj, hVj⟩ : ∃ Vj, vars[j]? = some Vj := ⟨vars[j], List.getElem?_eq_getElem hjl⟩
    obtain ⟨n, hn⟩ : ∃ n, vars.length - j = n + 1 := ⟨vars.length - j - 1, by omega⟩
    have hn2 : n = vars.length - (j + 1) := by omega
    have hmul : (j + 1) * sizeofVariableHeader ≤ vars.length * sizeofVariableHeader :=
      Nat.mul_le_mul_right _ hjl
    have e2 : (j + 1) * sizeofVariableHeader = j * sizeofVariableHeader + sizeofVariableHeader := by
      ring
    have hVH : u64 (field env.hostBE env.hostBE hdr offVarsStart +
        j * field env.hostBE env.hostBE hdr offVarsSize) =
        sizeofGlobalHeader + j * sizeofVariableHeader := by
      rw [ctx.varsStart, ctx.varsSize]
      exact u64_of_lt (by omega)
    have hle := sum_take_le N vars j Vj hVj
    have hRS : u64 (u64 (N * Vj.Size) + CRCSize) = N * Vj.Size + CRCSize := by
      have h1 : u64 (N * Vj.Size) = N * Vj.Size := u64_of_lt (by omega)
      rw [h1]
      exact u64_of_lt (by omega)
    have hnm : cstr (slice hdr (sizeofGlobalHeader + j * sizeofVariableHeader) NameSize) =
        Vj.Name := by
      rw [ctx.name j Vj hVj]
      exact cstr_VName _ (hnul Vj (mem_of_getElem?_some _ _ _ hVj)) (hlen Vj (mem_of_getElem?_some _ _ _ hVj))
    have hne : ¬ Vj.Name = RVv.Name := by
      rw [hname]
      exact names_ne vars hnd i j V0 Vj hV0 hVj (by omega)
    have hoff : u64 (S + ((vars.take j).map (fun V => N * V.Size + CRCSize)).sum +
        (N * Vj.Size + CRCSize)) =
        S + ((vars.take (j + 1)).map (fun V => N * V.Size + CRCSize)).sum := by
      rw [sum_take_succ N vars j Vj hVj]
      have h : S + ((vars.take j).map (fun V => N * V.Size + CRCSize)).sum +
          (N * Vj.Size + CRCSize) < 2 ^ 64 := by omega
      rw [u64_of_lt h, Nat.add_assoc]
    rw [hn]
    simp only [scanVars, hVH, hnm, ne_eq, hne, not_false_eq_true, if_true, ctx.size j Vj hVj, hRS,
      hoff]
    rw [hn2]
    exact ih (j + 1) (by omega)

theorem readVars_ok (env : ReadEnv) (hP : env.P.Contract) (hdr : List Byte)
    (vars wvars : List Variable) (N S : Nat)
    (ctx : ReadCtx env env.hostBE hdr vars wvars N S)
    (hnul : ∀ V ∈ vars, ∀ b ∈ V.Name, b ≠ 0)
    (hlen : ∀ V ∈ vars, V.Name.length < NameSize)
    (hnd : (vars.map (fun V => V.Name)).Nodup)
    (hretry : ∀ idx, ∃ k : Nat, (k : Int) < env.RetryCount ∧ env.fails idx k = false)
    (RankIndex : Nat) :
    ∀ (RV : List Variable) (i : Nat) (st : ReadState),
      st.NErrs = (0, 0, 0) →
      RV.map descr = (vars.drop i).map descr →
      (∀ rv ∈ RV, rv.HasExtraSpace = true ∧ N * rv.Size + CRCSize ≤ rv.Data.length) →
      ∃ st1, readVars env env.hostBE hdr 0 RankIndex N S i RV st = Except.ok st1 ∧
        st1.NErrs = (0, 0, 0) ∧
        st1.Data = st.Data ++ List.zipWith (expectedBuffer N) (wvars.drop i) RV := by
  have hlenw : wvars.length = vars.length := by
    have := congrArg List.length ctx.sameSizes
    simpa using this
  intro RV
  induction RV with
  | nil =>
    intro i st hst _ _
    exact ⟨st, rfl, hst, by simp⟩
  | cons rv RV ih =>
    intro i st hst hdescr hbuf
    have hil : i < vars.length := by
      have := congrArg List.length hdescr
      simp only [List.length_map, List.length_cons, List.length_drop] at this
      omega
    have hV0 : vars[i]? = some vars[i] := List.getElem?_eq_getElem hil
    have hW : wvars[i]? = some (wvars[i]) := List.getElem?_eq_getElem (by omega)
    rw [List.drop_eq_getElem_cons hil, List.map_cons, List.map_cons] at hdescr
    obtain ⟨hd0, hdrest⟩ := List.cons.inj hdescr
    have hname : rv.Name = (vars[i]).Name := by
      have := congrArg Prod.fst hd0
      exact this
    obtain ⟨hx, hb⟩ := hbuf rv (List.mem_cons_self _ _)
    have hscan := scanVars_found env hdr vars wvars N S ctx hnul hlen hnd RankIndex i i rv
      (vars[i]) hV0 hname i 0 (by omega)
    rw [readFound_ok env hP hdr vars wvars N S ctx RankIndex i i rv (vars[i]) (wvars[i]) hV0 hW
      hd0 hx hb (hretry i)] at hscan
    simp only [Nat.sub_zero, List.take_zero, List.map_nil, List.sum_nil, Nat.add_zero] at hscan
    obtain ⟨st2, h1, h2, h3⟩ := ih (i + 1)
      { Data := st.Data ++ [expectedBuffer N (wvars[i]) rv],
        TotalReadSize := u64 (st.TotalReadSize + (N * (vars[i]).Size + CRCSize)),
        NErrs := (0, 0, 0) } rfl hdrest
      (fun rv2 h => hbuf rv2 (List.mem_cons_of_mem _ h))
    refine ⟨st2, ?_, h2, ?_⟩
    · rw [← h1]
      simp only [readVars, ctx.nvars, hscan, Except.map, hst, Nat.add_zero, ne_eq,
        not_true_eq_false, or_self, if_false]
    · rw [h3, List.drop_eq_getElem_cons (by omega : i < wvars.length), List.zipWith_cons_cons,
        List.append_assoc]
      rfl

/-! ## The file a write leaves: what a reader finds -/

theorem StartsFrom_get : ∀ (rhs : List RankHeader) (ws : List Writer) (s : Nat),
    StartsFrom s rhs ws → ∀ r w, ws[r]? = some w →
    ∃ RH, rhs[r]? = some RH ∧ RH.Start = s + ((ws.take r).map writerDataSize).sum := by
  intro rhs
  induction rhs with
  | nil =>
    intro ws s h r w hw
    cases ws with
    | nil => simp at hw
    | cons a ws => simp [StartsFrom] at h
  | cons rh rhs ih =>
    intro ws s h r w hw
    cases ws with
    | nil => simp at hw
    | cons a ws =>
      simp only [StartsFrom] at h
      cases r with
      | zero =>
        exact ⟨rh, List.getElem?_cons_zero, by simp [h.1]⟩
      | succ r =>
        simp only [List.getElem?_cons_succ] at hw
        obtain ⟨RH, h1, h2⟩ := ih ws _ h.2 r w hw
        refine ⟨RH, by simpa using h1, ?_⟩
        rw [h2]
        simp only [List.take_succ_cons, List.map_cons, List.sum_cons]
        omega

theorem sum_take_writers_le (ws : List Writer) (r : Nat) (w : Writer) (h : ws[r]? = some w) :
    ((ws.take r).map writerDataSize).sum + writerDataSize w ≤ (ws.map writerDataSize).sum := by
  have hs := split_at ws r w h
  conv_rhs => rw [hs]
  simp only [List.map_append, List.map_cons, List.sum_append, List.sum_cons]
  omega

theorem leaderOf_plain_RHs (P : CRC64) (Z : Blosc) (E SC : Bool)
    (Dims PhysOrigin PhysScale : List Nat) (w0 : Writer) (rest : List Writer) :
    (leaderOf P Z E false SC Dims PhysOrigin PhysScale none (w0 :: rest)).RHs.map
        (fun rh => rh.NElems) = (w0 :: rest).map (fun w => u64 w.NElems) := by
  simp only [leaderOf, leaderAssemble, List.map_cons, List.head?_cons, Option.map_some',
    Option.getD_some]
  obtain ⟨_, h2⟩ := rankStartsPlain_spec (computeRecordSize w0.Vars) w0.Vars.length
    (rest.map RHLocal)
    (computeHeaderSize w0.Vars.length (RHLocal w0 :: rest.map RHLocal).length
      ((none : Option (List Byte)).getD []).length false)
    (RHLocal w0).NElems (u64 w0.NElems) (u64_lt _)
  simp only [Bool.false_eq_true, if_false, List.map_cons]
  rw [h2]
  simp only [List.map_map, RHLocal, Function.comp_def]

theorem writerDataSize_same (w w0 : Writer)
    (h : w.Vars.map (fun V => V.Size) = w0.Vars.map (fun V => V.Size)) :
    writerDataSize w = (w0.Vars.map (fun V => w.NElems * V.Size + CRCSize)).sum := by
  have e : ∀ l : List Variable, l.map (fun V => w.NElems * V.Size + CRCSize) =
      (l.map (fun V => V.Size)).map (fun s => w.NElems * s + CRCSize) := by
    intro l
    rw [List.map_map]
    rfl
  rw [writerDataSize, e, h, ← e]

theorem write_plain_frame (P : CRC64) (hP : P.Contract) (Z : Blosc) (E SC : Bool)
    (Dims PhysOrigin PhysScale : List Nat) (w0 : Writer) (rest : List Writer) (file : FileData)
    (hsame : ∀ w ∈ rest, w.Vars.map (fun V => V.Size) = w0.Vars.map (fun V => V.Size))
    (hN : ∀ w ∈ w0 :: rest, w.NElems < 2 ^ 64)
    (hfit : exactFileSize P Z E false SC none (w0 :: rest) < 2 ^ 64)
    (hbuf : ∀ w ∈ w0 :: rest, ∀ V ∈ w.Vars,
      w.NElems * V.Size + (if V.HasExtraSpace then CRCSize else 0) ≤ V.Data.length) :
    fileRead (write P Z E false SC Dims PhysOrigin PhysScale none (w0 :: rest) file).file
        (leaderOf P Z E false SC Dims PhysOrigin PhysScale none (w0 :: rest)).HeaderSize 0 =
      headerBytes P E (leaderOf P Z E false SC Dims PhysOrigin PhysScale none (w0 :: rest)) ∧
    (∀ r wr, (w0 :: rest)[r]? = some wr → ∀ pre V post, wr.Vars = pre ++ V :: post →
      fileRead (write P Z E false SC Dims PhysOrigin PhysScale none (w0 :: rest) file).file
          (wr.NElems * V.Size + CRCSize)
          ((leaderOf P Z E false SC Dims PhysOrigin PhysScale none (w0 :: rest)).HeaderSize +
            (((w0 :: rest).take r).map writerDataSize).sum +
            (pre.map (fun V => wr.NElems * V.Size + CRCSize)).sum) =
        V.Data.take (wr.NElems * V.Size) ++
          P.crc64_invert (P.crc64_omp (V.Data.take (wr.NElems * V.Size)))) := by
  obtain ⟨_, hHS, _, hSF⟩ := write_plain_tiles P Z E SC Dims PhysOrigin PhysScale none w0 rest
    file hsame hN hfit
  have hL : (write P Z E false SC Dims PhysOrigin PhysScale none (w0 :: rest) file).leader =
      leaderOf P Z E false SC Dims PhysOrigin PhysScale none (w0 :: rest) := rfl
  have hF : (write P Z E false SC Dims PhysOrigin PhysScale none (w0 :: rest) file).file =
      (bulkAll P Z E false SC
        (leaderOf P Z E false SC Dims PhysOrigin PhysScale none (w0 :: rest)) w0.Vars.length 0
        (w0 :: rest) (fileWrite file
          (headerBytes P E (leaderOf P Z E false SC Dims PhysOrigin PhysScale none (w0 :: rest)))
          (leaderOf P Z E false SC Dims PhysOrigin PhysScale none (w0 :: rest)).HeaderSize
          0)).1 := rfl
  rw [hL] at hHS hSF
  rw [hF]
  simp only [exactFileSize, List.head?_cons, Option.map_some', Option.getD_some, List.length_cons,
    Bool.false_eq_true, if_false] at hfit
  generalize leaderOf P Z E false SC Dims PhysOrigin PhysScale none (w0 :: rest) = L at *
  have hge := exactHeaderSize_ge w0.Vars.length (rest.length + 1)
    ((none : Option (List Byte)).getD []).length false
  have hlen := headerBytes_length P hP E L (by omega)
  obtain ⟨fr, ct⟩ := bulkAll_plain_content P hP Z E SC L w0.Vars.length (w0 :: rest) 0
    L.HeaderSize (fileWrite file (headerBytes P E L) L.HeaderSize 0)
    (by rw [List.drop_zero]; exact hSF) (by omega) hbuf
  constructor
  · rw [fileRead_congr _ (fileWrite file (headerBytes P E L) L.HeaderSize 0) _ _
      (fun k hk => fr _ (Or.inl (by omega))),
      fileRead_fileWrite _ _ _ _ (by omega), List.take_of_length_le (by omega)]
  · intro r wr hr pre V post hv
    exact ct ((w0 :: rest).take r) wr ((w0 :: rest).drop (r + 1)) (split_at _ r wr hr) pre V post
      hv

theorem u64_u64 (x : Nat) : u64 (u64 x) = u64 x := by
  simp only [u64, Nat.mod_mod]

theorem leaderOf_plain_records (P : CRC64) (Z : Blosc) (E SC : Bool)
    (Dims PhysOrigin PhysScale : List Nat) (w0 : Writer) (rest : List Writer)
    (hfit : exactHeaderSize w0.Vars.length (rest.length + 1) 0 false < 2 ^ 64) :
    (leaderOf P Z E false SC Dims PhysOrigin PhysScale none (w0 :: rest)).HeaderSize =
      exactHeaderSize w0.Vars.length (rest.length + 1) 0 false ∧
    (leaderOf P Z E false SC Dims PhysOrigin PhysScale none (w0 :: rest)).RHs.length =
      rest.length + 1 ∧
    (headerRecords E (leaderOf P Z E false SC Dims PhysOrigin PhysScale none
      (w0 :: rest))).length ≤
      (leaderOf P Z E false SC Dims PhysOrigin PhysScale none (w0 :: rest)).HeaderSize -
        CRCSize := by
  have hHS := (leaderOf_HeaderSize P Z E false SC Dims PhysOrigin PhysScale none w0 rest).1
  have hoct : ((none : Option (List Byte)).getD []).length = 0 := rfl
  rw [hoct, computeHeaderSize_eq _ _ _ _ hfit] at hHS
  have hRHn := leaderOf_plain_RHs P Z E SC Dims PhysOrigin PhysScale w0 rest
  have hRHlen : (leaderOf P Z E false SC Dims PhysOrigin PhysScale none (w0 :: rest)).RHs.length =
      rest.length + 1 := by
    have := congrArg List.length hRHn
    simpa using this
  have hso : (leaderOf P Z E false SC Dims PhysOrigin PhysScale none
      (w0 :: rest)).serializedOctree = [] := rfl
  have hVHs : (leaderOf P Z E false SC Dims PhysOrigin PhysScale none (w0 :: rest)).VHs =
      w0.Vars.map variableHeader := rfl
  have hBHs : (leaderOf P Z E false SC Dims PhysOrigin PhysScale none (w0 :: rest)).BHs = [] :=
    rfl
  refine ⟨hHS, hRHlen, ?_⟩
  rw [headerRecords_length, hso, hVHs, hBHs, hRHlen, hHS]
  simp only [exactHeaderSize, List.length_nil, List.length_map, Bool.false_eq_true, if_false,
    Nat.zero_mul, Nat.add_zero]
  omega

/-! ## Acceptance of a header on open, for any leader state -/

/-- A file that holds at offset 0 the header bytes of a leader state `L` whose recorded
sizes and magic are consistent passes the header checks of `openAndReadHeader` on a host
of either byte order, and the header cache of the reader is the header body; when the
octree detection fires, the outcome is that of `readOctreeHeader`. -/
theorem openAndReadHeader_leader (P : CRC64) (hP : P.Contract) (O : Octree) (E hostR : Bool)
    (NRanks Rank SplitNRanks : Int) (topoDims : Option (List Int)) (Redistributing : Bool)
    (RankMap : List Int) (L : LeaderState) (X : Nat) (hfit : X < 2 ^ 64)
    (hge : sizeofGlobalHeader + CRCSize ≤ X) (hHS : L.HeaderSize = X)
    (hGHS : L.GH.HeaderSize = u64 (X + 2 ^ 64 - CRCSize))
    (hMagic : L.GH.Magic = (if E then MagicBE else MagicLE) ++ [0])
    (f : FileData) (hf : fileRead f L.HeaderSize 0 = headerBytes P E L) :
    openAndReadHeader P O hostR MismatchBehavior.MismatchAllowed NRanks Rank SplitNRanks
        topoDims Redistributing RankMap f =
      if field false hostR (headerBody E L) offVarsStart ≠ 168 then
        if field false hostR (headerBody E L) offOctreeSize ≠ 0 then
          (readOctreeHeader O f (toInt (field false hostR (headerBody E L) offOctreeStart))
            (toInt (field false hostR (headerBody E L) offOctreeSize)) E).map (fun _ =>
            { IsBigEndian := E, HeaderCache := headerBody E L, SourceRanks := [],
              octreeHeader :=
                some (toInt (field false hostR (headerBody E L) offOctreeStart),
                  toInt (field false hostR (headerBody E L) offOctreeSize), E) })
        else
          Except.ok { IsBigEndian := E, HeaderCache := headerBody E L, SourceRanks := [],
                      octreeHeader := none }
      else
        Except.ok { IsBigEndian := E, HeaderCache := headerBody E L, SourceRanks := [],
                    octreeHeader := none } := by
  have h184 : sizeofGlobalHeader = 184 := rfl
  have h8 : CRCSize = 8 := rfl
  have hGH : fileRead f sizeofGlobalHeader 0 = (headerBytes P E L).take sizeofGlobalHeader := by
    rw [fileRead_take f L.HeaderSize sizeofGlobalHeader 0 (by omega), hf]
  have hsl : ∀ off k, off + k ≤ sizeofGlobalHeader →
      slice (fileRead f sizeofGlobalHeader 0) off k = slice (ghBytes E E L.GH) off k := by
    intro off k hk
    rw [hGH, slice_take _ _ _ _ hk, headerBytes_slice_gh P E L off k hk (by omega)]
  have hfield : field E hostR (fileRead f sizeofGlobalHeader 0) offHeaderSize = X - CRCSize := by
    simp only [field]
    rw [hsl offHeaderSize 8 (by simp [offHeaderSize, sizeofGlobalHeader, MagicSize])]
    have := ghBytes_slice E E L.GH 1 (esvAssign E E L.GH.HeaderSize) rfl
    simp only [Nat.one_mul] at this
    rw [show offHeaderSize = 8 from rfl, this, esvRead_esvAssign, hGHS]
    simp only [u64]
    omega
  have hm : (fileRead f sizeofGlobalHeader 0).take (MagicSize - 1) =
      (if E then MagicBE else MagicLE) := by
    have h0 := hsl 0 (MagicSize - 1) (by simp [sizeofGlobalHeader, MagicSize])
    simp only [slice, List.drop_zero] at h0
    rw [h0]
    have := ghBytes_slice E E L.GH 0 ((L.GH.Magic ++ List.replicate MagicSize 0).take MagicSize)
      (by simp [ghFields])
    simp only [Nat.zero_mul, slice, List.drop_zero] at this
    have h2 : (ghBytes E E L.GH).take (MagicSize - 1) =
        ((ghBytes E E L.GH).take 8).take (MagicSize - 1) := by
      rw [List.take_take]; rfl
    rw [h2, this, hMagic]
    cases E <;> rfl
  have hr : readHeaderLeader P hostR E (fileRead f sizeofGlobalHeader 0)
      MismatchBehavior.MismatchAllowed NRanks Rank SplitNRanks topoDims Redistributing
      RankMap f =
      Except.ok { HeaderSize := L.HeaderSize - CRCSize, Header := headerBytes P E L,
                  SourceRanks := [] } := by
    simp only [readHeaderLeader, hfield]
    have e1 : u64 (X - CRCSize + CRCSize) = L.HeaderSize := by
      rw [hHS, Nat.sub_add_cancel (by omega), u64_of_lt hfit]
    rw [e1, hf]
    have hcrc : P.crc64_omp (headerBytes P E L) = 2 ^ 64 - 1 := by
      rw [headerBytes_eq P hP]; exact hP.2 _
    simp [hcrc, hHS]
  have hl : openAndReadHeaderLeader P hostR MismatchBehavior.MismatchAllowed NRanks Rank
      SplitNRanks topoDims Redistributing RankMap f =
      Except.ok (E, { HeaderSize := L.HeaderSize - CRCSize, Header := headerBytes P E L,
                      SourceRanks := [] }) := by
    simp only [openAndReadHeaderLeader, hm]
    cases E with
    | false => simp only [Bool.false_eq_true, if_false, if_true, hr, Except.map]
    | true =>
      simp only [if_true, (Ne.symm MagicLE_ne_MagicBE), if_false, hr, Except.map]
  have hbl := headerBody_length E L
  have hcache : ((headerBytes P E L) ++
      List.replicate (L.HeaderSize - CRCSize - (headerBytes P E L).length) 253).take
        (L.HeaderSize - CRCSize) = headerBody E L := by
    rw [headerBytes_eq P hP, List.append_assoc,
      List.take_append_of_le_length (by omega), List.take_of_length_le (by omega)]
  have hmagic : (headerBody E L).take (MagicSize - 1) = (if E then MagicBE else MagicLE) := by
    rw [← hm, fileRead_take f L.HeaderSize sizeofGlobalHeader 0 (by omega), hf,
      headerBytes_eq P hP, List.take_take,
      List.take_append_of_le_length (by
        have : MagicSize = 8 := rfl
        omega)]
    congr 1
  have hdec : decide ((headerBody E L).take (MagicSize - 1) = MagicBE) = E := by
    rw [hmagic]
    cases E with
    | false => simp [MagicLE_ne_MagicBE]
    | true => simp
  simp only [openAndReadHeader, hl, hcache, hdec]

/-- A global-header field that holds 0 reads as 0 whatever byte order is assumed for it. -/
theorem field_gh_zero (E D hostR : Bool) (L : LeaderState) (t : Nat)
    (hrec : (headerRecords E L).length ≤ L.HeaderSize - CRCSize)
    (ht : (ghFields E E L.GH)[t]? = some (esvAssign E E 0)) :
    field D hostR (headerBody E L) (t * 8) = 0 := by
  have hlt : t < (ghFields E E L.GH).length := by
    rcases Nat.lt_or_ge t (ghFields E E L.GH).length with h | h
    · exact h
    · rw [List.getElem?_eq_none h] at ht; cases ht
  have h23 : (ghFields E E L.GH).length = 23 := by
    simp only [ghFields, List.length_cons, List.length_nil]
  have hle : t * 8 + 8 ≤ sizeofGlobalHeader := by
    have : sizeofGlobalHeader = 184 := rfl
    omega
  have hz : ∀ a b c : Bool, esvRead a b (esvAssign c c 0) = 0 := by decide
  simp only [field]
  rw [headerBody_slice E L _ _ (le_trans hle (headerRecords_length_ge E L)) hrec,
    headerRecords_slice_gh E L _ _ hle, ghBytes_slice E E L.GH t _ ht]
  exact hz D hostR E

/-- When the `OctreeSize` field of the header reads 0, `openAndReadHeader` does not call
`readOctreeHeader`: the header is accepted. -/
theorem openAndReadHeader_leader_plain (P : CRC64) (hP : P.Contract) (O : Octree)
    (E hostR : Bool)
    (NRanks Rank SplitNRanks : Int) (topoDims : Option (List Int)) (Redistributing : Bool)
    (RankMap : List Int) (L : LeaderState) (X : Nat) (hfit : X < 2 ^ 64)
    (hge : sizeofGlobalHeader + CRCSize ≤ X) (hHS : L.HeaderSize = X)
    (hGHS : L.GH.HeaderSize = u64 (X + 2 ^ 64 - CRCSize))
    (hMagic : L.GH.Magic = (if E then MagicBE else MagicLE) ++ [0])
    (f : FileData) (hf : fileRead f L.HeaderSize 0 = headerBytes P E L)
    (hz : field false hostR (headerBody E L) offOctreeSize = 0) :
    openAndReadHeader P O hostR MismatchBehavior.MismatchAllowed NRanks Rank SplitNRanks
        topoDims Redistributing RankMap f =
      Except.ok { IsBigEndian := E, HeaderCache := headerBody E L, SourceRanks := [],
                  octreeHeader := none } := by
  rw [openAndReadHeader_leader P hP O E hostR NRanks Rank SplitNRanks topoDims Redistributing
    RankMap L X hfit hge hHS hGHS hMagic f hf]
  simp only [hz, ne_eq, not_true_eq_false, if_false, ite_self]

/-- The header of a file written without block headers and without an octree is accepted
by `openAndReadHeader` on a host of either byte order; the session holds the endianness
of the file and the header body. -/
theorem openAndReadHeader_written (P : CRC64) (hP : P.Contract) (O : Octree) (Z : Blosc)
    (B SC : Bool) (Dims PhysOrigin PhysScale : List Nat)
    (w0 : Writer) (rest : List Writer) (hostBE : Bool)
    (NRanks Rank SplitNRanks : Int) (topoDims : Option (List Int)) (Redistributing : Bool)
    (RankMap : List Int)
    (hfit : exactHeaderSize w0.Vars.length (rest.length + 1) 0 false < 2 ^ 64)
    (file : FileData)
    (hf : fileRead file (leaderOf P Z B false SC Dims PhysOrigin PhysScale none
        (w0 :: rest)).HeaderSize 0 =
      headerBytes P B (leaderOf P Z B false SC Dims PhysOrigin PhysScale none (w0 :: rest))) :
    openAndReadHeader P O hostBE MismatchBehavior.MismatchAllowed NRanks Rank
        SplitNRanks topoDims Redistributing RankMap file =
      Except.ok { IsBigEndian := B,
                  HeaderCache := headerBody B (leaderOf P Z B false SC Dims PhysOrigin PhysScale
                    none (w0 :: rest)),
                  SourceRanks := [], octreeHeader := none } := by
  obtain ⟨hHS, hGHS, hMagic⟩ := leaderOf_HeaderSize P Z B false SC Dims PhysOrigin PhysScale
    none w0 rest
  have hoct : ((none : Option (List Byte)).getD []).length = 0 := rfl
  rw [hoct, computeHeaderSize_eq _ _ _ _ hfit] at hHS hGHS
  obtain ⟨_, _, hrec⟩ := leaderOf_plain_records P Z B SC Dims PhysOrigin PhysScale w0 rest hfit
  have hge : sizeofGlobalHeader + CRCSize ≤
      exactHeaderSize w0.Vars.length (rest.length + 1) 0 false := by
    simp only [exactHeaderSize]
    omega
  have hz := field_gh_zero B false hostBE _ 21 hrec rfl
  exact openAndReadHeader_leader_plain P hP O B hostBE NRanks Rank SplitNRanks topoDims
    Redistributing RankMap _ _ hfit hge hHS hGHS hMagic file hf hz

theorem written_global_fields (P : CRC64) (Z : Blosc) (E SC hostR : Bool)
    (Dims PhysOrigin PhysScale : List Nat) (w0 : Writer) (rest : List Writer)
    (hfit : exactHeaderSize w0.Vars.length (rest.length + 1) 0 false < 2 ^ 64) :
    field E hostR (headerBody E (leaderOf P Z E false SC Dims PhysOrigin PhysScale none
      (w0 :: rest))) offNVars = w0.Vars.length ∧
    field E hostR (headerBody E (leaderOf P Z E false SC Dims PhysOrigin PhysScale none
      (w0 :: rest))) offVarsSize = sizeofVariableHeader ∧
    field E hostR (headerBody E (leaderOf P Z E false SC Dims PhysOrigin PhysScale none
      (w0 :: rest))) offVarsStart = sizeofGlobalHeader ∧
    field E hostR (headerBody E (leaderOf P Z E false SC Dims PhysOrigin PhysScale none
      (w0 :: rest))) offNRanks = rest.length + 1 ∧
    field E hostR (headerBody E (leaderOf P Z E false SC Dims PhysOrigin PhysScale none
      (w0 :: rest))) offRanksSize = sizeofRankHeader ∧
    field E hostR (headerBody E (leaderOf P Z E false SC Dims PhysOrigin PhysScale none
      (w0 :: rest))) offRanksStart =
      sizeofGlobalHeader + w0.Vars.length * sizeofVariableHeader ∧
    field E hostR (headerBody E (leaderOf P Z E false SC Dims PhysOrigin PhysScale none
      (w0 :: rest))) offGlobalHeaderSize = sizeofGlobalHeader ∧
    field E hostR (headerBody E (leaderOf P Z E false SC Dims PhysOrigin PhysScale none
      (w0 :: rest))) offBlocksSize = 0 := by
  obtain ⟨_, _, hrec⟩ := leaderOf_plain_records P Z E SC Dims PhysOrigin PhysScale w0 rest hfit
  simp only [exactHeaderSize, Bool.false_eq_true, if_false] at hfit
  have g6 := field_gh E hostR _ 6 (u64 w0.Vars.length) hrec rfl
  have g7 := field_gh E hostR _ 7 sizeofVariableHeader hrec rfl
  have g8 := field_gh E hostR _ 8 (u64 (sizeofGlobalHeader + 0)) hrec rfl
  have g9 := field_gh E hostR _ 9 (u64 (RHLocal w0 :: rest.map RHLocal).length) hrec rfl
  have g10 := field_gh E hostR _ 10 sizeofRankHeader hrec rfl
  have g11 := field_gh E hostR _ 11
    (u64 (u64 (sizeofGlobalHeader + 0) + w0.Vars.length * sizeofVariableHeader)) hrec rfl
  have g12 := field_gh E hostR _ 12 sizeofGlobalHeader hrec rfl
  have g19 := field_gh E hostR _ 19 0 hrec rfl
  have h184 : sizeofGlobalHeader = 184 := rfl
  have h280 : sizeofVariableHeader = 280 := rfl
  have h48 : sizeofRankHeader = 48 := rfl
  have hfit2 : 184 + w0.Vars.length * 280 + (rest.length + 1) * 48 + 8 < 2 ^ 64 := by
    rw [h184, h280, h48, show CRCSize = 8 from rfl] at hfit
    omega
  have hNV : u64 w0.Vars.length = w0.Vars.length := u64_of_lt (by omega)
  have hK : u64 (rest.length + 1) = rest.length + 1 := u64_of_lt (by omega)
  have hVS : u64 (sizeofGlobalHeader + 0) = sizeofGlobalHeader := u64_of_lt (by rw [h184]; omega)
  have hRS : u64 (sizeofGlobalHeader + w0.Vars.length * sizeofVariableHeader) =
      sizeofGlobalHeader + w0.Vars.length * sizeofVariableHeader :=
    u64_of_lt (by rw [h184, h280]; omega)
  have h7 : u64 sizeofVariableHeader = sizeofVariableHeader := rfl
  have h10 : u64 sizeofRankHeader = sizeofRankHeader := rfl
  have h12 : u64 sizeofGlobalHeader = sizeofGlobalHeader := rfl
  have h19 : u64 0 = 0 := rfl
  simp only [List.length_cons, List.length_map] at g9
  rw [u64_u64, hNV] at g6
  rw [u64_u64, hVS] at g8
  rw [u64_u64, hK] at g9
  rw [u64_u64, hVS, hRS] at g11
  rw [h7] at g7
  rw [h10] at g10
  rw [h12] at g12
  rw [h19] at g19
  exact ⟨g6, g7, g8, g9, g10, g11, g12, g19⟩

theorem written_var_fields (P : CRC64) (Z : Blosc) (E SC hostR : Bool)
    (Dims PhysOrigin PhysScale : List Nat) (w0 : Writer) (rest : List Writer)
    (hfit : exactHeaderSize w0.Vars.length (rest.length + 1) 0 false < 2 ^ 64)
    (hsz : ∀ V ∈ w0.Vars, V.Size < 2 ^ 64 ∧ V.ElementSize < 2 ^ 64)
    (j : Nat) (V : Variable) (hj : w0.Vars[j]? = some V) :
    slice (headerBody E (leaderOf P Z E false SC Dims PhysOrigin PhysScale none (w0 :: rest)))
      (sizeofGlobalHeader + j * sizeofVariableHeader) NameSize = VName V.Name ∧
    field E hostR (headerBody E (leaderOf P Z E false SC Dims PhysOrigin PhysScale none
      (w0 :: rest))) (sizeofGlobalHeader + j * sizeofVariableHeader + offVHSize) = V.Size ∧
    field E hostR (headerBody E (leaderOf P Z E false SC Dims PhysOrigin PhysScale none
      (w0 :: rest))) (sizeofGlobalHeader + j * sizeofVariableHeader + offVHElementSize) =
      V.ElementSize ∧
    field E hostR (headerBody E (leaderOf P Z E false SC Dims PhysOrigin PhysScale none
      (w0 :: rest))) (sizeofGlobalHeader + j * sizeofVariableHeader + offVHFlags) =
      VFlags V := by
  obtain ⟨_, _, hrec⟩ := leaderOf_plain_records P Z E SC Dims PhysOrigin PhysScale w0 rest hfit
  have hVH : (leaderOf P Z E false SC Dims PhysOrigin PhysScale none (w0 :: rest)).VHs[j]? =
      some (variableHeader V) := by
    have hVHs : (leaderOf P Z E false SC Dims PhysOrigin PhysScale none (w0 :: rest)).VHs =
        w0.Vars.map variableHeader := rfl
    rw [hVHs, List.getElem?_map, hj]
    rfl
  have hso : (leaderOf P Z E false SC Dims PhysOrigin PhysScale none
      (w0 :: rest)).serializedOctree.length = 0 := rfl
  obtain ⟨hs1, hs2⟩ := hsz V (mem_of_getElem?_some _ _ _ hj)
  have n := name_vh E _ j (variableHeader V) hrec hVH
  have f0 := field_vh E hostR _ j (variableHeader V) 0 (VFlags V) hrec hVH rfl
  have f1 := field_vh E hostR _ j (variableHeader V) 1 (u64 V.Size) hrec hVH rfl
  have f2 := field_vh E hostR _ j (variableHeader V) 2 (u64 V.ElementSize) hrec hVH rfl
  rw [hso, Nat.add_zero] at n f0 f1 f2
  rw [u64_u64, u64_of_lt hs1] at f1
  rw [u64_u64, u64_of_lt hs2] at f2
  rw [u64_of_lt (lt_trans (VFlags_lt V) (by norm_num))] at f0
  refine ⟨?_, f1, f2, f0⟩
  rw [n]
  have hnm : (variableHeader V).Name = VName V.Name := rfl
  have hl := VName_length V.Name
  rw [hnm, List.take_append_of_le_length (by omega), List.take_of_length_le (by omega)]

theorem written_rank_fields (P : CRC64) (Z : Blosc) (E SC hostR : Bool)
    (Dims PhysOrigin PhysScale : List Nat) (w0 : Writer) (rest : List Writer) (file : FileData)
    (hsame : ∀ w ∈ rest, w.Vars.map (fun V => V.Size) = w0.Vars.map (fun V => V.Size))
    (hN : ∀ w ∈ w0 :: rest, w.NElems < 2 ^ 64)
    (hfit : exactFileSize P Z E false SC none (w0 :: rest) < 2 ^ 64)
    (r : Nat) (wr : Writer) (hr : (w0 :: rest)[r]? = some wr) :
    field E hostR (headerBody E (leaderOf P Z E false SC Dims PhysOrigin PhysScale none
      (w0 :: rest)))
      (sizeofGlobalHeader + w0.Vars.length * sizeofVariableHeader + r * sizeofRankHeader +
        offRHNElems) = wr.NElems ∧
    field E hostR (headerBody E (leaderOf P Z E false SC Dims PhysOrigin PhysScale none
      (w0 :: rest)))
      (sizeofGlobalHeader + w0.Vars.length * sizeofVariableHeader + r * sizeofRankHeader +
        offRHStart) =
      exactHeaderSize w0.Vars.length (rest.length + 1) 0 false +
        (((w0 :: rest).take r).map writerDataSize).sum := by
  obtain ⟨_, hHS, _, hSF⟩ := write_plain_tiles P Z E SC Dims PhysOrigin PhysScale none w0 rest
    file hsame hN hfit
  have hL : (write P Z E false SC Dims PhysOrigin PhysScale none (w0 :: rest) file).leader =
      leaderOf P Z E false SC Dims PhysOrigin PhysScale none (w0 :: rest) := rfl
  rw [hL] at hHS hSF
  have hoct : ((none : Option (List Byte)).getD []).length = 0 := rfl
  rw [hoct] at hHS
  have hle := sum_take_writers_le (w0 :: rest) r wr hr
  simp only [exactFileSize, List.head?_cons, Option.map_some', Option.getD_some, List.length_cons,
    Bool.false_eq_true, if_false, hoct] at hfit
  obtain ⟨_, _, hrec⟩ := leaderOf_plain_records P Z E SC Dims PhysOrigin PhysScale w0 rest
    (by omega)
  obtain ⟨RH, hRH, hStart⟩ := StartsFrom_get _ _ _ hSF r wr hr
  have hNE : RH.NElems = u64 wr.NElems := by
    have := congrArg (fun l => l[r]?) (leaderOf_plain_RHs P Z E SC Dims PhysOrigin PhysScale w0
      rest)
    simp only [List.getElem?_map, hRH, hr, Option.map_some', Option.some.injEq] at this
    exact this
  have hso : (leaderOf P Z E false SC Dims PhysOrigin PhysScale none
      (w0 :: rest)).serializedOctree.length = 0 := rfl
  have hVl : (leaderOf P Z E false SC Dims PhysOrigin PhysScale none (w0 :: rest)).VHs.length =
      w0.Vars.length := by
    have hVHs : (leaderOf P Z E false SC Dims PhysOrigin PhysScale none (w0 :: rest)).VHs =
        w0.Vars.map variableHeader := rfl
    rw [hVHs, List.length_map]
  have f3 := field_rh E hostR _ r RH 3 RH.NElems hrec hRH rfl
  have f4 := field_rh E hostR _ r RH 4 RH.Start hrec hRH rfl
  rw [hso, Nat.add_zero, hVl] at f3 f4
  rw [hNE, u64_u64, u64_of_lt (hN wr (mem_of_getElem?_some _ _ _ hr))] at f3
  rw [hStart, hHS, u64_of_lt (by omega)] at f4
  exact ⟨f3, f4⟩

theorem ofInt_natCast (r : Nat) (h : r < 2 ^ 64) : ofInt (r : Int) = r := by
  unfold ofInt
  have e : (2 : Int) ^ 64 = 18446744073709551616 := by norm_num
  have e2 : (2 : Nat) ^ 64 = 18446744073709551616 := by norm_num
  rw [e]
  rw [e2] at h
  omega

theorem sizes_of_descr (a b : List Variable) (h : a.map descr = b.map descr) :
    a.map (fun V => V.Size) = b.map (fun V => V.Size) := by
  have e : ∀ l : List Variable, l.map (fun V => V.Size) =
      (l.map descr).map (fun d => d.2.1) := by
    intro l
    rw [List.map_map]
    rfl
  rw [e a, e b, h]

theorem names_of_descr (a b : List Variable) (h : a.map descr = b.map descr) :
    a.map (fun V => V.Name) = b.map (fun V => V.Name) := by
  have e : ∀ l : List Variable, l.map (fun V => V.Name) =
      (l.map descr).map (fun d => d.1) := by
    intro l
    rw [List.map_map]
    rfl
  rw [e a, e b, h]

theorem written_ReadCtx (P : CRC64) (hP : P.Contract) (Z : Blosc) (E SC : Bool)
    (Dims PhysOrigin PhysScale : List Nat) (w0 : Writer) (rest : List Writer) (file : FileData)
    (RetryCount : Int) (fails : Nat → Nat → Bool)
    (hsame : ∀ w ∈ rest, w.Vars.map (fun V => V.Size) = w0.Vars.map (fun V => V.Size))
    (hsz : ∀ V ∈ w0.Vars, V.Size < 2 ^ 64 ∧ V.ElementSize < 2 ^ 64)
    (hN : ∀ w ∈ w0 :: rest, w.NElems < 2 ^ 64)
    (hfit : exactFileSize P Z E false SC none (w0 :: rest) < 2 ^ 64)
    (hbuf : ∀ w ∈ w0 :: rest, ∀ V ∈ w.Vars,
      w.NElems * V.Size + (if V.HasExtraSpace then CRCSize else 0) ≤ V.Data.length)
    (r : Nat) (wr : Writer) (hr : (w0 :: rest)[r]? = some wr) :
    ReadCtx
      { P := P, Z := Z, hostBE := E,
        file := (write P Z E false SC Dims PhysOrigin PhysScale none (w0 :: rest) file).file,
        RetryCount := RetryCount, fails := fails } E
      (headerBody E (leaderOf P Z E false SC Dims PhysOrigin PhysScale none (w0 :: rest)))
      w0.Vars wr.Vars wr.NElems
      (exactHeaderSize w0.Vars.length (rest.length + 1) 0 false +
        (((w0 :: rest).take r).map writerDataSize).sum) := by
  have hoct : ((none : Option (List Byte)).getD []).length = 0 := rfl
  have hfit0 := hfit
  simp only [exactFileSize, List.head?_cons, Option.map_some', Option.getD_some, List.length_cons,
    Bool.false_eq_true, if_false, hoct] at hfit
  have hH : exactHeaderSize w0.Vars.length (rest.length + 1) 0 false < 2 ^ 64 := by omega
  obtain ⟨g6, g7, g8, _, _, _, g12, g19⟩ := written_global_fields P Z E SC E Dims PhysOrigin
    PhysScale w0 rest hH
  obtain ⟨hHS, _, _⟩ := leaderOf_plain_records P Z E SC Dims PhysOrigin PhysScale w0 rest hH
  obtain ⟨_, hct⟩ := write_plain_frame P hP Z E SC Dims PhysOrigin PhysScale w0 rest file hsame
    hN hfit0 hbuf
  have hwr : wr.Vars.map (fun V => V.Size) = w0.Vars.map (fun V => V.Size) := by
    have hmem := mem_of_getElem?_some _ _ _ hr
    rcases List.mem_cons.1 hmem with h | h
    · rw [h]
    · exact hsame wr h
  have hle := sum_take_writers_le (w0 :: rest) r wr hr
  exact
    { nvars := g6
      varsSize := g7
      varsStart := g8
      globalHeaderSize := g12
      blocksSize := g19
      headerFits := by
        simp only [exactHeaderSize] at hH
        omega
      name := fun j V hj => (written_var_fields P Z E SC E Dims PhysOrigin PhysScale w0 rest hH
        hsz j V hj).1
      size := fun j V hj => (written_var_fields P Z E SC E Dims PhysOrigin PhysScale w0 rest hH
        hsz j V hj).2.1
      elementSize := fun j V hj => (written_var_fields P Z E SC E Dims PhysOrigin PhysScale w0
        rest hH hsz j V hj).2.2.1
      flags := fun j V hj => (written_var_fields P Z E SC E Dims PhysOrigin PhysScale w0 rest hH
        hsz j V hj).2.2.2
      dataFits := by
        rw [← writerDataSize_same wr w0 hwr]
        omega
      sameSizes := hwr
      content := fun pre V post hv => by
        have := hct r wr hr pre V post hv
        rw [hHS] at this
        exact this }

theorem scanVars_none (env : ReadEnv) (hdr : List Byte) (vars wvars : List Variable) (N S : Nat)
    (ctx : ReadCtx env env.hostBE hdr vars wvars N S)
    (RankIndex idx : Nat) (RVv : Variable)
    (hno : ∀ V ∈ vars, cstr (VName V.Name) ≠ RVv.Name) :
    ∀ k j, j + k = vars.length →
      scanVars env env.hostBE hdr 0 RankIndex N idx RVv k j
          (S + ((vars.take j).map (fun V => N * V.Size + CRCSize)).sum) = Except.ok none := by
  have hfits := ctx.headerFits
  have hdf := ctx.dataFits
  intro k
  induction k with
  | zero => intro j _; rfl
  | succ k ih =>
    intro j hj
    have hjl : j < vars.length := by omega
    obtain ⟨Vj, hVj⟩ : ∃ Vj, vars[j]? = some Vj := ⟨vars[j], List.getElem?_eq_getElem hjl⟩
    have hmul : (j + 1) * sizeofVariableHeader ≤ vars.length * sizeofVariableHeader :=
      Nat.mul_le_mul_right _ hjl
    have e2 : (j + 1) * sizeofVariableHeader = j * sizeofVariableHeader + sizeofVariableHeader := by
      ring
    have hVH : u64 (field env.hostBE env.hostBE hdr offVarsStart +
        j * field env.hostBE env.hostBE hdr offVarsSize) =
        sizeofGlobalHeader + j * sizeofVariableHeader := by
      rw [ctx.varsStart, ctx.varsSize]
      exact u64_of_lt (by omega)
    have hle := sum_take_le N vars j Vj hVj
    have hRS : u64 (u64 (N * Vj.Size) + CRCSize) = N * Vj.Size + CRCSize := by
      have h1 : u64 (N * Vj.Size) = N * Vj.Size := u64_of_lt (by omega)
      rw [h1]
      exact u64_of_lt (by omega)
    have hne : ¬ cstr (slice hdr (sizeofGlobalHeader + j * sizeofVariableHeader) NameSize) =
        RVv.Name := by
      rw [ctx.name j Vj hVj]
      exact hno Vj (mem_of_getElem?_some _ _ _ hVj)
    have hoff : u64 (S + ((vars.take j).map (fun V => N * V.Size + CRCSize)).sum +
        (N * Vj.Size + CRCSize)) =
        S + ((vars.take (j + 1)).map (fun V => N * V.Size + CRCSize)).sum := by
      rw [sum_take_succ N vars j Vj hVj]
      have h : S + ((vars.take j).map (fun V => N * V.Size + CRCSize)).sum +
          (N * Vj.Size + CRCSize) < 2 ^ 64 := by omega
      rw [u64_of_lt h, Nat.add_assoc]
    simp only [scanVars, hVH, ne_eq, hne, not_false_eq_true, if_true, ctx.size j Vj hVj, hRS,
      hoff]
    exact ih (j + 1) (by omega)

theorem readDataT_written (env : ReadEnv) (E : Bool) (hdr : List Byte) (NV K r N S : Nat)
    (RV : List Variable)
    (f1 : field E env.hostBE hdr offNRanks = K)
    (f2 : field E env.hostBE hdr offRanksStart =
      sizeofGlobalHeader + NV * sizeofVariableHeader)
    (f3 : field E env.hostBE hdr offRanksSize = sizeofRankHeader)
    (f4 : field E env.hostBE hdr (sizeofGlobalHeader + NV * sizeofVariableHeader +
      r * sizeofRankHeader + offRHNElems) = N)
    (f5 : field E env.hostBE hdr (sizeofGlobalHeader + NV * sizeofVariableHeader +
      r * sizeofRankHeader + offRHStart) = S)
    (hr : r < K)
    (hfits : sizeofGlobalHeader + NV * sizeofVariableHeader + K * sizeofRankHeader < 2 ^ 64) :
    readDataT env E hdr [] RV (-1) 0 (r : Int) 0 (0, 0, 0) =
      readVars env E hdr 0 r N S 0 RV { Data := [], TotalReadSize := 0, NErrs := (0, 0, 0) } := by
  have h48 : sizeofRankHeader = 48 := rfl
  rw [h48] at hfits f4 f5
  have hr64 : r < 2 ^ 64 := by omega
  have hRI : getRankIndex E env.hostBE (r : Int) hdr [] = r := by
    simp only [getRankIndex, List.isEmpty_nil, if_true]
    exact ofInt_natCast r hr64
  have h1 : u64 (r * 48) = r * 48 := u64_of_lt (by omega)
  have hRH : u64 (field E env.hostBE hdr offRanksStart +
      u64 (r * field E env.hostBE hdr offRanksSize)) =
      sizeofGlobalHeader + NV * sizeofVariableHeader + r * 48 := by
    rw [f2, f3, h48, h1]
    exact u64_of_lt (by omega)
  simp only [readDataT, if_true, hRI, f1, hr, not_true_eq_false, if_false, hRH, f4, f5]

/-! ## C1: round trip without compression -/

theorem readVars_notfound (env : ReadEnv) (E : Bool) (hdr : List Byte) (RankIndex N S i : Nat)
    (V : Variable) (Vars : List Variable) (st : ReadState)
    (h : scanVars env E hdr 0 RankIndex N i V (field E env.hostBE hdr offNVars) 0 S =
      Except.ok none) :
    readVars env E hdr 0 RankIndex N S i (V :: Vars) st =
      Except.error ReadError.variableNotFound := by
  simp only [readVars, h]

theorem cstr_nul_name : cstr (VName [120, 0, 121]) = [120] := by
  simp [VName, cstr]

/-- C1 (round trip without compression), counterexample to the claim as worded: one
writer registers a single variable whose name `"x\0y"` is unique and shorter than 256
bytes but holds a NUL byte, and writes one row of it without block headers, octree or
compression, with a CRC64 primitive that satisfies the `crc64_invert` contract; the
header of the file is read back and recognised, yet `readData` of the same variable by
the same rank, with extra space present and the same endianness, finds no variable of
that name (the reader cuts the stored name at its first NUL) and raises
"Variable ... not found" instead of filling the buffer. -/
theorem C1_counterexample :
    (nulWriter.Vars.map (fun V => V.Name)).Nodup ∧
    (∀ V ∈ nulWriter.Vars, V.Name.length < NameSize) ∧
    lastBytesCRC.Contract ∧
    ∃ os, (∀ O : Octree,
        openAndReadHeader lastBytesCRC O false MismatchBehavior.MismatchAllowed 1 0 1 none false
          [] (write lastBytesCRC noBlosc false false false [1, 1, 1] [0, 0, 0] [1, 1, 1] none
            [nulWriter] (fun _ => 0)).file = Except.ok os) ∧
      os.IsBigEndian = false ∧
      readDataT
        { P := lastBytesCRC, Z := noBlosc, hostBE := false,
          file := (write lastBytesCRC noBlosc false false false [1, 1, 1] [0, 0, 0] [1, 1, 1]
            none [nulWriter] (fun _ => 0)).file,
          RetryCount := 300, fails := fun _ _ => false }
        os.IsBigEndian os.HeaderCache [] nulWriter.Vars (-1) 0 0 0 (0, 0, 0) =
        Except.error ReadError.variableNotFound := by
  have hP := lastBytesCRC_contract
  have hsame : ∀ w ∈ ([] : List Writer),
      w.Vars.map (fun V => V.Size) = nulWriter.Vars.map (fun V => V.Size) := by
    intro w hw; cases hw
  have hsz : ∀ V ∈ nulWriter.Vars, V.Size < 2 ^ 64 ∧ V.ElementSize < 2 ^ 64 := by decide
  have hN : ∀ w ∈ [nulWriter], w.NElems < 2 ^ 64 := by decide
  have hfit : exactFileSize lastBytesCRC noBlosc false false false none [nulWriter] < 2 ^ 64 := by
    decide
  have hbuf : ∀ w ∈ [nulWriter], ∀ V ∈ w.Vars,
      w.NElems * V.Size + (if V.HasExtraSpace then CRCSize else 0) ≤ V.Data.length := by decide
  have hH : exactHeaderSize nulWriter.Vars.length (([] : List Writer).length + 1) 0 false <
      2 ^ 64 := by decide
  obtain ⟨hf, _⟩ := write_plain_frame lastBytesCRC hP noBlosc false false [1, 1, 1] [0, 0, 0]
    [1, 1, 1] nulWriter [] (fun _ => 0) hsame hN hfit hbuf
  have ho := fun O : Octree => openAndReadHeader_written lastBytesCRC hP O noBlosc false
    false [1, 1, 1] [0, 0, 0] [1, 1, 1] nulWriter [] false 1 0 1 none false [] hH _ hf
  have ctx := written_ReadCtx lastBytesCRC hP noBlosc false false [1, 1, 1] [0, 0, 0] [1, 1, 1]
    nulWriter [] (fun _ => 0) 300 (fun _ _ => false) hsame hsz hN hfit hbuf 0 nulWriter rfl
  obtain ⟨_, _, _, f1, f3, f2, _, _⟩ := written_global_fields lastBytesCRC noBlosc false false
    false [1, 1, 1] [0, 0, 0] [1, 1, 1] nulWriter [] hH
  obtain ⟨f4, f5⟩ := written_rank_fields lastBytesCRC noBlosc false false false [1, 1, 1]
    [0, 0, 0] [1, 1, 1] nulWriter [] (fun _ => 0) hsame hN hfit 0 nulWriter rfl
  have hrd := readDataT_written
    { P := lastBytesCRC, Z := noBlosc, hostBE := false,
      file := (write lastBytesCRC noBlosc false false false [1, 1, 1] [0, 0, 0] [1, 1, 1]
        none [nulWriter] (fun _ => 0)).file,
      RetryCount := 300, fails := fun _ _ => false } false _ _ _ 0 _ _ nulWriter.Vars
    f1 f2 f3 f4 f5 (by decide) (by decide)
  have hscan := scanVars_none _ _ _ _ _ _ ctx 0 0 (nulVar [7, 8, 0, 0, 0, 0, 0, 0, 0, 0])
    (by
      intro V hV
      have hV2 : V = nulVar [7, 8, 0, 0, 0, 0, 0, 0, 0, 0] := by
        simpa [nulWriter] using hV
      rw [hV2]
      show cstr (VName [120, 0, 121]) ≠ [120, 0, 121]
      rw [cstr_nul_name]
      decide) 1 0 rfl
  refine ⟨by decide, by decide, hP, _, ho, rfl, ?_⟩
  refine Eq.trans hrd ?_
  exact readVars_notfound _ _ _ _ _ _ _ _ _ _ (by rw [ctx.nvars]; exact hscan)

/-- C1 (round trip without compression), amended: `K >= 1` writers of one partition
register the same variable list (unique names shorter than 256 bytes that hold no NUL
byte) with per-writer row counts below `2^64`, and write without block headers and
without octree a file whose size fits in 64 bits, with a CRC64 primitive that satisfies
the `crc64_invert` contract.  Then on a host of the same endianness the header of the
file is accepted and recognised, and `readData` by reader `r` of the same variables,
each buffer having extra space, with some read attempt before `RetryCount` succeeding,
returns without raising, increments none of the three error counters, and leaves in
each variable buffer the `N_r * Size` payload bytes that writer `r` supplied, followed
by what the buffer held behind them. -/
theorem C1_round_trip (P : CRC64) (hP : P.Contract) (Z : Blosc) (E SC : Bool)
    (Dims PhysOrigin PhysScale : List Nat) (w0 : Writer) (rest : List Writer) (file : FileData)
    (RetryCount : Int) (fails : Nat → Nat → Bool) (topoDims : Option (List Int))
    (r : Nat) (wr : Writer) (RV : List Variable)
    (hvars : ∀ w ∈ rest, w.Vars.map descr = w0.Vars.map descr)
    (hnd : (w0.Vars.map (fun V => V.Name)).Nodup)
    (hlen : ∀ V ∈ w0.Vars, V.Name.length < NameSize)
    (hnul : ∀ V ∈ w0.Vars, ∀ b ∈ V.Name, b ≠ 0)
    (hsz : ∀ V ∈ w0.Vars, V.Size < 2 ^ 64 ∧ V.ElementSize < 2 ^ 64)
    (hN : ∀ w ∈ w0 :: rest, w.NElems < 2 ^ 64)
    (hfit : exactFileSize P Z E false SC none (w0 :: rest) < 2 ^ 64)
    (hbuf : ∀ w ∈ w0 :: rest, ∀ V ∈ w.Vars,
      w.NElems * V.Size + (if V.HasExtraSpace then CRCSize else 0) ≤ V.Data.length)
    (hr : (w0 :: rest)[r]? = some wr)
    (hRV : RV.map descr = w0.Vars.map descr)
    (hRVx : ∀ rv ∈ RV,
      rv.HasExtraSpace = true ∧ wr.NElems * rv.Size + CRCSize ≤ rv.Data.length)
    (hretry : ∀ idx, ∃ k : Nat, (k : Int) < RetryCount ∧ fails idx k = false) :
    ∃ os st,
      (∀ O : Octree,
        openAndReadHeader P O E MismatchBehavior.MismatchAllowed ((rest.length + 1 : Nat) : Int)
            (r : Int) ((rest.length + 1 : Nat) : Int) topoDims false []
            (write P Z E false SC Dims PhysOrigin PhysScale none (w0 :: rest) file).file =
          Except.ok os) ∧
      os.IsBigEndian = E ∧
      readDataT
          { P := P, Z := Z, hostBE := E,
            file := (write P Z E false SC Dims PhysOrigin PhysScale none (w0 :: rest) file).file,
            RetryCount := RetryCount, fails := fails }
          os.IsBigEndian os.HeaderCache [] RV (-1) 0 (r : Int) 0 (0, 0, 0) = Except.ok st ∧
      st.NErrs = (0, 0, 0) ∧
      st.Data = List.zipWith (expectedBuffer wr.NElems) wr.Vars RV := by
  have hsame : ∀ w ∈ rest, w.Vars.map (fun V => V.Size) = w0.Vars.map (fun V => V.Size) :=
    fun w hw => sizes_of_descr _ _ (hvars w hw)
  have hoct : ((none : Option (List Byte)).getD []).length = 0 := rfl
  have hfit0 := hfit
  simp only [exactFileSize, List.head?_cons, Option.map_some', Option.getD_some, List.length_cons,
    Bool.false_eq_true, if_false, hoct] at hfit0
  have hH : exactHeaderSize w0.Vars.length (rest.length + 1) 0 false < 2 ^ 64 := by omega
  have hrK : r < rest.length + 1 := by
    have := lt_length_of_getElem? _ _ _ hr
    simpa using this
  obtain ⟨hf, _⟩ := write_plain_frame P hP Z E SC Dims PhysOrigin PhysScale w0 rest file hsame
    hN hfit hbuf
  have ho := fun O : Octree => openAndReadHeader_written P hP O Z E SC Dims PhysOrigin
    PhysScale w0 rest E ((rest.length + 1 : Nat) : Int) (r : Int)
    ((rest.length + 1 : Nat) : Int) topoDims false [] hH _ hf
  have ctx := written_ReadCtx P hP Z E SC Dims PhysOrigin PhysScale w0 rest file RetryCount fails
    hsame hsz hN hfit hbuf r wr hr
  obtain ⟨_, _, _, f1, f3, f2, _, _⟩ := written_global_fields P Z E SC E Dims PhysOrigin
    PhysScale w0 rest hH
  obtain ⟨f4, f5⟩ := written_rank_fields P Z E SC E Dims PhysOrigin PhysScale w0 rest file
    hsame hN hfit r wr hr
  have hrd := readDataT_written
    { P := P, Z := Z, hostBE := E,
      file := (write P Z E false SC Dims PhysOrigin PhysScale none (w0 :: rest) file).file,
      RetryCount := RetryCount, fails := fails } E _ _ _ r _ _ RV
    f1 f2 f3 f4 f5 hrK (by
      simp only [exactHeaderSize] at hH
      omega)
  have hwl : wr.Vars.length = w0.Vars.length := by
    have := congrArg List.length ctx.sameSizes
    simpa using this
  obtain ⟨st, h1, h2, h3⟩ := readVars_ok
    { P := P, Z := Z, hostBE := E,
      file := (write P Z E false SC Dims PhysOrigin PhysScale none (w0 :: rest) file).file,
      RetryCount := RetryCount, fails := fails } hP _ _ _ _ _ ctx hnul hlen hnd hretry r RV 0
    { Data := [], TotalReadSize := 0, NErrs := (0, 0, 0) } rfl
    (by rw [List.drop_zero]; exact hRV) hRVx
  refine ⟨_, st, ho, rfl, ?_, h2, ?_⟩
  · exact hrd.trans h1
  · rw [h3, List.drop_zero, List.nil_append]

theorem C1_round_trip_witness :
    ∃ os st,
      (∀ O : Octree,
        openAndReadHeader lastBytesCRC O false MismatchBehavior.MismatchAllowed
            2 1 2 none false []
            (write lastBytesCRC noBlosc false false false [2, 1, 1] [0, 0, 0] [1, 1, 1] none
              (exampleWriter0 :: [exampleWriter1]) (fun _ => 0)).file =
          Except.ok os) ∧
      os.IsBigEndian = false ∧
      readDataT
          { P := lastBytesCRC, Z := noBlosc, hostBE := false,
            file := (write lastBytesCRC noBlosc false false false [2, 1, 1] [0, 0, 0] [1, 1, 1]
              none (exampleWriter0 :: [exampleWriter1]) (fun _ => 0)).file,
            RetryCount := 300, fails := fun _ _ => false }
          os.IsBigEndian os.HeaderCache [] [exampleVar [9, 9, 9, 9, 9, 9, 9, 9, 9, 9]] (-1) 0
          1 0 (0, 0, 0) = Except.ok st ∧
      st.NErrs = (0, 0, 0) ∧
      st.Data = List.zipWith (expectedBuffer exampleWriter1.NElems) exampleWriter1.Vars
        [exampleVar [9, 9, 9, 9, 9, 9, 9, 9, 9, 9]] :=
  C1_round_trip lastBytesCRC lastBytesCRC_contract noBlosc false false [2, 1, 1] [0, 0, 0]
    [1, 1, 1] exampleWriter0 [exampleWriter1] (fun _ => 0) 300 (fun _ _ => false) none 1
    exampleWriter1 [exampleVar [9, 9, 9, 9, 9, 9, 9, 9, 9, 9]]
    (by decide) (by decide) (by decide) (by decide) (by decide) (by decide) (by decide)
    (by decide) rfl (by decide) (by decide) (fun _ => ⟨0, by decide, rfl⟩)

/-! ## The bulk phase leaves the bytes below its blocks as they are -/

theorem writeBlock_below (P : CRC64) (file : FileData) (Data : List Byte) (W : Nat) (X : Bool)
    (Offset p : Nat) (hp : p < Offset) (hoff : Offset + W < 2 ^ 64) :
    (writeBlock P file Data W X Offset).1 p = file p := by
  cases X with
  | true =>
    simp only [writeBlock, if_true, fileWrite]
    rw [if_neg (by omega)]
  | false =>
    simp only [writeBlock, Bool.false_eq_true, if_false, fileWrite, u64_of_lt hoff]
    rw [if_neg (by omega), if_neg (by omega)]

theorem bulkLoop_below (P : CRC64) (NB : Bool) (N : Nat) (p : Nat) : ∀ (Vars : List Variable)
    (LBs : List LocalBlock) (st : BulkState),
    ∃ new, (bulkLoop P NB N Vars LBs st).blocks = st.blocks ++ new ∧
      ((∀ b ∈ new, p < b.Offset ∧ b.Offset + b.WriteSize < 2 ^ 64) →
        (bulkLoop P NB N Vars LBs st).file p = st.file p) := by
  intro Vars
  induction Vars with
  | nil => intro LBs st; exact ⟨[], by simp [bulkLoop], fun _ => by simp [bulkLoop]⟩
  | cons V Vars ih =>
    intro LBs st
    unfold bulkLoop
    dsimp only
    generalize hst : BulkState.mk _ _ _ _ = st1
    have hb : ∃ b0 : Block, st1.blocks = st.blocks ++ [b0] ∧
        ∀ q, q < b0.Offset → b0.Offset + b0.WriteSize < 2 ^ 64 → st1.file q = st.file q := by
      refine ⟨{ Offset := if NB then (LBs.head?.map (fun b => b.BH.Start)).getD 0
                  else st.Offset,
                WriteSize := if NB then (LBs.head?.map (fun b => b.BH.Size)).getD 0
                  else u64 (N * V.Size) }, ?_, ?_⟩
      · rw [← hst]
      · intro q h1 h2
        rw [← hst]
        exact writeBlock_below P _ _ _ _ _ q h1 h2
    obtain ⟨b0, hb1, hb2⟩ := hb
    obtain ⟨new1, i1, i2⟩ := ih LBs.tail st1
    refine ⟨b0 :: new1, ?_, ?_⟩
    · rw [i1, hb1, List.append_assoc, List.singleton_append]
    · intro h
      rw [i2 (fun b hb3 => h b (List.mem_cons_of_mem _ hb3))]
      have h0 := h b0 (List.mem_cons_self _ _)
      exact hb2 p h0.1 h0.2

theorem bulkAll_below (P : CRC64) (Z : Blosc) (E NB SC : Bool) (L : LeaderState) (NV : Nat)
    (p : Nat) : ∀ (ws : List Writer) (i : Nat) (file : FileData),
    (∀ b ∈ (bulkAll P Z E NB SC L NV i ws file).2.2.flatten,
      p < b.Offset ∧ b.Offset + b.WriteSize < 2 ^ 64) →
    (bulkAll P Z E NB SC L NV i ws file).1 p = file p := by
  intro ws
  induction ws with
  | nil => intro i file _; rfl
  | cons w ws ih =>
    intro i file h
    simp only [bulkAll, List.flatten_cons, List.mem_append] at h ⊢
    rw [ih _ _ (fun b hb => h b (Or.inr hb))]
    simp only [bulkPhase] at h ⊢
    obtain ⟨new, h1, h2⟩ := bulkLoop_below P NB w.NElems p w.Vars
      (scatterBlocks ((L.BHs.drop (i * NV)).take NV) (localBlocks P Z E NB SC w))
      { file := file, Offset := (L.RHs[i]?.map (fun rh => rh.Start)).getD 0, Data := [],
        blocks := [] }
    apply h2
    intro b hb
    apply h b
    left
    rw [h1]
    exact hb

/-- The header a sub-group has written stays in place: when every block of the bulk
phase starts at or behind the end of the header (and its end fits in 64 bits), the first
`HeaderSize` bytes of the file are the header bytes the leader wrote. -/
theorem write_header_frame (P : CRC64) (hP : P.Contract) (Z : Blosc) (E NB SC : Bool)
    (Dims PhysOrigin PhysScale : List Nat) (octree : Option (List Byte))
    (ws : List Writer) (file : FileData)
    (hge : CRCSize ≤ (leaderOf P Z E NB SC Dims PhysOrigin PhysScale octree ws).HeaderSize)
    (hblocks : ∀ b ∈ (write P Z E NB SC Dims PhysOrigin PhysScale octree ws file).blocks.flatten,
      (leaderOf P Z E NB SC Dims PhysOrigin PhysScale octree ws).HeaderSize ≤ b.Offset ∧
        b.Offset + b.WriteSize < 2 ^ 64) :
    fileRead (write P Z E NB SC Dims PhysOrigin PhysScale octree ws file).file
        (leaderOf P Z E NB SC Dims PhysOrigin PhysScale octree ws).HeaderSize 0 =
      headerBytes P E (leaderOf P Z E NB SC Dims PhysOrigin PhysScale octree ws) := by
  have hlen := headerBytes_length P hP E
    (leaderOf P Z E NB SC Dims PhysOrigin PhysScale octree ws) hge
  have h1 : fileRead (write P Z E NB SC Dims PhysOrigin PhysScale octree ws file).file
      (leaderOf P Z E NB SC Dims PhysOrigin PhysScale octree ws).HeaderSize 0 =
      fileRead (fileWrite file
        (headerBytes P E (leaderOf P Z E NB SC Dims PhysOrigin PhysScale octree ws))
        (leaderOf P Z E NB SC Dims PhysOrigin PhysScale octree ws).HeaderSize 0)
        (leaderOf P Z E NB SC Dims PhysOrigin PhysScale octree ws).HeaderSize 0 := by
    apply fileRead_congr
    intro k hk
    rw [Nat.zero_add]
    simp only [write] at hblocks ⊢
    apply bulkAll_below
    intro b hb
    have := hblocks b hb
    exact ⟨by omega, this.2⟩
  rw [h1, fileRead_fileWrite _ _ _ _ (by rw [hlen]), ← hlen, List.take_length]

/-! ## C11: schema checks of `readData` and `readDataSection` -/

theorem exampleHeader_open : ∀ (O : Octree) (hostBE : Bool),
    openAndReadHeader lastBytesCRC O hostBE MismatchBehavior.MismatchAllowed 2 1 2 none false []
        exampleWrite.file =
      Except.ok { IsBigEndian := false, HeaderCache := exampleHeader, SourceRanks := [],
                  octreeHeader := none } := by
  intro O hostBE
  have hz : ∀ h : Bool,
      field false h (headerBody false exampleWrite.leader) offOctreeSize = 0 := by
    decide!
  exact openAndReadHeader_leader_plain lastBytesCRC lastBytesCRC_contract O false hostBE 2 1 2
    none false [] exampleWrite.leader exampleWrite.leader.HeaderSize (by decide!) (by decide!)
    rfl (by decide!) (by decide!) exampleWrite.file
    (write_header_frame lastBytesCRC lastBytesCRC_contract noBlosc false false false [2, 1, 1]
      [0, 0, 0] [1, 1, 1] none [exampleWriter0, exampleWriter1] (fun _ => 0) (by decide!)
      (by decide!)) (hz hostBE)

theorem readFound_schema_mismatch (env : ReadEnv) (E : Bool) (hdr : List Byte)
    (RowOffset RankIndex RHNElems i : Nat) (V : Variable) (j Offset ReadSize0 : Nat)
    (h : fileVarSize E env.hostBE hdr j ≠ V.Size ∨
      fileVarElementSize E env.hostBE hdr j ≠ V.ElementSize ∨
      fileVarIsFloat E env.hostBE hdr j ≠ V.IsFloat ∨
      fileVarIsSigned E env.hostBE hdr j ≠ V.IsSigned) :
    readFound env E hdr RowOffset RankIndex RHNElems i V j Offset ReadSize0 =
        Except.error ReadError.sizeMismatch ∨
      readFound env E hdr RowOffset RankIndex RHNElems i V j Offset ReadSize0 =
        Except.error ReadError.elementSizeMismatch ∨
      readFound env E hdr RowOffset RankIndex RHNElems i V j Offset ReadSize0 =
        Except.error ReadError.typeMismatchFloat ∨
      readFound env E hdr RowOffset RankIndex RHNElems i V j Offset ReadSize0 =
        Except.error ReadError.typeMismatchSigned := by
  simp only [fileVarSize, fileVarElementSize, fileVarIsFloat, fileVarIsSigned, fileVH] at h
  simp only [readFound]
  by_cases h1 : field E env.hostBE hdr (u64 (field E env.hostBE hdr offVarsStart +
      j * field E env.hostBE hdr offVarsSize) + offVHSize) = V.Size
  · rw [if_neg (not_not.2 h1)]
    by_cases h2 : (if offVHElementSize < field E env.hostBE hdr offVarsSize then
        field E env.hostBE hdr (u64 (field E env.hostBE hdr offVarsStart +
          j * field E env.hostBE hdr offVarsSize) + offVHElementSize)
        else field E env.hostBE hdr (u64 (field E env.hostBE hdr offVarsStart +
          j * field E env.hostBE hdr offVarsSize) + offVHSize)) = V.ElementSize
    · rw [if_neg (not_not.2 h2)]
      by_cases h3 : ((field E env.hostBE hdr (u64 (field E env.hostBE hdr offVarsStart +
          j * field E env.hostBE hdr offVarsSize) + offVHFlags) &&& FloatValue) != 0) = V.IsFloat
      · rw [if_neg (not_not.2 h3)]
        by_cases h4 : ((field E env.hostBE hdr (u64 (field E env.hostBE hdr offVarsStart +
            j * field E env.hostBE hdr offVarsSize) + offVHFlags) &&& SignedValue) != 0) =
            V.IsSigned
        · rcases h with h | h | h | h
          · exact absurd h1 h
          · exact absurd h2 h
          · exact absurd h3 h
          · exact absurd h4 h
        · rw [if_pos h4]; exact Or.inr (Or.inr (Or.inr rfl))
      · rw [if_pos h3]; exact Or.inr (Or.inr (Or.inl rfl))
    · rw [if_pos h2]; exact Or.inr (Or.inl rfl)
  · rw [if_pos h1]; exact Or.inl rfl

theorem readSectionFound_schema_mismatch (env : ReadEnv) (E : Bool) (hdr : List Byte)
    (readOffset readNumRows RowOffset RankIndex RHNElems i : Nat) (V : Variable)
    (j Offset ReadSize0 : Nat)
    (h : fileVarSize E env.hostBE hdr j ≠ V.Size ∨
      fileVarIsFloat E env.hostBE hdr j ≠ V.IsFloat ∨
      fileVarIsSigned E env.hostBE hdr j ≠ V.IsSigned) :
    readSectionFound env E hdr readOffset readNumRows RowOffset RankIndex RHNElems i V j Offset
        ReadSize0 = Except.error ReadError.sizeMismatch ∨
      readSectionFound env E hdr readOffset readNumRows RowOffset RankIndex RHNElems i V j Offset
        ReadSize0 = Except.error ReadError.typeMismatchFloat ∨
      readSectionFound env E hdr readOffset readNumRows RowOffset RankIndex RHNElems i V j Offset
        ReadSize0 = Except.error ReadError.typeMismatchSigned := by
  simp only [fileVarSize, fileVarIsFloat, fileVarIsSigned, fileVH] at h
  simp only [readSectionFound]
  by_cases h1 : field E env.hostBE hdr (u64 (field E env.hostBE hdr offVarsStart +
      j * field E env.hostBE hdr offVarsSize) + offVHSize) = V.Size
  · rw [if_neg (not_not.2 h1)]
    by_cases h3 : ((field E env.hostBE hdr (u64 (field E env.hostBE hdr offVarsStart +
        j * field E env.hostBE hdr offVarsSize) + offVHFlags) &&& FloatValue) != 0) = V.IsFloat
    · rw [if_neg (not_not.2 h3)]
      by_cases h4 : ((field E env.hostBE hdr (u64 (field E env.hostBE hdr offVarsStart +
          j * field E env.hostBE hdr offVarsSize) + offVHFlags) &&& SignedValue) != 0) =
          V.IsSigned
      · rcases h with h | h | h
        · exact absurd h1 h
        · exact absurd h3 h
        · exact absurd h4 h
      · rw [if_pos h4]; exact Or.inr (Or.inr rfl)
    · rw [if_pos h3]; exact Or.inr (Or.inl rfl)
  · rw [if_pos h1]; exact Or.inl rfl

/-- C11 (schema mismatch on every read path), the divergence evaluated: the example file
holds the column `x` as rows of one two-byte element; a reader registers `x` with the
same record size and flags but `ElementSize = 1`.  `readData` raises "Element size
mismatch", while `readDataSection` of row 0 returns without raising and delivers the
bytes of the row: it has no element-size check. -/
theorem C11_section_skips_element_size :
    fileVarName false false exampleHeader 0 = (bytePairVar []).Name ∧
    fileVarElementSize false false exampleHeader 0 ≠ (bytePairVar []).ElementSize ∧
    readDataT (exampleEnv false (fun _ _ => false)) false exampleHeader []
        [bytePairVar [9, 9, 9, 9, 9, 9, 9, 9, 9, 9]] (-1) 0 1 0 (0, 0, 0) =
      Except.error ReadError.elementSizeMismatch ∧
    readDataSectionT (exampleEnv false (fun _ _ => false)) false exampleHeader []
        [bytePairVar [9, 9, 9, 9, 9, 9, 9, 9, 9, 9]] 0 1 (-1) 0 1 0 (0, 0, 0) =
      Except.ok { Data := [[5, 6, 9, 9, 9, 9, 9, 9, 9, 9]], TotalReadSize := 2,
                  NErrs := (0, 0, 0) } := by
  decide!

/-! ## C12: filter dispatch of `readData` -/

theorem filterSlotHeader_open : ∀ O : Octree,
    openAndReadHeader lastBytesCRC O false MismatchBehavior.MismatchAllowed 2 1 2 none false []
        (filterSlotFile 1) =
      Except.ok { IsBigEndian := false, HeaderCache := filterSlotHeader 1, SourceRanks := [],
                  octreeHeader := none } := by
  intro O
  have hz : field false false (filterSlotHeader 1) offOctreeSize = 0 := by
    decide!
  have hlen : (headerBytes lastBytesCRC false
      { exampleBlocksWrite.leader with
        BHs := exampleBlocksWrite.leader.BHs.map
          (fun bh => { bh with
            Filters := overwrite bh.Filters (1 * FilterNameSize) [88, 89, 90] }) }).length =
      exampleBlocksWrite.leader.HeaderSize :=
    headerBytes_length lastBytesCRC lastBytesCRC_contract false _ (by decide!)
  have hf : fileRead (filterSlotFile 1) exampleBlocksWrite.leader.HeaderSize 0 =
      headerBytes lastBytesCRC false
        { exampleBlocksWrite.leader with
          BHs := exampleBlocksWrite.leader.BHs.map
            (fun bh => { bh with
              Filters := overwrite bh.Filters (1 * FilterNameSize) [88, 89, 90] }) } := by
    show fileRead (fileWrite _ _ _ 0) _ 0 = _
    rw [fileRead_fileWrite _ _ _ _ (by rw [hlen])]
    exact (congrArg (fun n => List.take n _) hlen.symm).trans (List.take_length _)
  exact openAndReadHeader_leader_plain lastBytesCRC lastBytesCRC_contract O false false 2 1 2
    none false []
    { exampleBlocksWrite.leader with
      BHs := exampleBlocksWrite.leader.BHs.map
        (fun bh => { bh with
          Filters := overwrite bh.Filters (1 * FilterNameSize) [88, 89, 90] }) }
    exampleBlocksWrite.leader.HeaderSize (by decide!) (by decide!) rfl
    (by decide!) (by decide!) (filterSlotFile 1) hf hz

/-- C12 (unknown filters), counterexample to the claim as worded: in the header of the
file `filterSlotFile 1` (accepted on open, see `filterSlotHeader_open`) the second
filter slot of the block header consulted for rank 1 and variable `x` holds `"XYZ"`,
which is non-NUL and not `"BLOSC"`, and the first slot is empty; `readData` reads the
block as an uncompressed one and returns the row without any error. -/
theorem C12_counterexample :
    fileUsesBlocks false false (filterSlotHeader 1) ∧
    fileFilter false false (filterSlotHeader 1) 1 0 0 = [0, 0, 0, 0, 0, 0, 0, 0] ∧
    fileFilter false false (filterSlotHeader 1) 1 0 1 = [88, 89, 90, 0, 0, 0, 0, 0] ∧
    readDataT (filterSlotEnv 1) false (filterSlotHeader 1) []
        [exampleVar [9, 9, 9, 9, 9, 9, 9, 9, 9, 9]] (-1) 0 1 0 (0, 0, 0) =
      Except.ok { Data := [[5, 6, 9, 9, 9, 9, 9, 9, 9, 9]], TotalReadSize := 10,
                  NErrs := (0, 0, 0) } := by
  refine ⟨?_, ?_, ?_, ?_⟩
  · unfold fileUsesBlocks; decide!
  · decide!
  · decide!
  · decide!

/-- C12 (unknown filters), amended: when the file has block headers and the first filter
slot of the block header consulted for the requested variable is not `"BLOSC"` (as
`strncmp` over `FilterNameSize` bytes sees it) and its first byte is not NUL, the read of
that variable raises; the error is the unknown-filter error whenever the four schema
checks that precede the filter dispatch pass.  The other three slots are not
examined. -/
theorem C12_unknown_filter (env : ReadEnv) (E : Bool) (hdr : List Byte)
    (RowOffset RankIndex RHNElems i : Nat) (V : Variable) (j Offset ReadSize0 : Nat)
    (hblocks : fileUsesBlocks E env.hostBE hdr)
    (hname : cstr (fileFilter E env.hostBE hdr RankIndex j 0) ≠ CompressName)
    (hnz : (fileFilter E env.hostBE hdr RankIndex j 0).getD 0 0 ≠ 0) :
    (∃ e, readFound env E hdr RowOffset RankIndex RHNElems i V j Offset ReadSize0 =
      Except.error e) ∧
    (fileVarSize E env.hostBE hdr j = V.Size →
      fileVarElementSize E env.hostBE hdr j = V.ElementSize →
      fileVarIsFloat E env.hostBE hdr j = V.IsFloat →
      fileVarIsSigned E env.hostBE hdr j = V.IsSigned →
      readFound env E hdr RowOffset RankIndex RHNElems i V j Offset ReadSize0 =
        Except.error ReadError.unknownFilter) := by
  simp only [fileFilter, fileBH, Nat.zero_mul, Nat.add_zero] at hname hnz
  simp only [fileUsesBlocks] at hblocks
  have key : fileVarSize E env.hostBE hdr j = V.Size →
      fileVarElementSize E env.hostBE hdr j = V.ElementSize →
      fileVarIsFloat E env.hostBE hdr j = V.IsFloat →
      fileVarIsSigned E env.hostBE hdr j = V.IsSigned →
      readFound env E hdr RowOffset RankIndex RHNElems i V j Offset ReadSize0 =
        Except.error ReadError.unknownFilter := by
    intro h1 h2 h3 h4
    simp only [fileVarSize, fileVarElementSize, fileVarIsFloat, fileVarIsSigned, fileVH] at h1 h2 h3 h4
    simp only [readFound]
    rw [if_neg (not_not.2 h1), if_neg (not_not.2 h2), if_neg (not_not.2 h3),
      if_neg (not_not.2 h4), if_pos ⟨hblocks, hname, hnz⟩]
  refine ⟨?_, key⟩
  by_cases h : fileVarSize E env.hostBE hdr j = V.Size ∧
      fileVarElementSize E env.hostBE hdr j = V.ElementSize ∧
      fileVarIsFloat E env.hostBE hdr j = V.IsFloat ∧
      fileVarIsSigned E env.hostBE hdr j = V.IsSigned
  · exact ⟨_, key h.1 h.2.1 h.2.2.1 h.2.2.2⟩
  · have h2 : fileVarSize E env.hostBE hdr j ≠ V.Size ∨
        fileVarElementSize E env.hostBE hdr j ≠ V.ElementSize ∨
        fileVarIsFloat E env.hostBE hdr j ≠ V.IsFloat ∨
        fileVarIsSigned E env.hostBE hdr j ≠ V.IsSigned := by
      by_contra hc
      push_neg at hc
      exact h hc
    rcases readFound_schema_mismatch env E hdr RowOffset RankIndex RHNElems i V j Offset ReadSize0
      h2 with h3 | h3 | h3 | h3 <;> exact ⟨_, h3⟩

theorem C12_unknown_filter_witness :
    (∃ e, readFound (filterSlotEnv 0) false (filterSlotHeader 0) 0 1 1 0
        (exampleVar [9, 9, 9, 9, 9, 9, 9, 9, 9, 9]) 0 0 10 = Except.error e) ∧
    (fileVarSize false false (filterSlotHeader 0) 0 =
        (exampleVar [9, 9, 9, 9, 9, 9, 9, 9, 9, 9]).Size →
      fileVarElementSize false false (filterSlotHeader 0) 0 =
        (exampleVar [9, 9, 9, 9, 9, 9, 9, 9, 9, 9]).ElementSize →
      fileVarIsFloat false false (filterSlotHeader 0) 0 =
        (exampleVar [9, 9, 9, 9, 9, 9, 9, 9, 9, 9]).IsFloat →
      fileVarIsSigned false false (filterSlotHeader 0) 0 =
        (exampleVar [9, 9, 9, 9, 9, 9, 9, 9, 9, 9]).IsSigned →
      readFound (filterSlotEnv 0) false (filterSlotHeader 0) 0 1 1 0
        (exampleVar [9, 9, 9, 9, 9, 9, 9, 9, 9, 9]) 0 0 10 =
        Except.error ReadError.unknownFilter) :=
  C12_unknown_filter (filterSlotEnv 0)
    false (filterSlotHeader 0) 0 1 1 0 (exampleVar [9, 9, 9, 9, 9, 9, 9, 9, 9, 9]) 0 0 10
    (by unfold fileUsesBlocks; decide!) (by decide!) (by decide!)

/-! ## C13: a block CRC error ends the per-variable iteration of `readData` -/

theorem okCases_ite {α : Type} {c : Prop} [Decidable c] {a b : Except ReadError α}
    (Q : α → Prop) (ha : ∀ r, a = Except.ok r → Q r) (hb : ∀ r, b = Except.ok r → Q r) :
    ∀ r, (if c then a else b) = Except.ok r → Q r := by
  intro r h
  by_cases hc : c
  · rw [if_pos hc] at h; exact ha r h
  · rw [if_neg hc] at h; exact hb r h

theorem okCases_error {α : Type} (Q : α → Prop) (e : ReadError) :
    ∀ r, (Except.error e : Except ReadError α) = Except.ok r → Q r := by
  intro r h; cases h

theorem okCases_ok {α : Type} (Q : α → Prop) (v : α) (hv : Q v) :
    ∀ r, (Except.ok v : Except ReadError α) = Except.ok r → Q r := by
  intro r h
  rw [← Except.ok.inj h]
  exact hv

theorem readFound_NErrs (env : ReadEnv) (E : Bool) (hdr : List Byte)
    (RowOffset RankIndex RHNElems i : Nat) (V : Variable) (j Offset ReadSize0 : Nat) :
    ∀ r, readFound env E hdr RowOffset RankIndex RHNElems i V j Offset ReadSize0 =
      Except.ok r →
    r.NErrs = (1, 0, 0) ∨ r.NErrs = (0, 1, 0) ∨ r.NErrs = (0, 0, 1) ∨ r.NErrs = (0, 0, 0) := by
  unfold readFound
  dsimp only
  repeat (first
    | apply okCases_ite
    | apply okCases_error
    | (apply okCases_ok; first
        | exact Or.inl rfl
        | exact Or.inr (Or.inl rfl)
        | exact Or.inr (Or.inr (Or.inl rfl))
        | exact Or.inr (Or.inr (Or.inr rfl))))

theorem scanVars_NErrs (env : ReadEnv) (E : Bool) (hdr : List Byte)
    (RowOffset RankIndex RHNElems i : Nat) (V : Variable) (r : VarRead) :
    ∀ (n j Offset : Nat),
      scanVars env E hdr RowOffset RankIndex RHNElems i V n j Offset = Except.ok (some r) →
      r.NErrs = (1, 0, 0) ∨ r.NErrs = (0, 1, 0) ∨ r.NErrs = (0, 0, 1) ∨ r.NErrs = (0, 0, 0) := by
  intro n
  induction n with
  | zero => intro j Offset h; simp [scanVars] at h
  | succ n ih =>
    intro j Offset h
    simp only [scanVars] at h
    split_ifs at h with hn
    · exact ih _ _ h
    · cases hf : readFound env E hdr RowOffset RankIndex RHNElems i V j Offset
        (u64 (u64 (RHNElems * field E env.hostBE hdr
          (u64 (field E env.hostBE hdr offVarsStart + j * field E env.hostBE hdr offVarsSize) +
            offVHSize)) + CRCSize)) with
      | error e => rw [hf] at h; simp [Except.map] at h
      | ok r2 =>
        rw [hf] at h
        simp only [Except.map, Except.ok.injEq, Option.some.injEq] at h
        rw [← h]
        exact readFound_NErrs _ _ _ _ _ _ _ _ _ _ _ _ hf

/-- C13 (block CRC error), counterexample to the claim as worded: the file of
`twoVarWriter` has lost one footer byte in each of its two blocks, so both blocks fail
the CRC check; `readData` of the columns `x` and `y` counts one CRC error, not two, and
leaves the buffer of `y` as it was: after the failing block of `x` the iteration over
the requested variables is left. -/
theorem C13_counterexample :
    lastBytesCRC.crc64_omp (fileRead damagedFile 10 800) ≠ 2 ^ 64 - 1 ∧
    lastBytesCRC.crc64_omp (fileRead damagedFile 10 810) ≠ 2 ^ 64 - 1 ∧
    readDataT damagedEnv false (headerBody false twoVarWrite.leader) []
        [exampleVar [9, 9, 9, 9, 9, 9, 9, 9, 9, 9], yVar [7, 7, 7, 7, 7, 7, 7, 7, 7, 7]]
        (-1) 0 0 0 (0, 0, 0) =
      Except.ok { Data := [[1, 2, 255, 255, 255, 255, 255, 255, 255, 255],
                    [7, 7, 7, 7, 7, 7, 7, 7, 7, 7]],
                  TotalReadSize := 10, NErrs := (0, 1, 0) } := by
  decide!

theorem scanVars_locate (env : ReadEnv) (E : Bool) (hdr : List Byte)
    (RowOffset RankIndex RHNElems RHStart i : Nat) (V : Variable) (j : Nat)
    (hname : fileVarName E env.hostBE hdr j = V.Name) :
    ∀ (n j0 : Nat), j0 ≤ j → j < j0 + n →
      (∀ k : Nat, j0 ≤ k → k < j → fileVarName E env.hostBE hdr k ≠ V.Name) →
      scanVars env E hdr RowOffset RankIndex RHNElems i V n j0
          (scanOffset E env.hostBE hdr RHNElems RHStart j0) =
        (readFound env E hdr RowOffset RankIndex RHNElems i V j
          (scanOffset E env.hostBE hdr RHNElems RHStart j)
          (u64 (u64 (RHNElems * fileVarSize E env.hostBE hdr j) + CRCSize))).map some := by
  intro n
  induction n with
  | zero => intro j0 h1 h2 _; omega
  | succ n ih =>
    intro j0 h1 h2 hbefore
    rcases Nat.eq_or_lt_of_le h1 with h | h
    · subst h
      have hn : ¬ (fileVarName E env.hostBE hdr j0 ≠ V.Name) := not_not.2 hname
      simp only [fileVarName, fileVH] at hn
      simp only [scanVars]
      rw [if_neg hn]
      rfl
    · have hne := hbefore j0 (Nat.le_refl _) h
      simp only [fileVarName, fileVH] at hne
      simp only [scanVars]
      rw [if_pos hne]
      exact ih (j0 + 1) h (by omega) (fun k hk1 hk2 => hbefore k (by omega) hk2)

theorem slice_overwrite_self (v bs : List Byte) (off n : Nat) (hn : bs.length = n)
    (h : off ≤ v.length) : slice (overwrite v off bs) off n = bs := by
  simp only [slice, overwrite]
  rw [List.append_assoc, List.drop_append_of_le_length (by rw [List.length_take]; omega)]
  have h1 : (v.take off).drop off = [] := by
    apply List.drop_eq_nil_of_le
    rw [List.length_take]; omega
  rw [h1, List.nil_append, List.take_append_of_le_length (by omega),
    List.take_of_length_le (by omega)]

/-- When the block of variable `j` of the file, as `readData` reads it, fails the CRC
check, the step for the requested variable returns with the CRC-error counter at one and
the other counters at zero. -/
theorem readFound_crc_error (env : ReadEnv) (E : Bool) (hdr : List Byte)
    (RowOffset RankIndex RHNElems RHStart i : Nat) (V : Variable) (j : Nat)
    (hsize : fileVarSize E env.hostBE hdr j = V.Size)
    (hes : fileVarElementSize E env.hostBE hdr j = V.ElementSize)
    (hfl : fileVarIsFloat E env.hostBE hdr j = V.IsFloat)
    (hsg : fileVarIsSigned E env.hostBE hdr j = V.IsSigned)
    (hfilter : fileUsesBlocks E env.hostBE hdr →
      cstr (fileFilter E env.hostBE hdr RankIndex j 0) ≠ CompressName →
      (fileFilter E env.hostBE hdr RankIndex j 0).getD 0 0 = 0)
    (hextra : blockCompressed E env.hostBE hdr RankIndex j = false → V.HasExtraSpace = true)
    (hretry : ∃ k : Nat, (k : Int) < env.RetryCount ∧ env.fails i k = false)
    (hbuf : blockCompressed E env.hostBE hdr RankIndex j = false →
      u64 (RowOffset * V.Size) ≤ V.Data.length)
    (hcrc : env.P.crc64_omp (fileRead env.file
        (blockReadSize E env.hostBE hdr RankIndex RHNElems j)
        (blockOffset E env.hostBE hdr RankIndex RHNElems RHStart j)) ≠ 2 ^ 64 - 1) :
    ∃ d, readFound env E hdr RowOffset RankIndex RHNElems i V j
        (scanOffset E env.hostBE hdr RHNElems RHStart j)
        (u64 (u64 (RHNElems * fileVarSize E env.hostBE hdr j) + CRCSize)) =
      Except.ok { Data := d, ReadSize := blockReadSize E env.hostBE hdr RankIndex RHNElems j,
                  NErrs := (0, 1, 0) } := by
  obtain ⟨k, hk, hfk⟩ := hretry
  obtain ⟨r2, r1⟩ := retryLoop_success (env.fails i) env.RetryCount.toNat 0
    ⟨k, by omega, by rw [Nat.zero_add]; exact hfk⟩
  have hr1 : ¬ (((retryLoop (env.fails i) env.RetryCount.toNat 0).1 : Int) =
      env.RetryCount) := by omega
  simp only [fileVarSize, fileVarElementSize, fileVarIsFloat, fileVarIsSigned, fileVH]
    at hsize hes hfl hsg
  simp only [fileUsesBlocks, blockReadSize, blockOffset, blockCompressed, fileFilter, fileBH,
    fileVarSize, fileVH, Nat.zero_mul, Nat.add_zero] at hfilter hextra hbuf hcrc ⊢
  have hl := fileRead_length env.file
  by_cases hb : offBlocksStart < field E env.hostBE hdr offGlobalHeaderSize ∧
      field E env.hostBE hdr offBlocksSize > 0
  · by_cases hc : cstr (slice hdr (u64 (field E env.hostBE hdr offBlocksStart +
        u64 (u64 (u64 (RankIndex * field E env.hostBE hdr offNVars) + j) *
          field E env.hostBE hdr offBlocksSize))) FilterNameSize) = CompressName
    · simp only [hb, hc, true_and, decide_True, if_true, hsize] at hcrc ⊢
      simp only [hsize] at hes
      simp only [readFound, hsize, hes, hfl, hsg, ne_eq, not_true_eq_false, if_false, hb, hc,
        true_and, false_and, and_false, decide_True, hr1, r2, if_true, Bool.true_eq_false]
      rw [slice_overwrite_self _ _ _ _ (hl _ _) (Nat.zero_le _), if_pos hcrc]
      exact ⟨_, rfl⟩
    · have hz := hfilter hb hc
      simp only [hb, hc, true_and, and_false, decide_False, if_true, if_false, forall_const,
        hsize] at hextra hbuf hcrc ⊢
      simp only [hsize] at hes
      simp only [readFound, hsize, hes, hfl, hsg, ne_eq, not_true_eq_false, if_false, hb, hc,
        hz, true_and, and_false, not_false_eq_true, decide_False, Bool.false_eq_true, hextra,
        hr1, r2, if_true, Bool.true_eq_false]
      rw [slice_overwrite_self _ _ _ _ (hl _ _) hbuf, if_pos hcrc]
      exact ⟨_, rfl⟩
  · simp only [hb, false_and, decide_False, if_false, forall_const, hsize] at hextra hbuf hcrc ⊢
    simp only [hsize] at hes
    simp only [readFound, hsize, hes, hfl, hsg, ne_eq, not_true_eq_false, if_false, hb,
      false_and, decide_False, Bool.false_eq_true, hextra, hr1, r2, if_true,
      Bool.true_eq_false]
    rw [slice_overwrite_self _ _ _ _ (hl _ _) hbuf, if_pos hcrc]
    exact ⟨_, rfl⟩

/-- C13 (block CRC error), amended: the requested variable `V` is found as variable `j`
of the file (the earlier variable headers carry other names), its four schema checks
pass, its filter is known, a read attempt succeeds within the retry count, and the block
as `readData` reads it from the file (`ReadSize` bytes at `Offset`, located by the scan or
by the block header) fails the CRC check.  Then the step increments the CRC-error counter
by exactly one and no other counter, and the iteration over the requested variables ends
there: the later variables are not read (their buffers are left as they were) and the
loop returns with the counters as they stand. -/
theorem C13_crc_error_stops (env : ReadEnv) (E : Bool) (hdr : List Byte)
    (RowOffset RankIndex RHNElems RHStart i : Nat) (V : Variable) (rest : List Variable)
    (st : ReadState) (j : Nat)
    (hj : j < field E env.hostBE hdr offNVars)
    (hbefore : ∀ k : Nat, k < j → fileVarName E env.hostBE hdr k ≠ V.Name)
    (hname : fileVarName E env.hostBE hdr j = V.Name)
    (hsize : fileVarSize E env.hostBE hdr j = V.Size)
    (hes : fileVarElementSize E env.hostBE hdr j = V.ElementSize)
    (hfl : fileVarIsFloat E env.hostBE hdr j = V.IsFloat)
    (hsg : fileVarIsSigned E env.hostBE hdr j = V.IsSigned)
    (hfilter : fileUsesBlocks E env.hostBE hdr →
      cstr (fileFilter E env.hostBE hdr RankIndex j 0) ≠ CompressName →
      (fileFilter E env.hostBE hdr RankIndex j 0).getD 0 0 = 0)
    (hextra : blockCompressed E env.hostBE hdr RankIndex j = false → V.HasExtraSpace = true)
    (hretry : ∃ k : Nat, (k : Int) < env.RetryCount ∧ env.fails i k = false)
    (hbuf : blockCompressed E env.hostBE hdr RankIndex j = false →
      u64 (RowOffset * V.Size) ≤ V.Data.length)
    (hcrc : env.P.crc64_omp (fileRead env.file
        (blockReadSize E env.hostBE hdr RankIndex RHNElems j)
        (blockOffset E env.hostBE hdr RankIndex RHNElems RHStart j)) ≠ 2 ^ 64 - 1) :
    ∃ d, readVars env E hdr RowOffset RankIndex RHNElems RHStart i (V :: rest) st =
      Except.ok { Data := st.Data ++ [d] ++ rest.map (fun V => V.Data),
                  TotalReadSize := u64 (st.TotalReadSize +
                    blockReadSize E env.hostBE hdr RankIndex RHNElems j),
                  NErrs := (st.NErrs.1, st.NErrs.2.1 + 1, st.NErrs.2.2) } := by
  obtain ⟨d, hd⟩ := readFound_crc_error env E hdr RowOffset RankIndex RHNElems RHStart i V j
    hsize hes hfl hsg hfilter hextra hretry hbuf hcrc
  have hscan := scanVars_locate env E hdr RowOffset RankIndex RHNElems RHStart i V j hname
    (field E env.hostBE hdr offNVars) 0 (Nat.zero_le _) (by omega)
    (fun k _ hk => hbefore k hk)
  rw [hd] at hscan
  have h0 : scanOffset E env.hostBE hdr RHNElems RHStart 0 = RHStart := rfl
  rw [h0] at hscan
  refine ⟨d, ?_⟩
  simp only [readVars, hscan, Except.map, Nat.add_zero, ne_eq, Nat.add_one_ne_zero,
    not_false_eq_true, true_or, or_true, if_true]

set_option maxRecDepth 100000 in
theorem C13_crc_error_stops_witness :
    ∃ d, readVars damagedEnv false (headerBody false twoVarWrite.leader) 0 0 1 800 0
        [exampleVar [9, 9, 9, 9, 9, 9, 9, 9, 9, 9], yVar [7, 7, 7, 7, 7, 7, 7, 7, 7, 7]]
        { Data := [], TotalReadSize := 0, NErrs := (0, 0, 0) } =
      Except.ok { Data := [d, [7, 7, 7, 7, 7, 7, 7, 7, 7, 7]], TotalReadSize := 10,
                  NErrs := (0, 1, 0) } :=
  C13_crc_error_stops damagedEnv false (headerBody false twoVarWrite.leader) 0 0 1 800 0
    (exampleVar [9, 9, 9, 9, 9, 9, 9, 9, 9, 9]) [yVar [7, 7, 7, 7, 7, 7, 7, 7, 7, 7]]
    { Data := [], TotalReadSize := 0, NErrs := (0, 0, 0) } 0
    (by decide!) (fun k hk => absurd hk (Nat.not_lt_zero k)) (by decide!) (by decide!)
    (by decide!) (by decide!) (by decide!)
    (fun h => absurd h (by unfold fileUsesBlocks; decide!))
    (fun _ => rfl) ⟨0, by decide, rfl⟩ (fun _ => by decide) (by decide!)

/-- The damaged block of column `y` in the C13 example: `readData` of `y` alone finds it
as variable 1 of the file, at offset 810 behind the block of `x`, and counts one CRC
error. -/
theorem blockOffset_example :
    blockOffset false false (headerBody false twoVarWrite.leader) 0 1 800 1 = 810 ∧
    blockReadSize false false (headerBody false twoVarWrite.leader) 0 1 1 = 10 ∧
    blockCompressed false false (headerBody false twoVarWrite.leader) 0 1 = false ∧
    lastBytesCRC.crc64_omp (fileRead damagedFile 10 810) ≠ 2 ^ 64 - 1 ∧
    readVars damagedEnv false (headerBody false twoVarWrite.leader) 0 0 1 800 0
        [yVar [7, 7, 7, 7, 7, 7, 7, 7, 7, 7]]
        { Data := [], TotalReadSize := 0, NErrs := (0, 0, 0) } =
      Except.ok { Data := [[3, 4, 255, 255, 255, 255, 255, 255, 255, 255]],
                  TotalReadSize := 10, NErrs := (0, 1, 0) } := by
  refine ⟨by decide!, by decide!, by decide!, by decide!, by decide!⟩

/-! ## C14: the aggregate error of the public `readData` -/

/-- C14 (aggregate read error), counterexample to the claim as worded: a single reader
(no other group members) asks the example file for a column `y` that the file does not
hold; the public `readData` raises ("Variable ... not found" passes through) although
no counter was incremented and nothing was summed. -/
theorem C14_counterexample :
    readDataInner (exampleEnv false (fun _ _ => false)) false exampleHeader []
        [yVar [7, 7, 7, 7, 7, 7, 7, 7, 7, 7]] (-1) 1 false [] =
      Except.error ReadError.variableNotFound ∧
    readData (exampleEnv false (fun _ _ => false)) false exampleHeader []
        [yVar [7, 7, 7, 7, 7, 7, 7, 7, 7, 7]] (-1) 1 false [] [] "example.gio" =
      Except.error (ReadDataError.raised ReadError.variableNotFound) := by
  decide!

/-- C14 (aggregate read error), amended: when the per-variable iteration of this member
returns (no schema mismatch, unknown filter or missing variable raises from it), the
public `readData` raises if and only if one of the three counters, summed over the
group members as `int`, is greater than zero; what it raises then is the aggregate
error whose text names the three sums and the open file path; and with no sum greater
than zero it returns without raising. -/
theorem C14_aggregate_error (env : ReadEnv) (E : Bool) (hdr : List Byte) (RankMap : List Int)
    (Vars : List Variable) (EffRank Rank : Int) (Redistributing : Bool)
    (SourceRanks : List Int) (others : List (Nat × Nat × Nat)) (OpenFileName : String)
    (st : ReadState)
    (hinner : readDataInner env E hdr RankMap Vars EffRank Rank Redistributing SourceRanks =
      Except.ok st) :
    ((∃ e, readData env E hdr RankMap Vars EffRank Rank Redistributing SourceRanks others
        OpenFileName = Except.error e) ↔
      ((allreduceSum st.NErrs others).1 > 0 ∨ (allreduceSum st.NErrs others).2.1 > 0 ∨
        (allreduceSum st.NErrs others).2.2 > 0)) ∧
    (((allreduceSum st.NErrs others).1 > 0 ∨ (allreduceSum st.NErrs others).2.1 > 0 ∨
        (allreduceSum st.NErrs others).2.2 > 0) →
      readData env E hdr RankMap Vars EffRank Rank Redistributing SourceRanks others
          OpenFileName =
        Except.error (ReadDataError.aggregate
          ("Experienced " ++ toString (allreduceSum st.NErrs others).1 ++ " I/O error(s), " ++
            toString (allreduceSum st.NErrs others).2.1 ++ " CRC error(s) and " ++
            toString (allreduceSum st.NErrs others).2.2 ++
            " decompression CRC error(s) reading: " ++ OpenFileName))) ∧
    (¬ ((allreduceSum st.NErrs others).1 > 0 ∨ (allreduceSum st.NErrs others).2.1 > 0 ∨
        (allreduceSum st.NErrs others).2.2 > 0) →
      readData env E hdr RankMap Vars EffRank Rank Redistributing SourceRanks others
          OpenFileName = Except.ok st) := by
  have h1 : ((allreduceSum st.NErrs others).1 > 0 ∨ (allreduceSum st.NErrs others).2.1 > 0 ∨
        (allreduceSum st.NErrs others).2.2 > 0) →
      readData env E hdr RankMap Vars EffRank Rank Redistributing SourceRanks others
          OpenFileName =
        Except.error (ReadDataError.aggregate
          (aggregateMessage (allreduceSum st.NErrs others) OpenFileName)) := by
    intro h
    simp only [readData, hinner, if_pos h]
  have h2 : ¬ ((allreduceSum st.NErrs others).1 > 0 ∨ (allreduceSum st.NErrs others).2.1 > 0 ∨
        (allreduceSum st.NErrs others).2.2 > 0) →
      readData env E hdr RankMap Vars EffRank Rank Redistributing SourceRanks others
          OpenFileName = Except.ok st := by
    intro h
    simp only [readData, hinner, if_neg h]
  refine ⟨⟨?_, fun h => ⟨_, h1 h⟩⟩, h1, h2⟩
  rintro ⟨e, he⟩
  by_contra hc
  rw [h2 hc] at he
  cases he

theorem C14_aggregate_error_witness :
    ((∃ e, readData damagedEnv false (headerBody false twoVarWrite.leader) []
        [exampleVar [9, 9, 9, 9, 9, 9, 9, 9, 9, 9], yVar [7, 7, 7, 7, 7, 7, 7, 7, 7, 7]]
        (-1) 0 false [] [(0, 2, 0)] "damaged.gio" = Except.error e) ↔
      ((allreduceSum (0, 1, 0) [(0, 2, 0)]).1 > 0 ∨ (allreduceSum (0, 1, 0) [(0, 2, 0)]).2.1 > 0 ∨
        (allreduceSum (0, 1, 0) [(0, 2, 0)]).2.2 > 0)) ∧
    readData damagedEnv false (headerBody false twoVarWrite.leader) []
        [exampleVar [9, 9, 9, 9, 9, 9, 9, 9, 9, 9], yVar [7, 7, 7, 7, 7, 7, 7, 7, 7, 7]]
        (-1) 0 false [] [(0, 2, 0)] "damaged.gio" =
      Except.error (ReadDataError.aggregate
        "Experienced 0 I/O error(s), 3 CRC error(s) and 0 decompression CRC error(s) reading: damaged.gio") :=
  let h := C14_aggregate_error damagedEnv false (headerBody false twoVarWrite.leader) []
    [exampleVar [9, 9, 9, 9, 9, 9, 9, 9, 9, 9], yVar [7, 7, 7, 7, 7, 7, 7, 7, 7, 7]]
    (-1) 0 false [] [(0, 2, 0)] "damaged.gio"
    { Data := [[1, 2, 255, 255, 255, 255, 255, 255, 255, 255], [7, 7, 7, 7, 7, 7, 7, 7, 7, 7]],
      TotalReadSize := 10, NErrs := (0, 1, 0) } (by decide!)
  ⟨h.1, h.2.1 (by decide)⟩

/-! ## C15: the retry loop of `readDataSection` -/

theorem u64_add_u64 (a b : Nat) : u64 (u64 a + b) = u64 (a + b) := by
  simp only [u64, Nat.mod_add_mod]

theorem sectionRetryLoop_offset (fails : Nat → Bool) (step : Nat) :
    ∀ (k n Retry Offset : Nat), k < n → (∀ m, m < k → fails (Retry + m) = true) →
      fails (Retry + k) = false →
      sectionRetryLoop fails step n Retry Offset =
        (Retry + k, u64 (Offset + (k + 1) * step), true) := by
  intro k
  induction k with
  | zero =>
    intro n Retry Offset hn _ hk
    obtain ⟨n, rfl⟩ : ∃ n2, n = n2 + 1 := ⟨n - 1, by omega⟩
    rw [Nat.add_zero] at hk
    simp only [sectionRetryLoop, hk, Bool.false_eq_true, if_false, Nat.add_zero, Nat.zero_add,
      Nat.one_mul]
  | succ k ih =>
    intro n Retry Offset hn hfail hk
    obtain ⟨n, rfl⟩ : ∃ n2, n = n2 + 1 := ⟨n - 1, by omega⟩
    have h0 : fails Retry = true := by
      have := hfail 0 (by omega)
      rwa [Nat.add_zero] at this
    have e1 : Retry + 1 + k = Retry + (k + 1) := by omega
    simp only [sectionRetryLoop, h0, if_true]
    rw [ih n (Retry + 1) (u64 (Offset + step)) (by omega)
      (fun m hm => by
        have := hfail (m + 1) (by omega)
        rwa [show Retry + (m + 1) = Retry + 1 + m by omega] at this)
      (by rw [e1]; exact hk), e1, u64_add_u64]
    congr 2
    ring_nf

/-- C15 (section read extent), the divergence evaluated: the block of column `x` of rank 0
of the example file starts at offset 568 and holds the rows `[1, 2]` and `[3, 4]`.
`readDataSection` with `readOffset = 1` and `readNumRows = 1` delivers `[3, 4]`, the two
bytes at `568 + 1 * 2`, when the first read attempt succeeds.  When the first attempt
raises and the second succeeds, the statement `Offset = Offset + readOffset * VH->Size`
has run twice: the read starts at `568 + 2 * 2 = 572` and delivers the two footer bytes
`[255, 255]` that are stored there. -/
theorem C15_retry_shifts_offset :
    fileRead exampleWrite.file 4 568 = [1, 2, 3, 4] ∧
    readDataSectionT (exampleEnv false (fun _ _ => false)) false exampleHeader []
        [exampleVar [9, 9, 9, 9, 9, 9, 9, 9, 9, 9, 9, 9]] 1 1 (-1) 0 0 0 (0, 0, 0) =
      Except.ok { Data := [[3, 4, 9, 9, 9, 9, 9, 9, 9, 9, 9, 9]], TotalReadSize := 2,
                  NErrs := (0, 0, 0) } ∧
    sectionRetryLoop (fun k => decide (k = 0)) (1 * 2) 300 0 568 = (1, 572, true) ∧
    fileRead exampleWrite.file 2 572 = [255, 255] ∧
    readDataSectionT (exampleEnv false (fun _ k => decide (k = 0))) false exampleHeader []
        [exampleVar [9, 9, 9, 9, 9, 9, 9, 9, 9, 9, 9, 9]] 1 1 (-1) 0 0 0 (0, 0, 0) =
      Except.ok { Data := [[255, 255, 9, 9, 9, 9, 9, 9, 9, 9, 9, 9]], TotalReadSize := 2,
                  NErrs := (0, 0, 0) } := by
  decide!

/-! ## C16: `readDataSection` on a compressed block -/

/-- C16 (section reads and compressed blocks), the divergence evaluated: in the example
file written with compression, the block header of column `x` of rank 1 names the filter
`"BLOSC"`.  `readData` decompresses the block and delivers the row `[5, 6]`;
`readDataSection` of row 0 raises nothing: it returns with all error counters zero and
leaves the caller's buffer as it was. -/
theorem C16_section_ignores_compression :
    fileUsesBlocks false false compressedHeader ∧
    cstr (fileFilter false false compressedHeader 1 0 0) = CompressName ∧
    readDataT compressedEnv false compressedHeader []
        [exampleVar [9, 9, 9, 9, 9, 9, 9, 9, 9, 9]] (-1) 0 1 0 (0, 0, 0) =
      Except.ok { Data := [[5, 6, 9, 9, 9, 9, 9, 9, 9, 9]], TotalReadSize := 18,
                  NErrs := (0, 0, 0) } ∧
    readDataSectionT compressedEnv false compressedHeader []
        [exampleVar [9, 9, 9, 9, 9, 9, 9, 9, 9, 9]] 0 1 (-1) 0 1 0 (0, 0, 0) =
      Except.ok { Data := [[9, 9, 9, 9, 9, 9, 9, 9, 9, 9]], TotalReadSize := 2,
                  NErrs := (0, 0, 0) } := by
  refine ⟨?_, ?_, ?_, ?_⟩
  · unfold fileUsesBlocks; decide!
  · decide!
  · decide!
  · decide!

/-! ## C17: byte swap of the elements of a column -/

theorem getD_some_getElem? (p : List Byte) (i : Nat) (hi : i < p.length) :
    some (p.getD i 0) = p[i]? := by
  rw [List.getD_eq_getElem?_getD, List.getElem?_eq_getElem hi]
  rfl

theorem swapBytes_length (p : List Byte) (i j : Nat) : (swapBytes p i j).length = p.length := by
  simp only [swapBytes, List.length_set]

theorem swapBytes_getElem? (p : List Byte) (i j k : Nat) (hi : i < p.length)
    (hj : j < p.length) :
    (swapBytes p i j)[k]? =
      if k = j then p[i]? else if k = i then p[j]? else p[k]? := by
  simp only [swapBytes, List.getElem?_set, List.length_set]
  rw [if_pos hj, if_pos hi, getD_some_getElem? p i hi, getD_some_getElem? p j hj]
  by_cases h1 : j = k
  · rw [if_pos h1, if_pos h1.symm]
  · rw [if_neg h1, if_neg (show ¬ k = j from fun h => h1 h.symm)]
    by_cases h2 : i = k
    · rw [if_pos h2, if_pos h2.symm]
    · rw [if_neg h2, if_neg (show ¬ k = i from fun h => h2 h.symm)]

theorem bswapLoop_length (s : Nat) (p : List Byte) : ∀ n, (bswapLoop s n p).length = p.length := by
  intro n
  induction n with
  | zero => rfl
  | succ n ih => simp only [bswapLoop, swapBytes_length, ih]

theorem bswapLoop_getElem? (p : List Byte) : ∀ (n k : Nat), 2 * n ≤ p.length →
    (bswapLoop p.length n p)[k]? =
      if k < n ∨ (p.length - n ≤ k ∧ k < p.length) then p[p.length - 1 - k]? else p[k]? := by
  intro n
  induction n with
  | zero =>
    intro k _
    simp only [bswapLoop]
    rw [if_neg (by omega)]
  | succ n ih =>
    intro k hn
    have hl := bswapLoop_length p.length p n
    simp only [bswapLoop]
    rw [swapBytes_getElem? _ _ _ _ (by omega) (by omega), ih _ (by omega), ih _ (by omega)]
    by_cases h1 : k = p.length - (n + 1)
    · rw [if_pos h1, if_neg (by omega), if_pos (by omega)]
      congr 1; omega
    · rw [if_neg h1]
      by_cases h2 : k = n
      · rw [if_pos h2, if_neg (by omega), if_pos (by omega)]
        congr 1; omega
      · rw [if_neg h2, ih _ (by omega)]
        by_cases h3 : k < n ∨ (p.length - n ≤ k ∧ k < p.length)
        · rw [if_pos h3, if_pos (by omega)]
        · rw [if_neg h3, if_neg (by omega)]

/-- `bswap(v, s)` reverses the `s` bytes at `v`. -/
theorem bswap_reverse (p : List Byte) : bswap p p.length = p.reverse := by
  apply List.ext_getElem?
  intro k
  simp only [bswap]
  rw [bswapLoop_getElem? p _ k (by omega)]
  by_cases hk : k < p.length
  · rw [List.getElem?_reverse hk]
    by_cases h3 : k < p.length / 2 ∨ (p.length - p.length / 2 ≤ k ∧ k < p.length)
    · rw [if_pos h3]
    · rw [if_neg h3]
      congr 1; omega
  · have h1 : p[k]? = none := List.getElem?_eq_none (by omega)
    have h2 : p.reverse[k]? = none := List.getElem?_eq_none (by rw [List.length_reverse]; omega)
    rw [if_neg (by omega), h1, h2]

/-- `bswap` is an involution. -/
theorem bswap_bswap (p : List Byte) : bswap (bswap p p.length) p.length = p := by
  rw [bswap_reverse]
  have := bswap_reverse p.reverse
  rw [List.length_reverse] at this
  rw [this, List.reverse_reverse]

theorem slice_length (bs : List Byte) (off n : Nat) (h : off + n ≤ bs.length) :
    (slice bs off n).length = n := by
  simp only [slice, List.length_take, List.length_drop]
  omega

theorem reversedChunks_length (es : Nat) (bs : List Byte) : ∀ n, n * es ≤ bs.length →
    (((List.range n).map (fun k => (slice bs (k * es) es).reverse)).flatten).length = n * es := by
  intro n hn
  rw [flatten_length_chunks es _ (by
    intro x hx
    obtain ⟨k, hk, rfl⟩ := List.mem_map.1 hx
    have hk2 := List.mem_range.1 hk
    have : (k + 1) * es ≤ n * es := Nat.mul_le_mul_right _ hk2
    rw [List.length_reverse, slice_length _ _ _ (by
      have e : (k + 1) * es = k * es + es := by ring
      omega)]), List.length_map, List.length_range]

theorem elementsReversed_length (es n : Nat) (bs : List Byte) (h : n * es ≤ bs.length) :
    (elementsReversed es n bs).length = bs.length := by
  simp only [elementsReversed, List.length_append, reversedChunks_length es bs n h,
    List.length_drop]
  omega

/-- The loop of lines 2134-2138 reverses the bytes of each of the `n` elements of `es`
bytes that start at `base`, and changes nothing else. -/
theorem swapElements_eq (buf : List Byte) (base es : Nat) : ∀ n, base + n * es ≤ buf.length →
    swapElements buf base es n = buf.take base ++ elementsReversed es n (buf.drop base) := by
  intro n
  induction n with
  | zero =>
    intro _
    simp [swapElements, elementsReversed]
  | succ n ih =>
    intro hn
    have e1 : (n + 1) * es = n * es + es := by ring
    have hA : (buf.take base).length = base := List.length_take_of_le (by omega)
    have hbs : (buf.drop base).length = buf.length - base := List.length_drop _ _
    have hF := reversedChunks_length es (buf.drop base) n (by omega)
    have hs : slice (swapElements buf base es n) (base + n * es) es =
        slice (buf.drop base) (n * es) es := by
      rw [ih (by omega), elementsReversed, slice_append_right' _ _ base _ _ hA]
      have := slice_append_right' _ ((buf.drop base).drop (n * es)) (n * es) 0 es hF
      rw [Nat.add_zero] at this
      rw [this]
      simp only [slice, List.drop_zero]
    have hsl : (slice (buf.drop base) (n * es) es).length = es :=
      slice_length _ _ _ (by omega)
    have hb : bswap (slice (buf.drop base) (n * es) es) es =
        (slice (buf.drop base) (n * es) es).reverse := by
      have := bswap_reverse (slice (buf.drop base) (n * es) es)
      rw [hsl] at this
      exact this
    simp only [swapElements]
    rw [hs, hb, ih (by omega)]
    simp only [overwrite, elementsReversed, List.length_reverse, hsl, List.range_succ,
      List.map_append, List.map_cons, List.map_nil, List.flatten_append, List.flatten_cons,
      List.flatten_nil, List.append_nil]
    have hAF : (buf.take base ++
        ((List.range n).map (fun k => (slice (buf.drop base) (k * es) es).reverse)).flatten).length =
        base + n * es := by
      rw [List.length_append, hA, hF]
    have t1 : (buf.take base ++
        (((List.range n).map (fun k => (slice (buf.drop base) (k * es) es).reverse)).flatten ++
          (buf.drop base).drop (n * es))).take (base + n * es) =
        buf.take base ++
          ((List.range n).map (fun k => (slice (buf.drop base) (k * es) es).reverse)).flatten := by
      rw [← List.append_assoc, ← hAF, List.take_left]
    have t2 : (buf.take base ++
        (((List.range n).map (fun k => (slice (buf.drop base) (k * es) es).reverse)).flatten ++
          (buf.drop base).drop (n * es))).drop (base + n * es + es) =
        (buf.drop base).drop ((n + 1) * es) := by
      rw [← List.append_assoc, ← List.drop_drop, ← hAF, List.drop_left, List.drop_drop, e1]
    rw [t1, t2]
    simp only [List.append_assoc]

theorem readFound_ok_any (env : ReadEnv) (hP : env.P.Contract) (E : Bool)
    (hdr : List Byte) (vars wvars : List Variable) (N S : Nat)
    (ctx : ReadCtx env E hdr vars wvars N S) (RankIndex idx i : Nat)
    (RVv V0 Wv : Variable) (hV0 : vars[i]? = some V0) (hW : wvars[i]? = some Wv)
    (hd : descr RVv = descr V0) (hx : RVv.HasExtraSpace = true)
    (hbuf : N * RVv.Size + CRCSize ≤ RVv.Data.length)
    (hretry : ∃ k : Nat, (k : Int) < env.RetryCount ∧ env.fails idx k = false) :
    readFound env E hdr 0 RankIndex N idx RVv i
        (S + ((vars.take i).map (fun V => N * V.Size + CRCSize)).sum)
        (N * V0.Size + CRCSize) =
      Except.ok { Data := crossBuffer E env.hostBE N Wv RVv, ReadSize := N * V0.Size + CRCSize,
                  NErrs := (0, 0, 0) } := by
  simp only [descr, Prod.mk.injEq] at hd
  obtain ⟨_, hSize, hES, hF, hSg⟩ := hd
  have hWsz : Wv.Size = V0.Size :=
    getElem?_map_eq (fun V => V.Size) wvars vars ctx.sameSizes i Wv V0 hW hV0
  have hilt : i < vars.length := by
    rcases Nat.lt_or_ge i vars.length with h' | h'
    · exact h'
    · rw [List.getElem?_eq_none h'] at hV0; cases hV0
  have hmul : (i + 1) * sizeofVariableHeader ≤ vars.length * sizeofVariableHeader :=
    Nat.mul_le_mul_right _ hilt
  have e2 : (i + 1) * sizeofVariableHeader = i * sizeofVariableHeader + sizeofVariableHeader := by
    ring
  have hfits := ctx.headerFits
  have hVH : u64 (field E env.hostBE hdr offVarsStart + i * field E env.hostBE hdr offVarsSize) =
      sizeofGlobalHeader + i * sizeofVariableHeader := by
    rw [ctx.varsStart, ctx.varsSize]
    exact u64_of_lt (by omega)
  have hlt272 : offVHElementSize < field E env.hostBE hdr offVarsSize := by
    rw [ctx.varsSize]; decide
  have hnoblk : ¬ (offBlocksStart < field E env.hostBE hdr offGlobalHeaderSize ∧
      field E env.hostBE hdr offBlocksSize > 0) := by
    rw [ctx.blocksSize]; omega
  -- the retry loop
  obtain ⟨k, hk, hfk⟩ := hretry
  obtain ⟨r2, r1⟩ := retryLoop_success (env.fails idx) env.RetryCount.toNat 0
    ⟨k, by omega, by rw [Nat.zero_add]; exact hfk⟩
  have hr1 : ¬ (((retryLoop (env.fails idx) env.RetryCount.toNat 0).1 : Int) =
      env.RetryCount) := by omega
  -- what the read delivers
  have hcontent := ctx.content (wvars.take i) Wv (wvars.drop (i + 1)) (split_at wvars i Wv hW)
  rw [sum_take_sizes N wvars vars ctx.sameSizes i, hWsz] at hcontent
  have hpl : (fileRead env.file (N * V0.Size + CRCSize)
      (S + ((vars.take i).map (fun V => N * V.Size + CRCSize)).sum)).length =
      N * V0.Size + CRCSize := fileRead_length _ _ _
  have hpay : (Wv.Data.take (N * V0.Size)).length = N * V0.Size := by
    have := hpl
    rw [hcontent, List.length_append, hP.1] at this
    omega
  have hcrc : env.P.crc64_omp (fileRead env.file (N * V0.Size + CRCSize)
      (S + ((vars.take i).map (fun V => N * V.Size + CRCSize)).sum)) = 2 ^ 64 - 1 := by
    rw [hcontent]; exact hP.2 _
  have hsl : slice (fileRead env.file (N * V0.Size + CRCSize)
      (S + ((vars.take i).map (fun V => N * V.Size + CRCSize)).sum) ++
        RVv.Data.drop (N * V0.Size + CRCSize)) 0 (N * V0.Size + CRCSize) =
      fileRead env.file (N * V0.Size + CRCSize)
        (S + ((vars.take i).map (fun V => N * V.Size + CRCSize)).sum) := by
    rw [slice_append_left _ _ _ _ (by rw [hpl]; omega)]
    conv_lhs => rw [← hpl]
    rw [hpl]
    have := slice_zero_length (fileRead env.file (N * V0.Size + CRCSize)
      (S + ((vars.take i).map (fun V => N * V.Size + CRCSize)).sum))
    rw [hpl] at this
    exact this
  have hrestore : overwrite (fileRead env.file (N * V0.Size + CRCSize)
      (S + ((vars.take i).map (fun V => N * V.Size + CRCSize)).sum) ++
        RVv.Data.drop (N * V0.Size + CRCSize)) (N * V0.Size)
      (slice RVv.Data (N * V0.Size) CRCSize) = expectedBuffer N Wv RVv := by
    rw [hSize] at hbuf
    rw [hcontent, expectedBuffer, hWsz]
    exact overwrite_restore _ _ _ _ _ hpay (hP.1 _) hbuf
  have hzero : u64 (0 * V0.Size) = 0 := by simp [u64]
  simp only [readFound, hVH, ctx.size i V0 hV0, ctx.elementSize i V0 hV0, ctx.flags i V0 hV0,
    if_pos hlt272, VFlags_float, VFlags_signed, hSize, hES, hF, hSg, ne_eq, not_true_eq_false,
    if_false, hnoblk, false_and, decide_False, Bool.false_eq_true, hx, hzero, Nat.zero_add,
    hr1, r2, if_true, overwrite_zero, hpl]
  simp only [hzero, overwrite_zero, hpl, Nat.zero_add, Bool.true_eq_false, if_false]
  rw [hsl, hcrc]
  simp only [not_true_eq_false, if_false]
  have e8 : N * V0.Size + CRCSize - CRCSize = N * V0.Size := by omega
  rw [e8, hrestore, crossBuffer, hSize, hES]


theorem scanVars_found_any (env : ReadEnv) (E : Bool) (hdr : List Byte) (vars wvars : List Variable) (N S : Nat)
    (ctx : ReadCtx env E hdr vars wvars N S)
    (hnul : ∀ V ∈ vars, ∀ b ∈ V.Name, b ≠ 0)
    (hlen : ∀ V ∈ vars, V.Name.length < NameSize)
    (hnd : (vars.map (fun V => V.Name)).Nodup)
    (RankIndex idx i : Nat) (RVv V0 : Variable) (hV0 : vars[i]? = some V0)
    (hname : RVv.Name = V0.Name) :
    ∀ k j, j + k = i →
      scanVars env E hdr 0 RankIndex N idx RVv (vars.length - j) j
          (S + ((vars.take j).map (fun V => N * V.Size + CRCSize)).sum) =
        (readFound env E hdr 0 RankIndex N idx RVv i
          (S + ((vars.take i).map (fun V => N * V.Size + CRCSize)).sum)
          (N * V0.Size + CRCSize)).map some := by
  have hil := lt_length_of_getElem? _ _ _ hV0
  have hfits := ctx.headerFits
  have hdf := ctx.dataFits
  intro k
  induction k with
  | zero =>
    intro j hj
    have hji : j = i := by omega
    subst hji
    obtain ⟨n, hn⟩ : ∃ n, vars.length - j = n + 1 := ⟨vars.length - j - 1, by omega⟩
    have hmul : (j + 1) * sizeofVariableHeader ≤ vars.length * sizeofVariableHeader :=
      Nat.mul_le_mul_right _ hil
    have e2 : (j + 1) * sizeofVariableHeader = j * sizeofVariableHeader + sizeofVariableHeader := by
      ring
    have hVH : u64 (field E env.hostBE hdr offVarsStart +
        j * field E env.hostBE hdr offVarsSize) =
        sizeofGlobalHeader + j * sizeofVariableHeader := by
      rw [ctx.varsStart, ctx.varsSize]
      exact u64_of_lt (by omega)
    have hle := sum_take_le N vars j V0 hV0
    have hRS : u64 (u64 (N * V0.Size) + CRCSize) = N * V0.Size + CRCSize := by
      have h1 : u64 (N * V0.Size) = N * V0.Size := u64_of_lt (by omega)
      rw [h1]
      exact u64_of_lt (by omega)
    have hnm : cstr (slice hdr (sizeofGlobalHeader + j * sizeofVariableHeader) NameSize) =
        RVv.Name := by
      rw [ctx.name j V0 hV0, hname]
      exact cstr_VName _ (hnul V0 (mem_of_getElem?_some _ _ _ hV0)) (hlen V0 (mem_of_getElem?_some _ _ _ hV0))
    rw [hn]
    simp only [scanVars, hVH, hnm, ne_eq, not_true_eq_false, if_false, ctx.size j V0 hV0, hRS]
  | succ k ih =>
    intro j hj
    have hjl : j < vars.length := by omega
    obtain ⟨Vj, hVj⟩ : ∃ Vj, vars[j]? = some Vj := ⟨vars[j], List.getElem?_eq_getElem hjl⟩
    obtain ⟨n, hn⟩ : ∃ n, vars.length - j = n + 1 := ⟨vars.length - j - 1, by omega⟩
    have hn2 : n = vars.length - (j + 1) := by omega
    have hmul : (j + 1) * sizeofVariableHeader ≤ vars.length * sizeofVariableHeader :=
      Nat.mul_le_mul_right _ hjl
    have e2 : (j + 1) * sizeofVariableHeader = j * sizeofVariableHeader + sizeofVariableHeader := by
      ring
    have hVH : u64 (field E env.hostBE hdr offVarsStart +
        j * field E env.hostBE hdr offVarsSize) =
        sizeofGlobalHeader + j * sizeofVariableHeader := by
      rw [ctx.varsStart, ctx.varsSize]
      exact u64_of_lt (by omega)
    have hle := sum_take_le N vars j Vj hVj
    have hRS : u64 (u64 (N * Vj.Size) + CRCSize) = N * Vj.Size + CRCSize := by
      have h1 : u64 (N * Vj.Size) = N * Vj.Size := u64_of_lt (by omega)
      rw [h1]
      exact u64_of_lt (by omega)
    have hnm : cstr (slice hdr (sizeofGlobalHeader + j * sizeofVariableHeader) NameSize) =
        Vj.Name := by
      rw [ctx.name j Vj hVj]
      exact cstr_VName _ (hnul Vj (mem_of_getElem?_some _ _ _ hVj)) (hlen Vj (mem_of_getElem?_some _ _ _ hVj))
    have hne : ¬ Vj.Name = RVv.Name := by
      rw [hname]
      exact names_ne vars hnd i j V0 Vj hV0 hVj (by omega)
    have hoff : u64 (S + ((vars.take j).map (fun V => N * V.Size + CRCSize)).sum +
        (N * Vj.Size + CRCSize)) =
        S + ((vars.take (j + 1)).map (fun V => N * V.Size + CRCSize)).sum := by
      rw [sum_take_succ N vars j Vj hVj]
      have h : S + ((vars.take j).map (fun V => N * V.Size + CRCSize)).sum +
          (N * Vj.Size + CRCSize) < 2 ^ 64 := by omega
      rw [u64_of_lt h, Nat.add_assoc]
    rw [hn]
    simp only [scanVars, hVH, hnm, ne_eq, hne, not_false_eq_true, if_true, ctx.size j Vj hVj, hRS,
      hoff]
    rw [hn2]
    exact ih (j + 1) (by omega)


theorem readVars_ok_any (env : ReadEnv) (hP : env.P.Contract) (E : Bool) (hdr : List Byte)
    (vars wvars : List Variable) (N S : Nat)
    (ctx : ReadCtx env E hdr vars wvars N S)
    (hnul : ∀ V ∈ vars, ∀ b ∈ V.Name, b ≠ 0)
    (hlen : ∀ V ∈ vars, V.Name.length < NameSize)
    (hnd : (vars.map (fun V => V.Name)).Nodup)
    (hretry : ∀ idx, ∃ k : Nat, (k : Int) < env.RetryCount ∧ env.fails idx k = false)
    (RankIndex : Nat) :
    ∀ (RV : List Variable) (i : Nat) (st : ReadState),
      st.NErrs = (0, 0, 0) →
      RV.map descr = (vars.drop i).map descr →
      (∀ rv ∈ RV, rv.HasExtraSpace = true ∧ N * rv.Size + CRCSize ≤ rv.Data.length) →
      ∃ st1, readVars env E hdr 0 RankIndex N S i RV st = Except.ok st1 ∧
        st1.NErrs = (0, 0, 0) ∧
        st1.Data = st.Data ++ List.zipWith (crossBuffer E env.hostBE N) (wvars.drop i) RV := by
  have hlenw : wvars.length = vars.length := by
    have := congrArg List.length ctx.sameSizes
    simpa using this
  intro RV
  induction RV with
  | nil =>
    intro i st hst _ _
    exact ⟨st, rfl, hst, by simp⟩
  | cons rv RV ih =>
    intro i st hst hdescr hbuf
    have hil : i < vars.length := by
      have := congrArg List.length hdescr
      simp only [List.length_map, List.length_cons, List.length_drop] at this
      omega
    have hV0 : vars[i]? = some vars[i] := List.getElem?_eq_getElem hil
    have hW : wvars[i]? = some (wvars[i]) := List.getElem?_eq_getElem (by omega)
    rw [List.drop_eq_getElem_cons hil, List.map_cons, List.map_cons] at hdescr
    obtain ⟨hd0, hdrest⟩ := List.cons.inj hdescr
    have hname : rv.Name = (vars[i]).Name := by
      have := congrArg Prod.fst hd0
      exact this
    obtain ⟨hx, hb⟩ := hbuf rv (List.mem_cons_self _ _)
    have hscan := scanVars_found_any env E hdr vars wvars N S ctx hnul hlen hnd RankIndex i i rv
      (vars[i]) hV0 hname i 0 (by omega)
    rw [readFound_ok_any env hP E hdr vars wvars N S ctx RankIndex i i rv (vars[i]) (wvars[i]) hV0 hW
      hd0 hx hb (hretry i)] at hscan
    simp only [Nat.sub_zero, List.take_zero, List.map_nil, List.sum_nil, Nat.add_zero] at hscan
    obtain ⟨st2, h1, h2, h3⟩ := ih (i + 1)
      { Data := st.Data ++ [crossBuffer E env.hostBE N (wvars[i]) rv],
        TotalReadSize := u64 (st.TotalReadSize + (N * (vars[i]).Size + CRCSize)),
        NErrs := (0, 0, 0) } rfl hdrest
      (fun rv2 h => hbuf rv2 (List.mem_cons_of_mem _ h))
    refine ⟨st2, ?_, h2, ?_⟩
    · rw [← h1]
      simp only [readVars, ctx.nvars, hscan, Except.map, hst, Nat.add_zero, ne_eq,
        not_true_eq_false, or_self, if_false]
    · rw [h3, List.drop_eq_getElem_cons (by omega : i < wvars.length), List.zipWith_cons_cons,
        List.append_assoc]
      rfl

theorem elementsReversed_append (es n : Nat) (A B : List Byte) (hA : A.length = n * es) :
    elementsReversed es n (A ++ B) = elementsReversed es n A ++ B := by
  have hmap : (List.range n).map (fun k => (slice (A ++ B) (k * es) es).reverse) =
      (List.range n).map (fun k => (slice A (k * es) es).reverse) := by
    apply List.map_congr_left
    intro k hk
    have hk2 := List.mem_range.1 hk
    have : (k + 1) * es ≤ n * es := Nat.mul_le_mul_right _ hk2
    have e : (k + 1) * es = k * es + es := by ring
    rw [slice_append_left _ _ _ _ (by omega)]
  simp only [elementsReversed, hmap]
  rw [← hA, List.drop_left, List.drop_of_length_le (Nat.le_refl _), List.append_nil]

theorem columnMem_length (h : Bool) (es : Nat) (values : List Nat) :
    (columnMem h es values).length = values.length * es := by
  simp only [columnMem]
  rw [map_flatten_length _ es values (by
    intro v
    cases h
    · simp only [Bool.false_eq_true, if_false, leBytes_length]
    · simp only [if_true, List.length_reverse, leBytes_length])]

/-- Reversing the bytes of every element turns the memory image of a column on a host of
one byte order into its memory image on a host of the other. -/
theorem elementsReversed_columnMem (h : Bool) (es : Nat) (values : List Nat) :
    elementsReversed es values.length (columnMem h es values) = columnMem (!h) es values := by
  have hlen := columnMem_length h es values
  have hch : ∀ x ∈ values.map (fun v => if h then (leBytes es v).reverse else leBytes es v),
      x.length = es := by
    intro x hx
    obtain ⟨v, _, rfl⟩ := List.mem_map.1 hx
    cases h
    · simp only [Bool.false_eq_true, if_false, leBytes_length]
    · simp only [if_true, List.length_reverse, leBytes_length]
  have hmap : (List.range values.length).map
      (fun k => (slice (columnMem h es values) (k * es) es).reverse) =
      values.map (fun v => if (!h) = true then (leBytes es v).reverse else leBytes es v) := by
    apply List.ext_getElem
    · simp only [List.length_map, List.length_range]
    · intro k h1 h2
      simp only [List.length_map, List.length_range] at h1
      simp only [List.getElem_map, List.getElem_range, columnMem]
      rw [slice_flatten_chunk es _ k _ hch (by
        rw [List.getElem?_map, List.getElem?_eq_getElem h1]; rfl)]
      cases h
      · simp only [Bool.false_eq_true, if_false, Bool.not_false, if_true]
      · simp only [if_true, Bool.not_true, Bool.false_eq_true, if_false, List.reverse_reverse]
  simp only [elementsReversed, hmap]
  rw [List.drop_of_length_le (by rw [hlen]), List.append_nil]
  rfl

theorem crossBuffer_same (h : Bool) (n : Nat) (wv rv : Variable) :
    crossBuffer h h n wv rv = expectedBuffer n wv rv := by
  simp only [crossBuffer, bne_self_eq_false, Bool.false_eq_true, if_false]

/-- When the byte orders differ and the element size divides the record size, the loop
of lines 2134-2138 covers exactly the `N * Size` payload bytes: the buffer holds the
payload with the bytes of each element reversed, followed by what was behind it. -/
theorem crossBuffer_swapped (E H : Bool) (hEH : E ≠ H) (N : Nat) (wv rv : Variable)
    (hsz : wv.Size = rv.Size)
    (hdvd : rv.ElementSize ∣ rv.Size) (hfit : N * rv.Size < 2 ^ 64)
    (hw : N * rv.Size ≤ wv.Data.length) :
    N * (rv.Size / rv.ElementSize) * rv.ElementSize = N * rv.Size ∧
    crossBuffer E H N wv rv =
      elementsReversed rv.ElementSize (N * (rv.Size / rv.ElementSize))
        (wv.Data.take (N * rv.Size)) ++ rv.Data.drop (N * rv.Size) := by
  have hcov : N * (rv.Size / rv.ElementSize) * rv.ElementSize = N * rv.Size := by
    rw [Nat.mul_assoc, Nat.div_mul_cancel hdvd]
  have hle : N * (rv.Size / rv.ElementSize) ≤ N * rv.Size :=
    Nat.mul_le_mul_left _ (Nat.div_le_self _ _)
  have hn : u64 (N * (rv.Size / rv.ElementSize)) = N * (rv.Size / rv.ElementSize) :=
    u64_of_lt (by omega)
  have hne : (E != H) = true := by
    cases E <;> cases H <;> simp at hEH ⊢
  have hpl : (wv.Data.take (N * rv.Size)).length = N * rv.Size := List.length_take_of_le hw
  refine ⟨hcov, ?_⟩
  simp only [crossBuffer, hne, if_true, hn, expectedBuffer, hsz]
  rw [swapElements_eq _ 0 _ _ (by
    rw [Nat.zero_add, hcov, List.length_append, hpl]; omega)]
  simp only [List.take_zero, List.nil_append, List.drop_zero]
  exact elementsReversed_append _ _ _ _ (by rw [hpl, hcov])

/-- The header and the blocks of a file written with byte order `E`, as a reader on a
host of byte order `H` finds them. -/
theorem written_ReadCtx_any (P : CRC64) (hP : P.Contract) (Z : Blosc) (E H SC : Bool)
    (Dims PhysOrigin PhysScale : List Nat) (w0 : Writer) (rest : List Writer) (file : FileData)
    (RetryCount : Int) (fails : Nat → Nat → Bool)
    (hsame : ∀ w ∈ rest, w.Vars.map (fun V => V.Size) = w0.Vars.map (fun V => V.Size))
    (hsz : ∀ V ∈ w0.Vars, V.Size < 2 ^ 64 ∧ V.ElementSize < 2 ^ 64)
    (hN : ∀ w ∈ w0 :: rest, w.NElems < 2 ^ 64)
    (hfit : exactFileSize P Z E false SC none (w0 :: rest) < 2 ^ 64)
    (hbuf : ∀ w ∈ w0 :: rest, ∀ V ∈ w.Vars,
      w.NElems * V.Size + (if V.HasExtraSpace then CRCSize else 0) ≤ V.Data.length)
    (r : Nat) (wr : Writer) (hr : (w0 :: rest)[r]? = some wr) :
    ReadCtx
      { P := P, Z := Z, hostBE := H,
        file := (write P Z E false SC Dims PhysOrigin PhysScale none (w0 :: rest) file).file,
        RetryCount := RetryCount, fails := fails } E
      (headerBody E (leaderOf P Z E false SC Dims PhysOrigin PhysScale none (w0 :: rest)))
      w0.Vars wr.Vars wr.NElems
      (exactHeaderSize w0.Vars.length (rest.length + 1) 0 false +
        (((w0 :: rest).take r).map writerDataSize).sum) := by
  have hoct : ((none : Option (List Byte)).getD []).length = 0 := rfl
  have hfit0 := hfit
  simp only [exactFileSize, List.head?_cons, Option.map_some', Option.getD_some, List.length_cons,
    Bool.false_eq_true, if_false, hoct] at hfit
  have hH : exactHeaderSize w0.Vars.length (rest.length + 1) 0 false < 2 ^ 64 := by omega
  obtain ⟨g6, g7, g8, _, _, _, g12, g19⟩ := written_global_fields P Z E SC H Dims PhysOrigin
    PhysScale w0 rest hH
  obtain ⟨hHS, _, _⟩ := leaderOf_plain_records P Z E SC Dims PhysOrigin PhysScale w0 rest hH
  obtain ⟨_, hct⟩ := write_plain_frame P hP Z E SC Dims PhysOrigin PhysScale w0 rest file hsame
    hN hfit0 hbuf
  have hwr : wr.Vars.map (fun V => V.Size) = w0.Vars.map (fun V => V.Size) := by
    have hmem := mem_of_getElem?_some _ _ _ hr
    rcases List.mem_cons.1 hmem with h | h
    · rw [h]
    · exact hsame wr h
  have hle := sum_take_writers_le (w0 :: rest) r wr hr
  exact
    { nvars := g6
      varsSize := g7
      varsStart := g8
      globalHeaderSize := g12
      blocksSize := g19
      headerFits := by
        simp only [exactHeaderSize] at hH
        omega
      name := fun j V hj => (written_var_fields P Z E SC H Dims PhysOrigin PhysScale w0 rest hH
        hsz j V hj).1
      size := fun j V hj => (written_var_fields P Z E SC H Dims PhysOrigin PhysScale w0 rest hH
        hsz j V hj).2.1
      elementSize := fun j V hj => (written_var_fields P Z E SC H Dims PhysOrigin PhysScale w0
        rest hH hsz j V hj).2.2.1
      flags := fun j V hj => (written_var_fields P Z E SC H Dims PhysOrigin PhysScale w0 rest hH
        hsz j V hj).2.2.2
      dataFits := by
        rw [← writerDataSize_same wr w0 hwr]
        omega
      sameSizes := hwr
      content := fun pre V post hv => by
        have := hct r wr hr pre V post hv
        rw [hHS] at this
        exact this }

theorem crossBuffer_ne (E H : Bool) (hEH : E ≠ H) (N : Nat) (wv rv : Variable) :
    crossBuffer E H N wv rv =
      swapElements (expectedBuffer N wv rv) 0 rv.ElementSize
        (u64 (N * (rv.Size / rv.ElementSize))) := by
  have hne : (E != H) = true := by
    cases E <;> cases H <;> simp at hEH ⊢
  simp only [crossBuffer, hne, if_true]

theorem zipWith_getElem?_some {α β γ : Type} (f : α → β → γ) (a : List α) (b : List β) (i : Nat)
    (x : α) (y : β) (hx : a[i]? = some x) (hy : b[i]? = some y) :
    (List.zipWith f a b)[i]? = some (f x y) := by
  induction a generalizing b i with
  | nil => simp at hx
  | cons a0 as ih =>
    cases b with
    | nil => simp at hy
    | cons b0 bs =>
      cases i with
      | zero =>
        simp only [List.getElem?_cons_zero, Option.some.injEq] at hx hy
        simp only [List.zipWith_cons_cons, List.getElem?_cons_zero, hx, hy]
      | succ i =>
        simp only [List.getElem?_cons_succ] at hx hy
        simp only [List.zipWith_cons_cons, List.getElem?_cons_succ]
        exact ih bs i hx hy

/-- C17 (cross-endian read): `K >= 1` writers on a host of byte order `E` write, under the
conditions of the round trip C1, a file tagged with `E`; reader `r` on a host of the other
byte order `H` opens it and reads the same variables (element sizes non-zero).  The
header is accepted and recognised as of endianness `E`, `readData` returns with no error
counted, and each variable buffer is the payload of writer `r` followed by the old tail of
the buffer, after the loop of lines 2134-2138 has reversed, one after the other, the
`ElementSize` bytes of each of the `NElems * (Size / ElementSize)` elements from the start
of the buffer.  When `ElementSize` divides `Size` these elements cover exactly the
`NElems * Size` payload bytes and the bytes behind them are unchanged; `bswap` applied
twice is the identity; and a payload that is the memory image on the writing host of a
column of values is read as the memory image on the reading host of the same values. -/
theorem C17_cross_endian_read (P : CRC64) (hP : P.Contract) (Z : Blosc) (E H SC : Bool)
    (hEH : E ≠ H)
    (Dims PhysOrigin PhysScale : List Nat) (w0 : Writer) (rest : List Writer) (file : FileData)
    (RetryCount : Int) (fails : Nat → Nat → Bool) (topoDims : Option (List Int))
    (r : Nat) (wr : Writer) (RV : List Variable)
    (hvars : ∀ w ∈ rest, w.Vars.map descr = w0.Vars.map descr)
    (hnd : (w0.Vars.map (fun V => V.Name)).Nodup)
    (hlen : ∀ V ∈ w0.Vars, V.Name.length < NameSize)
    (hnul : ∀ V ∈ w0.Vars, ∀ b ∈ V.Name, b ≠ 0)
    (hsz : ∀ V ∈ w0.Vars, V.Size < 2 ^ 64 ∧ V.ElementSize < 2 ^ 64)
    (hpos : ∀ V ∈ w0.Vars, 0 < V.ElementSize)
    (hN : ∀ w ∈ w0 :: rest, w.NElems < 2 ^ 64)
    (hfit : exactFileSize P Z E false SC none (w0 :: rest) < 2 ^ 64)
    (hbuf : ∀ w ∈ w0 :: rest, ∀ V ∈ w.Vars,
      w.NElems * V.Size + (if V.HasExtraSpace then CRCSize else 0) ≤ V.Data.length)
    (hr : (w0 :: rest)[r]? = some wr)
    (hRV : RV.map descr = w0.Vars.map descr)
    (hRVx : ∀ rv ∈ RV,
      rv.HasExtraSpace = true ∧ wr.NElems * rv.Size + CRCSize ≤ rv.Data.length)
    (hretry : ∀ idx, ∃ k : Nat, (k : Int) < RetryCount ∧ fails idx k = false) :
    ∃ os st,
      (∀ O : Octree,
        openAndReadHeader P O H MismatchBehavior.MismatchAllowed ((rest.length + 1 : Nat) : Int)
            (r : Int) ((rest.length + 1 : Nat) : Int) topoDims false []
            (write P Z E false SC Dims PhysOrigin PhysScale none (w0 :: rest) file).file =
          Except.ok os) ∧
      os.IsBigEndian = E ∧
      readDataT
          { P := P, Z := Z, hostBE := H,
            file := (write P Z E false SC Dims PhysOrigin PhysScale none (w0 :: rest) file).file,
            RetryCount := RetryCount, fails := fails }
          os.IsBigEndian os.HeaderCache [] RV (-1) 0 (r : Int) 0 (0, 0, 0) = Except.ok st ∧
      st.NErrs = (0, 0, 0) ∧
      st.Data = List.zipWith
        (fun wv rv => swapElements (expectedBuffer wr.NElems wv rv) 0 rv.ElementSize
          (u64 (wr.NElems * (rv.Size / rv.ElementSize)))) wr.Vars RV ∧
      (∀ p : List Byte, bswap (bswap p p.length) p.length = p) ∧
      ∀ (i : Nat) (wv rv : Variable), wr.Vars[i]? = some wv → RV[i]? = some rv → rv.ElementSize ∣ rv.Size →
        wr.NElems * (rv.Size / rv.ElementSize) * rv.ElementSize = wr.NElems * rv.Size ∧
        st.Data[i]? = some
          (elementsReversed rv.ElementSize (wr.NElems * (rv.Size / rv.ElementSize))
            (wv.Data.take (wr.NElems * rv.Size)) ++ rv.Data.drop (wr.NElems * rv.Size)) ∧
        ∀ values : List Nat,
          wv.Data.take (wr.NElems * rv.Size) = columnMem E rv.ElementSize values →
          st.Data[i]? = some
            (columnMem H rv.ElementSize values ++ rv.Data.drop (wr.NElems * rv.Size)) := by
  have hsame : ∀ w ∈ rest, w.Vars.map (fun V => V.Size) = w0.Vars.map (fun V => V.Size) :=
    fun w hw => sizes_of_descr _ _ (hvars w hw)
  have hoct : ((none : Option (List Byte)).getD []).length = 0 := rfl
  have hfit0 := hfit
  simp only [exactFileSize, List.head?_cons, Option.map_some', Option.getD_some, List.length_cons,
    Bool.false_eq_true, if_false, hoct] at hfit0
  have hH : exactHeaderSize w0.Vars.length (rest.length + 1) 0 false < 2 ^ 64 := by omega
  have hrK : r < rest.length + 1 := by
    have := lt_length_of_getElem? _ _ _ hr
    simpa using this
  obtain ⟨hf, _⟩ := write_plain_frame P hP Z E SC Dims PhysOrigin PhysScale w0 rest file hsame
    hN hfit hbuf
  have ho := fun O : Octree => openAndReadHeader_written P hP O Z E SC Dims PhysOrigin
    PhysScale w0 rest H ((rest.length + 1 : Nat) : Int) (r : Int)
    ((rest.length + 1 : Nat) : Int) topoDims false [] hH _ hf
  have ctx := written_ReadCtx_any P hP Z E H SC Dims PhysOrigin PhysScale w0 rest file RetryCount
    fails hsame hsz hN hfit hbuf r wr hr
  obtain ⟨_, _, _, f1, f3, f2, _, _⟩ := written_global_fields P Z E SC H Dims PhysOrigin
    PhysScale w0 rest hH
  obtain ⟨f4, f5⟩ := written_rank_fields P Z E SC H Dims PhysOrigin PhysScale w0 rest file
    hsame hN hfit r wr hr
  have hrd := readDataT_written
    { P := P, Z := Z, hostBE := H,
      file := (write P Z E false SC Dims PhysOrigin PhysScale none (w0 :: rest) file).file,
      RetryCount := RetryCount, fails := fails } E _ _ _ r _ _ RV
    f1 f2 f3 f4 f5 hrK (by
      simp only [exactHeaderSize] at hH
      omega)
  obtain ⟨st, h1, h2, h3⟩ := readVars_ok_any
    { P := P, Z := Z, hostBE := H,
      file := (write P Z E false SC Dims PhysOrigin PhysScale none (w0 :: rest) file).file,
      RetryCount := RetryCount, fails := fails } hP E _ _ _ _ _ ctx hnul hlen hnd hretry r RV 0
    { Data := [], TotalReadSize := 0, NErrs := (0, 0, 0) } rfl
    (by rw [List.drop_zero]; exact hRV) hRVx
  rw [List.drop_zero, List.nil_append] at h3
  have hfun : crossBuffer E H wr.NElems =
      (fun wv rv => swapElements (expectedBuffer wr.NElems wv rv) 0 rv.ElementSize
        (u64 (wr.NElems * (rv.Size / rv.ElementSize)))) := by
    funext wv rv
    exact crossBuffer_ne E H hEH _ wv rv
  have hwmem : wr ∈ w0 :: rest := mem_of_getElem?_some _ _ _ hr
  have hper : ∀ (i : Nat) (wv rv : Variable), wr.Vars[i]? = some wv → RV[i]? = some rv → rv.ElementSize ∣ rv.Size →
      wr.NElems * (rv.Size / rv.ElementSize) * rv.ElementSize = wr.NElems * rv.Size ∧
      st.Data[i]? = some
        (elementsReversed rv.ElementSize (wr.NElems * (rv.Size / rv.ElementSize))
          (wv.Data.take (wr.NElems * rv.Size)) ++ rv.Data.drop (wr.NElems * rv.Size)) := by
    intro i wv rv hwv hrv hdvd
    have hi : i < w0.Vars.length := by
      have h := lt_length_of_getElem? _ _ _ hrv
      have := congrArg List.length hRV
      simp only [List.length_map] at this
      omega
    have hV0 : w0.Vars[i]? = some w0.Vars[i] := List.getElem?_eq_getElem hi
    have hwsz : wv.Size = (w0.Vars[i]).Size :=
      getElem?_map_eq (fun V => V.Size) _ _ ctx.sameSizes i _ _ hwv hV0
    have hrsz : rv.Size = (w0.Vars[i]).Size :=
      getElem?_map_eq (fun V => V.Size) _ _ (sizes_of_descr _ _ hRV) i _ _ hrv hV0
    have hle := sum_take_le wr.NElems w0.Vars i _ hV0
    have hdf := ctx.dataFits
    have hfitv : wr.NElems * rv.Size < 2 ^ 64 := by
      rw [hrsz]
      omega
    have hwb := hbuf wr hwmem wv (mem_of_getElem?_some _ _ _ hwv)
    have hwl : wr.NElems * rv.Size ≤ wv.Data.length := by
      rw [hrsz, ← hwsz]
      omega
    obtain ⟨c1, c2⟩ := crossBuffer_swapped E H hEH wr.NElems wv rv (by rw [hwsz, hrsz]) hdvd
      hfitv hwl
    refine ⟨c1, ?_⟩
    rw [h3, zipWith_getElem?_some _ _ _ i wv rv hwv hrv, c2]
  refine ⟨_, st, ho, rfl, ?_, h2, ?_, bswap_bswap, ?_⟩
  · exact hrd.trans h1
  · rw [h3, hfun]
  · intro i wv rv hwv hrv hdvd
    obtain ⟨c1, c2⟩ := hper i wv rv hwv hrv hdvd
    refine ⟨c1, c2, ?_⟩
    intro values hval
    have hposr : 0 < rv.ElementSize := by
      have hi : i < w0.Vars.length := by
        have h := lt_length_of_getElem? _ _ _ hrv
        have := congrArg List.length hRV
        simp only [List.length_map] at this
        omega
      have hV0 : w0.Vars[i]? = some w0.Vars[i] := List.getElem?_eq_getElem hi
      have hd := getElem?_map_eq descr _ _ hRV i _ _ hrv hV0
      simp only [descr, Prod.mk.injEq] at hd
      rw [hd.2.2.1]
      exact hpos _ (mem_of_getElem?_some _ _ _ hV0)
    have hwb := hbuf wr hwmem wv (mem_of_getElem?_some _ _ _ hwv)
    have hlenv : values.length = wr.NElems * (rv.Size / rv.ElementSize) := by
      have h5 := congrArg List.length hval
      rw [columnMem_length] at h5
      have h6 : (wv.Data.take (wr.NElems * rv.Size)).length ≤ wr.NElems * rv.Size :=
        List.length_take_le _ _
      have h7 : (wv.Data.take (wr.NElems * rv.Size)).length = wr.NElems * rv.Size := by
        rw [List.length_take]
        have hi : i < w0.Vars.length := by
          have h := lt_length_of_getElem? _ _ _ hrv
          have := congrArg List.length hRV
          simp only [List.length_map] at this
          omega
        have hV0 : w0.Vars[i]? = some w0.Vars[i] := List.getElem?_eq_getElem hi
        have hwsz : wv.Size = (w0.Vars[i]).Size :=
          getElem?_map_eq (fun V => V.Size) _ _ ctx.sameSizes i _ _ hwv hV0
        have hrsz : rv.Size = (w0.Vars[i]).Size :=
          getElem?_map_eq (fun V => V.Size) _ _ (sizes_of_descr _ _ hRV) i _ _ hrv hV0
        rw [hrsz, ← hwsz]
        omega
      rw [h7, ← c1] at h5
      exact (Nat.eq_of_mul_eq_mul_right hposr h5).symm
    rw [c2, hval, ← hlenv, elementsReversed_columnMem]
    have hnot : (!E) = H := by
      cases E <;> cases H <;> simp at hEH ⊢
    rw [hnot]

theorem C17_cross_endian_read_witness :
    false ≠ true ∧
    ∃ os st,
      (∀ O : Octree,
        openAndReadHeader lastBytesCRC O true MismatchBehavior.MismatchAllowed
            (([exampleWriter1].length + 1 : Nat) : Int) ((1 : Nat) : Int)
            (([exampleWriter1].length + 1 : Nat) : Int) none false []
            (write lastBytesCRC noBlosc false false false [2, 1, 1] [0, 0, 0] [1, 1, 1] none
              (exampleWriter0 :: [exampleWriter1]) (fun _ => 0)).file =
          Except.ok os) ∧
      os.IsBigEndian = false ∧
      readDataT
          { P := lastBytesCRC, Z := noBlosc, hostBE := true,
            file := (write lastBytesCRC noBlosc false false false [2, 1, 1] [0, 0, 0] [1, 1, 1]
              none (exampleWriter0 :: [exampleWriter1]) (fun _ => 0)).file,
            RetryCount := 300, fails := fun _ _ => false }
          os.IsBigEndian os.HeaderCache [] [exampleVar [9, 9, 9, 9, 9, 9, 9, 9, 9, 9]] (-1) 0
          ((1 : Nat) : Int) 0 (0, 0, 0) = Except.ok st ∧
      st.NErrs = (0, 0, 0) ∧
      st.Data = List.zipWith
        (fun wv rv => swapElements (expectedBuffer exampleWriter1.NElems wv rv) 0 rv.ElementSize
          (u64 (exampleWriter1.NElems * (rv.Size / rv.ElementSize)))) exampleWriter1.Vars
        [exampleVar [9, 9, 9, 9, 9, 9, 9, 9, 9, 9]] ∧
      (∀ p : List Byte, bswap (bswap p p.length) p.length = p) ∧
      ∀ (i : Nat) (wv rv : Variable), exampleWriter1.Vars[i]? = some wv →
        [exampleVar [9, 9, 9, 9, 9, 9, 9, 9, 9, 9]][i]? = some rv → rv.ElementSize ∣ rv.Size →
        exampleWriter1.NElems * (rv.Size / rv.ElementSize) * rv.ElementSize =
          exampleWriter1.NElems * rv.Size ∧
        st.Data[i]? = some
          (elementsReversed rv.ElementSize (exampleWriter1.NElems * (rv.Size / rv.ElementSize))
            (wv.Data.take (exampleWriter1.NElems * rv.Size)) ++
              rv.Data.drop (exampleWriter1.NElems * rv.Size)) ∧
        ∀ values : List Nat,
          wv.Data.take (exampleWriter1.NElems * rv.Size) = columnMem false rv.ElementSize values →
          st.Data[i]? = some
            (columnMem true rv.ElementSize values ++
              rv.Data.drop (exampleWriter1.NElems * rv.Size)) :=
  ⟨by decide,
   C17_cross_endian_read lastBytesCRC lastBytesCRC_contract noBlosc false true false (by decide)
    [2, 1, 1] [0, 0, 0] [1, 1, 1] exampleWriter0 [exampleWriter1] (fun _ => 0) 300
    (fun _ _ => false) none 1 exampleWriter1 [exampleVar [9, 9, 9, 9, 9, 9, 9, 9, 9, 9]]
    (by decide) (by decide) (by decide) (by decide) (by decide) (by decide) (by decide)
    (by decide) (by decide) rfl (by decide) (by decide) (fun _ => ⟨0, by decide, rfl⟩)⟩

/-- The example of C17 evaluated: the row `[5, 6]` of writer 1, a two-byte element written
on a little-endian host, is left as `[6, 5]` in the buffer of a big-endian reader. -/
theorem crossBuffer_example :
    crossBuffer false true exampleWriter1.NElems (exampleVar [5, 6, 0, 0, 0, 0, 0, 0, 0, 0])
        (exampleVar [9, 9, 9, 9, 9, 9, 9, 9, 9, 9]) = [6, 5, 9, 9, 9, 9, 9, 9, 9, 9] := by
  decide!

/-! ## C18: endian-tagged fields -/

/-- The bytes an assignment stores depend on the tag only: most significant byte first
for a big-endian tag, least significant byte first otherwise. -/
theorem esvAssign_bytes (E h : Bool) (v : Nat) :
    esvAssign E h v = if E then (leBytes 8 (u64 v)).reverse else leBytes 8 (u64 v) := by
  have hl : (leBytes 8 (u64 v)).length = 8 := leBytes_length _ _
  have hr : ((leBytes 8 (u64 v)).reverse).length = 8 := by rw [List.length_reverse, hl]
  cases E <;> cases h
  · simp only [esvAssign, bne_self_eq_false, Bool.false_eq_true, if_false, toMem]
  · simp only [esvAssign, toMem, if_true, Bool.false_eq_true, if_false]
    rw [if_pos (by decide), bswap_eq_reverse _ hr, List.reverse_reverse]
  · simp only [esvAssign, toMem, if_true, Bool.false_eq_true, if_false]
    rw [if_pos (by decide), bswap_eq_reverse _ hl]
  · simp only [esvAssign, bne_self_eq_false, Bool.false_eq_true, if_false, toMem, if_true]

theorem esvRead_bytes (E h : Bool) (v : Nat) :
    esvRead E h (if E then (leBytes 8 (u64 v)).reverse else leBytes 8 (u64 v)) = u64 v := by
  have h8 : (256 : Nat) ^ 8 = 2 ^ 64 := by norm_num
  have hl : (leBytes 8 (u64 v)).length = 8 := leBytes_length _ _
  have hr : ((leBytes 8 (u64 v)).reverse).length = 8 := by rw [List.length_reverse, hl]
  have hv : ofLeBytes (leBytes 8 (u64 v)) = u64 v := by
    rw [ofLeBytes_leBytes, h8]
    exact Nat.mod_mod _ _
  cases E <;> cases h
  · simp only [esvRead, bne_self_eq_false, Bool.false_eq_true, if_false, ofMem, hv]
  · simp only [esvRead, Bool.false_eq_true, if_false]
    rw [if_pos (by decide), bswap_eq_reverse _ hl]
    simp only [ofMem, if_true, List.reverse_reverse, hv]
  · simp only [esvRead, if_true]
    rw [if_pos (by decide), bswap_eq_reverse _ hr]
    simp only [ofMem, Bool.false_eq_true, if_false, List.reverse_reverse, hv]
  · simp only [esvRead, bne_self_eq_false, Bool.false_eq_true, if_false, ofMem, if_true,
      List.reverse_reverse, hv]

/-- C18 (endian-tagged fields): for either tag `E` and either host byte order `h`,
assigning `v` to an `endian_specific_value<uint64_t, E>` and reading it back returns
`v mod 2^64`, which is `v` for every 64-bit value; the 8 stored bytes are the big-endian
encoding of the value (most significant byte first) when the tag is big-endian and the
little-endian encoding otherwise, whatever the host byte order; and after `x += n` on a
field holding the bytes `value`, a read returns the value read before plus `n`,
modulo `2^64`. -/
theorem C18_endian_tagged_fields (E h : Bool) (v : Nat) (value : List Byte) (n : Nat) :
    esvRead E h (esvAssign E h v) = u64 v ∧
    (v < 2 ^ 64 → esvRead E h (esvAssign E h v) = v) ∧
    esvAssign E h v = (if E then (leBytes 8 (u64 v)).reverse else leBytes 8 (u64 v)) ∧
    (esvAssign E h v).length = 8 ∧
    esvAssign E true v = esvAssign E false v ∧
    esvRead E h (esvAddAssign E h value n) = (esvRead E h value + n) % 2 ^ 64 := by
  have hrt : ∀ w, esvRead E h (esvAssign E h w) = u64 w := by
    intro w
    rw [esvAssign_bytes]
    exact esvRead_bytes E h w
  refine ⟨hrt v, ?_, esvAssign_bytes E h v, esvAssign_length E h v, ?_, ?_⟩
  · intro hv
    rw [hrt v]
    exact u64_of_lt hv
  · rw [esvAssign_bytes, esvAssign_bytes]
  · simp only [esvAddAssign]
    rw [hrt, u64_u64]
    rfl

theorem C18_endian_tagged_fields_witness :
    esvRead true false (esvAssign true false 258) = u64 258 ∧
    (258 < 2 ^ 64 → esvRead true false (esvAssign true false 258) = 258) ∧
    esvAssign true false 258 =
      (if true then (leBytes 8 (u64 258)).reverse else leBytes 8 (u64 258)) ∧
    (esvAssign true false 258).length = 8 ∧
    esvAssign true true 258 = esvAssign true false 258 ∧
    esvRead true false (esvAddAssign true false [255, 255, 255, 255, 255, 255, 255, 255] 3) =
      (esvRead true false [255, 255, 255, 255, 255, 255, 255, 255] + 3) % 2 ^ 64 :=
  C18_endian_tagged_fields true false 258 [255, 255, 255, 255, 255, 255, 255, 255] 3

/-- The stored bytes of the value 258 under either tag, and the wrap of `+=` at
`2^64`. -/
theorem esv_example :
    esvAssign true false 258 = [0, 0, 0, 0, 0, 0, 1, 2] ∧
    esvAssign false true 258 = [2, 1, 0, 0, 0, 0, 0, 0] ∧
    esvRead true false (esvAddAssign true false [255, 255, 255, 255, 255, 255, 255, 255] 3) =
      2 := by
  decide

/-! ## C19: the bytes behind the payload in the caller's buffer -/

theorem overwrite_length (v : List Byte) (off : Nat) (bs : List Byte)
    (h : off + bs.length ≤ v.length) : (overwrite v off bs).length = v.length := by
  simp only [overwrite, List.length_append, List.length_take, List.length_drop]
  omega

theorem overwrite_drop (v : List Byte) (off : Nat) (bs : List Byte) (m : Nat)
    (h1 : off + bs.length ≤ m) (h2 : m ≤ v.length) :
    (overwrite v off bs).drop m = v.drop m := by
  have hl : (v.take off ++ bs).length = off + bs.length := by
    simp only [List.length_append, List.length_take]
    omega
  simp only [overwrite]
  rw [List.drop_append_eq_append_drop, List.drop_of_length_le (by omega), List.nil_append, hl,
    List.drop_drop]
  congr 1
  omega

theorem overwrite_take (v : List Byte) (off : Nat) (bs : List Byte) (m : Nat) (h : m ≤ off)
    (h2 : off ≤ v.length) : (overwrite v off bs).take m = v.take m := by
  simp only [overwrite]
  rw [List.append_assoc, List.take_append_of_le_length (by
    rw [List.length_take]; omega), List.take_take, Nat.min_eq_left h]

/-- Writing back what was saved: after `bs` was copied over `[off, off + bs.length)` and
the 8 bytes at `q`, inside that range or right behind it, were restored from the copy
made before, the bytes from `q` on are the original ones. -/
theorem overwrite_restore_drop (v : List Byte) (w : List Byte) (q c : Nat)
    (hl : w.length = v.length) (hq : q + c ≤ v.length)
    (hd : w.drop (q + c) = v.drop (q + c)) :
    (overwrite w q (slice v q c)).drop q = v.drop q := by
  have hs : (slice v q c).length = c := by
    simp only [slice, List.length_take, List.length_drop]
    omega
  have hl2 : (w.take q).length = q := by
    rw [List.length_take]
    omega
  simp only [overwrite, hs]
  rw [List.append_assoc, List.drop_append_eq_append_drop, List.drop_of_length_le (by omega),
    List.nil_append, hl2, Nat.sub_self, List.drop_zero, hd, slice]
  have : v.drop (q + c) = (v.drop q).drop c := by rw [List.drop_drop]
  rw [this, List.take_append_drop]

theorem bswap_length (p : List Byte) (s : Nat) : (bswap p s).length = p.length := by
  simp only [bswap, bswapLoop_length]

theorem swapElements_frame (buf : List Byte) (base es : Nat) : ∀ n m,
    base + n * es ≤ m → m ≤ buf.length →
    (swapElements buf base es n).length = buf.length ∧
    (swapElements buf base es n).drop m = buf.drop m := by
  intro n
  induction n with
  | zero => intro m _ _; exact ⟨rfl, rfl⟩
  | succ n ih =>
    intro m h1 h2
    have e : (n + 1) * es = n * es + es := by ring
    obtain ⟨i1, i2⟩ := ih m (by omega) h2
    have hs : (slice (swapElements buf base es n) (base + n * es) es).length = es := by
      simp only [slice, List.length_take, List.length_drop, i1]
      omega
    have hb : (bswap (slice (swapElements buf base es n) (base + n * es) es) es).length = es := by
      rw [bswap_length, hs]
    simp only [swapElements]
    refine ⟨?_, ?_⟩
    · rw [overwrite_length _ _ _ (by rw [hb, i1]; omega), i1]
    · rw [overwrite_drop _ _ _ m (by rw [hb]; omega) (by rw [i1]; exact h2), i2]

/-- The buffer handed to lines 1117-1140 is, after them, what it was before: without
extra space it is only read, with extra space the 8 bytes behind the payload are saved
before the footer is stored there and copied back after the write. -/
theorem writeBlock_frame (P : CRC64) (hinv : ∀ c, (P.crc64_invert c).length = CRCSize)
    (file : FileData) (Data : List Byte) (W : Nat) (X : Bool) (Offset : Nat)
    (hx : X = true → W + CRCSize ≤ Data.length) :
    (writeBlock P file Data W X Offset).2 = Data := by
  cases X with
  | false => simp only [writeBlock, Bool.false_eq_true, if_false]
  | true =>
    have hW := hx rfl
    have hi : ((P.crc64_invert (P.crc64_omp (Data.take W))).take CRCSize).length = CRCSize := by
      rw [List.length_take, hinv]
      exact Nat.min_self _
    have hp : (Data.take W).length = W := by
      rw [List.length_take]
      omega
    simp only [writeBlock, if_true]
    have e1 : overwrite Data W ((P.crc64_invert (P.crc64_omp (Data.take W))).take CRCSize) =
        (Data.take W ++ (P.crc64_invert (P.crc64_omp (Data.take W))).take CRCSize) ++
          Data.drop (W + CRCSize) := by
      simp only [overwrite, hi]
    rw [e1, overwrite_restore _ _ Data W CRCSize hp hi hW, List.take_append_drop]

theorem bulkLoop_frame_plain (P : CRC64) (hinv : ∀ c, (P.crc64_invert c).length = CRCSize)
    (N : Nat) : ∀ (Vars : List Variable) (LBs : List LocalBlock) (st : BulkState),
    (∀ V ∈ Vars, V.HasExtraSpace = true → N * V.Size + CRCSize ≤ V.Data.length) →
    (bulkLoop P false N Vars LBs st).Data = st.Data ++ Vars.map (fun V => V.Data) := by
  intro Vars
  induction Vars with
  | nil => intro LBs st _; simp [bulkLoop]
  | cons V Vars ih =>
    intro LBs st h
    have hV := h V (List.mem_cons_self _ _)
    have hle : u64 (N * V.Size) ≤ N * V.Size := Nat.mod_le _ _
    simp only [bulkLoop, Bool.false_eq_true, if_false]
    rw [ih _ _ (fun x hx => h x (List.mem_cons_of_mem _ hx)),
      writeBlock_frame P hinv _ _ _ _ _ (fun hx => by have := hV hx; omega)]
    simp only [List.map_cons, List.append_assoc, List.singleton_append]

theorem bulkLoop_frame_blocks (P : CRC64) (hinv : ∀ c, (P.crc64_invert c).length = CRCSize)
    (N : Nat) : ∀ (Vars : List Variable) (LBs : List LocalBlock) (st : BulkState),
    LBs.length = Vars.length →
    (∀ lb ∈ LBs, lb.HasExtraSpace = true → lb.BH.Size + CRCSize ≤ lb.Data.length) →
    (bulkLoop P true N Vars LBs st).Data = st.Data ++ LBs.map (fun lb => lb.Data) := by
  intro Vars
  induction Vars with
  | nil =>
    intro LBs st hl _
    cases LBs with
    | nil => simp [bulkLoop]
    | cons a t => simp at hl
  | cons V Vars ih =>
    intro LBs st hl h
    cases LBs with
    | nil => simp at hl
    | cons lb LBs =>
      simp only [List.length_cons, Nat.add_right_cancel_iff] at hl
      have hlb := h lb (List.mem_cons_self _ _)
      simp only [bulkLoop, if_true, List.head?_cons, Option.map_some', Option.getD_some,
        List.tail_cons]
      rw [ih _ _ hl (fun x hx => h x (List.mem_cons_of_mem _ hx)),
        writeBlock_frame P hinv _ _ _ _ _ hlb]
      simp only [List.map_cons, List.append_assoc, List.singleton_append]

theorem scatterBlocks_Data : ∀ (lbs : List LocalBlock) (sc : List BlockHeader),
    (scatterBlocks sc lbs).map (fun lb => lb.Data) = lbs.map (fun lb => lb.Data) := by
  intro lbs
  induction lbs with
  | nil => intro sc; rfl
  | cons lb lbs ih =>
    intro sc
    simp only [scatterBlocks, List.map_cons, ih]

theorem scatterBlocks_fits : ∀ (lbs : List LocalBlock) (sc : List BlockHeader),
    sc.map (fun bh => bh.Size) = lbs.map (fun lb => lb.BH.Size) →
    (∀ lb ∈ lbs, lb.HasExtraSpace = true → lb.BH.Size + CRCSize ≤ lb.Data.length) →
    ∀ lb ∈ scatterBlocks sc lbs, lb.HasExtraSpace = true →
      lb.BH.Size + CRCSize ≤ lb.Data.length := by
  intro lbs
  induction lbs with
  | nil => intro sc _ _ lb hlb; simp [scatterBlocks] at hlb
  | cons l lbs ih =>
    intro sc hsz h lb hlb
    cases sc with
    | nil => simp at hsz
    | cons s sc =>
      simp only [List.map_cons, List.cons.injEq] at hsz
      simp only [scatterBlocks, List.head?_cons, Option.getD_some, List.tail_cons,
        List.mem_cons] at hlb
      rcases hlb with hlb | hlb
      · rw [hlb]
        intro hx
        have := h l (List.mem_cons_self _ _) hx
        simp only [hsz.1]
        exact this
      · exact ih sc hsz.2 (fun x hx => h x (List.mem_cons_of_mem _ hx)) lb hlb

theorem localBlock_fits (P : CRC64) (Z : Blosc) (E SC : Bool) (N : Nat) (V : Variable)
    (hV : V.HasExtraSpace = true → N * V.Size + CRCSize ≤ V.Data.length) :
    (localBlock P Z E SC N V).HasExtraSpace = true →
      (localBlock P Z E SC N V).BH.Size + CRCSize ≤ (localBlock P Z E SC N V).Data.length := by
  have hle : u64 (N * V.Size) ≤ N * V.Size := Nat.mod_le _ _
  have hplain : (localBlockPlain N V).HasExtraSpace = true →
      (localBlockPlain N V).BH.Size + CRCSize ≤ (localBlockPlain N V).Data.length := by
    intro hx
    simp only [localBlockPlain] at hx ⊢
    have := hV hx
    omega
  cases SC with
  | false => simpa only [localBlock, Bool.false_eq_true, if_false] using hplain
  | true =>
    simp only [localBlock, if_true]
    cases hc : Z.blosc_compress V.Size (V.Data.take (u64 (N * V.Size))) with
    | none => exact hplain
    | some cbytes =>
      intro _
      simp only [List.length_append, List.length_replicate]
      have : u64 ((esvAssign E E (P.crc64_omp (V.Data.take (u64 (V.Size * N))))).length +
          cbytes.length) ≤ (esvAssign E E (P.crc64_omp (V.Data.take (u64 (V.Size * N))))).length +
          cbytes.length := Nat.mod_le _ _
      omega

/-- Without compression the block handed to the bulk loop is the caller's buffer
itself. -/
theorem localBlock_Data_plain (P : CRC64) (Z : Blosc) (E : Bool) (N : Nat) (V : Variable) :
    (localBlock P Z E false N V).Data = V.Data := by
  simp only [localBlock, Bool.false_eq_true, if_false, localBlockPlain]

theorem blockStartsAfter_sizes : ∀ (l : List BlockHeader) (a b : Nat),
    (blockStartsAfter a b l).1.map (fun bh => bh.Size) = l.map (fun bh => bh.Size) := by
  intro l
  induction l with
  | nil => intro a b; rfl
  | cons bh l ih =>
    intro a b
    simp only [blockStartsAfter, List.map_cons, ih]

theorem assignBlockStarts_sizes (H : Nat) (l : List BlockHeader) :
    (assignBlockStarts H l).1.map (fun bh => bh.Size) = l.map (fun bh => bh.Size) := by
  cases l with
  | nil => rfl
  | cons bh l => simp only [assignBlockStarts, List.map_cons, blockStartsAfter_sizes]

theorem chunk_of_flatten {α : Type} (s : Nat) : ∀ (chunks : List (List α)) (k : Nat)
    (c : List α), (∀ x ∈ chunks, x.length = s) → chunks[k]? = some c →
    (chunks.flatten.drop (k * s)).take s = c := by
  intro chunks
  induction chunks with
  | nil => intro k c _ h; simp at h
  | cons x chunks ih =>
    intro k c hall h
    have hx : x.length = s := hall x (List.mem_cons_self _ _)
    cases k with
    | zero =>
      simp only [List.getElem?_cons_zero, Option.some.injEq] at h
      subst h
      simp only [Nat.zero_mul, List.drop_zero, List.flatten_cons]
      rw [← hx, List.take_left]
    | succ k =>
      simp only [List.getElem?_cons_succ] at h
      have e : (k + 1) * s = x.length + k * s := by rw [hx]; ring
      rw [List.flatten_cons, e, ← List.drop_drop, List.drop_left]
      exact ih k c (fun y hy => hall y (List.mem_cons_of_mem _ hy)) h

theorem bulkAll_frame_plain (P : CRC64) (hinv : ∀ c, (P.crc64_invert c).length = CRCSize)
    (Z : Blosc) (E SC : Bool) (L : LeaderState) (NV : Nat) :
    ∀ (ws : List Writer) (i : Nat) (file : FileData),
    (∀ w ∈ ws, ∀ V ∈ w.Vars, V.HasExtraSpace = true →
      w.NElems * V.Size + CRCSize ≤ V.Data.length) →
    (bulkAll P Z E false SC L NV i ws file).2.1 =
      ws.map (fun w => w.Vars.map (fun V => V.Data)) := by
  intro ws
  induction ws with
  | nil => intro i file _; rfl
  | cons w ws ih =>
    intro i file h
    simp only [bulkAll, List.map_cons]
    rw [ih _ _ (fun x hx => h x (List.mem_cons_of_mem _ hx))]
    simp only [bulkPhase]
    rw [bulkLoop_frame_plain P hinv _ _ _ _ (h w (List.mem_cons_self _ _)), List.nil_append]

theorem bulkAll_frame_blocks (P : CRC64) (hinv : ∀ c, (P.crc64_invert c).length = CRCSize)
    (Z : Blosc) (E SC : Bool) (L : LeaderState) (NV : Nat) :
    ∀ (ws : List Writer) (i : Nat) (file : FileData),
    (∀ (k : Nat) (w : Writer), ws[k]? = some w →
      ((L.BHs.drop ((i + k) * NV)).take NV).map (fun bh => bh.Size) =
        (localBlocks P Z E true SC w).map (fun lb => lb.BH.Size)) →
    (∀ w ∈ ws, ∀ V ∈ w.Vars, V.HasExtraSpace = true →
      w.NElems * V.Size + CRCSize ≤ V.Data.length) →
    (bulkAll P Z E true SC L NV i ws file).2.1 =
      ws.map (fun w => w.Vars.map (fun V => (localBlock P Z E SC w.NElems V).Data)) := by
  intro ws
  induction ws with
  | nil => intro i file _ _; rfl
  | cons w ws ih =>
    intro i file hsz h
    have h0 := hsz 0 w (List.getElem?_cons_zero)
    rw [Nat.add_zero] at h0
    have hfit : ∀ lb ∈ localBlocks P Z E true SC w, lb.HasExtraSpace = true →
        lb.BH.Size + CRCSize ≤ lb.Data.length := by
      intro lb hlb
      simp only [localBlocks, if_true] at hlb
      obtain ⟨V, hV, rfl⟩ := List.mem_map.1 hlb
      exact localBlock_fits P Z E SC w.NElems V (h w (List.mem_cons_self _ _) V hV)
    have hlen : (scatterBlocks ((L.BHs.drop (i * NV)).take NV)
        (localBlocks P Z E true SC w)).length = w.Vars.length := by
      have := congrArg List.length (scatterBlocks_Data (localBlocks P Z E true SC w)
        ((L.BHs.drop (i * NV)).take NV))
      simp only [List.length_map] at this
      rw [this, localBlocks_true_length]
    simp only [bulkAll, List.map_cons]
    rw [ih (i + 1) _ (fun k x hx => by
        have := hsz (k + 1) x (by simpa using hx)
        rw [show i + 1 + k = i + (k + 1) by omega]
        exact this)
      (fun x hx => h x (List.mem_cons_of_mem _ hx))]
    simp only [bulkPhase]
    rw [bulkLoop_frame_blocks P hinv _ _ _ _ hlen
      (scatterBlocks_fits _ _ h0 hfit), List.nil_append, scatterBlocks_Data]
    simp only [localBlocks, if_true, List.map_map]
    rfl

/-- The buffers of `write()`: when the call returns, every buffer the bulk loop was
handed holds what it held before the call.  Without block headers, and with block
headers for a block that is not compressed, that buffer is the caller's buffer
`Vars[i].Data`; for a compressed block it is the private `LocalCData[i]`, and the
caller's buffer is only read. -/
theorem write_buffers (P : CRC64) (hinv : ∀ c, (P.crc64_invert c).length = CRCSize)
    (Z : Blosc) (E NB SC : Bool)
    (Dims PhysOrigin PhysScale : List Nat) (octree : Option (List Byte))
    (w0 : Writer) (rest : List Writer) (file : FileData)
    (hsame : NB = true → ∀ w ∈ rest, w.Vars.length = w0.Vars.length)
    (hbuf : ∀ w ∈ w0 :: rest, ∀ V ∈ w.Vars, V.HasExtraSpace = true →
      w.NElems * V.Size + CRCSize ≤ V.Data.length) :
    (write P Z E NB SC Dims PhysOrigin PhysScale octree (w0 :: rest) file).Data =
      (w0 :: rest).map (fun w => w.Vars.map
        (fun V => if NB then (localBlock P Z E SC w.NElems V).Data else V.Data)) := by
  cases NB with
  | false =>
    simp only [write, Bool.false_eq_true, if_false]
    exact bulkAll_frame_plain P hinv Z E SC _ _ _ _ _ hbuf
  | true =>
    have hall : ∀ w ∈ w0 :: rest, w.Vars.length = w0.Vars.length := by
      intro w hw
      rcases List.mem_cons.1 hw with h | h
      · rw [h]
      · exact hsame rfl w h
    have hLdef : leaderOf P Z E true SC Dims PhysOrigin PhysScale octree (w0 :: rest) =
        leaderAssemble E true w0.Vars w0.NElems Dims PhysOrigin PhysScale octree
          (RHLocal w0 :: rest.map RHLocal)
          (((w0 :: rest).map (fun w => (localBlocks P Z E true SC w).map
            (fun b => b.BH))).flatten) := rfl
    have hBH : ((leaderOf P Z E true SC Dims PhysOrigin PhysScale octree (w0 :: rest)).BHs).map
        (fun bh => bh.Size) =
        ((w0 :: rest).map (fun w => (localBlocks P Z E true SC w).map
          (fun lb => lb.BH.Size))).flatten := by
      rw [hLdef]
      simp only [leaderAssemble, if_true]
      rw [assignBlockStarts_sizes, List.map_flatten, List.map_map]
      congr 1
      apply List.map_congr_left
      intro w _
      simp only [Function.comp_apply, List.map_map]
      rfl
    have hchunk : ∀ x ∈ (w0 :: rest).map (fun w => (localBlocks P Z E true SC w).map
        (fun lb => lb.BH.Size)), x.length = w0.Vars.length := by
      intro x hx
      obtain ⟨w, hw, rfl⟩ := List.mem_map.1 hx
      rw [List.length_map, localBlocks_true_length]
      exact hall w hw
    simp only [write, if_true, List.head?_cons, Option.map_some', Option.getD_some]
    refine bulkAll_frame_blocks P hinv Z E SC _ _ _ _ _ ?_ hbuf
    intro k w hk
    rw [Nat.zero_add, List.map_take, List.map_drop, hBH]
    exact chunk_of_flatten _ _ k _ hchunk (by rw [List.getElem?_map, hk]; rfl)

theorem okCases_iteH {α : Type} {c : Prop} [Decidable c] {a b : Except ReadError α}
    (Q : α → Prop) (ha : c → ∀ r, a = Except.ok r → Q r) (hb : ¬ c → ∀ r, b = Except.ok r → Q r) :
    ∀ r, (if c then a else b) = Except.ok r → Q r := by
  intro r h
  by_cases hc : c
  · rw [if_pos hc] at h; exact ha hc r h
  · rw [if_neg hc] at h; exact hb hc r h

theorem swapCount_le (N S es : Nat) : u64 (N * (S / es)) * es ≤ N * S := by
  have h1 : u64 (N * (S / es)) ≤ N * (S / es) := Nat.mod_le _ _
  have h2 : S / es * es ≤ S := Nat.div_mul_le_self _ _
  calc u64 (N * (S / es)) * es ≤ N * (S / es) * es := Nat.mul_le_mul_right _ h1
    _ = N * (S / es * es) := by ring
    _ ≤ N * S := Nat.mul_le_mul_left _ h2

/-- The uncompressed path of lines 2002-2138 on a buffer `D`: the block of `NS` payload
bytes and 8 footer bytes is read to `VO`, the 8 bytes saved from `VO + NS` are copied
back, and the elements are swapped; the bytes from `VO + NS` on are those of `D`. -/
theorem read_plain_frame (D : List Byte) (VO NS : Nat) (fr : List Byte)
    (hfr : fr.length = NS + CRCSize) (b c : Bool) (es cnt : Nat) (hcnt : cnt * es ≤ NS)
    (hbuf : VO + NS + CRCSize ≤ D.length) :
    (if c = true then
        swapElements (overwrite (if b = true then overwrite D VO fr else D)
          (VO + (NS + CRCSize) - CRCSize) (slice D (VO + (NS + CRCSize) - CRCSize) CRCSize))
          VO es cnt
      else overwrite (if b = true then overwrite D VO fr else D)
          (VO + (NS + CRCSize) - CRCSize)
          (slice D (VO + (NS + CRCSize) - CRCSize) CRCSize)).length = D.length ∧
    (if c = true then
        swapElements (overwrite (if b = true then overwrite D VO fr else D)
          (VO + (NS + CRCSize) - CRCSize) (slice D (VO + (NS + CRCSize) - CRCSize) CRCSize))
          VO es cnt
      else overwrite (if b = true then overwrite D VO fr else D)
          (VO + (NS + CRCSize) - CRCSize)
          (slice D (VO + (NS + CRCSize) - CRCSize) CRCSize)).drop (VO + NS) =
      D.drop (VO + NS) := by
  have e : VO + (NS + CRCSize) - CRCSize = VO + NS := by omega
  rw [e]
  have h1 : (if b = true then overwrite D VO fr else D).length = D.length ∧
      (if b = true then overwrite D VO fr else D).drop (VO + NS + CRCSize) =
        D.drop (VO + NS + CRCSize) := by
    cases b with
    | false => exact ⟨rfl, rfl⟩
    | true =>
      simp only [if_true]
      exact ⟨overwrite_length _ _ _ (by rw [hfr]; omega),
        overwrite_drop _ _ _ _ (by rw [hfr]; omega) hbuf⟩
  have hs : (slice D (VO + NS) CRCSize).length = CRCSize := by
    simp only [slice, List.length_take, List.length_drop]
    omega
  have h2l : (overwrite (if b = true then overwrite D VO fr else D) (VO + NS)
      (slice D (VO + NS) CRCSize)).length = D.length := by
    rw [overwrite_length _ _ _ (by rw [hs, h1.1]; exact hbuf), h1.1]
  have h2d : (overwrite (if b = true then overwrite D VO fr else D) (VO + NS)
      (slice D (VO + NS) CRCSize)).drop (VO + NS) = D.drop (VO + NS) :=
    overwrite_restore_drop D _ (VO + NS) CRCSize h1.1 hbuf h1.2
  cases c with
  | false => exact ⟨h2l, h2d⟩
  | true =>
    simp only [if_true]
    obtain ⟨s1, s2⟩ := swapElements_frame (overwrite (if b = true then overwrite D VO fr else D)
      (VO + NS) (slice D (VO + NS) CRCSize)) VO es cnt (VO + NS) (by omega)
      (by rw [h2l]; omega)
    exact ⟨by rw [s1, h2l], by rw [s2, h2d]⟩

/-- The compressed path of lines 2105-2138 on the caller's buffer `D`: at most `NS`
decompressed bytes are stored at `VO` and the elements are swapped; the bytes from
`VO + NS` on are those of `D`. -/
theorem read_compressed_frame (D : List Byte) (VO NS n : Nat) (bs : List Byte) (hn : n ≤ NS)
    (c : Bool) (es cnt : Nat) (hcnt : cnt * es ≤ NS) (hbuf : VO + NS ≤ D.length) :
    (if c = true then swapElements (overwrite D VO (bs.take n)) VO es cnt
      else overwrite D VO (bs.take n)).length = D.length ∧
    (if c = true then swapElements (overwrite D VO (bs.take n)) VO es cnt
      else overwrite D VO (bs.take n)).drop (VO + NS) = D.drop (VO + NS) := by
  have hl : (bs.take n).length ≤ n := by
    rw [List.length_take]
    exact Nat.min_le_left _ _
  have h1 : (overwrite D VO (bs.take n)).length = D.length :=
    overwrite_length _ _ _ (by omega)
  have h2 : (overwrite D VO (bs.take n)).drop (VO + NS) = D.drop (VO + NS) :=
    overwrite_drop _ _ _ _ (by omega) hbuf
  cases c with
  | false => exact ⟨h1, h2⟩
  | true =>
    simp only [if_true]
    obtain ⟨s1, s2⟩ := swapElements_frame (overwrite D VO (bs.take n)) VO es cnt (VO + NS)
      (by omega) (by rw [h1]; exact hbuf)
    exact ⟨by rw [s1, h1], by rw [s2, h2]⟩

theorem nerrs_io_ne : ((1, 0, 0) : Nat × Nat × Nat) ≠ (0, 0, 0) := by decide

theorem nerrs_crc_ne : ((0, 1, 0) : Nat × Nat × Nat) ≠ (0, 0, 0) := by decide

theorem nerrs_dec_ne : ((0, 0, 1) : Nat × Nat × Nat) ≠ (0, 0, 0) := by decide

theorem readFound_frame (env : ReadEnv) (E : Bool) (hdr : List Byte)
    (RowOffset RankIndex N i : Nat) (V : Variable) (j Offset ReadSize0 : Nat)
    (hbuf : RowOffset * V.Size + N * V.Size + CRCSize ≤ V.Data.length)
    (hfit : RowOffset * V.Size + N * V.Size + CRCSize < 2 ^ 64)
    (hplain : ¬ fileUsesBlocks E env.hostBE hdr → fileVarSize E env.hostBE hdr j = V.Size →
      ReadSize0 = N * V.Size + CRCSize)
    (hblock : fileUsesBlocks E env.hostBE hdr →
      cstr (fileFilter E env.hostBE hdr RankIndex j 0) ≠ CompressName →
      fileVarSize E env.hostBE hdr j = V.Size →
      field E env.hostBE hdr (fileBH E env.hostBE hdr RankIndex j + offBHSize) = N * V.Size) :
    ∀ r, readFound env E hdr RowOffset RankIndex N i V j Offset ReadSize0 = Except.ok r →
      r.NErrs = (0, 0, 0) →
      r.Data.length = V.Data.length ∧
      r.Data.drop (RowOffset * V.Size + N * V.Size) =
        V.Data.drop (RowOffset * V.Size + N * V.Size) := by
  by_cases hsz : fileVarSize E env.hostBE hdr j = V.Size
  swap
  · intro r hr
    rcases readFound_schema_mismatch env E hdr RowOffset RankIndex N i V j Offset ReadSize0
      (Or.inl hsz) with h | h | h | h <;> rw [h] at hr <;> cases hr
  have hplain2 := fun h => hplain h hsz
  have hblock2 := fun h1 h2 => hblock h1 h2 hsz
  clear hplain hblock
  simp only [fileUsesBlocks, fileFilter, fileBH, Nat.zero_mul, Nat.add_zero] at hplain2 hblock2
  have hVO : u64 (RowOffset * V.Size) = RowOffset * V.Size := u64_of_lt (by omega)
  have hRS : u64 (N * V.Size + CRCSize) = N * V.Size + CRCSize := u64_of_lt (by omega)
  have hcnt := swapCount_le N V.Size V.ElementSize
  by_cases huse : offBlocksStart < field E env.hostBE hdr offGlobalHeaderSize ∧
      field E env.hostBE hdr offBlocksSize > 0
  · by_cases hcomp : cstr (slice hdr (u64 (field E env.hostBE hdr offBlocksStart +
        u64 (u64 (u64 (RankIndex * field E env.hostBE hdr offNVars) + j) *
          field E env.hostBE hdr offBlocksSize))) FilterNameSize) = CompressName
    · have hn : u64 (V.Size * N) ≤ N * V.Size := by
        rw [Nat.mul_comm V.Size N]
        exact Nat.mod_le _ _
      unfold readFound
      dsimp only
      simp only [huse, hcomp, and_self, true_and, decide_True, if_true, hVO, ne_eq,
        not_true_eq_false, false_and, and_false, if_false]
      repeat (first
        | apply okCases_ite
        | apply okCases_error
        | (apply okCases_ok; intro h0; first
            | exact absurd h0 nerrs_io_ne
            | exact absurd h0 nerrs_crc_ne
            | exact absurd h0 nerrs_dec_ne
            | exact read_compressed_frame V.Data _ _ _ _ hn _ _ _ hcnt (by omega)))
    · have hBS := hblock2 huse hcomp
      unfold readFound
      dsimp only
      simp only [huse, hcomp, and_false, and_true, true_and, decide_False, Bool.false_eq_true,
        if_false, if_true, hVO, hBS, hRS]
      repeat (first
        | apply okCases_ite
        | apply okCases_error
        | (apply okCases_ok; intro h0; first
            | exact absurd h0 nerrs_io_ne
            | exact absurd h0 nerrs_crc_ne
            | exact absurd h0 nerrs_dec_ne
            | exact read_plain_frame V.Data _ _ _ (fileRead_length _ _ _) _ _ _ _ hcnt hbuf))
  · have h0 := hplain2 huse
    subst h0
    unfold readFound
    dsimp only
    simp only [huse, false_and, decide_False, Bool.false_eq_true, if_false, hVO]
    repeat (first
      | apply okCases_ite
      | apply okCases_error
      | (apply okCases_ok; intro h0; first
          | exact absurd h0 nerrs_io_ne
          | exact absurd h0 nerrs_crc_ne
          | exact absurd h0 nerrs_dec_ne
          | exact read_plain_frame V.Data _ _ _ (fileRead_length _ _ _) _ _ _ _ hcnt hbuf))

theorem scanVars_frame (env : ReadEnv) (E : Bool) (hdr : List Byte)
    (RowOffset RankIndex N i : Nat) (V : Variable) (r : VarRead)
    (hbuf : RowOffset * V.Size + N * V.Size + CRCSize ≤ V.Data.length)
    (hfit : RowOffset * V.Size + N * V.Size + CRCSize < 2 ^ 64)
    (hcons : fileUsesBlocks E env.hostBE hdr → ∀ j,
      cstr (fileFilter E env.hostBE hdr RankIndex j 0) ≠ CompressName →
      field E env.hostBE hdr (fileBH E env.hostBE hdr RankIndex j + offBHSize) =
        N * fileVarSize E env.hostBE hdr j) :
    ∀ (n j Offset : Nat),
      scanVars env E hdr RowOffset RankIndex N i V n j Offset = Except.ok (some r) →
      r.NErrs = (0, 0, 0) →
      r.Data.length = V.Data.length ∧
      r.Data.drop (RowOffset * V.Size + N * V.Size) =
        V.Data.drop (RowOffset * V.Size + N * V.Size) := by
  intro n
  induction n with
  | zero => intro j Offset h; simp [scanVars] at h
  | succ n ih =>
    intro j Offset h
    simp only [scanVars] at h
    split_ifs at h with hn
    · exact ih _ _ h
    · cases hf : readFound env E hdr RowOffset RankIndex N i V j Offset
        (u64 (u64 (N * field E env.hostBE hdr
          (u64 (field E env.hostBE hdr offVarsStart + j * field E env.hostBE hdr offVarsSize) +
            offVHSize)) + CRCSize)) with
      | error e => rw [hf] at h; simp [Except.map] at h
      | ok r2 =>
        rw [hf] at h
        simp only [Except.map, Except.ok.injEq, Option.some.injEq] at h
        rw [← h]
        refine readFound_frame env E hdr RowOffset RankIndex N i V j Offset _ hbuf hfit ?_ ?_
          r2 hf
        · intro _ hsz
          simp only [fileVarSize, fileVH] at hsz
          rw [hsz]
          have h1 : u64 (N * V.Size) = N * V.Size := u64_of_lt (by omega)
          rw [h1]
          exact u64_of_lt (by omega)
        · intro hb hc hsz
          rw [hcons hb j hc, hsz]

/-- What `readData` leaves in a buffer: its length, and its bytes from the end of the
payload on, are those of the caller's buffer before the call. -/
theorem readVars_frame (env : ReadEnv) (E : Bool) (hdr : List Byte)
    (RowOffset RankIndex N S : Nat)
    (hcons : fileUsesBlocks E env.hostBE hdr → ∀ j,
      cstr (fileFilter E env.hostBE hdr RankIndex j 0) ≠ CompressName →
      field E env.hostBE hdr (fileBH E env.hostBE hdr RankIndex j + offBHSize) =
        N * fileVarSize E env.hostBE hdr j) :
    ∀ (Vars : List Variable) (i : Nat) (st0 st : ReadState),
      readVars env E hdr RowOffset RankIndex N S i Vars st0 = Except.ok st →
      st.NErrs = (0, 0, 0) →
      (∀ V ∈ Vars, RowOffset * V.Size + N * V.Size + CRCSize ≤ V.Data.length ∧
        RowOffset * V.Size + N * V.Size + CRCSize < 2 ^ 64) →
      ∃ bufs, st.Data = st0.Data ++ bufs ∧
        List.Forall₂ (fun (V : Variable) (buf : List Byte) =>
          buf.length = V.Data.length ∧
          buf.drop (RowOffset * V.Size + N * V.Size) =
            V.Data.drop (RowOffset * V.Size + N * V.Size)) Vars bufs := by
  intro Vars
  induction Vars with
  | nil =>
    intro i st0 st h _ _
    simp only [readVars, Except.ok.injEq] at h
    exact ⟨[], by rw [← h, List.append_nil], List.Forall₂.nil⟩
  | cons V Vars ih =>
    intro i st0 st h hz hb
    simp only [readVars] at h
    cases hs : scanVars env E hdr RowOffset RankIndex N i V
        (field E env.hostBE hdr offNVars) 0 S with
    | error e => rw [hs] at h; cases h
    | ok o =>
      cases o with
      | none => rw [hs] at h; cases h
      | some r =>
        rw [hs] at h
        dsimp only at h
        split_ifs at h with hne
        · exfalso
          simp only [Except.ok.injEq] at h
          rw [← h] at hz
          simp only [Prod.mk.injEq] at hz
          rcases hne with h1 | h1 | h1
          · exact h1 hz.1
          · exact h1 hz.2.1
          · exact h1 hz.2.2
        · have hr0 : r.NErrs = (0, 0, 0) := by
            have e1 : r.NErrs.1 = 0 := by
              by_contra hx
              exact hne (Or.inl (by omega))
            have e2 : r.NErrs.2.1 = 0 := by
              by_contra hx
              exact hne (Or.inr (Or.inl (by omega)))
            have e3 : r.NErrs.2.2 = 0 := by
              by_contra hx
              exact hne (Or.inr (Or.inr (by omega)))
            exact Prod.ext e1 (Prod.ext e2 e3)
          obtain ⟨hVb, hVf⟩ := hb V (List.mem_cons_self _ _)
          have hfr := scanVars_frame env E hdr RowOffset RankIndex N i V r hVb hVf hcons _ _ _
            hs hr0
          obtain ⟨bufs, hd, hall⟩ := ih _ _ _ h hz (fun x hx => hb x (List.mem_cons_of_mem _ hx))
          refine ⟨r.Data :: bufs, ?_, List.Forall₂.cons hfr hall⟩
          rw [hd]
          simp only [List.append_assoc, List.singleton_append]

theorem readDataT_frame (env : ReadEnv) (E : Bool) (hdr : List Byte) (RankMap : List Int)
    (Vars : List Variable) (EffRank : Int) (RowOffset : Nat) (Rank : Int)
    (TotalReadSize : Nat) (NErrs : Nat × Nat × Nat) (N : Nat) (st : ReadState)
    (hN : readNumElemsT E env.hostBE hdr RankMap EffRank Rank = Except.ok N)
    (hcons : fileUsesBlocks E env.hostBE hdr → ∀ j,
      cstr (fileFilter E env.hostBE hdr
        (getRankIndex E env.hostBE (if EffRank = -1 then Rank else EffRank) hdr RankMap) j 0) ≠
          CompressName →
      field E env.hostBE hdr (fileBH E env.hostBE hdr
        (getRankIndex E env.hostBE (if EffRank = -1 then Rank else EffRank) hdr RankMap) j +
          offBHSize) = N * fileVarSize E env.hostBE hdr j)
    (hbuf : ∀ V ∈ Vars, RowOffset * V.Size + N * V.Size + CRCSize ≤ V.Data.length ∧
      RowOffset * V.Size + N * V.Size + CRCSize < 2 ^ 64)
    (hrd : readDataT env E hdr RankMap Vars EffRank RowOffset Rank TotalReadSize NErrs =
      Except.ok st)
    (hok : st.NErrs = (0, 0, 0)) :
    List.Forall₂ (fun (V : Variable) (buf : List Byte) =>
      buf.length = V.Data.length ∧
      buf.drop (RowOffset * V.Size + N * V.Size) =
        V.Data.drop (RowOffset * V.Size + N * V.Size)) Vars st.Data := by
  unfold readNumElemsT at hN
  unfold readDataT at hrd
  dsimp only at hN hrd
  generalize (if EffRank = -1 then Rank else EffRank) = ER at hN hrd hcons
  by_cases hri : getRankIndex E env.hostBE ER hdr RankMap < field E env.hostBE hdr offNRanks
  · rw [if_neg (not_not.2 hri)] at hN hrd
    simp only [Except.ok.injEq] at hN
    rw [hN] at hrd
    obtain ⟨bufs, hd, hall⟩ := readVars_frame env E hdr RowOffset _ N _ hcons Vars 0
      { Data := [], TotalReadSize := TotalReadSize, NErrs := NErrs } st hrd hok hbuf
    rw [hd, List.nil_append]
    exact hall
  · rw [if_pos hri] at hN
    cases hN

/-- C19 (extra-space bytes are preserved).  Write: every writer of the sub-group hands
its buffers to the bulk loop of `write()` (buffers registered with extra space hold 8
bytes behind the `NElems * Size` payload bytes); when the call returns, each buffer the
loop was handed holds what it held before the call, payload and the 8 bytes behind it
alike.  That buffer is the caller's `Vars[i].Data` without block headers and for every
block that is not compressed; for a compressed block it is the private `LocalCData[i]`
and the caller's buffer is only read.  Read: when `readData` of the rank with `N` rows
returns with no error counted, on a file whose uncompressed blocks have the size of their
`N` rows, every requested buffer (which holds `RowOffset + N` rows and 8 more bytes) has
its length unchanged and, from the end of the payload on, the bytes it held before the
call; in particular the 8 bytes that follow the payload. -/
theorem C19_extra_space_preserved (P : CRC64)
    (hinv : ∀ c, (P.crc64_invert c).length = CRCSize) (Z : Blosc) (E NB SC : Bool)
    (Dims PhysOrigin PhysScale : List Nat) (octree : Option (List Byte))
    (w0 : Writer) (rest : List Writer) (file : FileData)
    (hsame : NB = true → ∀ w ∈ rest, w.Vars.length = w0.Vars.length)
    (hwbuf : ∀ w ∈ w0 :: rest, ∀ V ∈ w.Vars, V.HasExtraSpace = true →
      w.NElems * V.Size + CRCSize ≤ V.Data.length)
    (env : ReadEnv) (Er : Bool) (hdr : List Byte) (RankMap : List Int)
    (Vars : List Variable) (EffRank : Int) (RowOffset : Nat) (Rank : Int)
    (TotalReadSize : Nat) (NErrs : Nat × Nat × Nat) (N : Nat) (st : ReadState)
    (hN : readNumElemsT Er env.hostBE hdr RankMap EffRank Rank = Except.ok N)
    (hcons : fileUsesBlocks Er env.hostBE hdr → ∀ j,
      cstr (fileFilter Er env.hostBE hdr
        (getRankIndex Er env.hostBE (if EffRank = -1 then Rank else EffRank) hdr RankMap) j 0) ≠
          CompressName →
      field Er env.hostBE hdr (fileBH Er env.hostBE hdr
        (getRankIndex Er env.hostBE (if EffRank = -1 then Rank else EffRank) hdr RankMap) j +
          offBHSize) = N * fileVarSize Er env.hostBE hdr j)
    (hrbuf : ∀ V ∈ Vars, RowOffset * V.Size + N * V.Size + CRCSize ≤ V.Data.length ∧
      RowOffset * V.Size + N * V.Size + CRCSize < 2 ^ 64)
    (hrd : readDataT env Er hdr RankMap Vars EffRank RowOffset Rank TotalReadSize NErrs =
      Except.ok st)
    (hok : st.NErrs = (0, 0, 0)) :
    (write P Z E NB SC Dims PhysOrigin PhysScale octree (w0 :: rest) file).Data =
      (w0 :: rest).map (fun w => w.Vars.map
        (fun V => if NB then (localBlock P Z E SC w.NElems V).Data else V.Data)) ∧
    (∀ (n : Nat) (V : Variable),
      SC = false ∨ Z.blosc_compress V.Size (V.Data.take (u64 (n * V.Size))) = none →
      (localBlock P Z E SC n V).Data = V.Data) ∧
    List.Forall₂ (fun (V : Variable) (buf : List Byte) =>
      buf.length = V.Data.length ∧
      slice buf (RowOffset * V.Size + N * V.Size) CRCSize =
        slice V.Data (RowOffset * V.Size + N * V.Size) CRCSize ∧
      buf.drop (RowOffset * V.Size + N * V.Size) =
        V.Data.drop (RowOffset * V.Size + N * V.Size)) Vars st.Data := by
  refine ⟨write_buffers P hinv Z E NB SC Dims PhysOrigin PhysScale octree w0 rest file hsame
    hwbuf, ?_, ?_⟩
  · intro n V h
    rcases h with h | h
    · rw [h]
      exact localBlock_Data_plain P Z E n V
    · cases SC with
      | false => exact localBlock_Data_plain P Z E n V
      | true => simp only [localBlock, if_true, h, localBlockPlain]
  · refine List.Forall₂.imp ?_ (readDataT_frame env Er hdr RankMap Vars EffRank RowOffset Rank
      TotalReadSize NErrs N st hN hcons hrbuf hrd hok)
    intro V buf h
    refine ⟨h.1, ?_, h.2⟩
    simp only [slice, h.2]

theorem C19_extra_space_preserved_witness :
    (write lastBytesCRC noBlosc false false false [2, 1, 1] [0, 0, 0] [1, 1, 1] none
        (exampleWriter0 :: [exampleWriter1]) (fun _ => 0)).Data =
      (exampleWriter0 :: [exampleWriter1]).map (fun w => w.Vars.map
        (fun V => if false then (localBlock lastBytesCRC noBlosc false false w.NElems V).Data
          else V.Data)) ∧
    (∀ (n : Nat) (V : Variable),
      false = false ∨ noBlosc.blosc_compress V.Size (V.Data.take (u64 (n * V.Size))) = none →
      (localBlock lastBytesCRC noBlosc false false n V).Data = V.Data) ∧
    List.Forall₂ (fun (V : Variable) (buf : List Byte) =>
      buf.length = V.Data.length ∧
      slice buf (0 * V.Size + 1 * V.Size) CRCSize =
        slice V.Data (0 * V.Size + 1 * V.Size) CRCSize ∧
      buf.drop (0 * V.Size + 1 * V.Size) = V.Data.drop (0 * V.Size + 1 * V.Size))
      [exampleVar [9, 9, 1, 2, 3, 4, 5, 6, 7, 8]]
      ({ Data := [[5, 6, 1, 2, 3, 4, 5, 6, 7, 8]], TotalReadSize := 10,
         NErrs := (0, 0, 0) } : ReadState).Data :=
  C19_extra_space_preserved lastBytesCRC lastBytesCRC_contract.1 noBlosc false false false
    [2, 1, 1] [0, 0, 0] [1, 1, 1] none exampleWriter0 [exampleWriter1] (fun _ => 0)
    (fun h => absurd h (by decide)) (by decide)
    (exampleEnv false (fun _ _ => false)) false exampleHeader []
    [exampleVar [9, 9, 1, 2, 3, 4, 5, 6, 7, 8]] (-1) 0 1 0 (0, 0, 0) 1
    { Data := [[5, 6, 1, 2, 3, 4, 5, 6, 7, 8]], TotalReadSize := 10, NErrs := (0, 0, 0) }
    (by decide!)
    (fun h => absurd h (by unfold fileUsesBlocks; decide!))
    (by decide) (by decide!) rfl

/-! ## C20: split mode and the names of the data files -/

theorem splitNRanks_eq_iff (Partitions : List Int) (p : Int) :
    splitNRanks Partitions p = Partitions.length ↔ ∀ q ∈ Partitions, q = p := by
  induction Partitions with
  | nil => simp [splitNRanks]
  | cons a l ih =>
    simp only [splitNRanks] at ih
    have hle : (l.filter (fun q => decide (q = p))).length ≤ l.length := List.length_filter_le _ _
    by_cases ha : a = p
    · simp only [splitNRanks, List.filter_cons, ha, decide_True, if_true, List.length_cons,
        Nat.add_right_cancel_iff, List.mem_cons, forall_eq_or_imp, true_and]
      exact ih
    · simp only [splitNRanks, List.filter_cons, ha, decide_False, Bool.false_eq_true, if_false,
        List.length_cons, List.mem_cons, forall_eq_or_imp, false_and, iff_false]
      omega

theorem inSplitMode_iff (Partitions : List Int) (p : Int) :
    inSplitMode Partitions p = true ↔ ¬ ∀ q ∈ Partitions, q = p := by
  simp only [inSplitMode, bne_iff_ne, ne_eq, splitNRanks_eq_iff]

/-- C20 (partition planner): the writers of a communicator have the partition ids
`Partitions` (in rank order), and `p` and `q` are the ids of two of them.  The writer
with id `p` enters split mode if and only if not all writers have the id `p`, and the
writer with id `q` takes the same decision.  In split mode its data file is
`FileName # p` (the id in decimal), the rank map is written by rank 0 and by no other
rank, its `$partition` column lists the ids in rank order, and a reader whose non-empty
rank map gives `p` for its effective rank opens the same name.  Otherwise the data file
is `FileName` itself, as it is for a reader with an empty rank map, and no rank writes a
rank map. -/
theorem C20_partition_planner (FileName : String) (Partitions : List Int) (p q : Int)
    (hp : p ∈ Partitions) (hq : q ∈ Partitions) (RankMap : List Int) (EffRank : Nat)
    (hmap : RankMap[EffRank]? = some p) :
    (inSplitMode Partitions p = true ↔ ¬ ∀ x ∈ Partitions, x = p) ∧
    inSplitMode Partitions q = inSplitMode Partitions p ∧
    (inSplitMode Partitions p = true →
      writeLocalFileName FileName Partitions p = FileName ++ "#" ++ toString p ∧
      readLocalFileName FileName RankMap EffRank = writeLocalFileName FileName Partitions p ∧
      (∀ Rank, writesRankMap Partitions Rank p = true ↔ Rank = 0) ∧
      ∀ r : Nat, (MapPartition Partitions)[r]? = Partitions[r]?) ∧
    (inSplitMode Partitions p = false →
      writeLocalFileName FileName Partitions p = FileName ∧
      readLocalFileName FileName [] EffRank = writeLocalFileName FileName Partitions p ∧
      ∀ Rank x, x ∈ Partitions → writesRankMap Partitions Rank x = false) := by
  have hsame : ∀ a b : Int, a ∈ Partitions → b ∈ Partitions →
      inSplitMode Partitions a = true → inSplitMode Partitions b = true := by
    intro a b ha hb h
    rw [inSplitMode_iff] at h ⊢
    intro hall
    apply h
    intro x hx
    rw [hall x hx, hall a ha]
  have hqp : inSplitMode Partitions q = inSplitMode Partitions p := by
    cases h1 : inSplitMode Partitions p with
    | true => exact hsame p q hp hq h1
    | false =>
      cases h2 : inSplitMode Partitions q with
      | false => rfl
      | true =>
        have := hsame q p hq hp h2
        rw [h1] at this
        cases this
  have hne : RankMap.isEmpty = false := by
    cases RankMap with
    | nil => simp at hmap
    | cons a l => rfl
  have hget : RankMap.getD EffRank 0 = p := by
    rw [List.getD_eq_getElem?_getD, hmap]
    rfl
  refine ⟨inSplitMode_iff Partitions p, hqp, ?_, ?_⟩
  · intro h
    refine ⟨?_, ?_, ?_, fun r => rfl⟩
    · simp only [writeLocalFileName, h, if_true]
    · simp only [readLocalFileName, hne, Bool.false_eq_true, if_false, hget, writeLocalFileName,
        h, if_true]
    · intro Rank
      simp only [writesRankMap, h, Bool.true_and, decide_eq_true_eq]
  · intro h
    refine ⟨?_, ?_, ?_⟩
    · simp only [writeLocalFileName, h, Bool.false_eq_true, if_false]
    · simp only [readLocalFileName, List.isEmpty_nil, if_true, writeLocalFileName, h,
        Bool.false_eq_true, if_false]
    · intro Rank x hx
      have hx2 : inSplitMode Partitions x = false := by
        cases h2 : inSplitMode Partitions x with
        | false => rfl
        | true =>
          have := hsame x p hx hp h2
          rw [h] at this
          cases this
      simp only [writesRankMap, hx2, Bool.false_and]

theorem C20_partition_planner_witness :
    (inSplitMode [0, 0, 1] 1 = true ↔ ¬ ∀ x ∈ [(0 : Int), 0, 1], x = 1) ∧
    inSplitMode [0, 0, 1] 0 = inSplitMode [0, 0, 1] 1 ∧
    (inSplitMode [0, 0, 1] 1 = true →
      writeLocalFileName "out.gio" [0, 0, 1] 1 = "out.gio" ++ "#" ++ toString (1 : Int) ∧
      readLocalFileName "out.gio" [0, 0, 1] 2 = writeLocalFileName "out.gio" [0, 0, 1] 1 ∧
      (∀ Rank, writesRankMap [0, 0, 1] Rank 1 = true ↔ Rank = 0) ∧
      ∀ r : Nat, (MapPartition [0, 0, 1])[r]? = [(0 : Int), 0, 1][r]?) ∧
    (inSplitMode [0, 0, 1] 1 = false →
      writeLocalFileName "out.gio" [0, 0, 1] 1 = "out.gio" ∧
      readLocalFileName "out.gio" [] 2 = writeLocalFileName "out.gio" [0, 0, 1] 1 ∧
      ∀ Rank x, x ∈ [(0 : Int), 0, 1] → writesRankMap [0, 0, 1] Rank x = false) :=
  C20_partition_planner "out.gio" [0, 0, 1] 1 0 (by decide) (by decide) [0, 0, 1] 2 rfl

/-- The example of C20 evaluated: three writers with the partition ids 0, 0 and 1 are in
split mode and write `out.gio#0` and `out.gio#1`; three writers of one partition are not
and write `out.gio`. -/
theorem partition_example :
    inSplitMode [0, 0, 1] 0 = true ∧
    writeLocalFileName "out.gio" [0, 0, 1] 0 = "out.gio#0" ∧
    writeLocalFileName "out.gio" [0, 0, 1] 1 = "out.gio#1" ∧
    readLocalFileName "out.gio" [0, 0, 1] 2 = "out.gio#1" ∧
    inSplitMode [5, 5, 5] 5 = false ∧
    writeLocalFileName "out.gio" [5, 5, 5] 5 = "out.gio" ∧
    readLocalFileName "out.gio" [] 0 = "out.gio" := by
  decide

/-- The compressed example file is accepted on open, and the header cache of its reader is
`compressedHeader`. -/
theorem compressedHeader_open : ∀ O : Octree,
    openAndReadHeader lastBytesCRC O false MismatchBehavior.MismatchAllowed 2 1 2 none false []
        compressedWrite.file =
      Except.ok { IsBigEndian := false, HeaderCache := compressedHeader, SourceRanks := [],
                  octreeHeader := none } := by
  intro O
  have hz : field false false (headerBody false compressedWrite.leader) offOctreeSize = 0 := by
    decide!
  exact openAndReadHeader_leader_plain lastBytesCRC lastBytesCRC_contract O false false 2 1 2
    none false [] compressedWrite.leader compressedWrite.leader.HeaderSize (by decide!)
    (by decide!) rfl (by decide!) (by decide!) compressedWrite.file
    (write_header_frame lastBytesCRC lastBytesCRC_contract storeBlosc false true true [2, 1, 1]
      [0, 0, 0] [1, 1, 1] none [exampleWriter0, exampleWriter1] (fun _ => 0) (by decide!)
      (by decide!)) hz

/-- The damaged file of the C13 example is accepted on open: its header is intact, and
the header cache of its reader is that of the file as written. -/
theorem damagedFile_open : ∀ O : Octree,
    openAndReadHeader lastBytesCRC O false MismatchBehavior.MismatchAllowed 1 0 1 none false []
        damagedFile =
      Except.ok { IsBigEndian := false, HeaderCache := headerBody false twoVarWrite.leader,
                  SourceRanks := [], octreeHeader := none } := by
  intro O
  have hz : field false false (headerBody false twoVarWrite.leader) offOctreeSize = 0 := by
    decide!
  have hHS : twoVarWrite.leader.HeaderSize = 800 := by decide!
  have hf : fileRead damagedFile twoVarWrite.leader.HeaderSize 0 =
      headerBytes lastBytesCRC false twoVarWrite.leader := by
    refine Eq.trans ?_ (write_header_frame lastBytesCRC lastBytesCRC_contract noBlosc false false
      false [1, 1, 1] [0, 0, 0] [1, 1, 1] none [twoVarWriter] (fun _ => 0) (by decide!)
      (by decide!))
    apply fileRead_congr
    intro k hk
    have hk2 : k < 800 := by rw [← hHS]; exact hk
    simp only [damagedFile]
    rw [if_neg (by omega)]
    rfl
  exact openAndReadHeader_leader_plain lastBytesCRC lastBytesCRC_contract O false false 1 0 1
    none false [] twoVarWrite.leader twoVarWrite.leader.HeaderSize (by decide!) (by decide!)
    rfl (by decide!) (by decide!) damagedFile hf hz

/-! ## C21: the file size of the data-generator scenario -/

theorem writerDataSize_of_sizes (w : Writer) (N : Nat) (sizes : List Nat)
    (hN : w.NElems = N) (hs : w.Vars.map (fun V => V.Size) = sizes) :
    writerDataSize w = (sizes.map (fun s => N * s + CRCSize)).sum := by
  simp only [writerDataSize]
  rw [← hs, hN, List.map_map]
  rfl

/-- C21 (scenario 1 file size), counterexample to the claim as worded: for the eight
writers of the data generator (1000 rows each, seven 4-byte columns and one 2-byte column,
no block headers, no octree) the leader computes a file size that is not
`192 + 8*256 + 8*80 + 8 + 8*(1000*(4*7+2) + 8*8) = 243400`. -/
theorem C21_counterexample :
    (leaderOf lastBytesCRC noBlosc false false false [2, 2, 2] [0, 0, 0] [256, 256, 256] none
      genWriters).FileSize ≠ 192 + 8 * 256 + 8 * 80 + 8 + 8 * (1000 * (4 * 7 + 2) + 8 * 8) := by
  decide!

/-- C21 (scenario 1 file size), amended: for 8 writers in one partition, 1000 rows each,
seven 4-byte variables and one 2-byte variable, no block headers and no octree, the file
size the leader computes is
`sizeof(GlobalHeader) + 8 * sizeof(VariableHeader) + 8 * sizeof(RankHeader) + 8 +
8 * (1000 * (4*7 + 2) + 8 * 8)` with the packed record sizes 184, 280 and 48 of the
code, which is 243328 bytes. -/
theorem C21_scenario_file_size (P : CRC64) (Z : Blosc) (E SC : Bool)
    (Dims PhysOrigin PhysScale : List Nat) (w0 : Writer) (rest : List Writer)
    (hK : rest.length = 7)
    (hN : ∀ w ∈ w0 :: rest, w.NElems = 1000)
    (hsz : ∀ w ∈ w0 :: rest, w.Vars.map (fun V => V.Size) = [4, 4, 4, 4, 4, 4, 4, 2]) :
    (leaderOf P Z E false SC Dims PhysOrigin PhysScale none (w0 :: rest)).FileSize =
      sizeofGlobalHeader + 8 * sizeofVariableHeader + 8 * sizeofRankHeader + CRCSize +
        8 * (1000 * (4 * 7 + 2) + 8 * CRCSize) ∧
    sizeofGlobalHeader = 184 ∧ sizeofVariableHeader = 280 ∧ sizeofRankHeader = 48 ∧
    CRCSize = 8 ∧
    (leaderOf P Z E false SC Dims PhysOrigin PhysScale none (w0 :: rest)).FileSize = 243328 := by
  have hw0 := hsz w0 (List.mem_cons_self _ _)
  have hlen : w0.Vars.length = 8 := by
    have := congrArg List.length hw0
    simpa using this
  have hdata : ∀ w ∈ w0 :: rest, writerDataSize w = 30064 := by
    intro w hw
    rw [writerDataSize_of_sizes w 1000 _ (hN w hw) (hsz w hw)]
    rfl
  have hsum : ((w0 :: rest).map writerDataSize).sum = 8 * 30064 := by
    rw [sum_const_length (w0 :: rest) writerDataSize 30064 hdata, List.length_cons, hK]
  have hex : exactFileSize P Z E false SC none (w0 :: rest) = 243328 := by
    simp only [exactFileSize, List.head?_cons, Option.map_some', Option.getD_some,
      Bool.false_eq_true, if_false, hsum, hlen, List.length_cons, hK, exactHeaderSize]
    rfl
  obtain ⟨_, _, hFS, _⟩ := write_plain_tiles P Z E SC Dims PhysOrigin PhysScale none w0 rest
    (fun _ => 0)
    (fun w hw => by rw [hsz w (List.mem_cons_of_mem _ hw), hw0])
    (fun w hw => by rw [hN w hw]; norm_num)
    (by rw [hex]; norm_num)
  have hFS2 : (leaderOf P Z E false SC Dims PhysOrigin PhysScale none (w0 :: rest)).FileSize =
      243328 := by
    rw [← hex]
    exact hFS
  exact ⟨hFS2, rfl, rfl, rfl, rfl, hFS2⟩

theorem C21_scenario_file_size_witness :
    (leaderOf lastBytesCRC noBlosc false false false [2, 2, 2] [0, 0, 0] [256, 256, 256] none
        (genWriter 0 :: (List.range 7).map (fun r => genWriter (r + 1)))).FileSize =
      sizeofGlobalHeader + 8 * sizeofVariableHeader + 8 * sizeofRankHeader + CRCSize +
        8 * (1000 * (4 * 7 + 2) + 8 * CRCSize) ∧
    sizeofGlobalHeader = 184 ∧ sizeofVariableHeader = 280 ∧ sizeofRankHeader = 48 ∧
    CRCSize = 8 ∧
    (leaderOf lastBytesCRC noBlosc false false false [2, 2, 2] [0, 0, 0] [256, 256, 256] none
        (genWriter 0 :: (List.range 7).map (fun r => genWriter (r + 1)))).FileSize = 243328 :=
  C21_scenario_file_size lastBytesCRC noBlosc false false [2, 2, 2] [0, 0, 0] [256, 256, 256]
    (genWriter 0) ((List.range 7).map (fun r => genWriter (r + 1))) (by decide) (by decide)
    (by decide)

/-! ## C22: totals read through a rank map -/

/-- C22 (rank-map transparency of the totals), counterexample to the claim as worded:
three writers with the partition ids 0, 0 and 1 and 2, 1 and 3 rows write in split mode;
the sub-file of partition 0 is the example file (2 + 1 rows).  A reader that opened the
rank map holds the map `[0, 0, 1]` and the header of its sub-file: `readNRanks` returns 3,
but `readTotalNumElems` returns `2^64 - 1`, not the total `2 + 1 + 3` (nor the 3 rows that
the header of the sub-file records). -/
theorem C22_counterexample :
    inSplitMode [0, 0, 1] 0 = true ∧
    field false false exampleHeader offNElems = 3 ∧
    readNRanksT false false exampleHeader (MapPartition [0, 0, 1]) = 3 ∧
    readTotalNumElemsT false false exampleHeader (MapPartition [0, 0, 1]) = 2 ^ 64 - 1 ∧
    readTotalNumElemsT false false exampleHeader (MapPartition [0, 0, 1]) ≠ 2 + 1 + 3 := by
  refine ⟨by decide, by decide!, by decide!, by decide!, by decide!⟩

/-- C22 (rank-map transparency of the totals), amended: after a partitioned write by `K`
writers (fewer than `2^31`), a reader that opens `filename` (the rank map) holds a rank
map of `K` entries; `readNRanks` returns `K`, and `readTotalNumElems` returns
`(uint64_t) -1`, the value for "not known", whatever the element counts are.  Without a
rank map both functions return the fields of the header: `(int) GH->NRanks` and
`GH->NElems`. -/
theorem C22_rank_map_totals (E hostBE : Bool) (hdr : List Byte) (Partitions : List Int)
    (hK : 0 < Partitions.length) (hK31 : Partitions.length < 2 ^ 31) :
    readNRanksT E hostBE hdr (MapPartition Partitions) = Partitions.length ∧
    readTotalNumElemsT E hostBE hdr (MapPartition Partitions) = 2 ^ 64 - 1 ∧
    readNRanksT E hostBE hdr [] = toInt (field E hostBE hdr offNRanks) ∧
    readTotalNumElemsT E hostBE hdr [] = field E hostBE hdr offNElems := by
  have hne : Partitions.length ≠ 0 := by omega
  refine ⟨?_, ?_, ?_, ?_⟩
  · simp only [readNRanksT, MapPartition, ne_eq, hne, not_false_eq_true, if_true, toInt]
    have h1 : Partitions.length % 2 ^ 32 = Partitions.length := Nat.mod_eq_of_lt (by omega)
    rw [h1, if_pos hK31]
  · simp only [readTotalNumElemsT, MapPartition, ne_eq, hne, not_false_eq_true, if_true]
  · simp only [readNRanksT, List.length_nil, ne_eq, not_true_eq_false, if_false]
  · simp only [readTotalNumElemsT, List.length_nil, ne_eq, not_true_eq_false, if_false]

theorem C22_rank_map_totals_witness :
    readNRanksT false false exampleHeader (MapPartition [0, 0, 1]) =
      ([0, 0, 1] : List Int).length ∧
    readTotalNumElemsT false false exampleHeader (MapPartition [0, 0, 1]) = 2 ^ 64 - 1 ∧
    readNRanksT false false exampleHeader [] =
      toInt (field false false exampleHeader offNRanks) ∧
    readTotalNumElemsT false false exampleHeader [] =
      field false false exampleHeader offNElems :=
  C22_rank_map_totals false false exampleHeader [0, 0, 1] (by decide) (by decide)

/-! ## C23: variable descriptors decoded from the written header -/

theorem rankStartsBlocks_length (BHs : List BlockHeader) (NVars : Nat) (rest : List RankHeader) :
    ∀ (i acc : Nat), (rankStartsBlocks BHs NVars i rest acc).1.length = rest.length := by
  induction rest with
  | nil => intro i acc; rfl
  | cons rh rest ih =>
    intro i acc
    simp only [rankStartsBlocks, List.length_cons, ih]

theorem rankStartsPlain_length (R NVars : Nat) (rest : List RankHeader) :
    ∀ (s n acc : Nat), (rankStartsPlain R NVars s n rest acc).1.length = rest.length := by
  induction rest with
  | nil => intro s n acc; rfl
  | cons rh rest ih =>
    intro s n acc
    simp only [rankStartsPlain, List.length_cons, ih]

theorem assignBlockStarts_length (H : Nat) (l : List BlockHeader) :
    (assignBlockStarts H l).1.length = l.length := by
  have := congrArg List.length (assignBlockStarts_sizes H l)
  simpa using this

theorem leaderOf_records_any (P : CRC64) (Z : Blosc) (E NB SC : Bool)
    (Dims PhysOrigin PhysScale : List Nat) (octree : Option (List Byte))
    (w0 : Writer) (rest : List Writer)
    (hfit : exactHeaderSize w0.Vars.length (rest.length + 1) (octree.getD []).length NB < 2 ^ 64)
    (hlen : NB = true → ∀ w ∈ rest, w.Vars.length = w0.Vars.length) :
    (leaderOf P Z E NB SC Dims PhysOrigin PhysScale octree (w0 :: rest)).HeaderSize =
      exactHeaderSize w0.Vars.length (rest.length + 1) (octree.getD []).length NB ∧
    (leaderOf P Z E NB SC Dims PhysOrigin PhysScale octree (w0 :: rest)).serializedOctree =
      octree.getD [] ∧
    (leaderOf P Z E NB SC Dims PhysOrigin PhysScale octree (w0 :: rest)).VHs =
      w0.Vars.map variableHeader ∧
    (headerRecords E (leaderOf P Z E NB SC Dims PhysOrigin PhysScale octree
      (w0 :: rest))).length ≤
      (leaderOf P Z E NB SC Dims PhysOrigin PhysScale octree (w0 :: rest)).HeaderSize -
        CRCSize := by
  have hHS := (leaderOf_HeaderSize P Z E NB SC Dims PhysOrigin PhysScale octree w0 rest).1
  rw [computeHeaderSize_eq _ _ _ _ hfit] at hHS
  have hso : (leaderOf P Z E NB SC Dims PhysOrigin PhysScale octree
      (w0 :: rest)).serializedOctree = octree.getD [] := by
    cases NB <;> rfl
  have hVHs : (leaderOf P Z E NB SC Dims PhysOrigin PhysScale octree (w0 :: rest)).VHs =
      w0.Vars.map variableHeader := by
    cases NB <;> rfl
  have hRHs : (leaderOf P Z E NB SC Dims PhysOrigin PhysScale octree (w0 :: rest)).RHs.length =
      rest.length + 1 := by
    cases NB <;>
      simp [leaderOf, leaderAssemble, rankStartsBlocks_length, rankStartsPlain_length]
  have hBHs : (leaderOf P Z E NB SC Dims PhysOrigin PhysScale octree (w0 :: rest)).BHs.length =
      if NB then (rest.length + 1) * w0.Vars.length else 0 := by
    cases NB with
    | false => simp [leaderOf, leaderAssemble]
    | true =>
      have hg := gathered_length P Z E SC (w0 :: rest) w0.Vars.length (by
        intro w hw
        rcases List.mem_cons.1 hw with h | h
        · rw [h]
        · exact hlen rfl w h)
      simp only [leaderOf, leaderAssemble, List.map_cons, List.head?_cons, Option.map_some',
        Option.getD_some, if_true, assignBlockStarts_length]
      simpa using hg
  refine ⟨hHS, hso, hVHs, ?_⟩
  rw [headerRecords_length, hso, hVHs, hRHs, hBHs, hHS]
  simp only [exactHeaderSize, List.length_map]
  cases NB with
  | false => simp only [Bool.false_eq_true, if_false]; omega
  | true =>
    simp only [if_true]
    have : (rest.length + 1) * w0.Vars.length * sizeofBlockHeader =
        (rest.length + 1) * w0.Vars.length * sizeofBlockHeader := rfl
    omega

theorem VFlags_coordX (V : Variable) :
    ((VFlags V &&& ValueIsPhysCoordX) != 0) = V.IsPhysCoordX := by
  obtain ⟨a, b, c, f, s, x, y, z, g, d, e⟩ := V
  have h : ∀ f s x y z g : Bool,
      ((VFlags ⟨[], 0, 0, f, s, x, y, z, g, false, []⟩ &&& ValueIsPhysCoordX) != 0) = x := by
    decide
  exact h f s x y z g

theorem VFlags_coordY (V : Variable) :
    ((VFlags V &&& ValueIsPhysCoordY) != 0) = V.IsPhysCoordY := by
  obtain ⟨a, b, c, f, s, x, y, z, g, d, e⟩ := V
  have h : ∀ f s x y z g : Bool,
      ((VFlags ⟨[], 0, 0, f, s, x, y, z, g, false, []⟩ &&& ValueIsPhysCoordY) != 0) = y := by
    decide
  exact h f s x y z g

theorem VFlags_coordZ (V : Variable) :
    ((VFlags V &&& ValueIsPhysCoordZ) != 0) = V.IsPhysCoordZ := by
  obtain ⟨a, b, c, f, s, x, y, z, g, d, e⟩ := V
  have h : ∀ f s x y z g : Bool,
      ((VFlags ⟨[], 0, 0, f, s, x, y, z, g, false, []⟩ &&& ValueIsPhysCoordZ) != 0) = z := by
    decide
  exact h f s x y z g

theorem VFlags_ghost (V : Variable) :
    ((VFlags V &&& ValueMaybePhysGhost) != 0) = V.MaybePhysGhost := by
  obtain ⟨a, b, c, f, s, x, y, z, g, d, e⟩ := V
  have h : ∀ f s x y z g : Bool,
      ((VFlags ⟨[], 0, 0, f, s, x, y, z, g, false, []⟩ &&& ValueMaybePhysGhost) != 0) = g := by
    decide
  exact h f s x y z g

theorem VFlags_bits (V : Variable) :
    VFlags V = (if V.IsFloat then 1 else 0) + (if V.IsSigned then 2 else 0) +
      (if V.IsPhysCoordX then 4 else 0) + (if V.IsPhysCoordY then 8 else 0) +
      (if V.IsPhysCoordZ then 16 else 0) + (if V.MaybePhysGhost then 32 else 0) := by
  obtain ⟨a, b, c, f, s, x, y, z, g, d, e⟩ := V
  have h : ∀ f s x y z g : Bool,
      VFlags ⟨[], 0, 0, f, s, x, y, z, g, false, []⟩ =
        (if f then 1 else 0) + (if s then 2 else 0) + (if x then 4 else 0) +
        (if y then 8 else 0) + (if z then 16 else 0) + (if g then 32 else 0) := by
    decide
  exact h f s x y z g

/-- The header fields that `getVariableInfo` reads, for a header assembled by `write()` in
either layout and with or without an octree. -/
theorem written_var_fields_any (P : CRC64) (Z : Blosc) (E NB SC hostR : Bool)
    (Dims PhysOrigin PhysScale : List Nat) (octree : Option (List Byte))
    (w0 : Writer) (rest : List Writer)
    (hfit : exactHeaderSize w0.Vars.length (rest.length + 1) (octree.getD []).length NB < 2 ^ 64)
    (hlen : NB = true → ∀ w ∈ rest, w.Vars.length = w0.Vars.length)
    (hsz : ∀ V ∈ w0.Vars, V.Size < 2 ^ 64 ∧ V.ElementSize < 2 ^ 64) :
    field E hostR (headerBody E (leaderOf P Z E NB SC Dims PhysOrigin PhysScale octree
      (w0 :: rest))) offNVars = w0.Vars.length ∧
    field E hostR (headerBody E (leaderOf P Z E NB SC Dims PhysOrigin PhysScale octree
      (w0 :: rest))) offVarsSize = sizeofVariableHeader ∧
    field E hostR (headerBody E (leaderOf P Z E NB SC Dims PhysOrigin PhysScale octree
      (w0 :: rest))) offVarsStart = sizeofGlobalHeader + (octree.getD []).length ∧
    ∀ (j : Nat) (V : Variable), w0.Vars[j]? = some V →
      slice (headerBody E (leaderOf P Z E NB SC Dims PhysOrigin PhysScale octree (w0 :: rest)))
        (sizeofGlobalHeader + (octree.getD []).length + j * sizeofVariableHeader) NameSize =
        VName V.Name ∧
      field E hostR (headerBody E (leaderOf P Z E NB SC Dims PhysOrigin PhysScale octree
        (w0 :: rest)))
        (sizeofGlobalHeader + (octree.getD []).length + j * sizeofVariableHeader + offVHSize) =
        V.Size ∧
      field E hostR (headerBody E (leaderOf P Z E NB SC Dims PhysOrigin PhysScale octree
        (w0 :: rest)))
        (sizeofGlobalHeader + (octree.getD []).length + j * sizeofVariableHeader +
          offVHElementSize) = V.ElementSize ∧
      field E hostR (headerBody E (leaderOf P Z E NB SC Dims PhysOrigin PhysScale octree
        (w0 :: rest)))
        (sizeofGlobalHeader + (octree.getD []).length + j * sizeofVariableHeader + offVHFlags) =
        VFlags V := by
  obtain ⟨_, hso, hVHs, hrec⟩ := leaderOf_records_any P Z E NB SC Dims PhysOrigin PhysScale
    octree w0 rest hfit hlen
  have h184 : sizeofGlobalHeader = 184 := rfl
  have h280 : sizeofVariableHeader = 280 := rfl
  have hfit2 : 184 + w0.Vars.length * 280 + (octree.getD []).length < 2 ^ 64 := by
    simp only [exactHeaderSize] at hfit
    rw [h184, h280] at hfit
    omega
  have g6 := field_gh E hostR _ 6 (u64 w0.Vars.length) hrec (by cases NB <;> rfl)
  have g7 := field_gh E hostR _ 7 sizeofVariableHeader hrec (by cases NB <;> rfl)
  have g8 := field_gh E hostR _ 8 (u64 (sizeofGlobalHeader + (octree.getD []).length)) hrec
    (by cases NB <;> rfl)
  have hNV : u64 w0.Vars.length = w0.Vars.length := u64_of_lt (by omega)
  have hVS : u64 (sizeofGlobalHeader + (octree.getD []).length) =
      sizeofGlobalHeader + (octree.getD []).length := u64_of_lt (by rw [h184]; omega)
  have h7 : u64 sizeofVariableHeader = sizeofVariableHeader := rfl
  rw [u64_u64, hNV] at g6
  rw [h7] at g7
  rw [u64_u64, hVS] at g8
  refine ⟨g6, g7, g8, ?_⟩
  intro j V hj
  have hVH : (leaderOf P Z E NB SC Dims PhysOrigin PhysScale octree (w0 :: rest)).VHs[j]? =
      some (variableHeader V) := by
    rw [hVHs, List.getElem?_map, hj]
    rfl
  obtain ⟨hs1, hs2⟩ := hsz V (mem_of_getElem?_some _ _ _ hj)
  have n := name_vh E _ j (variableHeader V) hrec hVH
  have f0 := field_vh E hostR _ j (variableHeader V) 0 (VFlags V) hrec hVH rfl
  have f1 := field_vh E hostR _ j (variableHeader V) 1 (u64 V.Size) hrec hVH rfl
  have f2 := field_vh E hostR _ j (variableHeader V) 2 (u64 V.ElementSize) hrec hVH rfl
  rw [hso] at n f0 f1 f2
  rw [u64_u64, u64_of_lt hs1] at f1
  rw [u64_u64, u64_of_lt hs2] at f2
  rw [u64_of_lt (lt_trans (VFlags_lt V) (by norm_num))] at f0
  refine ⟨?_, f1, f2, f0⟩
  rw [n]
  have hnm : (variableHeader V).Name = VName V.Name := rfl
  have hl := VName_length V.Name
  rw [hnm, List.take_append_of_le_length (by omega), List.take_of_length_le (by omega)]

theorem getVariableInfoT_written (P : CRC64) (Z : Blosc) (E NB SC hostR : Bool)
    (Dims PhysOrigin PhysScale : List Nat) (octree : Option (List Byte))
    (w0 : Writer) (rest : List Writer)
    (hfit : exactHeaderSize w0.Vars.length (rest.length + 1) (octree.getD []).length NB < 2 ^ 64)
    (hlen : NB = true → ∀ w ∈ rest, w.Vars.length = w0.Vars.length)
    (hsz : ∀ V ∈ w0.Vars, V.Size < 2 ^ 64 ∧ V.ElementSize < 2 ^ 64)
    (hname : ∀ V ∈ w0.Vars, V.Name.length ≤ 255 ∧ ∀ b ∈ V.Name, b ≠ 0) :
    getVariableInfoT E hostR (headerBody E (leaderOf P Z E NB SC Dims PhysOrigin PhysScale
      octree (w0 :: rest))) = w0.Vars.map registeredInfo := by
  obtain ⟨g6, g7, g8, hv⟩ := written_var_fields_any P Z E NB SC hostR Dims PhysOrigin PhysScale
    octree w0 rest hfit hlen hsz
  have h184 : sizeofGlobalHeader = 184 := rfl
  have h280 : sizeofVariableHeader = 280 := rfl
  have hfit2 : 184 + w0.Vars.length * 280 + (octree.getD []).length < 2 ^ 64 := by
    simp only [exactHeaderSize] at hfit
    rw [h184, h280] at hfit
    omega
  apply List.ext_getElem?
  intro j
  simp only [getVariableInfoT]
  rw [g6, g7, g8, List.getElem?_map, List.getElem?_map]
  by_cases hj : j < w0.Vars.length
  · have hV : w0.Vars[j]? = some (w0.Vars[j]) := List.getElem?_eq_getElem hj
    obtain ⟨n, f1, f2, f0⟩ := hv j _ hV
    obtain ⟨hn1, hn2⟩ := hname _ (mem_of_getElem?_some _ _ _ hV)
    have hu : u64 (sizeofGlobalHeader + (octree.getD []).length + j * sizeofVariableHeader) =
        sizeofGlobalHeader + (octree.getD []).length + j * sizeofVariableHeader := by
      apply u64_of_lt
      have := Nat.mul_le_mul_right 280 (Nat.le_of_lt hj)
      rw [h184, h280]
      omega
    have hlt : offVHElementSize < sizeofVariableHeader := by decide
    rw [List.getElem?_range hj, hV]
    simp only [Option.map_some', hu, n, f1, f2, f0, if_pos hlt, VFlags_float, VFlags_signed,
      VFlags_coordX, VFlags_coordY, VFlags_coordZ, VFlags_ghost]
    rw [cstr_VName _ hn2 (by simp only [NameSize]; omega)]
    rfl
  · have hge : w0.Vars.length ≤ j := Nat.le_of_not_lt hj
    rw [List.getElem?_eq_none (by simpa using hge), List.getElem?_eq_none hge]
    rfl

/-- C23 (variable descriptors round-trip through the header): let `write()` assemble the
header for the writers `w0 :: rest` in either layout (with or without block headers, with
or without an octree), for a registered variable list whose names have at most 255 bytes
and no NUL byte, and whose sizes fit 64 bits.  From that header `getVariableInfo`
decodes exactly the registered descriptors (name, record size, element size and the six
flags), in registration order, on a host of either endianness.  On every file whose
first `HeaderSize` bytes are that header, a call of `openAndReadHeader` that returns
leaves the header in the header cache, so that `getVariableInfo` on the session gives the
registered descriptors; and when no octree bytes are stored the call does return.  The
`Flags` field of variable `j` holds the six flags in the six distinct bits 1, 2, 4, 8, 16
and 32. -/
theorem C23_variable_descriptors_round_trip (P : CRC64) (hP : P.Contract) (Z : Blosc)
    (E NB SC hostR : Bool) (Dims PhysOrigin PhysScale : List Nat) (octree : Option (List Byte))
    (w0 : Writer) (rest : List Writer) (file0 f : FileData)
    (NRanks Rank SplitNRanks : Int) (topoDims : Option (List Int)) (Redistributing : Bool)
    (RankMap : List Int)
    (hfit : exactHeaderSize w0.Vars.length (rest.length + 1) (octree.getD []).length NB < 2 ^ 64)
    (hlen : NB = true → ∀ w ∈ rest, w.Vars.length = w0.Vars.length)
    (hsz : ∀ V ∈ w0.Vars, V.Size < 2 ^ 64 ∧ V.ElementSize < 2 ^ 64)
    (hname : ∀ V ∈ w0.Vars, V.Name.length ≤ 255 ∧ ∀ b ∈ V.Name, b ≠ 0)
    (hf : fileRead f
        (write P Z E NB SC Dims PhysOrigin PhysScale octree (w0 :: rest) file0).leader.HeaderSize
        0 = headerBytes P E
        (write P Z E NB SC Dims PhysOrigin PhysScale octree (w0 :: rest) file0).leader) :
    getVariableInfoT E hostR (headerBody E
        (write P Z E NB SC Dims PhysOrigin PhysScale octree (w0 :: rest) file0).leader) =
      w0.Vars.map registeredInfo ∧
    (∀ (O : Octree) (ctx : OpenState),
      openAndReadHeader P O hostR MismatchBehavior.MismatchAllowed NRanks Rank SplitNRanks
        topoDims Redistributing RankMap f = Except.ok ctx →
      ctx.IsBigEndian = E ∧
      ctx.HeaderCache = headerBody E
        (write P Z E NB SC Dims PhysOrigin PhysScale octree (w0 :: rest) file0).leader ∧
      getVariableInfoT ctx.IsBigEndian hostR ctx.HeaderCache = w0.Vars.map registeredInfo) ∧
    ((octree.getD []).length = 0 → ∀ O : Octree, ∃ ctx : OpenState,
      openAndReadHeader P O hostR MismatchBehavior.MismatchAllowed NRanks Rank SplitNRanks
        topoDims Redistributing RankMap f = Except.ok ctx) ∧
    (∀ (j : Nat) (V : Variable), w0.Vars[j]? = some V →
      field E hostR (headerBody E
        (write P Z E NB SC Dims PhysOrigin PhysScale octree (w0 :: rest) file0).leader)
        (sizeofGlobalHeader + (octree.getD []).length + j * sizeofVariableHeader + offVHFlags) =
        (if V.IsFloat then 1 else 0) + (if V.IsSigned then 2 else 0) +
        (if V.IsPhysCoordX then 4 else 0) + (if V.IsPhysCoordY then 8 else 0) +
        (if V.IsPhysCoordZ then 16 else 0) + (if V.MaybePhysGhost then 32 else 0)) ∧
    [FloatValue, SignedValue, ValueIsPhysCoordX, ValueIsPhysCoordY, ValueIsPhysCoordZ,
      ValueMaybePhysGhost] = [1, 2, 4, 8, 16, 32] := by
  have hL : (write P Z E NB SC Dims PhysOrigin PhysScale octree (w0 :: rest) file0).leader =
      leaderOf P Z E NB SC Dims PhysOrigin PhysScale octree (w0 :: rest) := rfl
  rw [hL] at hf ⊢
  obtain ⟨hHS, hGHS, hMagic⟩ := leaderOf_HeaderSize P Z E NB SC Dims PhysOrigin PhysScale
    octree w0 rest
  rw [computeHeaderSize_eq _ _ _ _ hfit] at hHS hGHS
  have hge : sizeofGlobalHeader + CRCSize ≤
      exactHeaderSize w0.Vars.length (rest.length + 1) (octree.getD []).length NB := by
    simp only [exactHeaderSize]
    omega
  have hopen := fun O : Octree => openAndReadHeader_leader P hP O E hostR NRanks Rank
    SplitNRanks topoDims Redistributing RankMap _ _ hfit hge hHS hGHS hMagic f hf
  have hinfo := getVariableInfoT_written P Z E NB SC hostR Dims PhysOrigin PhysScale octree
    w0 rest hfit hlen hsz hname
  obtain ⟨_, _, _, hrec⟩ := leaderOf_records_any P Z E NB SC Dims PhysOrigin PhysScale
    octree w0 rest hfit hlen
  refine ⟨hinfo, ?_, ?_, ?_, by decide⟩
  · intro O ctx hctx
    rw [hopen O] at hctx
    have key : ctx = OpenState.mk E
        (headerBody E (leaderOf P Z E NB SC Dims PhysOrigin PhysScale octree (w0 :: rest))) []
        ctx.octreeHeader := by
      split_ifs at hctx with h1 h2
      · cases hro : readOctreeHeader O f
            (toInt (field false hostR (headerBody E (leaderOf P Z E NB SC Dims PhysOrigin
              PhysScale octree (w0 :: rest))) offOctreeStart))
            (toInt (field false hostR (headerBody E (leaderOf P Z E NB SC Dims PhysOrigin
              PhysScale octree (w0 :: rest))) offOctreeSize)) E with
        | error e => rw [hro] at hctx; cases hctx
        | ok u =>
          rw [hro] at hctx
          simp only [Except.map, Except.ok.injEq] at hctx
          rw [← hctx]
      · simp only [Except.ok.injEq] at hctx
        rw [← hctx]
      · simp only [Except.ok.injEq] at hctx
        rw [← hctx]
    rw [key]
    exact ⟨rfl, rfl, hinfo⟩
  · intro h0 O
    have ht : (ghFields E E (leaderOf P Z E NB SC Dims PhysOrigin PhysScale octree
        (w0 :: rest)).GH)[21]? = some (esvAssign E E (octree.getD []).length) := by
      cases NB <;> rfl
    rw [h0] at ht
    have hz := field_gh_zero E false hostR _ 21 hrec ht
    exact ⟨_, openAndReadHeader_leader_plain P hP O E hostR NRanks Rank SplitNRanks topoDims
      Redistributing RankMap _ _ hfit hge hHS hGHS hMagic f hf hz⟩
  · intro j V hj
    obtain ⟨_, _, _, hv⟩ := written_var_fields_any P Z E NB SC hostR Dims PhysOrigin PhysScale
      octree w0 rest hfit hlen hsz
    rw [(hv j V hj).2.2.2]
    exact VFlags_bits V

theorem fileRead_stored_header (P : CRC64) (hP : P.Contract) (E : Bool) (L : LeaderState)
    (f0 : FileData) (h : CRCSize ≤ L.HeaderSize) :
    fileRead (fileWrite f0 (headerBytes P E L) L.HeaderSize 0) L.HeaderSize 0 =
      headerBytes P E L := by
  have hl := headerBytes_length P hP E L h
  rw [fileRead_fileWrite _ _ _ _ (by rw [hl]), List.take_of_length_le (by rw [hl])]

theorem C23_variable_descriptors_round_trip_witness :
    getVariableInfoT true false (headerBody true
        (write lastBytesCRC noBlosc true true false [2, 1, 1] [0, 0, 0] [1, 1, 1]
          (some [7, 7, 7]) (exampleWriter0 :: [exampleWriter1]) (fun _ => 0)).leader) =
      exampleWriter0.Vars.map registeredInfo ∧
    (∀ (O : Octree) (ctx : OpenState),
      openAndReadHeader lastBytesCRC O false MismatchBehavior.MismatchAllowed 2 0 2 none false []
        (fileWrite (fun _ => 0)
          (headerBytes lastBytesCRC true
            (write lastBytesCRC noBlosc true true false [2, 1, 1] [0, 0, 0] [1, 1, 1]
              (some [7, 7, 7]) (exampleWriter0 :: [exampleWriter1]) (fun _ => 0)).leader)
          (write lastBytesCRC noBlosc true true false [2, 1, 1] [0, 0, 0] [1, 1, 1]
            (some [7, 7, 7]) (exampleWriter0 :: [exampleWriter1]) (fun _ => 0)).leader.HeaderSize
          0) = Except.ok ctx →
      ctx.IsBigEndian = true ∧
      ctx.HeaderCache = headerBody true
        (write lastBytesCRC noBlosc true true false [2, 1, 1] [0, 0, 0] [1, 1, 1]
          (some [7, 7, 7]) (exampleWriter0 :: [exampleWriter1]) (fun _ => 0)).leader ∧
      getVariableInfoT ctx.IsBigEndian false ctx.HeaderCache =
        exampleWriter0.Vars.map registeredInfo) ∧
    (∀ (j : Nat) (V : Variable), exampleWriter0.Vars[j]? = some V →
      field true false (headerBody true
        (write lastBytesCRC noBlosc true true false [2, 1, 1] [0, 0, 0] [1, 1, 1]
          (some [7, 7, 7]) (exampleWriter0 :: [exampleWriter1]) (fun _ => 0)).leader)
        (sizeofGlobalHeader + ((some [7, 7, 7] : Option (List Byte)).getD []).length +
          j * sizeofVariableHeader + offVHFlags) =
        (if V.IsFloat then 1 else 0) + (if V.IsSigned then 2 else 0) +
        (if V.IsPhysCoordX then 4 else 0) + (if V.IsPhysCoordY then 8 else 0) +
        (if V.IsPhysCoordZ then 16 else 0) + (if V.MaybePhysGhost then 32 else 0)) :=
  have h := C23_variable_descriptors_round_trip lastBytesCRC lastBytesCRC_contract noBlosc true
    true false false [2, 1, 1] [0, 0, 0] [1, 1, 1] (some [7, 7, 7]) exampleWriter0
    [exampleWriter1] (fun _ => 0) _ 2 0 2 none false [] (by decide)
    (by intro _ w hw; rw [List.mem_singleton.1 hw]; rfl) (by decide) (by decide)
    (fileRead_stored_header lastBytesCRC lastBytesCRC_contract true _ _ (by decide))
  ⟨h.1, h.2.1, h.2.2.2.1⟩

/-- The header of the example sub-group written on a big-endian host with three octree
bytes, opened on a little-endian host: the octree detection reads `OctreeSize` and
`OctreeStart` through a `GlobalHeader<false>`, both convert to the `int` 0, and the
outcome of `openAndReadHeader` is that of `readOctreeHeader(0, 0, true)`, which hands an
empty buffer to `deserialize`. -/
theorem openAndReadHeader_octree_example : ∀ O : Octree,
    openAndReadHeader lastBytesCRC O false MismatchBehavior.MismatchAllowed 2 0 2 none false []
        (fileWrite (fun _ => 0)
          (headerBytes lastBytesCRC true
            (leaderOf lastBytesCRC noBlosc true true false [2, 1, 1] [0, 0, 0] [1, 1, 1]
              (some [7, 7, 7]) (exampleWriter0 :: [exampleWriter1])))
          (leaderOf lastBytesCRC noBlosc true true false [2, 1, 1] [0, 0, 0] [1, 1, 1]
            (some [7, 7, 7]) (exampleWriter0 :: [exampleWriter1])).HeaderSize 0) =
      if O.deserialize [] true then
        Except.ok { IsBigEndian := true,
                    HeaderCache := headerBody true
                      (leaderOf lastBytesCRC noBlosc true true false [2, 1, 1] [0, 0, 0]
                        [1, 1, 1] (some [7, 7, 7]) (exampleWriter0 :: [exampleWriter1])),
                    SourceRanks := [], octreeHeader := some (0, 0, true) }
      else Except.error ReadError.octreeDeserialize := by
  intro O
  have h1 : field false false (headerBody true
      (leaderOf lastBytesCRC noBlosc true true false [2, 1, 1] [0, 0, 0] [1, 1, 1]
        (some [7, 7, 7]) (exampleWriter0 :: [exampleWriter1]))) offVarsStart ≠ 168 := by
    decide!
  have h2 : field false false (headerBody true
      (leaderOf lastBytesCRC noBlosc true true false [2, 1, 1] [0, 0, 0] [1, 1, 1]
        (some [7, 7, 7]) (exampleWriter0 :: [exampleWriter1]))) offOctreeSize ≠ 0 := by
    decide!
  have h3 : toInt (field false false (headerBody true
      (leaderOf lastBytesCRC noBlosc true true false [2, 1, 1] [0, 0, 0] [1, 1, 1]
        (some [7, 7, 7]) (exampleWriter0 :: [exampleWriter1]))) offOctreeSize) = 0 := by
    decide!
  have h4 : toInt (field false false (headerBody true
      (leaderOf lastBytesCRC noBlosc true true false [2, 1, 1] [0, 0, 0] [1, 1, 1]
        (some [7, 7, 7]) (exampleWriter0 :: [exampleWriter1]))) offOctreeStart) = 0 := by
    decide!
  rw [openAndReadHeader_leader lastBytesCRC lastBytesCRC_contract O true false 2 0 2 none false
    [] _ _ (by decide) (by decide) rfl (by decide!) (by decide!) _
    (fileRead_stored_header lastBytesCRC lastBytesCRC_contract true _ _ (by decide)),
    if_pos h1, if_pos h2, h3, h4]
  have hr : readOctreeHeader O
      (fileWrite (fun _ => 0)
        (headerBytes lastBytesCRC true
          (leaderOf lastBytesCRC noBlosc true true false [2, 1, 1] [0, 0, 0] [1, 1, 1]
            (some [7, 7, 7]) (exampleWriter0 :: [exampleWriter1])))
        (leaderOf lastBytesCRC noBlosc true true false [2, 1, 1] [0, 0, 0] [1, 1, 1]
          (some [7, 7, 7]) (exampleWriter0 :: [exampleWriter1])).HeaderSize 0) 0 0 true =
      if O.deserialize [] true then Except.ok () else Except.error ReadError.octreeDeserialize :=
    rfl
  rw [hr]
  split_ifs <;> rfl

/-- The descriptors decoded from the example header: one variable `x` of two-byte signed
integers that carries the x coordinate. -/
theorem getVariableInfoT_example :
    getVariableInfoT false true exampleHeader =
      [{ Name := [120], Size := 2, IsFloat := false, IsSigned := true, IsPhysCoordX := true,
         IsPhysCoordY := false, IsPhysCoordZ := false, MaybePhysGhost := false,
         ElementSize := 2 }] := by
  decide!

/-! ## C24: the name field of a variable header -/

/-- The name field of variable `j` in the header `write()` assembles is `VName`, the
registered name resized to `NameSize` bytes. -/
theorem written_name_field (P : CRC64) (Z : Blosc) (E NB SC : Bool)
    (Dims PhysOrigin PhysScale : List Nat) (octree : Option (List Byte))
    (w0 : Writer) (rest : List Writer)
    (hfit : exactHeaderSize w0.Vars.length (rest.length + 1) (octree.getD []).length NB < 2 ^ 64)
    (hlen : NB = true → ∀ w ∈ rest, w.Vars.length = w0.Vars.length)
    (j : Nat) (V : Variable) (hj : w0.Vars[j]? = some V) :
    slice (headerBody E (leaderOf P Z E NB SC Dims PhysOrigin PhysScale octree (w0 :: rest)))
      (sizeofGlobalHeader + (octree.getD []).length + j * sizeofVariableHeader) NameSize =
      VName V.Name := by
  obtain ⟨_, hso, hVHs, hrec⟩ := leaderOf_records_any P Z E NB SC Dims PhysOrigin PhysScale
    octree w0 rest hfit hlen
  have hVH : (leaderOf P Z E NB SC Dims PhysOrigin PhysScale octree (w0 :: rest)).VHs[j]? =
      some (variableHeader V) := by
    rw [hVHs, List.getElem?_map, hj]
    rfl
  have n := name_vh E _ j (variableHeader V) hrec hVH
  rw [hso] at n
  rw [n]
  have hnm : (variableHeader V).Name = VName V.Name := rfl
  have hl := VName_length V.Name
  rw [hnm, List.take_append_of_le_length (by omega), List.take_of_length_le (by omega)]

theorem VName_short (Name : List Byte) (h : Name.length < NameSize) :
    VName Name = Name ++ List.replicate (NameSize - Name.length) 0 ∧
    (VName Name).getD (NameSize - 1) 0 = 0 := by
  have e : VName Name = Name ++ List.replicate (NameSize - Name.length) 0 := by
    simp only [VName]
    rw [List.take_append_eq_append_take, List.take_of_length_le (Nat.le_of_lt h),
      List.take_replicate, Nat.min_eq_left (Nat.sub_le _ _)]
  refine ⟨e, ?_⟩
  rw [e, List.getD_eq_getElem?_getD, List.getElem?_append_right (by omega)]
  rw [List.getElem?_replicate]
  split_ifs <;> rfl

theorem VName_long (Name : List Byte) (h : NameSize ≤ Name.length) :
    VName Name = Name.take NameSize ∧
    (VName Name).getD (NameSize - 1) 0 = Name.getD (NameSize - 1) 0 := by
  have e : VName Name = Name.take NameSize := by
    simp only [VName]
    rw [List.take_append_of_le_length h]
  refine ⟨e, ?_⟩
  rw [e, List.getD_eq_getElem?_getD, List.getD_eq_getElem?_getD, List.getElem?_take]
  rw [if_pos (by simp only [NameSize]; omega)]

/-- C24 (name fields are NUL-terminated), counterexample to the claim as worded: a
caller registers a variable whose name has 256 letters `a`.  The name field that
`write()` stores in the variable header is those 256 letters: its last byte, at index
255, is the letter `a` (97) and not NUL. -/
theorem C24_counterexample :
    slice (headerBody false
        (write lastBytesCRC noBlosc false false false [1, 1, 1] [0, 0, 0] [1, 1, 1] none
          (longNameWriter :: []) (fun _ => 0)).leader)
      (sizeofGlobalHeader + 0 * sizeofVariableHeader) NameSize = List.replicate 256 97 ∧
    (slice (headerBody false
        (write lastBytesCRC noBlosc false false false [1, 1, 1] [0, 0, 0] [1, 1, 1] none
          (longNameWriter :: []) (fun _ => 0)).leader)
      (sizeofGlobalHeader + 0 * sizeofVariableHeader) NameSize).getD 255 0 = 97 ∧
    (slice (headerBody false
        (write lastBytesCRC noBlosc false false false [1, 1, 1] [0, 0, 0] [1, 1, 1] none
          (longNameWriter :: []) (fun _ => 0)).leader)
      (sizeofGlobalHeader + 0 * sizeofVariableHeader) NameSize).getD 255 0 ≠ 0 := by
  have h := written_name_field lastBytesCRC noBlosc false false false [1, 1, 1] [0, 0, 0]
    [1, 1, 1] none longNameWriter [] (by decide) (by intro h; cases h) 0
    { exampleVar [0, 0, 0, 0, 0, 0, 0, 0] with Name := List.replicate 256 97 } rfl
  have hL : (write lastBytesCRC noBlosc false false false [1, 1, 1] [0, 0, 0] [1, 1, 1] none
      (longNameWriter :: []) (fun _ => 0)).leader =
      leaderOf lastBytesCRC noBlosc false false false [1, 1, 1] [0, 0, 0] [1, 1, 1] none
        (longNameWriter :: []) := rfl
  have e0 : sizeofGlobalHeader + ((none : Option (List Byte)).getD []).length +
      0 * sizeofVariableHeader = sizeofGlobalHeader + 0 * sizeofVariableHeader := rfl
  rw [e0] at h
  rw [hL, h]
  have hv : VName (List.replicate 256 97) = List.replicate 256 97 := by
    rw [(VName_long _ (by rw [List.length_replicate]; exact Nat.le_refl _)).1,
      List.take_replicate]
    rfl
  have hb : (List.replicate 256 (97 : Byte)).getD 255 0 = 97 := by
    rw [List.getD_eq_getElem?_getD, List.getElem?_replicate]
    rfl
  rw [hv, hb]
  exact ⟨rfl, rfl, by decide⟩

/-- C24 (name fields are NUL-terminated), amended: in the header `write()` assembles (in
either layout, with or without an octree) the name field of variable `j` has 256 bytes.
For a registered name shorter than 256 bytes it is the name padded with NUL bytes, and its
last byte (index 255) is NUL.  A registered name of 256 bytes or more is cut to its first
256 bytes, and the last byte of the field is byte 255 of the name. -/
theorem C24_name_field (P : CRC64) (Z : Blosc) (E NB SC : Bool)
    (Dims PhysOrigin PhysScale : List Nat) (octree : Option (List Byte))
    (w0 : Writer) (rest : List Writer) (file0 : FileData)
    (hfit : exactHeaderSize w0.Vars.length (rest.length + 1) (octree.getD []).length NB < 2 ^ 64)
    (hlen : NB = true → ∀ w ∈ rest, w.Vars.length = w0.Vars.length)
    (j : Nat) (V : Variable) (hj : w0.Vars[j]? = some V) :
    (slice (headerBody E
        (write P Z E NB SC Dims PhysOrigin PhysScale octree (w0 :: rest) file0).leader)
      (sizeofGlobalHeader + (octree.getD []).length + j * sizeofVariableHeader)
      NameSize).length = 256 ∧
    (V.Name.length < 256 →
      slice (headerBody E
          (write P Z E NB SC Dims PhysOrigin PhysScale octree (w0 :: rest) file0).leader)
        (sizeofGlobalHeader + (octree.getD []).length + j * sizeofVariableHeader) NameSize =
        V.Name ++ List.replicate (256 - V.Name.length) 0 ∧
      (slice (headerBody E
          (write P Z E NB SC Dims PhysOrigin PhysScale octree (w0 :: rest) file0).leader)
        (sizeofGlobalHeader + (octree.getD []).length + j * sizeofVariableHeader)
        NameSize).getD 255 0 = 0) ∧
    (256 ≤ V.Name.length →
      slice (headerBody E
          (write P Z E NB SC Dims PhysOrigin PhysScale octree (w0 :: rest) file0).leader)
        (sizeofGlobalHeader + (octree.getD []).length + j * sizeofVariableHeader) NameSize =
        V.Name.take 256 ∧
      (slice (headerBody E
          (write P Z E NB SC Dims PhysOrigin PhysScale octree (w0 :: rest) file0).leader)
        (sizeofGlobalHeader + (octree.getD []).length + j * sizeofVariableHeader)
        NameSize).getD 255 0 = V.Name.getD 255 0) := by
  have hL : (write P Z E NB SC Dims PhysOrigin PhysScale octree (w0 :: rest) file0).leader =
      leaderOf P Z E NB SC Dims PhysOrigin PhysScale octree (w0 :: rest) := rfl
  rw [hL, written_name_field P Z E NB SC Dims PhysOrigin PhysScale octree w0 rest hfit hlen j V
    hj]
  exact ⟨VName_length V.Name, fun h => VName_short V.Name h, fun h => VName_long V.Name h⟩

theorem C24_name_field_witness :
    (slice (headerBody true
        (write lastBytesCRC noBlosc true true false [2, 1, 1] [0, 0, 0] [1, 1, 1]
          (some [7, 7, 7]) (exampleWriter0 :: [exampleWriter1]) (fun _ => 0)).leader)
      (sizeofGlobalHeader + ((some [7, 7, 7] : Option (List Byte)).getD []).length +
        0 * sizeofVariableHeader) NameSize).getD 255 0 = 0 :=
  ((C24_name_field lastBytesCRC noBlosc true true false [2, 1, 1] [0, 0, 0] [1, 1, 1]
    (some [7, 7, 7]) exampleWriter0 [exampleWriter1] (fun _ => 0) (by decide)
    (by intro _ w hw; rw [List.mem_singleton.1 hw]; rfl) 0
    (exampleVar [1, 2, 3, 4, 0, 0, 0, 0, 0, 0, 0, 0]) rfl).2.1 (by decide)).2

/-! ## C25: the retry loop of `readData` -/

/-- The retry loop for a retry count that is not negative: `Retry` ends between its
start and the count, every attempt before the last one raised, and either an attempt did
not raise (the loop stopped there, before the count) or `Retry` reached the count. -/
theorem retryLoop_spec (fails : Nat → Bool) : ∀ (n Retry : Nat),
    Retry ≤ (retryLoop fails n Retry).1 ∧ (retryLoop fails n Retry).1 ≤ Retry + n ∧
    (∀ k : Nat, Retry ≤ k → k < (retryLoop fails n Retry).1 → fails k = true) ∧
    ((retryLoop fails n Retry).2 = true →
      (retryLoop fails n Retry).1 < Retry + n ∧ fails (retryLoop fails n Retry).1 = false) ∧
    ((retryLoop fails n Retry).2 = false → (retryLoop fails n Retry).1 = Retry + n) := by
  intro n
  induction n with
  | zero =>
    intro Retry
    simp only [retryLoop]
    refine ⟨Nat.le_refl _, Nat.le_refl _, ?_, ?_, ?_⟩
    · intro k h1 h2; omega
    · intro h; cases h
    · intro _; rfl
  | succ n ih =>
    intro Retry
    simp only [retryLoop]
    by_cases hf : fails Retry = true
    · rw [if_pos hf]
      obtain ⟨h1, h2, h3, h4, h5⟩ := ih (Retry + 1)
      refine ⟨by omega, by omega, ?_, ?_, ?_⟩
      · intro k hk1 hk2
        rcases Nat.eq_or_lt_of_le hk1 with h | h
        · rw [← h]; exact hf
        · exact h3 k h hk2
      · intro h
        obtain ⟨a, b⟩ := h4 h
        exact ⟨by omega, b⟩
      · intro h
        have := h5 h
        omega
    · rw [if_neg hf]
      refine ⟨Nat.le_refl _, by omega, ?_, ?_, ?_⟩
      · intro k h1 h2; omega
      · intro _
        exact ⟨by omega, by simpa using hf⟩
      · intro h; cases h

/-- C25 (bounded retry never skips the read), the divergence evaluated: the example file
holds the rows `[1, 2]` and `[3, 4]` of column `x` of rank 0 at offset 568.  With
`GENERICIO_RETRY_COUNT=-1` the retry loop makes no read attempt (`Retry` stays 0 and no
attempt succeeded), yet `Retry == RetryCount` is false, so `readData` goes on to the CRC
verification of the caller's buffer as it is: for a buffer of twelve bytes 9 it counts a
CRC error and no I/O error, and for a buffer that happens to end in a valid footer it
reports success and leaves the stale rows `[7, 7]`, `[7, 7]` in place.  With a count of 0
no attempt is made either, and the I/O-error counter is incremented; with a count of 1
the rows of the file are read. -/
theorem C25_negative_retry_skips_read :
    fileRead exampleWrite.file 4 568 = [1, 2, 3, 4] ∧
    negativeRetryEnv.RetryCount = -1 ∧
    retryLoop (negativeRetryEnv.fails 0) negativeRetryEnv.RetryCount.toNat 0 = (0, false) ∧
    readDataT negativeRetryEnv false exampleHeader []
        [exampleVar [9, 9, 9, 9, 9, 9, 9, 9, 9, 9, 9, 9]] (-1) 0 0 0 (0, 0, 0) =
      Except.ok { Data := [[9, 9, 9, 9, 255, 255, 255, 255, 255, 255, 255, 255]],
                  TotalReadSize := 12, NErrs := (0, 1, 0) } ∧
    readDataT negativeRetryEnv false exampleHeader []
        [exampleVar [7, 7, 7, 7, 255, 255, 255, 255, 255, 255, 255, 255]] (-1) 0 0 0
        (0, 0, 0) =
      Except.ok { Data := [[7, 7, 7, 7, 255, 255, 255, 255, 255, 255, 255, 255]],
                  TotalReadSize := 12, NErrs := (0, 0, 0) } ∧
    readDataT { negativeRetryEnv with RetryCount := 0 } false exampleHeader []
        [exampleVar [9, 9, 9, 9, 9, 9, 9, 9, 9, 9, 9, 9]] (-1) 0 0 0 (0, 0, 0) =
      Except.ok { Data := [[9, 9, 9, 9, 9, 9, 9, 9, 9, 9, 9, 9]],
                  TotalReadSize := 0, NErrs := (1, 0, 0) } ∧
    readDataT { negativeRetryEnv with RetryCount := 1 } false exampleHeader []
        [exampleVar [9, 9, 9, 9, 9, 9, 9, 9, 9, 9, 9, 9]] (-1) 0 0 0 (0, 0, 0) =
      Except.ok { Data := [[1, 2, 3, 4, 9, 9, 9, 9, 9, 9, 9, 9]],
                  TotalReadSize := 12, NErrs := (0, 0, 0) } := by
  decide!

/-! ## C26: when `write()` stores an octree -/

theorem written_octree_fields (P : CRC64) (Z : Blosc) (E NB SC hostR : Bool)
    (Dims PhysOrigin PhysScale : List Nat) (octree : Option (List Byte))
    (w0 : Writer) (rest : List Writer)
    (hfit : exactHeaderSize w0.Vars.length (rest.length + 1) (octree.getD []).length NB < 2 ^ 64)
    (hlen : NB = true → ∀ w ∈ rest, w.Vars.length = w0.Vars.length) :
    field E hostR (headerBody E (leaderOf P Z E NB SC Dims PhysOrigin PhysScale octree
      (w0 :: rest))) offOctreeSize = (octree.getD []).length ∧
    field E hostR (headerBody E (leaderOf P Z E NB SC Dims PhysOrigin PhysScale octree
      (w0 :: rest))) offOctreeStart = (if octree.isSome then sizeofGlobalHeader else 0) ∧
    (leaderOf P Z E NB SC Dims PhysOrigin PhysScale octree (w0 :: rest)).serializedOctree =
      octree.getD [] := by
  obtain ⟨_, hso, _, hrec⟩ := leaderOf_records_any P Z E NB SC Dims PhysOrigin PhysScale
    octree w0 rest hfit hlen
  have g21 := field_gh E hostR _ 21 (octree.getD []).length hrec (by cases NB <;> rfl)
  have g22 := field_gh E hostR _ 22 (if octree.isSome then sizeofGlobalHeader else 0) hrec
    (by cases NB <;> rfl)
  have h1 : u64 (octree.getD []).length = (octree.getD []).length := by
    apply u64_of_lt
    simp only [exactHeaderSize] at hfit
    omega
  have h2 : u64 (if octree.isSome then sizeofGlobalHeader else 0) =
      (if octree.isSome then sizeofGlobalHeader else 0) := by
    cases octree <;> rfl
  rw [h1] at g21
  rw [h2] at g22
  exact ⟨g21, g22, hso⟩

theorem octreeCheck_iff (hasOctree : Bool) (Vars : List Variable) (numOctreeLevels : Int) :
    octreeCheck hasOctree Vars numOctreeLevels = true ↔
      hasOctree = true ∧ (∃ V ∈ Vars, V.IsPhysCoordX = true) ∧
      (∃ V ∈ Vars, V.IsPhysCoordY = true) ∧ (∃ V ∈ Vars, V.IsPhysCoordZ = true) ∧
      2 ≤ numOctreeLevels := by
  simp only [octreeCheck]
  cases hasOctree with
  | false => simp
  | true =>
    by_cases hl : numOctreeLevels < 2
    · simp only [if_true, if_pos hl]
      constructor
      · intro h; cases h
      · intro h; omega
    · simp only [if_true, if_neg hl, Bool.true_and, Bool.and_eq_true, List.any_eq_true,
        true_and]
      constructor
      · rintro ⟨⟨hx, hy⟩, hz⟩
        exact ⟨hx, hy, hz, by omega⟩
      · rintro ⟨hx, hy, hz, _⟩
        exact ⟨⟨hx, hy⟩, hz⟩

/-- C26 (octree precondition): `write()` is called with the members `hasOctree` and
`numOctreeLevels` as configured and the registered variables `w0.Vars`; `serialized` is
what `octreeData.serialize` returns.  The check of lines 509-548 leaves `hasOctree` true
exactly if it was set, a variable carries the phys-coord-x flag, one the y flag, one the z
flag, and the level count is at least 2.  If it does, the header is written with
`OctreeSize = serialized.size()`, `OctreeStart = sizeof(GlobalHeader)` and the serialized
octree; if it does not, the header is written with `OctreeSize = 0`, `OctreeStart = 0` and
no octree bytes.  Hence a header with a non-zero `OctreeSize` or `OctreeStart` implies the
precondition. -/
theorem C26_octree_precondition (P : CRC64) (Z : Blosc) (E NB SC hostR : Bool)
    (Dims PhysOrigin PhysScale : List Nat) (hasOctree : Bool) (numOctreeLevels : Int)
    (serialized : List Byte) (w0 : Writer) (rest : List Writer) (file0 : FileData)
    (hfit : exactHeaderSize w0.Vars.length (rest.length + 1) serialized.length NB < 2 ^ 64)
    (hlen : NB = true → ∀ w ∈ rest, w.Vars.length = w0.Vars.length) :
    (octreeCheck hasOctree w0.Vars numOctreeLevels = true ↔
      hasOctree = true ∧ (∃ V ∈ w0.Vars, V.IsPhysCoordX = true) ∧
      (∃ V ∈ w0.Vars, V.IsPhysCoordY = true) ∧ (∃ V ∈ w0.Vars, V.IsPhysCoordZ = true) ∧
      2 ≤ numOctreeLevels) ∧
    (octreeCheck hasOctree w0.Vars numOctreeLevels = true →
      field E hostR (headerBody E (write P Z E NB SC Dims PhysOrigin PhysScale
        (octreeOf hasOctree w0.Vars numOctreeLevels serialized) (w0 :: rest) file0).leader)
        offOctreeSize = serialized.length ∧
      field E hostR (headerBody E (write P Z E NB SC Dims PhysOrigin PhysScale
        (octreeOf hasOctree w0.Vars numOctreeLevels serialized) (w0 :: rest) file0).leader)
        offOctreeStart = sizeofGlobalHeader ∧
      (write P Z E NB SC Dims PhysOrigin PhysScale
        (octreeOf hasOctree w0.Vars numOctreeLevels serialized) (w0 :: rest)
        file0).leader.serializedOctree = serialized) ∧
    (octreeCheck hasOctree w0.Vars numOctreeLevels = false →
      field E hostR (headerBody E (write P Z E NB SC Dims PhysOrigin PhysScale
        (octreeOf hasOctree w0.Vars numOctreeLevels serialized) (w0 :: rest) file0).leader)
        offOctreeSize = 0 ∧
      field E hostR (headerBody E (write P Z E NB SC Dims PhysOrigin PhysScale
        (octreeOf hasOctree w0.Vars numOctreeLevels serialized) (w0 :: rest) file0).leader)
        offOctreeStart = 0 ∧
      (write P Z E NB SC Dims PhysOrigin PhysScale
        (octreeOf hasOctree w0.Vars numOctreeLevels serialized) (w0 :: rest)
        file0).leader.serializedOctree = []) ∧
    ((field E hostR (headerBody E (write P Z E NB SC Dims PhysOrigin PhysScale
        (octreeOf hasOctree w0.Vars numOctreeLevels serialized) (w0 :: rest) file0).leader)
        offOctreeSize ≠ 0 ∨
      field E hostR (headerBody E (write P Z E NB SC Dims PhysOrigin PhysScale
        (octreeOf hasOctree w0.Vars numOctreeLevels serialized) (w0 :: rest) file0).leader)
        offOctreeStart ≠ 0) →
      hasOctree = true ∧ (∃ V ∈ w0.Vars, V.IsPhysCoordX = true) ∧
      (∃ V ∈ w0.Vars, V.IsPhysCoordY = true) ∧ (∃ V ∈ w0.Vars, V.IsPhysCoordZ = true) ∧
      2 ≤ numOctreeLevels) := by
  have hL : ∀ o : Option (List Byte),
      (write P Z E NB SC Dims PhysOrigin PhysScale o (w0 :: rest) file0).leader =
      leaderOf P Z E NB SC Dims PhysOrigin PhysScale o (w0 :: rest) := fun _ => rfl
  have hiff := octreeCheck_iff hasOctree w0.Vars numOctreeLevels
  have htrue : octreeCheck hasOctree w0.Vars numOctreeLevels = true →
      field E hostR (headerBody E (write P Z E NB SC Dims PhysOrigin PhysScale
        (octreeOf hasOctree w0.Vars numOctreeLevels serialized) (w0 :: rest) file0).leader)
        offOctreeSize = serialized.length ∧
      field E hostR (headerBody E (write P Z E NB SC Dims PhysOrigin PhysScale
        (octreeOf hasOctree w0.Vars numOctreeLevels serialized) (w0 :: rest) file0).leader)
        offOctreeStart = sizeofGlobalHeader ∧
      (write P Z E NB SC Dims PhysOrigin PhysScale
        (octreeOf hasOctree w0.Vars numOctreeLevels serialized) (w0 :: rest)
        file0).leader.serializedOctree = serialized := by
    intro h
    have ho : octreeOf hasOctree w0.Vars numOctreeLevels serialized = some serialized := by
      simp only [octreeOf, h, if_true]
    rw [ho, hL]
    exact written_octree_fields P Z E NB SC hostR Dims PhysOrigin PhysScale (some serialized)
      w0 rest hfit hlen
  have hfalse : octreeCheck hasOctree w0.Vars numOctreeLevels = false →
      field E hostR (headerBody E (write P Z E NB SC Dims PhysOrigin PhysScale
        (octreeOf hasOctree w0.Vars numOctreeLevels serialized) (w0 :: rest) file0).leader)
        offOctreeSize = 0 ∧
      field E hostR (headerBody E (write P Z E NB SC Dims PhysOrigin PhysScale
        (octreeOf hasOctree w0.Vars numOctreeLevels serialized) (w0 :: rest) file0).leader)
        offOctreeStart = 0 ∧
      (write P Z E NB SC Dims PhysOrigin PhysScale
        (octreeOf hasOctree w0.Vars numOctreeLevels serialized) (w0 :: rest)
        file0).leader.serializedOctree = [] := by
    intro h
    have ho : octreeOf hasOctree w0.Vars numOctreeLevels serialized = none := by
      simp only [octreeOf, h, Bool.false_eq_true, if_false]
    rw [ho, hL]
    have hfit0 : exactHeaderSize w0.Vars.length (rest.length + 1)
        ((none : Option (List Byte)).getD []).length NB < 2 ^ 64 := by
      refine lt_of_le_of_lt ?_ hfit
      simp only [exactHeaderSize, Option.getD_none, List.length_nil]
      cases NB with
      | false => simp only [Bool.false_eq_true, if_false]; omega
      | true => simp only [if_true]; omega
    exact written_octree_fields P Z E NB SC hostR Dims PhysOrigin PhysScale none
      w0 rest hfit0 hlen
  refine ⟨hiff, htrue, hfalse, ?_⟩
  intro hne
  apply hiff.1
  cases hc : octreeCheck hasOctree w0.Vars numOctreeLevels with
  | true => rfl
  | false =>
    obtain ⟨a, b, _⟩ := hfalse hc
    rcases hne with h | h
    · exact absurd a h
    · exact absurd b h

theorem C26_octree_precondition_witness :
    field true false (headerBody true (write lastBytesCRC noBlosc true true false [2, 2, 2]
        [0, 0, 0] [256, 256, 256] (octreeOf true (genWriter 0).Vars 2 [7, 7, 7])
        (genWriter 0 :: [genWriter 1]) (fun _ => 0)).leader) offOctreeSize =
      ([7, 7, 7] : List Byte).length ∧
    field true false (headerBody true (write lastBytesCRC noBlosc true true false [2, 2, 2]
        [0, 0, 0] [256, 256, 256] (octreeOf true (genWriter 0).Vars 2 [7, 7, 7])
        (genWriter 0 :: [genWriter 1]) (fun _ => 0)).leader) offOctreeStart =
      sizeofGlobalHeader ∧
    (write lastBytesCRC noBlosc true true false [2, 2, 2]
        [0, 0, 0] [256, 256, 256] (octreeOf true (genWriter 0).Vars 2 [7, 7, 7])
        (genWriter 0 :: [genWriter 1]) (fun _ => 0)).leader.serializedOctree = [7, 7, 7] :=
  (C26_octree_precondition lastBytesCRC noBlosc true true false false [2, 2, 2] [0, 0, 0]
    [256, 256, 256] true 2 [7, 7, 7] (genWriter 0) [genWriter 1] (fun _ => 0) (by decide)
    (by intro _ w hw; rw [List.mem_singleton.1 hw]; rfl)).2.1 (by decide)

/-- The octree decision on small inputs: the generator's variables with two levels pass
the check; one level, no `z` coordinate, or an unset `hasOctree` do not. -/
theorem octreeCheck_example :
    octreeCheck true (genVars 0) 2 = true ∧
    octreeCheck true (genVars 0) 1 = false ∧
    octreeCheck true ((genVars 0).take 2) 2 = false ∧
    octreeCheck false (genVars 0) 2 = false ∧
    octreeOf true (genVars 0) 1 [7, 7, 7] = none := by
  decide

/-! ## C27: the byte swap of `readDataSection` -/

/-- C27 (section read across endianness), the divergence evaluated on a big-endian host
that reads little-endian files.  In the example file rank 0 holds `RH->NElems = 2` rows
of column `x` (one two-byte element per row).  `readDataSection` of `readNumRows = 1` row
stores the two bytes `[1, 2]` of row 0 and then swaps two records, the row read and the
two bytes `[7, 8]` behind it, which were not read.  In the file of `pairWriter` the rows
of `x` hold two one-byte elements: `readData` leaves the rows `[1, 2]`, `[3, 4]` as they
are stored (swapping one-byte elements changes nothing), `readDataSection` reverses each
row as a whole. -/
theorem C27_section_swaps_records :
    fileRead exampleWrite.file 4 568 = [1, 2, 3, 4] ∧
    readDataSectionT (exampleEnv true (fun _ _ => false)) false exampleHeader []
        [exampleVar [0, 0, 7, 8, 9, 9, 9, 9, 9, 9, 9, 9]] 0 1 (-1) 0 0 0 (0, 0, 0) =
      Except.ok { Data := [[2, 1, 8, 7, 9, 9, 9, 9, 9, 9, 9, 9]], TotalReadSize := 2,
                  NErrs := (0, 0, 0) } ∧
    fileRead pairWrite.file 4 520 = [1, 2, 3, 4] ∧
    readDataT pairEnv false (headerBody false pairWrite.leader) []
        [bytePairVar [9, 9, 9, 9, 9, 9, 9, 9, 9, 9, 9, 9]] (-1) 0 0 0 (0, 0, 0) =
      Except.ok { Data := [[1, 2, 3, 4, 9, 9, 9, 9, 9, 9, 9, 9]], TotalReadSize := 12,
                  NErrs := (0, 0, 0) } ∧
    readDataSectionT pairEnv false (headerBody false pairWrite.leader) []
        [bytePairVar [9, 9, 9, 9, 9, 9, 9, 9, 9, 9, 9, 9]] 0 2 (-1) 0 0 0 (0, 0, 0) =
      Except.ok { Data := [[2, 1, 4, 3, 9, 9, 9, 9, 9, 9, 9, 9]], TotalReadSize := 4,
                  NErrs := (0, 0, 0) } := by
  decide!

/-! ## C28: octree detection on a header with a shorter global header record -/

theorem fileRead_list (l : List Byte) (n : Nat) (h : n ≤ l.length) :
    fileRead (fun p => l.getD p 0) n 0 = l.take n := by
  apply fileRead_eq
  · exact List.length_take_of_le h
  · intro k hk
    rw [Nat.zero_add, getD_take_of_lt _ _ _ hk]

theorem oldFile_read :
    fileRead oldFile 488 0 = oldHeaderBody ++ List.replicate 8 255 ∧
    fileRead oldFile sizeofGlobalHeader 0 =
      (oldHeaderBody ++ List.replicate 8 255).take sizeofGlobalHeader := by
  have hl : (oldHeaderBody ++ List.replicate 8 255).length = 488 := by decide!
  have e : oldFile = fun p => (oldHeaderBody ++ List.replicate 8 255).getD p 0 := rfl
  have h1 : fileRead oldFile 488 0 = oldHeaderBody ++ List.replicate 8 255 := by
    rw [e, fileRead_list _ _ (by rw [hl]), List.take_of_length_le (by rw [hl])]
  refine ⟨h1, ?_⟩
  rw [fileRead_take oldFile 488 sizeofGlobalHeader 0 (by decide), h1]

theorem oldFile_header_leader :
    readHeaderLeader lastBytesCRC false false
        ((oldHeaderBody ++ List.replicate 8 255).take sizeofGlobalHeader)
        MismatchBehavior.MismatchAllowed 1 0 1 none false [] oldFile =
      Except.ok { HeaderSize := 480, Header := oldHeaderBody ++ List.replicate 8 255,
                  SourceRanks := [] } := by
  have hHS : field false false ((oldHeaderBody ++ List.replicate 8 255).take sizeofGlobalHeader)
      offHeaderSize = 480 := by decide!
  have h488 : u64 (480 + CRCSize) = 488 := rfl
  have hcrc : lastBytesCRC.crc64_omp (oldHeaderBody ++ List.replicate 8 255) = 2 ^ 64 - 1 := by
    decide!
  unfold readHeaderLeader
  dsimp only
  rw [hHS, h488, oldFile_read.1, hcrc]
  rfl

/-- C28 (octree detection respects the declared global-header size), the divergence
evaluated: `oldFile` is a valid file of an older writer whose global header record has
152 bytes (`GlobalHeaderSize = 152`, `VarsStart = 152`), so that the offsets 168..183
lie in the name field of its variable; the name has 24 letters `a`.  The header passes
the header checks, `getVariableInfo` decodes the variable, and since `VarsStart` is not
168 the octree detection reads the name bytes 16..23 as `OctreeSize`
(`0x6161616161616161`, not zero) and the bytes 24..31 as `OctreeStart`: it calls
`readOctreeHeader(0, 1633771873, false)`, which reads 1633771873 bytes at offset 0 and
hands them to `octreeData.deserialize`; the outcome of `openAndReadHeader` is that of
this call. -/
theorem C28_octree_detection_old_header :
    field false false oldHeaderBody offGlobalHeaderSize = 152 ∧
    field false false oldHeaderBody offVarsStart = 152 ∧
    field false false oldHeaderBody offGlobalHeaderSize < offOctreeSize + 8 ∧
    slice oldHeaderBody offOctreeSize 8 = List.replicate 8 97 ∧
    (getVariableInfoT false false oldHeaderBody).map (fun v => (v.Name, v.Size)) =
      [(List.replicate 24 97, 4)] ∧
    (∀ O : Octree,
      openAndReadHeader lastBytesCRC O false MismatchBehavior.MismatchAllowed 1 0 1 none false []
          oldFile =
        (readOctreeHeader O oldFile 0 1633771873 false).map (fun _ =>
          { IsBigEndian := false, HeaderCache := oldHeaderBody, SourceRanks := [],
            octreeHeader := some (0, 1633771873, false) })) ∧
    (∀ O : Octree,
      readOctreeHeader O oldFile 0 1633771873 false =
        if O.deserialize (fileRead oldFile 1633771873 0) false then Except.ok ()
        else Except.error ReadError.octreeDeserialize) := by
  refine ⟨by decide!, by decide!, by decide!, by decide!, by decide!, ?_, ?_⟩
  · intro O
    have hm : ((oldHeaderBody ++ List.replicate 8 255).take sizeofGlobalHeader).take
        (MagicSize - 1) = MagicLE := by decide!
    have hl : openAndReadHeaderLeader lastBytesCRC false MismatchBehavior.MismatchAllowed 1 0 1
        none false [] oldFile =
        Except.ok (false, { HeaderSize := 480, Header := oldHeaderBody ++ List.replicate 8 255,
                            SourceRanks := [] }) := by
      unfold openAndReadHeaderLeader
      dsimp only
      rw [oldFile_read.2, if_pos hm, oldFile_header_leader]
      rfl
    have hcache : ((oldHeaderBody ++ List.replicate 8 255) ++
        List.replicate (480 - (oldHeaderBody ++ List.replicate 8 255).length) 253).take 480 =
        oldHeaderBody := by decide!
    have hdec : decide (oldHeaderBody.take (MagicSize - 1) = MagicBE) = false := by decide!
    have h1 : field false false oldHeaderBody offVarsStart ≠ 168 := by decide!
    have h2 : field false false oldHeaderBody offOctreeSize ≠ 0 := by decide!
    have h3 : toInt (field false false oldHeaderBody offOctreeSize) = 1633771873 := by decide!
    have h4 : toInt (field false false oldHeaderBody offOctreeStart) = 0 := by decide!
    unfold openAndReadHeader
    rw [hl]
    dsimp only
    rw [hcache, hdec, if_pos h1, if_pos h2, h3, h4]
  · intro O
    have e1 : ¬ ((1633771873 : Int) < 0) := by decide
    have e2 : ¬ ((0 : Int) < 1633771873 ∧ (0 : Int) < 0) := by decide
    have e3 : (1633771873 : Int).toNat = 1633771873 := rfl
    have e4 : (0 : Int).toNat = 0 := rfl
    unfold readOctreeHeader
    rw [if_neg e1, if_neg e2, e3, e4]

theorem pairHeader_open : ∀ (O : Octree) (hostBE : Bool),
    openAndReadHeader lastBytesCRC O hostBE MismatchBehavior.MismatchAllowed 1 0 1 none false []
        pairWrite.file =
      Except.ok { IsBigEndian := false, HeaderCache := headerBody false pairWrite.leader,
                  SourceRanks := [], octreeHeader := none } := by
  intro O hostBE
  have hz : ∀ h : Bool,
      field false h (headerBody false pairWrite.leader) offOctreeSize = 0 := by
    decide!
  exact openAndReadHeader_leader_plain lastBytesCRC lastBytesCRC_contract O false hostBE 1 0 1
    none false [] pairWrite.leader pairWrite.leader.HeaderSize (by decide!) (by decide!) rfl
    (by decide!) (by decide!) pairWrite.file
    (write_header_frame lastBytesCRC lastBytesCRC_contract noBlosc false false false [1, 1, 1]
      [0, 0, 0] [1, 1, 1] none [pairWriter] (fun _ => 0) (by decide!)
      (by decide!)) (hz hostBE)

/-! ## C29: the loop of `GenericFileIO_POSIX::read` -/

theorem slice_split (l : List Byte) (off a b : Nat) :
    slice l off a ++ slice l (off + a) b = slice l off (a + b) := by
  simp only [slice]
  rw [← List.drop_drop, List.take_add]

/-- Within the file the loop returns: when the range `[offset, offset + count)` lies
within the file and only the `pread` calls before call number `N` can fail with `EINTR`,
`count + (N - calls) + 1` iterations suffice, and the loop either raises or has stored
exactly the bytes of the range behind what it stored before. -/
theorem posixRead_in_range (file : List Byte) (outcome : Nat → PreadOutcome) (N : Nat)
    (hN : ∀ k : Nat, N ≤ k → outcome k ≠ PreadOutcome.eintr) :
    ∀ (m : Nat) (s : PosixRead), s.count + (N - s.calls) ≤ m →
      s.offset + s.count ≤ file.length →
      posixRead file outcome (m + 1) s = some (Except.error ()) ∨
      posixRead file outcome (m + 1) s =
        some (Except.ok (s.buf ++ slice file s.offset s.count)) := by
  intro m
  induction m with
  | zero =>
    intro s hm _
    right
    have hc : s.count = 0 := by omega
    simp only [posixRead, hc, if_true, slice, List.take_zero, List.append_nil]
  | succ m ih =>
    intro s hm hin
    by_cases hc : s.count = 0
    · right
      rw [posixRead]
      simp only [hc, if_true, slice, List.take_zero, List.append_nil]
    · rw [posixRead]
      simp only [if_neg hc]
      cases ho : outcome s.calls with
      | eintr =>
        simp only []
        have hlt : s.calls < N := by
          rcases Nat.lt_or_ge s.calls N with h | h
          · exact h
          · exact absurd ho (hN _ h)
        exact ih { s with calls := s.calls + 1 } (by simp only []; omega) hin
      | failure => left; rfl
      | transfer want =>
        simp only []
        have h1 : 1 ≤ preadCount file.length want s.count s.offset := by
          simp only [preadCount]
          omega
        have h2 : preadCount file.length want s.count s.offset ≤ s.count := by
          simp only [preadCount]
          omega
        rcases ih ⟨s.buf ++ slice file s.offset (preadCount file.length want s.count s.offset),
            s.count - preadCount file.length want s.count s.offset,
            s.offset + preadCount file.length want s.count s.offset,
            s.calls + 1⟩ (by simp only []; omega) (by simp only []; omega) with h | h
        · left; exact h
        · right
          rw [h]
          simp only []
          rw [List.append_assoc, slice_split]
          congr 4
          omega

/-- Past the end of the file the loop does not return: when `count > 0`, the range
`[offset, offset + count)` extends past the end of the file and no `pread` call fails with
an error other than `EINTR`, the loop is still running after any number of iterations. -/
theorem posixRead_past_eof (file : List Byte) (outcome : Nat → PreadOutcome)
    (hF : ∀ k : Nat, outcome k ≠ PreadOutcome.failure) :
    ∀ (fuel : Nat) (s : PosixRead), 0 < s.count → file.length < s.offset + s.count →
      posixRead file outcome fuel s = none := by
  intro fuel
  induction fuel with
  | zero => intro s _ _; rfl
  | succ fuel ih =>
    intro s hc hout
    rw [posixRead]
    simp only [if_neg (Nat.pos_iff_ne_zero.1 hc)]
    cases ho : outcome s.calls with
    | eintr => exact ih { s with calls := s.calls + 1 } hc hout
    | failure => exact absurd ho (hF _)
    | transfer want =>
      simp only []
      have h2 : preadCount file.length want s.count s.offset < s.count := by
        simp only [preadCount]
        omega
      exact ih _ (by simp only []; omega) (by simp only []; omega)

/-- C29 (positional read loop), the divergence evaluated: the file has the three bytes
`[1, 2, 3]` and the caller asks for `count = 4` bytes at `offset = 1`; no `pread` call
fails.  The first `pread` transfers the two bytes `[2, 3]`; every later `pread`, issued at
the end of the file, returns 0, which leaves `count = 2` as it is: the loop is still
running after any number of iterations, it neither returns nor raises.  A request that
ends at the end of the file (`count = 2`) returns after two iterations. -/
theorem C29_read_past_eof_loops :
    preadCount ([1, 2, 3] : List Byte).length 7 4 1 = 2 ∧
    preadCount ([1, 2, 3] : List Byte).length 7 2 3 = 0 ∧
    (∀ fuel : Nat, posixRead [1, 2, 3] (fun _ => PreadOutcome.transfer 7) fuel
      { buf := [], count := 4, offset := 1, calls := 0 } = none) ∧
    posixRead [1, 2, 3] (fun _ => PreadOutcome.transfer 7) 2
      { buf := [], count := 2, offset := 1, calls := 0 } = some (Except.ok [2, 3]) :=
  ⟨by decide, by decide,
   fun fuel => posixRead_past_eof [1, 2, 3] (fun _ => PreadOutcome.transfer 7)
     (fun _ h => by cases h) fuel _ (by decide) (by decide),
   by decide⟩

/-! ## C30: the extents of the writers along one axis -/

/-- The extents that `write()` computes along one axis, in exact arithmetic: the first
writer starts at 0, each writer ends where the next one starts, and the last one ends at
`PhysScale - PhysOrigin`.  They tile `[0, PhysScale - PhysOrigin]`, which is the
simulation extent `[PhysOrigin, PhysScale]` only when `PhysOrigin = 0`. -/
theorem extent_tiling (PhysOrigin PhysScale : ℚ) (Dims : Int) (hD : 0 < Dims) :
    extentLo PhysOrigin PhysScale Dims 0 = 0 ∧
    (∀ c : Int, extentHi PhysOrigin PhysScale Dims c =
      extentLo PhysOrigin PhysScale Dims (c + 1)) ∧
    extentHi PhysOrigin PhysScale Dims (Dims - 1) = PhysScale - PhysOrigin ∧
    (PhysOrigin = 0 →
      extentLo PhysOrigin PhysScale Dims 0 = (simExtent PhysOrigin PhysScale).1 ∧
      extentHi PhysOrigin PhysScale Dims (Dims - 1) = (simExtent PhysOrigin PhysScale).2) ∧
    (PhysOrigin ≠ 0 →
      extentLo PhysOrigin PhysScale Dims 0 ≠ (simExtent PhysOrigin PhysScale).1 ∧
      extentHi PhysOrigin PhysScale Dims (Dims - 1) ≠ (simExtent PhysOrigin PhysScale).2) := by
  have hD0 : (Dims : ℚ) ≠ 0 := by
    have : Dims ≠ 0 := by omega
    exact_mod_cast this
  have h0 : extentLo PhysOrigin PhysScale Dims 0 = 0 := by
    simp only [extentLo, Int.cast_zero, zero_mul]
  have h1 : ∀ c : Int, extentHi PhysOrigin PhysScale Dims c =
      extentLo PhysOrigin PhysScale Dims (c + 1) := by
    intro c
    simp only [extentHi, extentLo, Int.cast_add, Int.cast_one]
    ring
  have h2 : extentHi PhysOrigin PhysScale Dims (Dims - 1) = PhysScale - PhysOrigin := by
    simp only [extentHi, extentLo, physicalDims, Int.cast_sub, Int.cast_one]
    field_simp
    ring
  refine ⟨h0, h1, h2, ?_, ?_⟩
  · intro hO
    rw [h0, h2]
    simp only [simExtent, hO, sub_zero]
    exact ⟨trivial, trivial⟩
  · intro hO
    rw [h0, h2]
    simp only [simExtent]
    refine ⟨fun h => hO h.symm, fun h => hO ?_⟩
    linarith

/-- C30 (writer sub-boxes tile the simulation box), the divergence evaluated: with
`PhysOrigin = 10`, `PhysScale = 20` and `Dims = 2` along an axis the code computes the
length per writer 5 and the extents `[0, 5]` for coordinate 0 and `[5, 10]` for
coordinate 1, while the simulation extent handed to the octree is `[10, 20]`: the first
extent does not start at `PhysOrigin`, the last does not end at `PhysScale`, and the
writer boxes cover `[0, 10]` instead of `[10, 20]`.  For the generator's box (origin 0,
scale 256, two writers per axis) the extents are `[0, 128]` and `[128, 256]`. -/
theorem C30_extents_ignore_origin :
    physicalDims 10 20 2 = 5 ∧
    extentLo 10 20 2 0 = 0 ∧ extentHi 10 20 2 0 = 5 ∧
    extentLo 10 20 2 1 = 5 ∧ extentHi 10 20 2 1 = 10 ∧
    simExtent 10 20 = (10, 20) ∧
    extentLo 10 20 2 0 ≠ (simExtent 10 20).1 ∧
    extentHi 10 20 2 (2 - 1) ≠ (simExtent 10 20).2 ∧
    extentLo 0 256 2 0 = 0 ∧ extentHi 0 256 2 0 = 128 ∧
    extentLo 0 256 2 1 = 128 ∧ extentHi 0 256 2 1 = 256 := by
  simp only [extentLo, extentHi, physicalDims, simExtent]
  norm_num

end gio
